import Mathlib

/-!
largExt2 : the ext2 engine (`ext2fs` package).

A shallow embedding of the Go package `largExt2/ext2fs` and theorems about it.

Conventions of the embedding.

* A byte is a `Fin 256`.  The backing file and every Go byte slice are a
  `Bytes`: a length together with the byte stored at each index.
* Go's `uint32`/`uint16`/`uint8` values are natural numbers; wherever the Go
  code can wrap, the embedding reduces modulo `2^32`, `2^16` or `2^8`.
* Go's `(value, error)` results are `Except Error value` when callers never
  look at the value of a failed call; functions that return a count together
  with an error keep both.
* A run-time panic of the Go program (slice bounds out of range) is the
  outcome `Outcome.panic`.
* Positioned reads fail only by reaching the end of the file (`io.EOF`);
  positioned writes and seeks succeed.
* `BlockSize` and `InodesPerGroup` are divisors in the Go code; a device with
  `BlockSize = 0` makes the Go code panic, so theorems assume `BlockSize > 0`.
  `NewDevice` sets `BlockSize = 1024 << LogBlockSize` in `uint32`, which is at
  most `2^31` when it is not zero.
* Offsets and buffer lengths are natural numbers (the claims are about
  `off ≥ 0`); the one `int64` sum that can wrap, `off + len(b)`, wraps in
  `blockSpan`.
-/

namespace Ext2fs

/-! ## constants.go -/

def EXT2_GROUP_DESC_SIZE : Nat := 32
def EXT2_NDIR_BLOCKS : Nat := 12
def EXT2_IND_BLOCK : Nat := EXT2_NDIR_BLOCKS
def EXT2_DIND_BLOCK : Nat := EXT2_IND_BLOCK + 1
def EXT2_TIND_BLOCK : Nat := EXT2_DIND_BLOCK + 1
def EXT2_N_BLOCKS : Nat := EXT2_TIND_BLOCK + 1
def EXT2_NULL_BLOCK : Nat := 0
def EXT2_ROOT_INO : Nat := 2
def EXT2_NULL_INO : Nat := 0
def EXT2_NAME_LEN : Nat := 255
def I_BLOCK : Nat := 40
def S_IFDIR : Nat := 0o040000

/-! ## Bytes, the backing file -/

abbrev Byte := Fin 256

/-- A byte sequence: the backing file of a device, or a Go `[]byte`. -/
structure Bytes where
  size : Nat
  get : Nat → Byte

/-- The Go slice expression `b[k:]`. -/
def Bytes.drop (b : Bytes) (k : Nat) : Bytes :=
  ⟨b.size - k, fun i => b.get (k + i)⟩

/-- A zero-filled slice, `make([]byte, n)`. -/
def Bytes.zeros (n : Nat) : Bytes := ⟨n, fun _ => 0⟩

/-- The slice holding the bytes of a list. -/
def Bytes.ofList (l : List Byte) : Bytes := ⟨l.length, fun i => l.getD i 0⟩

/-- Copy `len` bytes of `src` into `dst[start : start+len]`. -/
def Bytes.blit (dst : Bytes) (start : Nat) (src : Nat → Byte) (len : Nat) : Bytes :=
  ⟨dst.size, fun i => if start ≤ i ∧ i < start + len then src (i - start) else dst.get i⟩

/-- Value of `binary.LittleEndian.Uint16(b[pos:pos+2])`. -/
def le16 (b : Bytes) (pos : Nat) : Nat :=
  (b.get pos).val + 256 * (b.get (pos + 1)).val

/-- Value of `binary.LittleEndian.Uint32(b[pos:pos+4])`. -/
def le32 (b : Bytes) (pos : Nat) : Nat :=
  (b.get pos).val + 256 * (b.get (pos + 1)).val + 65536 * (b.get (pos + 2)).val
    + 16777216 * (b.get (pos + 3)).val

/-- The errors the package can return. -/
inductive Error where
  | EOF
  | UnexpectedEOF
  | NegativeOffset
  | BlockOutOfBounds
  | NoBlockOffsets
  | InodeOutOfBounds
  | InodeIndexOutOfBounds
  | GroupOutOfBounds
  | NotDirectory
  | NotExt2
  | DiskLimit
  | OldRevision
  deriving DecidableEq, Repr

/-- Number of bytes `os.File.ReadAt` delivers for a request of `len` bytes at
`pos`: the whole request when it lies inside the file, else what is left. -/
def readAtCount (img : Bytes) (pos len : Nat) : Nat :=
  if pos + len ≤ img.size then len else img.size - pos

/-- Error of `os.File.ReadAt`: `io.EOF` when the request is not empty and
reaches past the end of the file. -/
def readAtErr (img : Bytes) (pos len : Nat) : Option Error :=
  if len = 0 ∨ pos + len ≤ img.size then none else some Error.EOF

/-- The file after `os.File.WriteAt(src[0:len], pos)`.  An empty write changes
nothing; a write past the end extends the file, the gap reading as zero. -/
def writeAt (img : Bytes) (pos : Nat) (src : Nat → Byte) (len : Nat) : Bytes :=
  if len = 0 then img else
  ⟨max img.size (pos + len), fun i =>
    if pos ≤ i ∧ i < pos + len then src (i - pos)
    else if img.size ≤ i ∧ i < pos then 0
    else img.get i⟩

/-! ## device.go -/

structure Device where
  BlockSize : Nat
  InodeSize : Nat
  BlockGroupsCount : Nat
  BlocksCount : Nat
  InodesCount : Nat
  BlocksPerGroup : Nat
  InodesPerGroup : Nat
  GroupDescTableBlock : Nat
  FirstIno : Nat

def Device.blockOffset (d : Device) (blockNo : Nat) : Nat :=
  blockNo * d.BlockSize

def Device.inodeOffset (d : Device) (inodeTable index : Nat) : Nat :=
  d.blockOffset inodeTable + index * d.InodeSize

def Device.groupDescriptorOffset (d : Device) (index : Nat) : Nat :=
  d.blockOffset d.GroupDescTableBlock + index * EXT2_GROUP_DESC_SIZE

/-! ## data.go : Offsets -/

/-- Subtraction of `uint32` values. -/
def sub32 (a b : Nat) : Nat := (a + 2 ^ 32 - b % 2 ^ 32) % 2 ^ 32

/-- Multiplication of `uint32` values. -/
def mul32 (a b : Nat) : Nat := (a * b) % 2 ^ 32

/-- Subtraction of `uint16` values. -/
def sub16 (a b : Nat) : Nat := (a + 2 ^ 16 - b % 2 ^ 16) % 2 ^ 16

/-- `Device.Offsets`: the indices `(dirIdx, indIdx, dindIdx, tindIdx)` of a
logical block, `-1` standing for "level not used". -/
def Device.Offsets (d : Device) (blockOffset : Nat) : Int × Int × Int × Int :=
  if blockOffset < EXT2_NDIR_BLOCKS then
    ((blockOffset : Int), -1, -1, -1)
  else
    let maxBlocks := d.BlockSize / 4
    let blocks := sub32 blockOffset EXT2_NDIR_BLOCKS
    if blocks < maxBlocks then
      (-1, (blocks : Int), -1, -1)
    else
      let blocks := sub32 blocks maxBlocks
      if blocks < mul32 maxBlocks maxBlocks then
        let dindIdx := blocks / maxBlocks
        let indIdx := sub32 blocks (mul32 (dindIdx % 2 ^ 32) maxBlocks)
        (-1, (indIdx : Int), (dindIdx : Int), -1)
      else
        let blocks := sub32 blocks (mul32 maxBlocks maxBlocks)
        if blocks < mul32 (mul32 maxBlocks maxBlocks) maxBlocks then
          let tindIdx := blocks / mul32 maxBlocks maxBlocks
          let dindIdx := sub32 (blocks / maxBlocks) (mul32 (tindIdx % 2 ^ 32) maxBlocks)
          let indIdx := sub32 (sub32 blocks (mul32 (dindIdx % 2 ^ 32) maxBlocks))
            (mul32 (mul32 (tindIdx % 2 ^ 32) maxBlocks) maxBlocks)
          (-1, (indIdx : Int), (dindIdx : Int), (tindIdx : Int))
        else
          (-1, -1, -1, -1)

/-- Number of logical blocks a file can address with `n` slots per indirect
block. -/
def addressable (n : Nat) : Nat := 12 + n + n ^ 2 + n ^ 3

/-! ## groupdescriptor.go, inode.go : on-disk records -/

/-- Error of `binary.Read` for a record of `len` bytes at the seek position
`pos`: `io.EOF` when nothing can be read, `io.ErrUnexpectedEOF` when the record
is cut short. -/
def readRecordErr (img : Bytes) (pos len : Nat) : Option Error :=
  if pos + len ≤ img.size then none
  else if img.size ≤ pos then some Error.EOF
  else some Error.UnexpectedEOF

structure GroupDescriptor where
  BlockBitmap : Nat
  InodeBitmap : Nat
  InodeTable : Nat
  FreeBlocksCount : Nat
  FreeInodesCount : Nat
  UsedDirsCount : Nat
  Pad : Nat

/-- Little-endian decoding of the 32-byte group descriptor at `pos`. -/
def decodeGroupDescriptor (img : Bytes) (pos : Nat) : GroupDescriptor :=
  { BlockBitmap := le32 img pos
    InodeBitmap := le32 img (pos + 4)
    InodeTable := le32 img (pos + 8)
    FreeBlocksCount := le16 img (pos + 12)
    FreeInodesCount := le16 img (pos + 14)
    UsedDirsCount := le16 img (pos + 16)
    Pad := le16 img (pos + 18) }

def Device.NewGroupDescriptor (d : Device) (img : Bytes) (index : Nat) :
    Except Error GroupDescriptor :=
  if index ≥ d.BlockGroupsCount then .error Error.GroupOutOfBounds
  else
    match readRecordErr img (d.groupDescriptorOffset index) 32 with
    | some e => .error e
    | none => .ok (decodeGroupDescriptor img (d.groupDescriptorOffset index))

/-- The in-memory inode.  `Block` is the array `Block[0..14]`; `Osd1` and `Osd2`
are kept as raw bytes. -/
structure Inode where
  Mode : Nat
  UID : Nat
  Size : Nat
  ATime : Nat
  CTime : Nat
  MTime : Nat
  DTime : Nat
  GID : Nat
  LinksCount : Nat
  Blocks : Nat
  Flags : Nat
  Osd1 : List Byte
  Block : Nat → Nat
  Generation : Nat
  FileACL : Nat
  DirACL : Nat
  FAddr : Nat
  Osd2 : List Byte

/-- Little-endian decoding of the 128-byte inode record at `pos`. -/
def decodeInode (img : Bytes) (pos : Nat) : Inode :=
  { Mode := le16 img pos
    UID := le16 img (pos + 2)
    Size := le32 img (pos + 4)
    ATime := le32 img (pos + 8)
    CTime := le32 img (pos + 12)
    MTime := le32 img (pos + 16)
    DTime := le32 img (pos + 20)
    GID := le16 img (pos + 24)
    LinksCount := le16 img (pos + 26)
    Blocks := le32 img (pos + 28)
    Flags := le32 img (pos + 32)
    Osd1 := (List.range 4).map (fun i => img.get (pos + 36 + i))
    Block := fun i => le32 img (pos + I_BLOCK + 4 * i)
    Generation := le32 img (pos + 100)
    FileACL := le32 img (pos + 104)
    DirACL := le32 img (pos + 108)
    FAddr := le32 img (pos + 112)
    Osd2 := (List.range 12).map (fun i => img.get (pos + 116 + i)) }

def Device.NewInode (d : Device) (img : Bytes) (inodeNo : Nat) : Except Error Inode :=
  if inodeNo < 1 ∨ inodeNo > d.InodesCount then .error Error.InodeOutOfBounds
  else
    let groupIndex := (inodeNo - 1) / d.InodesPerGroup
    match d.NewGroupDescriptor img groupIndex with
    | .error e => .error e
    | .ok group =>
      let inodeIndex := (inodeNo - 1) % d.InodesPerGroup
      if inodeIndex ≥ d.InodesPerGroup then .error Error.InodeIndexOutOfBounds
      else
        match readRecordErr img (d.inodeOffset group.InodeTable inodeIndex) 128 with
        | some e => .error e
        | none => .ok (decodeInode img (d.inodeOffset group.InodeTable inodeIndex))

def Inode.IsDir (i : Inode) : Bool := (i.Mode &&& S_IFDIR) != 0

/-! ## data.go : block map -/

/-- `Device.ExtractBlock`: slot `index` of the indirect block `block`. -/
def Device.ExtractBlock (d : Device) (img : Bytes) (block : Nat) (index : Int) :
    Except Error Nat :=
  if block = EXT2_NULL_BLOCK then .error Error.BlockOutOfBounds
  else
    let pos : Int := (d.blockOffset block : Int) + index * 4
    if pos < 0 then .error Error.NegativeOffset
    else
      match readAtErr img pos.toNat 4 with
      | some e => .error e
      | none => .ok (le32 img pos.toNat)

/-- `Device.DataBlock`: physical block of the logical block `blockOffset`. -/
def Device.DataBlock (d : Device) (img : Bytes) (inode : Inode) (blockOffset : Nat) :
    Except Error Nat :=
  match d.Offsets blockOffset with
  | (dirIdx, indIdx, dindIdx, tindIdx) =>
    if dirIdx ≠ -1 then
      let block := inode.Block dirIdx.toNat
      if block = EXT2_NULL_BLOCK then .error Error.BlockOutOfBounds
      else .ok block
    else if tindIdx ≠ -1 then
      match d.ExtractBlock img (inode.Block EXT2_TIND_BLOCK) tindIdx with
      | .error e => .error e
      | .ok block =>
        match d.ExtractBlock img block dindIdx with
        | .error e => .error e
        | .ok block => d.ExtractBlock img block indIdx
    else if dindIdx ≠ -1 then
      match d.ExtractBlock img (inode.Block EXT2_DIND_BLOCK) dindIdx with
      | .error e => .error e
      | .ok block => d.ExtractBlock img block indIdx
    else if indIdx ≠ -1 then
      d.ExtractBlock img (inode.Block EXT2_IND_BLOCK) indIdx
    else .error Error.NoBlockOffsets

/-! ## data.go : ReadData, WriteData -/

/-- Wrap-around of a Go `int64` sum. -/
def int64Wrap (x : Int) : Int := (x + 2 ^ 63) % 2 ^ 64 - 2 ^ 63

/-- Conversion `uint32(x)` of an `int64`. -/
def toUint32 (x : Int) : Nat := (x % 2 ^ 32).toNat

/-- The loop bound `blocks` of `ReadData` and `WriteData`:
`1 + (uint32((off+size)/BlockSize) - blockOffset)` in `uint32` arithmetic. -/
def blockSpan (d : Device) (size off : Nat) : Nat :=
  (1 + sub32 (toUint32 (Int.tdiv (int64Wrap ((off : Int) + (size : Int))) (d.BlockSize : Int)))
    ((off / d.BlockSize) % 2 ^ 32)) % 2 ^ 32

/-- Result of `ReadData`: the count, the error and the caller's buffer. -/
structure ReadResult where
  n : Nat
  err : Option Error
  buf : Bytes

/-- The continuation loop of `ReadData`: `cnt` iterations are left, the loop
variable is `i`, `n` bytes have been delivered. -/
def Device.readLoop (d : Device) (img : Bytes) (inode : Inode) (size off blockOffset : Nat) :
    Nat → Nat → Nat → Bytes → ReadResult
  | 0, _, n, b => ⟨n, none, b⟩
  | cnt + 1, i, n, b =>
    match d.DataBlock img inode ((blockOffset + i) % 2 ^ 32) with
    | .error e => ⟨n, some e, b⟩
    | .ok blockNo =>
      if blockNo = EXT2_NULL_BLOCK then ⟨n, some Error.EOF, b⟩
      else
        let read := min (size - n) d.BlockSize
        let pos := d.blockOffset blockNo
        let b1 := b.blit n (fun k => img.get (pos + k)) (readAtCount img pos read)
        match readAtErr img pos read with
        | some e => ⟨n, some e, b1⟩
        | none =>
          if n + read + off ≥ inode.Size then ⟨n + read, some Error.EOF, b1⟩
          else d.readLoop img inode size off blockOffset cnt (i + 1) (n + read) b1

/-- `Device.ReadData(inode, b, off)` for `off ≥ 0`. -/
def Device.ReadData (d : Device) (img : Bytes) (inode : Inode) (b : Bytes) (off : Nat) :
    ReadResult :=
  let size := b.size
  let blockOffset := (off / d.BlockSize) % 2 ^ 32
  let innerOffset := off % d.BlockSize
  let blocks := blockSpan d size off
  if size = 0 then ⟨0, none, b⟩
  else if off ≥ inode.Size then ⟨0, some Error.EOF, b⟩
  else
    match d.DataBlock img inode blockOffset with
    | .error e => ⟨0, some e, b⟩
    | .ok blockNo =>
      let read := min (d.BlockSize - innerOffset) size
      let pos := d.blockOffset blockNo + innerOffset
      let b1 := b.blit 0 (fun k => img.get (pos + k)) (readAtCount img pos read)
      match readAtErr img pos read with
      | some e => ⟨0, some e, b1⟩
      | none =>
        if read + off ≥ inode.Size then ⟨read, some Error.EOF, b1⟩
        else d.readLoop img inode size off blockOffset (blocks - 1) 1 read b1

/-- Result of `WriteData`: the count, the error and the backing file. -/
structure WriteResult where
  n : Nat
  err : Option Error
  img : Bytes

/-- The continuation loop of `WriteData`; `b` is the caller's whole buffer, of
which `n` bytes have been written. -/
def Device.writeLoop (d : Device) (inode : Inode) (b : Bytes) (blockOffset : Nat) :
    Nat → Nat → Nat → Bytes → WriteResult
  | 0, _, n, img => ⟨n, none, img⟩
  | cnt + 1, i, n, img =>
    match d.DataBlock img inode ((blockOffset + i) % 2 ^ 32) with
    | .error e => ⟨n, some e, img⟩
    | .ok blockNo =>
      if blockNo = EXT2_NULL_BLOCK then ⟨n, none, img⟩
      else
        let write := min (b.size - n) d.BlockSize
        let img1 := writeAt img (d.blockOffset blockNo) (fun k => b.get (n + k)) write
        d.writeLoop inode b blockOffset cnt (i + 1) (n + write) img1

/-- `Device.WriteData(inode, b, off)` for `off ≥ 0`. -/
def Device.WriteData (d : Device) (img : Bytes) (inode : Inode) (b : Bytes) (off : Nat) :
    WriteResult :=
  let size := b.size
  let blockOffset := (off / d.BlockSize) % 2 ^ 32
  let innerOffset := off % d.BlockSize
  let blocks := blockSpan d size off
  if size = 0 then ⟨0, none, img⟩
  else
    match d.DataBlock img inode blockOffset with
    | .error e => ⟨0, some e, img⟩
    | .ok blockNo =>
      let write := min (d.BlockSize - innerOffset) size
      let img1 := writeAt img (d.blockOffset blockNo + innerOffset) (fun k => b.get k) write
      d.writeLoop inode b blockOffset (blocks - 1) 1 write img1

/-! ## direntry.go -/

/-- What a call can end in: a value, a returned error, a Go run-time panic
(slice bounds out of range), or, for the embedding only, exhausted loop fuel. -/
inductive Outcome (α : Type) where
  | ok (a : α)
  | error (e : Error)
  | panic
  | timeout

structure DirEntry where
  Inode : Nat
  RecLen : Nat
  NameLen : Nat
  FileType : Nat
  Name : List Byte
  deriving DecidableEq

/-- A Go string: its bytes. -/
abbrev GoString := List Byte

def DirEntry.NameStr (de : DirEntry) : GoString := de.Name.take de.NameLen

/-- `DirEntries.Scan`: inode of the first entry called `name`, else the null
inode. -/
def Scan : List DirEntry → GoString → Nat
  | [], _ => EXT2_NULL_INO
  | entry :: rest, name => if entry.NameStr = name then entry.Inode else Scan rest name

/-- The array `Name [255]byte` after
`copy(entry.Name[:nameLen], block[8:8+nameLen])`. -/
def entryName (block : Bytes) (nameLen : Nat) : List Byte :=
  (List.range EXT2_NAME_LEN).map (fun i => if i < nameLen then block.get (8 + i) else 0)

/-- The record loop of `NewDirEntries` over one block buffer (`for len(block) > 8`).
`block` is the remaining slice, whose capacity equals its length. -/
def parseBlock : Nat → Bytes → List DirEntry → Outcome (List DirEntry)
  | 0, _, _ => .timeout
  | fuel + 1, block, dir =>
    if 8 < block.size then
      let inode := le32 block 0
      let recLen := le16 block 4
      if recLen = 0 then .ok dir
      else if recLen > block.size then .ok dir
      else if ((block.get 6).val + 8) % 256 > block.size then .ok dir
      else if inode ≠ EXT2_NULL_INO then
        let nameLen := (block.get 6).val
        if 8 + nameLen > block.size then .panic
        else
          parseBlock fuel (block.drop recLen)
            (dir ++ [{ Inode := inode, RecLen := recLen, NameLen := nameLen,
                       FileType := (block.get 7).val, Name := entryName block nameLen }])
      else parseBlock fuel (block.drop recLen) dir
    else .ok dir

/-- The block loop of `NewDirEntries`: `cnt` blocks are left, `i` is the loop
variable. -/
def Device.dirBlocks (d : Device) (img : Bytes) (inode : Inode) :
    Nat → Nat → List DirEntry → Outcome (List DirEntry)
  | 0, _, dir => .ok dir
  | cnt + 1, i, dir =>
    let r := d.ReadData img inode (Bytes.zeros d.BlockSize) (mul32 d.BlockSize i)
    if r.err ≠ none ∧ r.err ≠ some Error.EOF then .error (r.err.getD Error.EOF)
    else
      match parseBlock (r.buf.size + 1) r.buf dir with
      | .ok dir1 => d.dirBlocks img inode cnt (i + 1) dir1
      | .error e => .error e
      | .panic => .panic
      | .timeout => .timeout

def Device.NewDirEntries (d : Device) (img : Bytes) (inodeNo : Nat) :
    Outcome (List DirEntry) :=
  match d.NewInode img inodeNo with
  | .error e => .error e
  | .ok inode =>
    if !inode.IsDir then .error Error.NotDirectory
    else d.dirBlocks img inode (inode.Size / d.BlockSize) 0 []

/-! ## Go library functions used by `InodeFromPath`

`strings.Split`, `strings.HasPrefix`, `strings.HasSuffix`, `path.Clean`,
`path.Dir` and `path.Base` belong to the Go standard library; they are embedded
after their documented behaviour. -/

def slash : Byte := 47
def dot : Byte := 46

/-- `strings.Split(s, "/")`. -/
def splitSlash : GoString → List GoString
  | [] => [[]]
  | c :: cs =>
    if c = slash then [] :: splitSlash cs
    else match splitSlash cs with
      | [] => [[c]]
      | h :: t => (c :: h) :: t

/-- `strings.HasPrefix(p, "/")`. -/
def hasSlashPrefix (p : GoString) : Bool := p.head? = some slash

/-- `strings.HasSuffix(p, "/")`. -/
def hasSlashSuffix (p : GoString) : Bool := p.getLast? = some slash

/-- The element stack of `path.Clean`: empty and `.` elements vanish, `..`
removes the element before it (at the root it vanishes, at the start of a relative
path it stays). -/
def cleanStack (rooted : Bool) : List GoString → List GoString → List GoString
  | [], acc => acc.reverse
  | e :: es, acc =>
    if e = [] ∨ e = [dot] then cleanStack rooted es acc
    else if e = [dot, dot] then
      match acc with
      | [] => if rooted then cleanStack rooted es [] else cleanStack rooted es [e]
      | top :: below =>
        if top = [dot, dot] then cleanStack rooted es (e :: acc)
        else cleanStack rooted es below
    else cleanStack rooted es (e :: acc)

/-- `strings.Join(elems, "/")`. -/
def joinSlash : List GoString → GoString
  | [] => []
  | [e] => e
  | e :: es => e ++ slash :: joinSlash es

/-- `path.Clean`. -/
def pathClean (p : GoString) : GoString :=
  if p = [] then [dot]
  else
    let rooted := hasSlashPrefix p
    let out := (if rooted then [slash] else []) ++ joinSlash (cleanStack rooted (splitSlash p) [])
    if out = [] then [dot] else out

/-- The `dir` part of `path.Split`: everything up to and including the final
slash. -/
def splitDir (p : GoString) : GoString :=
  (p.reverse.dropWhile (fun c => c ≠ slash)).reverse

/-- `path.Dir`. -/
def pathDir (p : GoString) : GoString := pathClean (splitDir p)

/-- `path.Base`. -/
def pathBase (p : GoString) : GoString :=
  if p = [] then [dot]
  else
    let stripped := (p.reverse.dropWhile (fun c => c = slash)).reverse
    let last := (stripped.reverse.takeWhile (fun c => c ≠ slash)).reverse
    if last = [] then [slash] else last

/-! ## inode.go : InodeFromPath -/

/-- The loop of `InodeFromPath` over `dirNames`, followed by the final scan for
`name`. -/
def Device.walkPath (d : Device) (img : Bytes) (name : GoString) :
    List GoString → Nat → Outcome Nat
  | [], currentInodeNo =>
    match d.NewDirEntries img currentInodeNo with
    | .ok dir => .ok (Scan dir name)
    | .error e => .error e
    | .panic => .panic
    | .timeout => .timeout
  | dirName :: rest, currentInodeNo =>
    match d.NewDirEntries img currentInodeNo with
    | .error e => .error e
    | .panic => .panic
    | .timeout => .timeout
    | .ok dir =>
      if Scan dir dirName ≠ EXT2_NULL_INO then
        match d.NewInode img (Scan dir dirName) with
        | .error e => .error e
        | .ok inode =>
          if !inode.IsDir then .ok EXT2_NULL_INO
          else d.walkPath img name rest (Scan dir dirName)
      else .ok EXT2_NULL_INO

def Device.InodeFromPath (d : Device) (img : Bytes) (p : GoString) : Outcome Nat :=
  if p.length = 0 then .ok EXT2_ROOT_INO
  else
    let dirNames := splitSlash (pathDir p)
    let dirNames := if hasSlashPrefix p then dirNames.tail else dirNames
    let dirNames := if hasSlashSuffix p then dirNames.dropLast else dirNames
    d.walkPath img (pathBase p) dirNames EXT2_ROOT_INO

/-! ## constants.go, superblock.go -/

def EXT2_SUPER_MAGIC : Nat := 0xEF53
def BASE_OFFSET : Nat := 1024
def S_FREE_BLOCKS_COUNT : Nat := 12
def S_FREE_INODES_COUNT : Nat := S_FREE_BLOCKS_COUNT + 4
def BG_FREE_BLOCKS_COUNT : Nat := 12
def BG_FREE_INODES_COUNT : Nat := BG_FREE_BLOCKS_COUNT + 2
def BG_USED_DIRS_COUNT : Nat := BG_FREE_INODES_COUNT + 2
def S_IFREG : Nat := 0o100000

/-- The byte `n mod 256`. -/
def toByte (n : Nat) : Byte := ⟨n % 256, Nat.mod_lt _ (by decide)⟩

/-- Byte `k` of the little-endian encoding of `v` (`binary.Write` of an unsigned
integer, `binary.LittleEndian.PutUint16`, `PutUint32`). -/
def putLE (v : Nat) (k : Nat) : Byte := toByte (v / 256 ^ k)

/-- The `int32` that `binary.Read` decodes from four little-endian bytes with the
unsigned value `n`: two's complement. -/
def toInt32 (n : Nat) : Int := if n < 2 ^ 31 then (n : Int) else (n : Int) - 2 ^ 32

/-- The `int16` that `binary.Read` decodes from two little-endian bytes with the
unsigned value `n`: two's complement. -/
def toInt16 (n : Nat) : Int := if n < 2 ^ 15 then (n : Int) else (n : Int) - 2 ^ 16

/-- The fields of the on-disk superblock that are integers; the arrays `UUID`,
`VolumeName`, `LastMounted` and `Reserved` are not used by the package.
`LogFragSize` is an `int32` and `MaxMntCount` an `int16`; the other fields are
unsigned. -/
structure SuperBlock where
  InodesCount : Nat
  BlocksCount : Nat
  RBlocksCount : Nat
  FreeBlocksCount : Nat
  FreeInodesCount : Nat
  FirstDataBlock : Nat
  LogBlockSize : Nat
  LogFragSize : Int
  BlocksPerGroup : Nat
  FragsPerGroup : Nat
  InodesPerGroup : Nat
  MTime : Nat
  WTime : Nat
  MntCount : Nat
  MaxMntCount : Int
  Magic : Nat
  State : Nat
  Errors : Nat
  MinorRevLevel : Nat
  LastCheck : Nat
  CheckInterval : Nat
  CreatorOS : Nat
  RevLevel : Nat
  DefResUID : Nat
  DefResGID : Nat
  FirstIno : Nat
  InodeSize : Nat
  BlockGroupNr : Nat
  FeatureCompat : Nat
  FeatureIncompat : Nat
  FeatureRoCompat : Nat
  AlgorithmUsageBitmap : Nat
  PreallocBlocks : Nat
  PreallocDirBlocks : Nat
  Padding1 : Nat

/-- Little-endian decoding of the 1024-byte superblock record at `pos`. -/
def decodeSuperBlock (img : Bytes) (pos : Nat) : SuperBlock :=
  { InodesCount := le32 img pos
    BlocksCount := le32 img (pos + 4)
    RBlocksCount := le32 img (pos + 8)
    FreeBlocksCount := le32 img (pos + 12)
    FreeInodesCount := le32 img (pos + 16)
    FirstDataBlock := le32 img (pos + 20)
    LogBlockSize := le32 img (pos + 24)
    LogFragSize := toInt32 (le32 img (pos + 28))
    BlocksPerGroup := le32 img (pos + 32)
    FragsPerGroup := le32 img (pos + 36)
    InodesPerGroup := le32 img (pos + 40)
    MTime := le32 img (pos + 44)
    WTime := le32 img (pos + 48)
    MntCount := le16 img (pos + 52)
    MaxMntCount := toInt16 (le16 img (pos + 54))
    Magic := le16 img (pos + 56)
    State := le16 img (pos + 58)
    Errors := le16 img (pos + 60)
    MinorRevLevel := le16 img (pos + 62)
    LastCheck := le32 img (pos + 64)
    CheckInterval := le32 img (pos + 68)
    CreatorOS := le32 img (pos + 72)
    RevLevel := le32 img (pos + 76)
    DefResUID := le16 img (pos + 80)
    DefResGID := le16 img (pos + 82)
    FirstIno := le32 img (pos + 84)
    InodeSize := le16 img (pos + 88)
    BlockGroupNr := le16 img (pos + 90)
    FeatureCompat := le32 img (pos + 92)
    FeatureIncompat := le32 img (pos + 96)
    FeatureRoCompat := le32 img (pos + 100)
    AlgorithmUsageBitmap := le32 img (pos + 200)
    PreallocBlocks := (img.get (pos + 204)).val
    PreallocDirBlocks := (img.get (pos + 205)).val
    Padding1 := le16 img (pos + 206) }

def Device.NewSuperBlock (_d : Device) (img : Bytes) : Except Error SuperBlock :=
  match readRecordErr img BASE_OFFSET 1024 with
  | some e => .error e
  | none =>
    if (decodeSuperBlock img BASE_OFFSET).Magic ≠ EXT2_SUPER_MAGIC then .error Error.NotExt2
    else .ok (decodeSuperBlock img BASE_OFFSET)

/-! ## bitmap.go -/

/-- `Bitmap.IsFree`; the index is taken to lie inside the bitmap. -/
def Bitmap.IsFree (bmp : Bytes) (index : Nat) : Bool :=
  (bmp.get (index / 8)).val &&& (1 <<< (index % 8)) == 0

/-- `Bitmap.Alloc`: the bitmap after `bmp[index/8] |= 1 << (index%8)`. -/
def Bitmap.Alloc (bmp : Bytes) (index : Nat) : Bytes :=
  ⟨bmp.size, fun k =>
    if k = index / 8 then toByte ((bmp.get k).val ||| (1 <<< (index % 8))) else bmp.get k⟩

/-- The loop of `Bitmap.FindFree`: `cnt` indices are left, `i` is the loop
variable. -/
def Bitmap.findFreeLoop (bmp : Bytes) : Nat → Nat → Int
  | 0, _ => -1
  | cnt + 1, i => if Bitmap.IsFree bmp i then (i : Int) else Bitmap.findFreeLoop bmp cnt (i + 1)

def Bitmap.FindFree (bmp : Bytes) : Int :=
  Bitmap.findFreeLoop bmp (bmp.size * 8 % 2 ^ 32) 0

def Device.NewBitmap (_d : Device) (img : Bytes) (size blockOffset : Nat) :
    Except Error Bytes :=
  match readAtErr img blockOffset size with
  | some e => .error e
  | none => .ok ⟨size, fun k => img.get (blockOffset + k)⟩

/-- The two resources the allocator hands out.  `allocInode`/`AllocInode` and
`allocBlock`/`AllocBlock` are the same code up to the fields they use; the
embedding writes that code once, with the resource as a parameter. -/
inductive Resource where
  | inode
  | block
  deriving DecidableEq

/-- `InodesPerGroup` or `BlocksPerGroup`. -/
def Device.perGroup (d : Device) : Resource → Nat
  | .inode => d.InodesPerGroup
  | .block => d.BlocksPerGroup

/-- `InodeBitmap` or `BlockBitmap`. -/
def GroupDescriptor.bitmapBlock (g : GroupDescriptor) : Resource → Nat
  | .inode => g.InodeBitmap
  | .block => g.BlockBitmap

/-- `FreeInodesCount` or `FreeBlocksCount` of a group descriptor. -/
def GroupDescriptor.freeCount (g : GroupDescriptor) : Resource → Nat
  | .inode => g.FreeInodesCount
  | .block => g.FreeBlocksCount

/-- `FreeInodesCount` or `FreeBlocksCount` of the superblock. -/
def SuperBlock.freeCount (s : SuperBlock) : Resource → Nat
  | .inode => s.FreeInodesCount
  | .block => s.FreeBlocksCount

/-- `BG_FREE_INODES_COUNT` or `BG_FREE_BLOCKS_COUNT`. -/
def bgFreeCountOffset : Resource → Nat
  | .inode => BG_FREE_INODES_COUNT
  | .block => BG_FREE_BLOCKS_COUNT

/-- `S_FREE_INODES_COUNT` or `S_FREE_BLOCKS_COUNT`. -/
def sFreeCountOffset : Resource → Nat
  | .inode => S_FREE_INODES_COUNT
  | .block => S_FREE_BLOCKS_COUNT

/-- `Device.NewInodeBitmap` (resource `inode`) and `Device.NewBlockBitmap`
(resource `block`). -/
def Device.newBitmapOf (d : Device) (img : Bytes) (r : Resource) (groupNo : Nat) :
    Except Error Bytes :=
  match d.NewGroupDescriptor img groupNo with
  | .error e => .error e
  | .ok group => d.NewBitmap img (d.perGroup r / 8) (d.blockOffset (group.bitmapBlock r))

def Device.NewInodeBitmap (d : Device) (img : Bytes) (groupNo : Nat) : Except Error Bytes :=
  d.newBitmapOf img .inode groupNo

def Device.NewBlockBitmap (d : Device) (img : Bytes) (groupNo : Nat) : Except Error Bytes :=
  d.newBitmapOf img .block groupNo

/-- The wrap-around loop of `Device.next`
(`for i := (groupNo+1) % G; i != groupNo; i = (i+1) % G`), with loop fuel. -/
def Device.nextLoop (d : Device) (bitmap : Nat → Except Error Bytes) (groupNo : Nat) :
    Nat → Nat → Outcome (Bytes × Int × Nat)
  | 0, _ => .timeout
  | fuel + 1, i =>
    if i = groupNo then .ok (Bytes.zeros 0, -1, 0)
    else
      match bitmap i with
      | .error e => .error e
      | .ok bmp =>
        if Bitmap.FindFree bmp ≠ -1 then .ok (bmp, Bitmap.FindFree bmp, i)
        else d.nextLoop bitmap groupNo fuel ((i + 1) % 2 ^ 32 % d.BlockGroupsCount)

/-- `Device.next`: the bitmap, the free index and the group that were picked;
index `-1` when no group has a free bit; an error of `bitmap` is returned. -/
def Device.next (d : Device) (bitmap : Nat → Except Error Bytes) (groupNo : Nat) :
    Outcome (Bytes × Int × Nat) :=
  match bitmap groupNo with
  | .error e => .error e
  | .ok bmp =>
    if Bitmap.FindFree bmp ≠ -1 then .ok (bmp, Bitmap.FindFree bmp, groupNo)
    else d.nextLoop bitmap groupNo d.BlockGroupsCount
      ((groupNo + 1) % 2 ^ 32 % d.BlockGroupsCount)

def Device.nextInode (d : Device) (img : Bytes) (groupNo : Nat) :
    Outcome (Bytes × Int × Nat) :=
  d.next (d.NewInodeBitmap img) groupNo

def Device.nextBlock (d : Device) (img : Bytes) (groupNo : Nat) :
    Outcome (Bytes × Int × Nat) :=
  d.next (d.NewBlockBitmap img) groupNo

/-- What a call that writes to the backing file returns: its value, its error and
the file afterwards. -/
structure Ret (α : Type) where
  val : α
  err : Option Error
  img : Bytes

/-- `Device.allocInode` (resource `inode`) and `Device.allocBlock` (resource
`block`). -/
def Device.allocOf (d : Device) (img : Bytes) (r : Resource) (groupNo : Nat) :
    Outcome (Ret Nat) :=
  match d.next (d.newBitmapOf img r) groupNo with
  | .error e => .ok ⟨0, some e, img⟩
  | .panic => .panic
  | .timeout => .timeout
  | .ok (bmp, index, groupNo) =>
    if index = -1 then .ok ⟨0, none, img⟩
    else
      match d.NewGroupDescriptor img groupNo with
      | .error e => .ok ⟨0, some e, img⟩
      | .ok group =>
        let bmp := Bitmap.Alloc bmp (toUint32 index)
        let img1 := writeAt img (d.blockOffset (group.bitmapBlock r) + (index / 8).toNat)
          (fun _ => bmp.get (index / 8).toNat) 1
        let img2 := writeAt img1 (d.groupDescriptorOffset groupNo + bgFreeCountOffset r)
          (putLE (sub16 (group.freeCount r) 1)) 2
        .ok ⟨(mul32 (d.perGroup r) groupNo + toUint32 index + 1) % 2 ^ 32, none, img2⟩

def Device.allocInode (d : Device) (img : Bytes) (groupNo : Nat) : Outcome (Ret Nat) :=
  d.allocOf img .inode groupNo

def Device.allocBlock (d : Device) (img : Bytes) (groupNo : Nat) : Outcome (Ret Nat) :=
  d.allocOf img .block groupNo

/-- `Device.AllocInode` (resource `inode`) and `Device.AllocBlock` (resource
`block`). -/
def Device.AllocOf (d : Device) (img : Bytes) (r : Resource) (groupNo : Nat) :
    Outcome (Ret Nat) :=
  match d.NewSuperBlock img with
  | .error e => .ok ⟨0, some e, img⟩
  | .ok super =>
    if super.freeCount r = 0 then .ok ⟨0, some Error.DiskLimit, img⟩
    else
      match d.allocOf img r groupNo with
      | .error e => .error e
      | .panic => .panic
      | .timeout => .timeout
      | .ok ret =>
        if ret.err ≠ none then .ok ⟨0, none, ret.img⟩
        else
          .ok ⟨ret.val, none,
            writeAt ret.img (BASE_OFFSET + sFreeCountOffset r)
              (putLE (sub32 (super.freeCount r) 1)) 4⟩

def Device.AllocInode (d : Device) (img : Bytes) (groupNo : Nat) : Outcome (Ret Nat) :=
  d.AllocOf img .inode groupNo

def Device.AllocBlock (d : Device) (img : Bytes) (groupNo : Nat) : Outcome (Ret Nat) :=
  d.AllocOf img .block groupNo

/-! ## data.go : CreateDataBlock -/

/-- The file after `seek(pos)` and `binary.Write` of the `uint32` value `v`. -/
def writeU32 (img : Bytes) (pos : Nat) (v : Nat) : Bytes := writeAt img pos (putLE v) 4

/-- `x, err := d.AllocBlock(groupNo); if err != nil { return EXT2_NULL_BLOCK, err }`
followed by the rest of the function, which gets `x` and the file. -/
def allocThen (a : Outcome (Ret Nat)) (k : Nat → Bytes → Outcome (Ret Nat)) :
    Outcome (Ret Nat) :=
  match a with
  | .error e => .error e
  | .panic => .panic
  | .timeout => .timeout
  | .ok ret =>
    match ret.err with
    | some e => .ok ⟨EXT2_NULL_BLOCK, some e, ret.img⟩
    | none => k ret.val ret.img

/-- `x, err := d.ExtractBlock(block, index); if err != nil { return x, err }`
followed by the rest of the function. -/
def extractThen (d : Device) (img : Bytes) (block : Nat) (index : Int)
    (k : Nat → Outcome (Ret Nat)) : Outcome (Ret Nat) :=
  match d.ExtractBlock img block index with
  | .error e => .ok ⟨EXT2_NULL_BLOCK, some e, img⟩
  | .ok x => k x

/-- The tail shared by the double and the triple branch of `CreateDataBlock`, from
`indBlock, err := d.ExtractBlock(dindBlock, dindIdx)` on.  The block allocated for a
missing indirect block is bound by `indBlock, err := d.AllocBlock(groupNo)` inside
the `if`, a new variable: the leaf is then written through the outer `indBlock`,
which is still the null block. -/
def Device.createLeafUnder (d : Device) (img : Bytes) (groupNo dindBlock : Nat)
    (dindIdx indIdx : Int) : Outcome (Ret Nat) :=
  extractThen d img dindBlock dindIdx fun indBlock =>
    if indBlock = EXT2_NULL_BLOCK then
      allocThen (d.AllocBlock img groupNo) fun innerIndBlock img1 =>
        let img2 := writeU32 img1 ((d.blockOffset dindBlock : Int) + 4 * dindIdx).toNat
          innerIndBlock
        allocThen (d.AllocBlock img2 groupNo) fun newBlock img3 =>
          .ok ⟨newBlock, none,
            writeU32 img3 ((d.blockOffset indBlock : Int) + 4 * indIdx).toNat newBlock⟩
    else
      allocThen (d.AllocBlock img groupNo) fun newBlock img3 =>
        .ok ⟨newBlock, none,
          writeU32 img3 ((d.blockOffset indBlock : Int) + 4 * indIdx).toNat newBlock⟩

def Device.CreateDataBlock (d : Device) (img : Bytes) (inodeNo : Nat) : Outcome (Ret Nat) :=
  match d.NewInode img inodeNo with
  | .error e => .ok ⟨EXT2_NULL_BLOCK, some e, img⟩
  | .ok inode =>
    let groupNo := sub32 inodeNo 1 / d.InodesPerGroup
    let inodeIdx := sub32 inodeNo 1 % d.InodesPerGroup
    match d.NewGroupDescriptor img groupNo with
    | .error e => .ok ⟨EXT2_NULL_BLOCK, some e, img⟩
    | .ok group =>
      let inodePos := d.inodeOffset group.InodeTable inodeIdx
      match d.Offsets (inode.Size / d.BlockSize) with
      | (dirIdx, indIdx, dindIdx, tindIdx) =>
        if dirIdx ≠ -1 then
          allocThen (d.AllocBlock img groupNo) fun newBlock img1 =>
            .ok ⟨newBlock, none,
              writeU32 img1 ((inodePos : Int) + I_BLOCK + 4 * dirIdx).toNat newBlock⟩
        else if tindIdx ≠ -1 then
          if inode.Block EXT2_TIND_BLOCK = EXT2_NULL_BLOCK then
            allocThen (d.AllocBlock img groupNo) fun tindBlock img1 =>
              let img2 := writeU32 img1 (inodePos + I_BLOCK + 4 * EXT2_TIND_BLOCK) tindBlock
              extractThen d img2 tindBlock tindIdx fun dindBlock =>
                if dindBlock = EXT2_NULL_BLOCK then
                  allocThen (d.AllocBlock img2 groupNo) fun dindBlock img3 =>
                    let img4 := writeU32 img3
                      ((d.blockOffset (inode.Block EXT2_TIND_BLOCK) : Int) + 4 * tindIdx).toNat
                      dindBlock
                    d.createLeafUnder img4 groupNo dindBlock dindIdx indIdx
                else d.createLeafUnder img2 groupNo dindBlock dindIdx indIdx
          else
            extractThen d img (inode.Block EXT2_TIND_BLOCK) tindIdx fun dindBlock =>
              if dindBlock = EXT2_NULL_BLOCK then
                allocThen (d.AllocBlock img groupNo) fun dindBlock img3 =>
                  let img4 := writeU32 img3
                    ((d.blockOffset (inode.Block EXT2_TIND_BLOCK) : Int) + 4 * tindIdx).toNat
                    dindBlock
                  d.createLeafUnder img4 groupNo dindBlock dindIdx indIdx
              else d.createLeafUnder img groupNo dindBlock dindIdx indIdx
        else if dindIdx ≠ -1 then
          if inode.Block EXT2_DIND_BLOCK = EXT2_NULL_BLOCK then
            allocThen (d.AllocBlock img groupNo) fun dindBlock img1 =>
              let img2 := writeU32 img1 (inodePos + I_BLOCK + 4 * EXT2_DIND_BLOCK) dindBlock
              d.createLeafUnder img2 groupNo dindBlock dindIdx indIdx
          else d.createLeafUnder img groupNo (inode.Block EXT2_DIND_BLOCK) dindIdx indIdx
        else if indIdx ≠ -1 then
          if inode.Block EXT2_IND_BLOCK = EXT2_NULL_BLOCK then
            allocThen (d.AllocBlock img groupNo) fun indBlock img1 =>
              let img2 := writeU32 img1 (inodePos + I_BLOCK + 4 * EXT2_IND_BLOCK) indBlock
              allocThen (d.AllocBlock img2 groupNo) fun newBlock img3 =>
                .ok ⟨newBlock, none,
                  writeU32 img3 ((d.blockOffset indBlock : Int) + 4 * indIdx).toNat newBlock⟩
          else
            allocThen (d.AllocBlock img groupNo) fun newBlock img3 =>
              .ok ⟨newBlock, none,
                writeU32 img3
                  ((d.blockOffset (inode.Block EXT2_IND_BLOCK) : Int) + 4 * indIdx).toNat
                  newBlock⟩
        else .ok ⟨EXT2_NULL_BLOCK, some Error.NoBlockOffsets, img⟩

/-! ## inode.go : CreateFileInode, CreateDirInode -/

/-- Byte `k` of the 128 bytes that `binary.Write` produces for an inode. -/
def encodeInode (i : Inode) (k : Nat) : Byte :=
  if k < 2 then putLE i.Mode k
  else if k < 4 then putLE i.UID (k - 2)
  else if k < 8 then putLE i.Size (k - 4)
  else if k < 12 then putLE i.ATime (k - 8)
  else if k < 16 then putLE i.CTime (k - 12)
  else if k < 20 then putLE i.MTime (k - 16)
  else if k < 24 then putLE i.DTime (k - 20)
  else if k < 26 then putLE i.GID (k - 24)
  else if k < 28 then putLE i.LinksCount (k - 26)
  else if k < 32 then putLE i.Blocks (k - 28)
  else if k < 36 then putLE i.Flags (k - 32)
  else if k < 40 then i.Osd1.getD (k - 36) 0
  else if k < 100 then putLE (i.Block ((k - 40) / 4)) ((k - 40) % 4)
  else if k < 104 then putLE i.Generation (k - 100)
  else if k < 108 then putLE i.FileACL (k - 104)
  else if k < 112 then putLE i.DirACL (k - 108)
  else if k < 116 then putLE i.FAddr (k - 112)
  else i.Osd2.getD (k - 116) 0

/-- The inode literal of `CreateFileInode` and `CreateDirInode`: the given fields,
`Block[0] = block`, everything else zero. -/
def newInode (mode uid gid size links blocks block : Nat) : Inode :=
  { Mode := mode, UID := uid % 2 ^ 16, Size := size, ATime := 0, CTime := 0, MTime := 0,
    DTime := 0, GID := gid % 2 ^ 16, LinksCount := links, Blocks := blocks, Flags := 0,
    Osd1 := [0, 0, 0, 0], Block := fun i => if i = 0 then block else 0,
    Generation := 0, FileACL := 0, DirACL := 0, FAddr := 0,
    Osd2 := [0, 0, 0, 0, 0, 0, 0, 0, 0, 0, 0, 0] }

/-- `Device.CreateFileInode`; `uid` and `gid` are what `os.Getuid()` and
`os.Getgid()` return.  The error of `AllocBlock` is dropped by the Go code. -/
def Device.CreateFileInode (d : Device) (img : Bytes) (uid gid : Nat) (inodeNo : Nat) :
    Outcome (Ret Inode) :=
  let groupNo := sub32 inodeNo 1 / d.InodesPerGroup
  match d.NewGroupDescriptor img groupNo with
  | .error e => .ok ⟨newInode 0 0 0 0 0 0 0, some e, img⟩
  | .ok group =>
    match d.AllocBlock img groupNo with
    | .error e => .error e
    | .panic => .panic
    | .timeout => .timeout
    | .ok a =>
      let inode := newInode S_IFREG uid gid 0 1 0 a.val
      .ok ⟨inode, none,
        writeAt a.img (d.inodeOffset group.InodeTable (sub32 inodeNo 1 % d.InodesPerGroup))
          (encodeInode inode) 128⟩

/-- The closure `encode` of `CreateDirInode`: byte `k` of the record of an entry. -/
def encodeEntry (ino recLen nameLen fileType : Nat) (name : List Byte) (k : Nat) : Byte :=
  if k < 4 then putLE ino k
  else if k < 6 then putLE recLen (k - 4)
  else if k = 6 then toByte nameLen
  else if k = 7 then toByte fileType
  else if k < 8 + nameLen then name.getD (k - 8) 0
  else 0

/-- `Device.CreateDirInode`. -/
def Device.CreateDirInode (d : Device) (img : Bytes) (uid gid : Nat) (parent inodeNo : Nat) :
    Outcome (Ret Inode) :=
  let groupNo := sub32 inodeNo 1 / d.InodesPerGroup
  match d.NewGroupDescriptor img groupNo with
  | .error e => .ok ⟨newInode 0 0 0 0 0 0 0, some e, img⟩
  | .ok group =>
    match d.AllocBlock img groupNo with
    | .error e => .error e
    | .panic => .panic
    | .timeout => .timeout
    | .ok a =>
      let inode := newInode S_IFDIR uid gid 1024 1 2 a.val
      let img1 := writeAt a.img
        (d.inodeOffset group.InodeTable (sub32 inodeNo 1 % d.InodesPerGroup))
        (encodeInode inode) 128
      let img2 := writeAt img1 (d.blockOffset a.val) (encodeEntry inodeNo 12 1 2 [dot]) 12
      let parentRecLen := sub32 d.BlockSize 12 % 2 ^ 16
      if parentRecLen < 8 + 2 then .panic
      else
        .ok ⟨inode, none,
          writeAt img2 (d.blockOffset a.val + 12)
            (encodeEntry parent parentRecLen 2 2 [dot, dot]) parentRecLen⟩

/-! ## direntry.go : DirEntryOffset, AppendDirEntry -/

/-- The record walk of `DirEntryOffset` (`for len(block) > 0`), with loop fuel;
`block` is the remaining slice.  The result is `(off, lastLen)`. -/
def walkRecords : Nat → Bytes → Nat → Nat → Outcome (Nat × Nat)
  | 0, _, _, _ => .timeout
  | fuel + 1, block, off, lastLen =>
    if 0 < block.size then
      if block.size < 7 then .panic
      else if block.size < le16 block 4 then .panic
      else if 0 < (block.drop (le16 block 4)).size then
        walkRecords fuel (block.drop (le16 block 4)) (off + le16 block 4) lastLen
      else
        walkRecords fuel (block.drop (le16 block 4))
          (off + (((8 + (block.get 6).val) % 256 + 3) % 256
            - ((8 + (block.get 6).val) % 256 + 3) % 256 % 4))
          (((8 + (block.get 6).val) % 256 + 3) % 256
            - ((8 + (block.get 6).val) % 256 + 3) % 256 % 4)
    else .ok (off, lastLen)

/-- `Device.DirEntryOffset`: the offset for a new entry and the aligned length
of the final record. -/
def Device.DirEntryOffset (d : Device) (img : Bytes) (inode : Inode) : Outcome (Nat × Nat) :=
  if !inode.IsDir then .error Error.NotDirectory
  else
    let off := mul32 (sub32 (inode.Size / d.BlockSize) 1) d.BlockSize
    let r := d.ReadData img inode (Bytes.zeros d.BlockSize) off
    if r.err ≠ none ∧ r.err ≠ some Error.EOF then .error (r.err.getD Error.EOF)
    else walkRecords (r.buf.size + 1) r.buf off 0

/-- `Device.AppendDirEntry`. -/
def Device.AppendDirEntry (d : Device) (img : Bytes) (inodeNo : Nat) (dirEntry : DirEntry) :
    Outcome (Ret Unit) :=
  match d.NewInode img inodeNo with
  | .error e => .ok ⟨(), some e, img⟩
  | .ok inode =>
    match d.DirEntryOffset img inode with
    | .error e => .ok ⟨(), some e, img⟩
    | .panic => .panic
    | .timeout => .timeout
    | .ok (off, lastLen) =>
      let lastOff := off - lastLen
      if dirEntry.RecLen < 8 then .panic
      else if (8 + dirEntry.NameLen) % 256 < 8 then .panic
      else if dirEntry.RecLen < (8 + dirEntry.NameLen) % 256 then .panic
      else
        let data : Bytes := ⟨dirEntry.RecLen,
          encodeEntry dirEntry.Inode ((d.BlockSize - off % d.BlockSize) % 2 ^ 16)
            dirEntry.NameLen dirEntry.FileType dirEntry.Name⟩
        let w1 := d.WriteData img inode data off
        match w1.err with
        | some e => .ok ⟨(), some e, w1.img⟩
        | none =>
          let w2 := d.WriteData w1.img inode ⟨2, putLE (lastLen % 2 ^ 16)⟩ (lastOff + 4)
          match w2.err with
          | some e => .ok ⟨(), some e, w2.img⟩
          | none =>
            let groupNo := sub32 inodeNo 1 / d.InodesPerGroup
            match d.NewGroupDescriptor w2.img groupNo with
            | .error e => .ok ⟨(), some e, w2.img⟩
            | .ok group =>
              .ok ⟨(), none,
                writeAt w2.img (d.groupDescriptorOffset groupNo + BG_USED_DIRS_COUNT)
                  (putLE ((group.UsedDirsCount + 1) % 2 ^ 16)) 2⟩

/-! ## Example images -/

/-- The geometry used in the examples: 1024-byte blocks, one group of 8 inodes,
group descriptor table in block 2. -/
def exampleDevice : Device :=
  { BlockSize := 1024, InodeSize := 128, BlockGroupsCount := 1, BlocksCount := 64,
    InodesCount := 8, BlocksPerGroup := 8192, InodesPerGroup := 8,
    GroupDescTableBlock := 2, FirstIno := 11 }

/-- Byte `i` of a file given by regions `(start, bytes)`; bytes outside every
region are zero. -/
def regionByte : List (Nat × List Byte) → Nat → Byte
  | [], _ => 0
  | (start, bytes) :: rest, i =>
    if start ≤ i ∧ i < start + bytes.length then bytes.getD (i - start) 0
    else regionByte rest i

/-- A file of `size` bytes holding the given regions. -/
def mkImage (size : Nat) (regions : List (Nat × List Byte)) : Bytes :=
  ⟨size, regionByte regions⟩

/-- An inode that only carries a mode, a size and block numbers. -/
def mkInode (mode size : Nat) (block : Nat → Nat) : Inode :=
  { Mode := mode, UID := 0, Size := size, ATime := 0, CTime := 0, MTime := 0, DTime := 0,
    GID := 0, LinksCount := 1, Blocks := 0, Flags := 0, Osd1 := [0, 0, 0, 0], Block := block,
    Generation := 0, FileACL := 0, DirACL := 0, FAddr := 0,
    Osd2 := [0, 0, 0, 0, 0, 0, 0, 0, 0, 0, 0, 0] }

/-- A 16-block image: the group descriptor (block 2) puts the inode table in
block 5; inode 2 is a directory of one block, block 7, holding `.`, `..` and the
regular file `a` (inode 3). -/
def rootImage : Bytes :=
  mkImage 16384
    [ (2048 + 8, [5, 0, 0, 0]),
      (5 * 1024 + 128, [0xED, 0x41, 0, 0, 0, 4, 0, 0]),
      (5 * 1024 + 128 + 40, [7, 0, 0, 0]),
      (5 * 1024 + 256, [0xA4, 0x81, 0, 0, 0, 0, 0, 0]),
      (7 * 1024, [2, 0, 0, 0, 12, 0, 1, 2, 46, 0, 0, 0]),
      (7 * 1024 + 12, [2, 0, 0, 0, 12, 0, 2, 2, 46, 46, 0, 0]),
      (7 * 1024 + 24, [3, 0, 0, 0, 0xE8, 3, 1, 1, 97, 0, 0, 0]) ]

/-- A regular file whose only non-null block entry is `Block[12] = 9`. -/
def indirectInode : Inode :=
  mkInode 0o100644 (13 * 1024) (fun i => if i = 12 then 9 else 0)

/-- A 16-block image that is zero everywhere; in particular every slot of
block 9 is the null block. -/
def zeroImage : Bytes := mkImage 16384 []

/-- A regular file of 13 blocks: `Block[11] = 3`, and the single-indirect block
`Block[12] = 9`. -/
def boundaryInode : Inode :=
  mkInode 0o100644 (13 * 1024) (fun i => if i = 11 then 3 else if i = 12 then 9 else 0)

/-- A 16-block image: slot 0 of block 9 names block 4; block 3 ends in the bytes
`1, 2` and block 4 starts with the bytes `3, 4`. -/
def boundaryImage : Bytes :=
  mkImage 16384 [ (9 * 1024, [4, 0, 0, 0]), (4 * 1024 - 2, [1, 2]), (4 * 1024, [3, 4]) ]

/-- A regular file of exactly one block, `Block[0] = 3`. -/
def oneBlockInode : Inode :=
  mkInode 0o100644 1024 (fun i => if i = 0 then 3 else 0)

/-- A regular file of 2500 bytes in the blocks 3, 4 and 5. -/
def threeBlockInode : Inode :=
  mkInode 0o100644 2500 (fun i => if i < 3 then 3 + i else 0)

/-- A file whose logical blocks 0 and 1 are both mapped to block 3. -/
def aliasInode : Inode :=
  mkInode 0o100644 2048 (fun i => if i < 2 then 3 else 0)

/-- A buffer of 1500 bytes: a 1 followed by 2s. -/
def aliasBuffer : Bytes := ⟨1500, fun i => if i = 0 then 1 else 2⟩

/-- A file of 13 blocks whose single-indirect block is `Block[12] = 9`. -/
def selfInode : Inode :=
  mkInode 0o100644 (13 * 1024) (fun i => if i = 12 then 9 else 0)

/-- A 16-block image in which slot 0 of block 9 names block 9 itself: the data
block of logical block 12 is the indirect block that maps it. -/
def selfImage : Bytes := mkImage 16384 [ (9 * 1024, [9, 0, 0, 0]) ]

/-- The four bytes `6, 0, 0, 0`. -/
def sixBuffer : Bytes := Bytes.ofList [6, 0, 0, 0]

/-- A buffer of 1500 bytes, each equal to 7. -/
def sevenBuffer : Bytes := ⟨1500, fun _ => 7⟩

/-- A 16-block image like `rootImage` whose directory block 7 holds `.` with
`recLen = 1016` followed by a final 8-byte record with inode 5 and an empty name. -/
def shortTailImage : Bytes :=
  mkImage 16384
    [ (2048 + 8, [5, 0, 0, 0]),
      (5 * 1024 + 128, [0xED, 0x41, 0, 0, 0, 4, 0, 0]),
      (5 * 1024 + 128 + 40, [7, 0, 0, 0]),
      (7 * 1024, [2, 0, 0, 0, 0xF8, 3, 1, 2, 46, 0, 0, 0]),
      (7 * 1024 + 1016, [5, 0, 0, 0, 8, 0, 0, 1]) ]

/-- A 16-block image like `rootImage` whose directory block 7 holds `.` with
`recLen = 1012` followed by a 12-byte record with inode 5 that declares a name of
250 bytes. -/
def longNameImage : Bytes :=
  mkImage 16384
    [ (2048 + 8, [5, 0, 0, 0]),
      (5 * 1024 + 128, [0xED, 0x41, 0, 0, 0, 4, 0, 0]),
      (5 * 1024 + 128 + 40, [7, 0, 0, 0]),
      (7 * 1024, [2, 0, 0, 0, 0xF4, 3, 1, 2, 46, 0, 0, 0]),
      (7 * 1024 + 1012, [5, 0, 0, 0, 12, 0, 250, 1, 97, 0, 0, 0]) ]

/-- The inodes of a listing; the empty list when the call did not return one. -/
def listedInodes : Outcome (List DirEntry) → List Nat
  | .ok l => l.map (fun e => e.Inode)
  | _ => []

/-- Whether a call ended in a run-time panic. -/
def Outcome.isPanic {α : Type} : Outcome α → Bool
  | .panic => true
  | _ => false

/-- A geometry with one group of 64 blocks and 8 inodes on 1024-byte blocks. -/
def fsDevice : Device :=
  { BlockSize := 1024, InodeSize := 128, BlockGroupsCount := 1, BlocksCount := 64,
    InodesCount := 8, BlocksPerGroup := 64, InodesPerGroup := 8,
    GroupDescTableBlock := 2, FirstIno := 4 }

/-- A 64-block image for `fsDevice`: superblock (41 free blocks, 5 free inodes),
a group descriptor with the block bitmap in block 3 (blocks 1..23 in use), the inode
bitmap in block 4 (inodes 1..3 in use) and the inode table in block 5.  Inode 2 is
the root directory (block 7: `.`, `..`, `a`); inode 3 is the regular file `a` with
`Size = 268 * 1024` and no double-indirect block. -/
def fsImage : Bytes :=
  mkImage 65536
    [ (1024, [8, 0, 0, 0, 64, 0, 0, 0]),
      (1024 + 12, [41, 0, 0, 0, 5, 0, 0, 0]),
      (1024 + 56, [0x53, 0xEF]),
      (1024 + 76, [1, 0, 0, 0]),
      (2048, [3, 0, 0, 0, 4, 0, 0, 0, 5, 0, 0, 0, 41, 0, 5, 0, 1, 0]),
      (3072, [0xFF, 0xFF, 0x7F, 0, 0, 0, 0, 0]),
      (4096, [0x07]),
      (5 * 1024 + 128, [0xED, 0x41, 0, 0, 0, 4, 0, 0]),
      (5 * 1024 + 128 + 26, [2, 0]),
      (5 * 1024 + 128 + 40, [7, 0, 0, 0]),
      (5 * 1024 + 256, [0xA4, 0x81, 0, 0, 0, 0x30, 4, 0]),
      (5 * 1024 + 256 + 26, [1, 0]),
      (7 * 1024, [2, 0, 0, 0, 12, 0, 1, 2, 46, 0, 0, 0]),
      (7 * 1024 + 12, [2, 0, 0, 0, 12, 0, 2, 2, 46, 46, 0, 0]),
      (7 * 1024 + 24, [3, 0, 0, 0, 0xE8, 3, 1, 1, 97, 0, 0, 0]) ]

/-- The geometry of `fsDevice` on 2048-byte blocks: the descriptor table is in
block 1. -/
def fsDevice2k : Device :=
  { BlockSize := 2048, InodeSize := 128, BlockGroupsCount := 1, BlocksCount := 64,
    InodesCount := 8, BlocksPerGroup := 64, InodesPerGroup := 8,
    GroupDescTableBlock := 1, FirstIno := 4 }

/-- A 64-block image for `fsDevice2k`: block bitmap in block 2 (blocks 1..23 in use),
inode bitmap in block 3, inode table in block 4; inode 2 is the root directory in
block 7. -/
def fsImage2k : Bytes :=
  mkImage 131072
    [ (1024, [8, 0, 0, 0, 64, 0, 0, 0]),
      (1024 + 12, [41, 0, 0, 0, 5, 0, 0, 0]),
      (1024 + 24, [1, 0, 0, 0]),
      (1024 + 56, [0x53, 0xEF]),
      (1024 + 76, [1, 0, 0, 0]),
      (2048, [2, 0, 0, 0, 3, 0, 0, 0, 4, 0, 0, 0, 41, 0, 5, 0, 1, 0]),
      (2 * 2048, [0xFF, 0xFF, 0x7F, 0, 0, 0, 0, 0]),
      (3 * 2048, [0x07]),
      (4 * 2048 + 128, [0xED, 0x41, 0, 0, 0, 8, 0, 0]),
      (4 * 2048 + 128 + 26, [2, 0]),
      (4 * 2048 + 128 + 40, [7, 0, 0, 0]),
      (7 * 2048, [2, 0, 0, 0, 12, 0, 1, 2, 46, 0, 0, 0]),
      (7 * 2048 + 12, [2, 0, 0, 0, 0xF4, 7, 2, 2, 46, 46, 0, 0]) ]

/-- The value of a call that returned normally. -/
def Outcome.value? {α : Type} : Outcome (Ret α) → Option α
  | .ok r => some r.val
  | _ => none

/-- The error of a call that returned normally (`none`: a nil error). -/
def Outcome.err? {α : Type} : Outcome (Ret α) → Option (Option Error)
  | .ok r => some r.err
  | _ => none

/-- The backing file after a call; the given file when the call did not return. -/
def Outcome.imgOr {α : Type} (o : Outcome (Ret α)) (img : Bytes) : Bytes :=
  match o with
  | .ok r => r.img
  | _ => img

/-- The names of a listing. -/
def listedNames : Outcome (List DirEntry) → List GoString
  | .ok l => l.map (fun e => e.NameStr)
  | _ => []

/-- The entry `b` for inode 5: a record of 12 bytes for a regular file. -/
def entryB : DirEntry :=
  { Inode := 5, RecLen := 12, NameLen := 1, FileType := 1, Name := [98] }

/-! ## Specification predicates -/

/-- The bitmap has a clear bit. -/
def Bitmap.HasClear (bmp : Bytes) : Prop :=
  ∃ i, i < 8 * bmp.size ∧ Bitmap.IsFree bmp i = true

/-- Bit `i` is the lowest clear bit of the bitmap. -/
def Bitmap.LowestClear (bmp : Bytes) (i : Nat) : Prop :=
  i < 8 * bmp.size ∧ Bitmap.IsFree bmp i = true ∧ ∀ j, j < i → Bitmap.IsFree bmp j = false

/-- The least multiple of `bs` that is at least `size`. -/
def roundUp (size bs : Nat) : Nat := (size + bs - 1) / bs * bs

/-- Every logical block below `ceil(Size / BlockSize)` is mapped: `DataBlock`
gives a non-null block that lies inside the image. -/
def MappedBelow (d : Device) (img : Bytes) (inode : Inode) : Prop :=
  ∀ L, L * d.BlockSize < inode.Size →
    ∃ blk, d.DataBlock img inode L = .ok blk ∧ blk ≠ EXT2_NULL_BLOCK ∧
      d.blockOffset blk + d.BlockSize ≤ img.size

/-- The content of logical block `i` of a file: the `BlockSize` image bytes of the
block that `DataBlock` gives for `i`. -/
def dataBlockBytes (d : Device) (img : Bytes) (inode : Inode) (i : Nat) : Bytes :=
  match d.DataBlock img inode i with
  | .ok blk => ⟨d.BlockSize, fun k => img.get (d.blockOffset blk + k)⟩
  | .error _ => Bytes.zeros d.BlockSize

/-- The directory record that starts at byte `pos` of a block, as an entry:
`inode:u32, recLen:u16, nameLen:u8, fileType:u8, name[nameLen]`. -/
def recordEntry (blk : Bytes) (pos : Nat) : DirEntry :=
  { Inode := le32 blk pos
    RecLen := le16 blk (pos + 4)
    NameLen := (blk.get (pos + 6)).val
    FileType := (blk.get (pos + 7)).val
    Name := entryName (blk.drop pos) (blk.get (pos + 6)).val }

/-- `Partitioned blk pos starts`: from byte `pos` to its end the block is exactly
partitioned by well-formed records (`recLen ≥ 8 + nameLen`, each record followed
by the next, the last one ending at the block end); `starts` lists where the
records begin. -/
inductive Partitioned (blk : Bytes) : Nat → List Nat → Prop where
  | done : Partitioned blk blk.size []
  | cons (pos next : Nat) (rest : List Nat) :
      8 + (blk.get (pos + 6)).val ≤ le16 blk (pos + 4) →
      next = pos + le16 blk (pos + 4) →
      next ≤ blk.size →
      Partitioned blk next rest →
      Partitioned blk pos (pos :: rest)

/-- The entries a listing owes to one block: in on-disk order, the records with a
non-zero inode field that start more than 8 bytes before the block end. -/
def listedEntries (blk : Bytes) : List Nat → List DirEntry
  | [] => []
  | pos :: rest =>
    if le32 blk pos ≠ EXT2_NULL_INO ∧ pos + 8 < blk.size
    then recordEntry blk pos :: listedEntries blk rest
    else listedEntries blk rest

/-- The entries of the blocks `i, i+1, ..., i+cnt-1`, block after block. -/
def listedBlocks (f : Nat → List DirEntry) : Nat → Nat → List DirEntry
  | 0, _ => []
  | cnt + 1, i => f i ++ listedBlocks f cnt (i + 1)

/-- Every logical block that overlaps the byte range `[off, off+len)` is mapped:
`DataBlock` gives a non-null block that lies inside the image. -/
def CoverMapped (d : Device) (img : Bytes) (inode : Inode) (off len : Nat) : Prop :=
  ∀ L, off / d.BlockSize ≤ L → L * d.BlockSize < off + len →
    ∃ blk, d.DataBlock img inode L = .ok blk ∧ blk ≠ EXT2_NULL_BLOCK ∧
      d.blockOffset blk + d.BlockSize ≤ img.size

/-- The logical blocks that overlap `[off, off+len)` are mapped to pairwise
distinct blocks. -/
def CoverDistinct (d : Device) (img : Bytes) (inode : Inode) (off len : Nat) : Prop :=
  ∀ L1 L2 blk, off / d.BlockSize ≤ L1 → L1 * d.BlockSize < off + len →
    off / d.BlockSize ≤ L2 → L2 * d.BlockSize < off + len →
    d.DataBlock img inode L1 = .ok blk → d.DataBlock img inode L2 = .ok blk → L1 = L2

/-- The block map of the range `[off, off+len)` does not depend on the content of
the data blocks of that range: every image of the same size that agrees with `img`
outside those data blocks maps the overlapping logical blocks as `img` does.  (No
data block of the range holds an indirect slot used to resolve a block of the
range.) -/
def CoverStable (d : Device) (img : Bytes) (inode : Inode) (off len : Nat) : Prop :=
  ∀ img1 : Bytes, img1.size = img.size →
    (∀ p, (∀ L blk, off / d.BlockSize ≤ L → L * d.BlockSize < off + len →
        d.DataBlock img inode L = .ok blk →
        ¬ (d.blockOffset blk ≤ p ∧ p < d.blockOffset blk + d.BlockSize)) →
      img1.get p = img.get p) →
    ∀ L, off / d.BlockSize ≤ L → L * d.BlockSize < off + len →
      d.DataBlock img1 inode L = d.DataBlock img inode L

/-- Bytes `0 .. n-1` of `b` are stored in `cur` at the image positions that the
block map of `img` gives to the file positions `off .. off+n-1`. -/
def StoredAt (d : Device) (img : Bytes) (inode : Inode) (off : Nat) (b : Bytes) (n : Nat)
    (cur : Bytes) : Prop :=
  ∀ k, k < n → ∃ blk, d.DataBlock img inode ((off + k) / d.BlockSize) = .ok blk ∧
    cur.get (d.blockOffset blk + (off + k) % d.BlockSize) = b.get k

/-- `cur` has the size of `img` and differs from it at most at the image
positions of the file positions `off .. off+n-1`. -/
def OnlyChanged (d : Device) (img : Bytes) (inode : Inode) (off n : Nat) (cur : Bytes) :
    Prop :=
  cur.size = img.size ∧
  ∀ p, (∀ k blk, k < n → d.DataBlock img inode ((off + k) / d.BlockSize) = .ok blk →
      p ≠ d.blockOffset blk + (off + k) % d.BlockSize) →
    cur.get p = img.get p

/-- The first `n` bytes of `buf` are the file content from byte `off` on: byte
`k` is the image byte at offset `(off+k) mod BlockSize` of the block that
`DataBlock` gives for logical block `(off+k) div BlockSize`. -/
def ContentFrom (d : Device) (img : Bytes) (inode : Inode) (off : Nat) (buf : Bytes)
    (n : Nat) : Prop :=
  ∀ k, k < n → ∃ blk, d.DataBlock img inode ((off + k) / d.BlockSize) = .ok blk ∧
    buf.get k = img.get (d.blockOffset blk + (off + k) % d.BlockSize)

/-- Every group from step `k` up to step `m` of the cyclic order has a readable
bitmap without a free bit. -/
def AllFull (bitmap : Nat → Except Error Bytes) (g G k m : Nat) : Prop :=
  ∀ j, k ≤ j → j < m → ∃ b, bitmap ((g + j) % G) = .ok b ∧ Bitmap.FindFree b = -1

/-- The bitmap of group `q` as the group descriptor on disk locates it:
`perGroup / 8` bytes at the start of the bitmap block. -/
def Device.bitmapAt (d : Device) (img : Bytes) (r : Resource) (q : Nat) : Bytes :=
  ⟨d.perGroup r / 8, fun k =>
    img.get (d.blockOffset
      ((decodeGroupDescriptor img (d.groupDescriptorOffset q)).bitmapBlock r) + k)⟩

/-- A geometry with two groups of 32 blocks and 8 inodes on 1024-byte blocks. -/
def twoGroupDevice : Device :=
  { BlockSize := 1024, InodeSize := 128, BlockGroupsCount := 2, BlocksCount := 64,
    InodesCount := 16, BlocksPerGroup := 32, InodesPerGroup := 8,
    GroupDescTableBlock := 2, FirstIno := 4 }

/-- A 64-block image for `twoGroupDevice`: superblock (20 free blocks, 6 free
inodes); group 0 has its bitmaps in blocks 3 and 4 and no free block or inode;
group 1 has its bitmaps in blocks 35 and 36, 20 free blocks and 6 free inodes
(inodes 9 and 10 in use). -/
def twoGroupImage : Bytes :=
  mkImage 65536
    [ (1024, [16, 0, 0, 0, 64, 0, 0, 0]),
      (1024 + 12, [20, 0, 0, 0, 6, 0, 0, 0]),
      (1024 + 56, [0x53, 0xEF]),
      (1024 + 76, [1, 0, 0, 0]),
      (2048, [3, 0, 0, 0, 4, 0, 0, 0, 5, 0, 0, 0, 0, 0, 0, 0, 1, 0]),
      (2048 + 32, [35, 0, 0, 0, 36, 0, 0, 0, 37, 0, 0, 0, 20, 0, 6, 0, 0, 0]),
      (3 * 1024, [0xFF, 0xFF, 0xFF, 0xFF]),
      (4 * 1024, [0xFF]),
      (35 * 1024, [0xFF, 0x0F, 0, 0]),
      (36 * 1024, [0x03]) ]

/-- The file after `allocInode`/`AllocInode` (or the block versions) picked bit
`i` of group `p`: the three writes of the Go code, the bitmap byte with the bit
set, the group's free count minus one and the superblock's free count minus one. -/
def Device.pickImage (d : Device) (img : Bytes) (r : Resource) (p i : Nat) : Bytes :=
  writeAt
    (writeAt
      (writeAt img
        (d.blockOffset ((decodeGroupDescriptor img (d.groupDescriptorOffset p)).bitmapBlock r)
          + i / 8)
        (fun _ => toByte ((img.get (d.blockOffset
          ((decodeGroupDescriptor img (d.groupDescriptorOffset p)).bitmapBlock r)
            + i / 8)).val ||| (1 <<< (i % 8)))) 1)
      (d.groupDescriptorOffset p + bgFreeCountOffset r)
      (putLE (sub16 ((decodeGroupDescriptor img (d.groupDescriptorOffset p)).freeCount r) 1)) 2)
    (BASE_OFFSET + sFreeCountOffset r)
    (putLE (sub32 ((decodeSuperBlock img BASE_OFFSET).freeCount r) 1)) 4

/-- The result of a call that returned normally. -/
def Outcome.ok? {α : Type} : Outcome α → Option α
  | .ok a => some a
  | _ => none

/-- First byte of the bitmap of group `q`, as the group descriptor on disk
locates it. -/
def Device.bitmapStart (d : Device) (img : Bytes) (r : Resource) (q : Nat) : Nat :=
  d.blockOffset ((decodeGroupDescriptor img (d.groupDescriptorOffset q)).bitmapBlock r)

/-- The free count of the resource in the descriptor of group `q` on disk. -/
def Device.groupFree (d : Device) (img : Bytes) (r : Resource) (q : Nat) : Nat :=
  (decodeGroupDescriptor img (d.groupDescriptorOffset q)).freeCount r

/-- The free count of the resource in the superblock on disk. -/
def superFree (img : Bytes) (r : Resource) : Nat :=
  (decodeSuperBlock img BASE_OFFSET).freeCount r

/-- Offset of the bitmap block number inside a group descriptor (`bg_inode_bitmap`
is at 4, `bg_block_bitmap` at 0). -/
def bgBitmapOffset : Resource → Nat
  | .inode => 4
  | .block => 0

/-- The image `fsImage` with the descriptor's `FreeInodesCount` set to 0 although
the inode bitmap still has clear bits. -/
def staleCountImage : Bytes := writeAt fsImage (2048 + 14) (fun _ => 0) 2

/-- The superblock, the group descriptor table and the bitmaps of the resource
occupy pairwise disjoint byte ranges of the file. -/
def Device.Layout (d : Device) (img : Bytes) (r : Resource) : Prop :=
  (d.groupDescriptorOffset 0 + 32 * d.BlockGroupsCount ≤ BASE_OFFSET ∨
    BASE_OFFSET + 1024 ≤ d.groupDescriptorOffset 0) ∧
  (∀ q, q < d.BlockGroupsCount →
    (d.bitmapStart img r q + d.perGroup r / 8 ≤ BASE_OFFSET ∨
      BASE_OFFSET + 1024 ≤ d.bitmapStart img r q) ∧
    (d.bitmapStart img r q + d.perGroup r / 8 ≤ d.groupDescriptorOffset 0 ∨
      d.groupDescriptorOffset 0 + 32 * d.BlockGroupsCount ≤ d.bitmapStart img r q)) ∧
  (∀ q q2, q < d.BlockGroupsCount → q2 < d.BlockGroupsCount → q ≠ q2 →
    d.bitmapStart img r q + d.perGroup r / 8 ≤ d.bitmapStart img r q2 ∨
    d.bitmapStart img r q2 + d.perGroup r / 8 ≤ d.bitmapStart img r q)

/-- A geometry with one group of 1024 inodes: the inode bitmap has 128 bytes. -/
def overlapDevice : Device :=
  { BlockSize := 1024, InodeSize := 128, BlockGroupsCount := 1, BlocksCount := 64,
    InodesCount := 1024, BlocksPerGroup := 64, InodesPerGroup := 1024,
    GroupDescTableBlock := 2, FirstIno := 11 }

/-- An image for `overlapDevice` whose descriptor names block 2, the descriptor
table itself, as the inode bitmap: the bitmap's byte 4 is the low byte of the
descriptor's `InodeBitmap` field.  Block 3 holds a bitmap with inodes 1..32 in
use. -/
def overlapImage : Bytes :=
  mkImage 65536
    [ (1024, [0, 4, 0, 0, 64, 0, 0, 0]),
      (1024 + 12, [41, 0, 0, 0, 9, 0, 0, 0]),
      (1024 + 56, [0x53, 0xEF]),
      (1024 + 76, [1, 0, 0, 0]),
      (2048, [0xFF, 0xFF, 0xFF, 0xFF, 2, 0, 0, 0, 5, 0, 0, 0, 41, 0, 5, 0, 1, 0]),
      (3072, [0xFF, 0xFF, 0xFF, 0xFF, 0xFE]) ]

/-- Number of clear bits among the first `n` bits of a bitmap. -/
def countClear (bmp : Bytes) : Nat → Nat
  | 0 => 0
  | n + 1 => countClear bmp n + (if Bitmap.IsFree bmp n then 1 else 0)

/-- Number of clear bits in the bitmap of group `q` on disk. -/
def Device.clearBits (d : Device) (img : Bytes) (r : Resource) (q : Nat) : Nat :=
  countClear (d.bitmapAt img r q) (8 * (d.perGroup r / 8))

/-- The sum `f 0 + ... + f (n-1)`. -/
def sumTo (f : Nat → Nat) : Nat → Nat
  | 0 => 0
  | n + 1 => sumTo f n + f n

/-- Counter/bitmap consistency of the resource: every group's descriptor count is
the number of clear bits of its bitmap, and the superblock count is the sum of
the descriptor counts. -/
def Device.Consistent (d : Device) (img : Bytes) (r : Resource) : Prop :=
  (∀ q, q < d.BlockGroupsCount → d.clearBits img r q = d.groupFree img r q) ∧
  sumTo (d.groupFree img r) d.BlockGroupsCount = superFree img r

/-- `Inode.IsReg` of inode.go. -/
def Inode.IsReg (i : Inode) : Bool := (i.Mode &&& S_IFREG) != 0

/-- Every inode record of every group lies outside the group descriptor table. -/
def Device.InodeTableApart (d : Device) (img : Bytes) : Prop :=
  ∀ q idx, q < d.BlockGroupsCount → idx < d.InodesPerGroup →
    d.inodeOffset (decodeGroupDescriptor img (d.groupDescriptorOffset q)).InodeTable idx + 128
      ≤ d.groupDescriptorOffset 0 ∨
    d.groupDescriptorOffset 0 + 32 * d.BlockGroupsCount
      ≤ d.inodeOffset (decodeGroupDescriptor img (d.groupDescriptorOffset q)).InodeTable idx

/-- The length `(8 + nameLen + 3) &^ 3` of a record's payload, rounded up to a
multiple of 4, computed without wrap-around. -/
def alignedLen (nameLen : Nat) : Nat := (8 + nameLen + 3) / 4 * 4

/-- The Go expression `uint32(((8 + entry.NameLen) + 3) &^ 0x03)` of
`DirEntryOffset`, evaluated in `uint8` as the code does. -/
def lastLenOf (nameLen : Nat) : Nat :=
  ((8 + nameLen) % 256 + 3) % 256 - ((8 + nameLen) % 256 + 3) % 256 % 4

/-- What two listings are compared on: inode, name length, file type and name. -/
def DirEntry.key (e : DirEntry) : Nat × Nat × Nat × GoString :=
  (e.Inode, e.NameLen, e.FileType, e.NameStr)

/-- Appending to the directory `ino` does not disturb its own bookkeeping: the
used-directories count of its group lies outside the last data block `B`; the
earlier data blocks overlap neither the last one nor that count; and on every
file that differs only in the last data block and in that count, the inode in
memory maps the directory's blocks as before, and the inode read back is again a
directory of the same size that maps them as before. -/
def Device.AppendSafe (d : Device) (img : Bytes) (ino : Nat) (inode : Inode) (B : Nat) : Prop :=
  (d.groupDescriptorOffset (sub32 ino 1 / d.InodesPerGroup) + BG_USED_DIRS_COUNT + 2
      ≤ d.blockOffset B ∨
    d.blockOffset B + d.BlockSize
      ≤ d.groupDescriptorOffset (sub32 ino 1 / d.InodesPerGroup) + BG_USED_DIRS_COUNT) ∧
  (∀ i blk, i + 1 < inode.Size / d.BlockSize → d.DataBlock img inode i = .ok blk →
    (d.blockOffset blk + d.BlockSize ≤ d.blockOffset B ∨
      d.blockOffset B + d.BlockSize ≤ d.blockOffset blk) ∧
    (d.groupDescriptorOffset (sub32 ino 1 / d.InodesPerGroup) + BG_USED_DIRS_COUNT + 2
        ≤ d.blockOffset blk ∨
      d.blockOffset blk + d.BlockSize
        ≤ d.groupDescriptorOffset (sub32 ino 1 / d.InodesPerGroup) + BG_USED_DIRS_COUNT)) ∧
  (∀ img1 : Bytes, img1.size = img.size →
    (∀ p, ¬ (d.blockOffset B ≤ p ∧ p < d.blockOffset B + d.BlockSize) →
      ¬ (d.groupDescriptorOffset (sub32 ino 1 / d.InodesPerGroup) + BG_USED_DIRS_COUNT ≤ p ∧
        p < d.groupDescriptorOffset (sub32 ino 1 / d.InodesPerGroup) + BG_USED_DIRS_COUNT + 2) →
      img1.get p = img.get p) →
    (∀ i, i * d.BlockSize < inode.Size →
      d.DataBlock img1 inode i = d.DataBlock img inode i) ∧
    ∃ inode1, d.NewInode img1 ino = .ok inode1 ∧ inode1.IsDir = true ∧
      inode1.Size = inode.Size ∧
      ∀ i, i * d.BlockSize < inode.Size →
        d.DataBlock img1 inode1 i = d.DataBlock img inode i)

/-- The file after `AppendDirEntry` wrote the new record at byte `o` of block `B`,
the length `len` into the `recLen` field of the record at byte `pf`, and the
incremented used-directories count of group `g`. -/
def Device.appendImage (d : Device) (img : Bytes) (g B pf len o : Nat) (e : DirEntry) : Bytes :=
  writeAt
    (writeAt
      (writeAt img (d.blockOffset B + o)
        (encodeEntry e.Inode (d.BlockSize - o) e.NameLen e.FileType e.Name) e.RecLen)
      (d.blockOffset B + (pf + 4)) (putLE len) 2)
    (d.groupDescriptorOffset g + BG_USED_DIRS_COUNT)
    (putLE ((le16
      (writeAt
        (writeAt img (d.blockOffset B + o)
          (encodeEntry e.Inode (d.BlockSize - o) e.NameLen e.FileType e.Name) e.RecLen)
        (d.blockOffset B + (pf + 4)) (putLE len) 2)
      (d.groupDescriptorOffset g + BG_USED_DIRS_COUNT) + 1) % 2 ^ 16)) 2

/-- The image `fsImage` with a cross-linked root directory: inode 2 has
`Size = 2048` and `Block[0] = Block[1] = 7`, so both logical blocks of the
directory are the physical block 7. -/
def crossLinkImage : Bytes :=
  mkImage 65536
    [ (1024, [8, 0, 0, 0, 64, 0, 0, 0]),
      (1024 + 12, [41, 0, 0, 0, 5, 0, 0, 0]),
      (1024 + 56, [0x53, 0xEF]),
      (1024 + 76, [1, 0, 0, 0]),
      (2048, [3, 0, 0, 0, 4, 0, 0, 0, 5, 0, 0, 0, 41, 0, 5, 0, 1, 0]),
      (3072, [0xFF, 0xFF, 0x7F, 0, 0, 0, 0, 0]),
      (4096, [0x07]),
      (5 * 1024 + 128, [0xED, 0x41, 0, 0, 0, 8, 0, 0]),
      (5 * 1024 + 128 + 26, [2, 0]),
      (5 * 1024 + 128 + 40, [7, 0, 0, 0, 7, 0, 0, 0]),
      (7 * 1024, [2, 0, 0, 0, 12, 0, 1, 2, 46, 0, 0, 0]),
      (7 * 1024 + 12, [2, 0, 0, 0, 12, 0, 2, 2, 46, 46, 0, 0]),
      (7 * 1024 + 24, [3, 0, 0, 0, 0xE8, 3, 1, 1, 97, 0, 0, 0]) ]

/-- An image for `fsDevice` whose root directory (inode 2, one block) has the
group descriptor table, block 2, as its data block.  Read as directory records the
block holds a record of 12 bytes at byte 0 and a final record at byte 12 with
`recLen = 1012`, `nameLen = 1`; the `recLen` field of the final record is the
descriptor's `UsedDirsCount` field. -/
def gdtDirImage : Bytes :=
  mkImage 65536
    [ (1024, [8, 0, 0, 0, 64, 0, 0, 0]),
      (1024 + 12, [41, 0, 0, 0, 5, 0, 0, 0]),
      (1024 + 56, [0x53, 0xEF]),
      (1024 + 76, [1, 0, 0, 0]),
      (2048, [3, 0, 0, 0, 12, 0, 0, 0, 5, 0, 0, 0, 41, 0, 5, 0, 0xF4, 3, 1, 2, 0x78]),
      (3072, [0xFF, 0xFF, 0x7F, 0, 0, 0, 0, 0]),
      (12 * 1024, [0x07]),
      (5 * 1024 + 128, [0xED, 0x41, 0, 0, 0, 4, 0, 0]),
      (5 * 1024 + 128 + 26, [2, 0]),
      (5 * 1024 + 128 + 40, [2, 0, 0, 0]) ]

/-- `Bitmap.Free`: the bitmap after `bmp[index/8] &^= 1 << (index%8)`; the
complement of the mask is taken in the eight bits of a byte. -/
def Bitmap.Free (bmp : Bytes) (index : Nat) : Bytes :=
  ⟨bmp.size, fun k =>
    if k = index / 8 then toByte ((bmp.get k).val &&& (255 ^^^ (1 <<< (index % 8))))
    else bmp.get k⟩

/-! ## constants.go, inode.go : the file-type predicates -/

def S_IFMT : Nat := 0o170000
def S_IFSOCK : Nat := 0o140000
def S_IFLNK : Nat := 0o120000
def S_IFBLK : Nat := 0o060000
def S_IFCHR : Nat := 0o020000
def S_IFIFO : Nat := 0o010000

def Inode.IsChr (i : Inode) : Bool := (i.Mode &&& S_IFCHR) != 0

def Inode.IsBlk (i : Inode) : Bool := (i.Mode &&& S_IFBLK) != 0

def Inode.IsFIFO (i : Inode) : Bool := (i.Mode &&& S_IFIFO) != 0

def Inode.IsLnk (i : Inode) : Bool := (i.Mode &&& S_IFLNK) != 0

def Inode.IsSock (i : Inode) : Bool := (i.Mode &&& S_IFSOCK) != 0

/-- The answers of the seven predicates for one inode, in the order `IsSock`,
`IsLnk`, `IsReg`, `IsBlk`, `IsDir`, `IsChr`, `IsFIFO`. -/
def Inode.typeAnswers (i : Inode) : List Bool :=
  [i.IsSock, i.IsLnk, i.IsReg, i.IsBlk, i.IsDir, i.IsChr, i.IsFIFO]

/-- The image `fsImage` with the mode of inode 2 set to `0140755`: a socket. -/
def socketImage : Bytes := writeAt fsImage (5 * 1024 + 128) (putLE 0o140755) 2

/-- The image `fsImage` with the name length of the final record `a` of the root
directory set to 250; the record keeps `recLen = 1000`. -/
def wideNameImage : Bytes := writeAt fsImage (7 * 1024 + 24 + 6) (fun _ => 250) 1

/-- The image `fsImage` with every bit of the inode bitmap set; the superblock
still says 5 free inodes. -/
def fullInodesImage : Bytes := writeAt fsImage 4096 (fun _ => 255) 1

/-- The image `fsImage` with every bit of the block bitmap set; the superblock
still says 41 free blocks. -/
def fullBlocksImage : Bytes := writeAt fsImage 3072 (fun _ => 255) 8

/-- The image `fsImage` with `recLen = 0` in the first record of the root
directory block. -/
def zeroRecLenImage : Bytes := writeAt fsImage (7 * 1024 + 4) (fun _ => 0) 2

/-- The image `fsImage` with `recLen = 2000` in the final record of the root
directory block, which has 1000 bytes left. -/
def longRecLenImage : Bytes := writeAt fsImage (7 * 1024 + 24 + 4) (putLE 2000) 2

/-- The image `fsImage` with `recLen = 996` in the final record of the root
directory block: 4 bytes of the block follow the record. -/
def tinyTailImage : Bytes := writeAt fsImage (7 * 1024 + 24 + 4) (putLE 996) 2

/-! ## device.go : NewDevice -/

def EXT2_DEFAULT_BLOCK_SIZE : Nat := 1024
def EXT2_DYNAMIC_REV : Nat := 1

/-- `NewDevice` once the file is open: `img` is the file.  The division by
`BlocksPerGroup` panics when that field is zero. -/
def NewDevice (img : Bytes) : Outcome Device :=
  let device : Device :=
    { BlockSize := 0, InodeSize := 0, BlockGroupsCount := 0, BlocksCount := 0,
      InodesCount := 0, BlocksPerGroup := 0, InodesPerGroup := 0,
      GroupDescTableBlock := 0, FirstIno := 0 }
  match device.NewSuperBlock img with
  | .error e => .error e
  | .ok super =>
    if super.RevLevel < EXT2_DYNAMIC_REV then .error Error.OldRevision
    else if super.BlocksPerGroup = 0 then .panic
    else
      .ok { BlockSize := (EXT2_DEFAULT_BLOCK_SIZE <<< super.LogBlockSize) % 2 ^ 32
            BlockGroupsCount := (1 + sub32 super.BlocksCount 1 / super.BlocksPerGroup) % 2 ^ 32
            BlocksCount := super.BlocksCount
            InodesCount := super.InodesCount
            BlocksPerGroup := super.BlocksPerGroup
            InodesPerGroup := super.InodesPerGroup
            InodeSize := super.InodeSize
            GroupDescTableBlock := (super.FirstDataBlock + 1) % 2 ^ 32
            FirstIno := super.FirstIno }

/-- The error of a call that returned one. -/
def Outcome.error? {α : Type} : Outcome α → Option Error
  | .error e => some e
  | _ => none

/-- The image `fsImage` with the superblock field `RevLevel` set to 0. -/
def revZeroImage : Bytes := writeAt fsImage (1024 + 76) (fun _ => 0) 4

/-! ## inode.go : UpdateInode -/

/-- `Device.UpdateInode(inodeNo, value, offset)` for `offset ≥ 0`; `value` holds the
bytes that `binary.Write` produces for the value.  The division by
`InodesPerGroup` panics when that field is zero. -/
def Device.UpdateInode (d : Device) (img : Bytes) (inodeNo : Nat) (value : Bytes)
    (offset : Nat) : Outcome (Ret Unit) :=
  if d.InodesPerGroup = 0 then .panic
  else
    let groupNo := sub32 inodeNo 1 / d.InodesPerGroup
    let inodeIdx := sub32 inodeNo 1 % d.InodesPerGroup
    match d.NewGroupDescriptor img groupNo with
    | .error e => .ok ⟨(), some e, img⟩
    | .ok group =>
      .ok ⟨(), none,
        writeAt img (d.inodeOffset group.InodeTable inodeIdx + offset) value.get value.size⟩

/-- The byte offset of slot `i` of the inode table of group `p`, the table being
the one that the group descriptor on disk names:
`blockOffset(InodeTable) + i * InodeSize`. -/
def Device.inodeSlot (d : Device) (img : Bytes) (p i : Nat) : Nat :=
  d.blockOffset (decodeGroupDescriptor img (d.groupDescriptorOffset p)).InodeTable
    + i * d.InodeSize

/-! ## reader.go -/

/-- `InodeReader`.  The file behind the device is passed to `Read`. -/
structure InodeReader where
  Device : Ext2fs.Device
  Inode : Ext2fs.Inode
  CurrPos : Int
  EOF : Bool

/-- `NewInodeReader`: the position and the flag are zero values. -/
def NewInodeReader (device : Device) (inode : Inode) : InodeReader :=
  { Device := device, Inode := inode, CurrPos := 0, EOF := false }

/-- What a call of `InodeReader.Read` leaves: the count, the error, the buffer of
the caller and the reader. -/
structure ReaderResult where
  n : Int
  err : Option Error
  buf : Bytes
  reader : InodeReader

/-- `InodeReader.Read(p)` on the file `img`.  `ReadData` is embedded for offsets
`≥ 0`, which is where `CurrPos` stays; the sums are `int64` sums. -/
def InodeReader.Read (r : InodeReader) (img : Bytes) (p : Bytes) : ReaderResult :=
  let res := r.Device.ReadData img r.Inode p r.CurrPos.toNat
  let n : Int :=
    if int64Wrap ((res.n : Int) + r.CurrPos) > (r.Inode.Size : Int)
    then int64Wrap ((r.Inode.Size : Int) - r.CurrPos)
    else (res.n : Int)
  { n := n, err := res.err, buf := res.buf,
    reader := { r with CurrPos := int64Wrap (r.CurrPos + n) } }

/-- Successive `Read` calls, one for each buffer of the list: the results in call
order. -/
def InodeReader.readAll (img : Bytes) : InodeReader → List Bytes → List ReaderResult
  | _, [] => []
  | r, p :: ps => r.Read img p :: InodeReader.readAll img (r.Read img p).reader ps

/-- The reader after a sequence of calls. -/
def InodeReader.after (r : InodeReader) : List ReaderResult → InodeReader
  | [] => r
  | x :: xs => InodeReader.after x.reader xs

/-- The sum of the counts returned by a sequence of calls. -/
def totalCount : List ReaderResult → Int
  | [] => 0
  | x :: xs => x.n + totalCount xs

/-- Call by call, from file position `pos`: the count lies between 0 and the
length of the buffer, and the first `n` bytes of the buffer are the file content
from the position where the calls before stopped. -/
def Delivered (d : Device) (img : Bytes) (inode : Inode) :
    Int → List Bytes → List ReaderResult → Prop
  | _, [], [] => True
  | pos, p :: ps, x :: xs =>
    0 ≤ x.n ∧ x.n ≤ (p.size : Int) ∧ x.buf.size = p.size ∧
    ContentFrom d img inode pos.toNat x.buf x.n.toNat ∧
    Delivered d img inode (pos + x.n) ps xs
  | _, _, _ => False



end Ext2fs

namespace Ext2fs

/-! ## Theorems -/

theorem sub32_eq (a b : Nat) (hb : b ≤ a) (ha : a < 2 ^ 32) : sub32 a b = a - b := by
  unfold sub32
  omega

theorem mul32_eq (a b : Nat) (h : a * b < 2 ^ 32) : mul32 a b = a * b := by
  unfold mul32
  exact Nat.mod_eq_of_lt h

theorem Offsets_direct (d : Device) (L : Nat) (h : L < 12) :
    d.Offsets L = ((L : Int), -1, -1, -1) := by
  simp [Device.Offsets, EXT2_NDIR_BLOCKS, h]

theorem Offsets_single (d : Device) (L : Nat) (h1 : 12 ≤ L) (h2 : L < 12 + d.BlockSize / 4)
    (h3 : L < 2 ^ 32) :
    d.Offsets L = (-1, ((L - 12 : Nat) : Int), -1, -1) := by
  unfold Device.Offsets
  have e1 : sub32 L EXT2_NDIR_BLOCKS = L - 12 := sub32_eq L 12 h1 h3
  have hn : ¬ L < EXT2_NDIR_BLOCKS := by simp [EXT2_NDIR_BLOCKS]; omega
  simp only [if_neg hn, e1]
  rw [if_pos (by omega)]

theorem Offsets_double (d : Device) (L : Nat) (h1 : 12 + d.BlockSize / 4 ≤ L)
    (h2 : L < 12 + d.BlockSize / 4 + (d.BlockSize / 4) * (d.BlockSize / 4))
    (h3 : L < 2 ^ 32) (h4 : (d.BlockSize / 4) * (d.BlockSize / 4) < 2 ^ 32) :
    d.Offsets L = (-1, (((L - 12 - d.BlockSize / 4) % (d.BlockSize / 4) : Nat) : Int),
        (((L - 12 - d.BlockSize / 4) / (d.BlockSize / 4) : Nat) : Int), -1) := by
  unfold Device.Offsets
  generalize hn : d.BlockSize / 4 = n at *
  have e1 : sub32 L EXT2_NDIR_BLOCKS = L - 12 := sub32_eq L 12 (by omega) h3
  have e2 : sub32 (L - 12) n = L - 12 - n := sub32_eq _ _ (by omega) (by omega)
  have e3 : mul32 n n = n * n := mul32_eq _ _ h4
  have hd : ¬ L < EXT2_NDIR_BLOCKS := by simp [EXT2_NDIR_BLOCKS]; omega
  have hdm := Nat.div_add_mod' (L - 12 - n) n
  have e4 : (L - 12 - n) / n % 2 ^ 32 = (L - 12 - n) / n :=
    Nat.mod_eq_of_lt (lt_of_le_of_lt (Nat.div_le_self _ _) (by omega))
  have e5 : mul32 ((L - 12 - n) / n) n = (L - 12 - n) / n * n := mul32_eq _ _ (by omega)
  have e6 : sub32 (L - 12 - n) ((L - 12 - n) / n * n) = (L - 12 - n) % n := by
    rw [sub32_eq _ _ (by omega) (by omega)]
    omega
  simp only [if_neg hd, e1, e2, e3, e4, e5, e6]
  rw [if_neg (by omega), if_pos (by omega)]

theorem Offsets_triple (d : Device) (L : Nat)
    (h1 : 12 + d.BlockSize / 4 + (d.BlockSize / 4) * (d.BlockSize / 4) ≤ L)
    (h2 : L < 12 + d.BlockSize / 4 + (d.BlockSize / 4) * (d.BlockSize / 4)
      + (d.BlockSize / 4) * (d.BlockSize / 4) * (d.BlockSize / 4))
    (h3 : 12 + d.BlockSize / 4 + (d.BlockSize / 4) * (d.BlockSize / 4)
      + (d.BlockSize / 4) * (d.BlockSize / 4) * (d.BlockSize / 4) ≤ 2 ^ 32) :
    d.Offsets L = (-1,
      (((L - 12 - d.BlockSize / 4 - (d.BlockSize / 4) * (d.BlockSize / 4))
          % (d.BlockSize / 4) : Nat) : Int),
      (((L - 12 - d.BlockSize / 4 - (d.BlockSize / 4) * (d.BlockSize / 4)) / (d.BlockSize / 4)
          % (d.BlockSize / 4) : Nat) : Int),
      (((L - 12 - d.BlockSize / 4 - (d.BlockSize / 4) * (d.BlockSize / 4))
          / ((d.BlockSize / 4) * (d.BlockSize / 4)) : Nat) : Int)) := by
  unfold Device.Offsets
  generalize hn : d.BlockSize / 4 = n at *
  generalize hr : L - 12 - n - n * n = r
  have hd : ¬ L < EXT2_NDIR_BLOCKS := by simp [EXT2_NDIR_BLOCKS]; omega
  have e1 : sub32 L EXT2_NDIR_BLOCKS = L - 12 := sub32_eq L 12 (by omega) (by omega)
  have e2 : sub32 (L - 12) n = L - 12 - n := sub32_eq _ _ (by omega) (by omega)
  have e3 : mul32 n n = n * n := mul32_eq _ _ (by omega)
  have e4 : sub32 (L - 12 - n) (n * n) = r := by
    rw [sub32_eq _ _ (by omega) (by omega)]; exact hr
  have e5 : mul32 (n * n) n = n * n * n := mul32_eq _ _ (by omega)
  have hdd : r / (n * n) = r / n / n := (Nat.div_div_eq_div_mul r n n).symm
  simp only [if_neg hd, e1, e2, e3, e4, e5, hdd]
  rw [if_neg (by omega), if_neg (by omega), if_pos (by omega)]
  have hr32 : r < 2 ^ 32 := by omega
  have hq := Nat.div_add_mod' r n
  have ht := Nat.div_add_mod' (r / n) n
  have hmul : r / n / n * n * n + r / n % n * n = r / n * n := by
    rw [← Nat.add_mul, ht]
  have hqr : r / n ≤ r := Nat.div_le_self _ _
  have htq : r / n / n ≤ r / n := Nat.div_le_self _ _
  clear hr e1 e2 e3 e4 e5 hdd h1 h2 h3 hd
  generalize r / n = q at *
  generalize q / n = t at *
  generalize q % n = s at *
  generalize r % n = m at *
  generalize hA : t * n = A at *
  generalize hB : A * n = B at *
  generalize hC : s * n = C at *
  generalize q * n = Q at *
  have e6 : t % 2 ^ 32 = t := Nat.mod_eq_of_lt (by omega)
  have e7 : mul32 t n = A := by
    rw [mul32_eq _ _ (by rw [hA]; omega)]; exact hA
  have e8 : sub32 q A = s := by
    rw [sub32_eq _ _ (by omega) (by omega)]; omega
  have e9 : s % 2 ^ 32 = s := Nat.mod_eq_of_lt (by omega)
  have e10 : mul32 s n = C := by
    rw [mul32_eq _ _ (by rw [hC]; omega)]; exact hC
  have e11 : mul32 A n = B := by
    rw [mul32_eq _ _ (by rw [hB]; omega)]; exact hB
  have e12 : sub32 r C = r - C := sub32_eq _ _ (by omega) (by omega)
  have e13 : sub32 (r - C) B = m := by
    rw [sub32_eq _ _ (by omega) (by omega)]; omega
  simp only [e6, e7, e8, e9, e10, e11, e12, e13]

theorem Offsets_cases (d : Device) (L : Nat)
    (hL : L < 12 + d.BlockSize / 4 + (d.BlockSize / 4) * (d.BlockSize / 4)
      + (d.BlockSize / 4) * (d.BlockSize / 4) * (d.BlockSize / 4))
    (h32 : 12 + d.BlockSize / 4 + (d.BlockSize / 4) * (d.BlockSize / 4)
      + (d.BlockSize / 4) * (d.BlockSize / 4) * (d.BlockSize / 4) ≤ 2 ^ 32) :
    (L < 12 ∧ d.Offsets L = ((L : Int), -1, -1, -1)) ∨
    (12 ≤ L ∧ L < 12 + d.BlockSize / 4 ∧
      d.Offsets L = (-1, ((L - 12 : Nat) : Int), -1, -1)) ∨
    (12 + d.BlockSize / 4 ≤ L ∧
      L < 12 + d.BlockSize / 4 + (d.BlockSize / 4) * (d.BlockSize / 4) ∧
      d.Offsets L = (-1, (((L - 12 - d.BlockSize / 4) % (d.BlockSize / 4) : Nat) : Int),
        (((L - 12 - d.BlockSize / 4) / (d.BlockSize / 4) : Nat) : Int), -1)) ∨
    (12 + d.BlockSize / 4 + (d.BlockSize / 4) * (d.BlockSize / 4) ≤ L ∧
      d.Offsets L = (-1,
        (((L - 12 - d.BlockSize / 4 - (d.BlockSize / 4) * (d.BlockSize / 4))
            % (d.BlockSize / 4) : Nat) : Int),
        (((L - 12 - d.BlockSize / 4 - (d.BlockSize / 4) * (d.BlockSize / 4))
            / (d.BlockSize / 4) % (d.BlockSize / 4) : Nat) : Int),
        (((L - 12 - d.BlockSize / 4 - (d.BlockSize / 4) * (d.BlockSize / 4))
            / ((d.BlockSize / 4) * (d.BlockSize / 4)) : Nat) : Int))) := by
  by_cases c1 : L < 12
  · exact Or.inl ⟨c1, Offsets_direct d L c1⟩
  by_cases c2 : L < 12 + d.BlockSize / 4
  · exact Or.inr (Or.inl ⟨by omega, c2, Offsets_single d L (by omega) c2 (by omega)⟩)
  by_cases c3 : L < 12 + d.BlockSize / 4 + (d.BlockSize / 4) * (d.BlockSize / 4)
  · exact Or.inr (Or.inr (Or.inl ⟨by omega, c3,
      Offsets_double d L (by omega) c3 (by omega) (by omega)⟩))
  · exact Or.inr (Or.inr (Or.inr ⟨by omega, Offsets_triple d L (by omega) hL h32⟩))

theorem Offsets_table_aux (d : Device) (n : Nat) (hn : d.BlockSize / 4 = n)
    (hn' : n = 256 ∨ n = 512 ∨ n = 1024) (L : Nat)
    (hL : L < 12 + n + n * n + n * n * n) :
    (L < 12 → d.Offsets L = ((L : Int), -1, -1, -1)) ∧
    (12 ≤ L → L < 12 + n → d.Offsets L = (-1, ((L - 12 : Nat) : Int), -1, -1)) ∧
    (∀ r, 12 + n ≤ L → r = L - 12 - n → r < n * n →
      d.Offsets L = (-1, ((r % n : Nat) : Int), ((r / n : Nat) : Int), -1)) ∧
    (∀ r, 12 + n + n * n ≤ L → r = L - 12 - n - n * n → r < n * n * n →
      d.Offsets L = (-1, ((r % n : Nat) : Int), ((r / n % n : Nat) : Int),
        ((r / (n * n) : Nat) : Int))) ∧
    d.Offsets (12 + n) = (-1, 0, 0, -1) ∧
    d.Offsets (12 + 2 * n) = (-1, 0, 1, -1) ∧
    (∀ L2, L2 < 12 + n + n * n + n * n * n → d.Offsets L = d.Offsets L2 → L = L2) := by
  have h32 : 12 + n + n * n + n * n * n ≤ 2 ^ 32 := by
    rcases hn' with h | h | h <;> subst h <;> norm_num
  have hpos : 0 < n := by omega
  have hnn : n ≤ n * n := Nat.le_mul_of_pos_left n hpos
  have hnn2 : 2 * n ≤ n * n := Nat.mul_le_mul_right n (by omega)
  refine ⟨fun h => Offsets_direct d L h, ?_, ?_, ?_, ?_, ?_, ?_⟩
  · intro h1 h2
    exact Offsets_single d L h1 (by rw [hn]; exact h2) (by omega)
  · intro r h1 hr h2
    subst hr
    have := Offsets_double d L (by rw [hn]; exact h1) (by rw [hn]; omega) (by omega)
      (by rw [hn]; omega)
    rw [hn] at this
    exact this
  · intro r h1 hr h2
    subst hr
    have := Offsets_triple d L (by rw [hn]; exact h1) (by rw [hn]; omega)
      (by rw [hn]; omega)
    rw [hn] at this
    exact this
  · have := Offsets_double d (12 + n) (by rw [hn]) (by rw [hn]; omega) (by omega)
      (by rw [hn]; omega)
    rw [hn] at this
    rw [this]
    have e : 12 + n - 12 - n = 0 := by omega
    simp [e]
  · have := Offsets_double d (12 + 2 * n) (by rw [hn]; omega) (by rw [hn]; omega) (by omega)
      (by rw [hn]; omega)
    rw [hn] at this
    have e : 12 + 2 * n - 12 - n = n := by omega
    rw [this, e, Nat.mod_self, Nat.div_self hpos]
    rfl
  · intro L2 hL2 heq
    have c1 := Offsets_cases d L (by rw [hn]; exact hL) (by rw [hn]; exact h32)
    have c2 := Offsets_cases d L2 (by rw [hn]; exact hL2) (by rw [hn]; exact h32)
    rw [hn] at c1 c2
    rcases hn' with h | h | h <;> subst h <;> norm_num at c1 c2 hL hL2 <;>
    · rcases c1 with ⟨a, ea⟩ | ⟨a1, a2, ea⟩ | ⟨a1, a2, ea⟩ | ⟨a, ea⟩ <;>
      rcases c2 with ⟨b, eb⟩ | ⟨b1, b2, eb⟩ | ⟨b1, b2, eb⟩ | ⟨b, eb⟩ <;>
      · rw [ea, eb] at heq
        simp only [Prod.mk.injEq] at heq
        omega

/-- C1. For block sizes 1024, 2048 and 4096 (`n = B/4`) and every logical block
`L < 12 + n + n^2 + n^3`, `Offsets` follows the block-tree table: direct
`(L,-1,-1,-1)`, single `(-1,L-12,-1,-1)`, double `(-1, r mod n, r div n, -1)`, triple
`(-1, r mod n, (r div n) mod n, r div n^2)`; `Offsets(12+n) = (-1,0,0,-1)`,
`Offsets(12+2n) = (-1,0,1,-1)`, and distinct blocks get distinct index tuples. -/
theorem C1_Offsets_table (d : Device)
    (hB : d.BlockSize = 1024 ∨ d.BlockSize = 2048 ∨ d.BlockSize = 4096) (L : Nat)
    (hL : L < addressable (d.BlockSize / 4)) :
    (L < 12 → d.Offsets L = ((L : Int), -1, -1, -1)) ∧
    (12 ≤ L → L < 12 + d.BlockSize / 4 →
      d.Offsets L = (-1, ((L - 12 : Nat) : Int), -1, -1)) ∧
    (∀ r, 12 + d.BlockSize / 4 ≤ L → r = L - 12 - d.BlockSize / 4 →
      r < (d.BlockSize / 4) ^ 2 →
      d.Offsets L = (-1, ((r % (d.BlockSize / 4) : Nat) : Int),
        ((r / (d.BlockSize / 4) : Nat) : Int), -1)) ∧
    (∀ r, 12 + d.BlockSize / 4 + (d.BlockSize / 4) ^ 2 ≤ L →
      r = L - 12 - d.BlockSize / 4 - (d.BlockSize / 4) ^ 2 → r < (d.BlockSize / 4) ^ 3 →
      d.Offsets L = (-1, ((r % (d.BlockSize / 4) : Nat) : Int),
        ((r / (d.BlockSize / 4) % (d.BlockSize / 4) : Nat) : Int),
        ((r / (d.BlockSize / 4) ^ 2 : Nat) : Int))) ∧
    d.Offsets (12 + d.BlockSize / 4) = (-1, 0, 0, -1) ∧
    d.Offsets (12 + 2 * (d.BlockSize / 4)) = (-1, 0, 1, -1) ∧
    (∀ L2, L2 < addressable (d.BlockSize / 4) → d.Offsets L = d.Offsets L2 → L = L2) := by
  have hn' : d.BlockSize / 4 = 256 ∨ d.BlockSize / 4 = 512 ∨ d.BlockSize / 4 = 1024 := by
    rcases hB with h | h | h <;> simp [h]
  simp only [addressable, sq, pow_three'] at hL ⊢
  exact Offsets_table_aux d _ rfl hn' L hL

theorem C1_Offsets_table_witness :
    exampleDevice.Offsets (12 + exampleDevice.BlockSize / 4) = (-1, 0, 0, -1) :=
  (C1_Offsets_table exampleDevice (Or.inl rfl) 300 (by decide)).2.2.2.2.1

/-- C2 (failing input). With `Block[12] = 9` and slot 0 of block 9 equal to the
null block, `DataBlock(inode, 12)` returns block 0 and no error. -/
theorem C2_DataBlock_null_leaf_no_error :
    (exampleDevice.DataBlock zeroImage indirectInode 12).toOption = some EXT2_NULL_BLOCK := by
  decide

theorem blit_get_lt (b : Bytes) (start : Nat) (src : Nat → Byte) (len k : Nat)
    (h : k < start) : (b.blit start src len).get k = b.get k := by
  simp only [Bytes.blit]
  rw [if_neg (by omega)]

theorem blit_get_mid (b : Bytes) (start : Nat) (src : Nat → Byte) (len k : Nat)
    (h1 : start ≤ k) (h2 : k < start + len) :
    (b.blit start src len).get k = src (k - start) := by
  simp only [Bytes.blit]
  rw [if_pos ⟨h1, h2⟩]

theorem readAtCount_of_ok (img : Bytes) (pos len : Nat) (h : readAtErr img pos len = none) :
    readAtCount img pos len = len := by
  unfold readAtErr at h
  unfold readAtCount
  split_ifs at h with h1
  split_ifs with h2
  · rfl
  · omega

theorem ContentFrom_blit (d : Device) (img : Bytes) (inode : Inode) (off : Nat) (b : Bytes)
    (n : Nat) (src : Nat → Byte) (len : Nat) (h : ContentFrom d img inode off b n) :
    ContentFrom d img inode off (b.blit n src len) n := by
  intro k hk
  obtain ⟨blk, h1, h2⟩ := h k hk
  exact ⟨blk, h1, by rw [blit_get_lt _ _ _ _ _ hk]; exact h2⟩

theorem div_mod_of_block (B x BS : Nat) (hx : x < BS) :
    (B * BS + x) / BS = B ∧ (B * BS + x) % BS = x := by
  have hBS : 0 < BS := by omega
  constructor
  · rw [Nat.add_comm, Nat.add_mul_div_right _ _ hBS, Nat.div_eq_of_lt hx, Nat.zero_add]
  · rw [Nat.add_comm, Nat.add_mul_mod_self_right, Nat.mod_eq_of_lt hx]

/-- One aligned chunk: extending the delivered prefix by bytes of block `blk`. -/
theorem ContentFrom_extend (d : Device) (img : Bytes) (inode : Inode) (off : Nat) (b : Bytes)
    (n read blkIdx blk inner : Nat) (h : ContentFrom d img inode off b n)
    (hdb : d.DataBlock img inode blkIdx = .ok blk)
    (hal : off + n = blkIdx * d.BlockSize + inner) (hread : inner + read ≤ d.BlockSize) :
    ContentFrom d img inode off
      (b.blit n (fun k => img.get (d.blockOffset blk + inner + k)) read) (n + read) := by
  intro k hk
  by_cases hkn : k < n
  · obtain ⟨blk', h1, h2⟩ := h k hkn
    exact ⟨blk', h1, by rw [blit_get_lt _ _ _ _ _ hkn]; exact h2⟩
  · have hk1 : n ≤ k := by omega
    have e : off + k = blkIdx * d.BlockSize + (inner + (k - n)) := by omega
    have hdm := div_mod_of_block blkIdx (inner + (k - n)) d.BlockSize (by omega)
    refine ⟨blk, ?_, ?_⟩
    · rw [e, hdm.1]; exact hdb
    · rw [blit_get_mid _ _ _ _ _ hk1 hk, e, hdm.2]
      congr 1
      omega

theorem readLoop_content (d : Device) (img : Bytes) (inode : Inode) (size off B : Nat)
    (hBS : 0 < d.BlockSize) (hSize : inode.Size < 2 ^ 32) :
    ∀ (cnt i n : Nat) (b : Bytes), ContentFrom d img inode off b n →
      (n = size ∨ (n < size ∧ off + n = (B + i) * d.BlockSize ∧ off + n < inode.Size)) →
      ContentFrom d img inode off
        (d.readLoop img inode size off (B % 2 ^ 32) cnt i n b).buf
        (d.readLoop img inode size off (B % 2 ^ 32) cnt i n b).n := by
  intro cnt
  induction cnt with
  | zero => intro i n b hg _; simpa [Device.readLoop] using hg
  | succ cnt ih =>
    intro i n b hg hst
    rw [Device.readLoop]
    cases hdb : d.DataBlock img inode ((B % 2 ^ 32 + i) % 2 ^ 32) with
    | error e => exact hg
    | ok blockNo =>
      dsimp only
      by_cases h0 : blockNo = EXT2_NULL_BLOCK
      · rw [if_pos h0]; exact hg
      · rw [if_neg h0]
        cases hre : readAtErr img (d.blockOffset blockNo) (min (size - n) d.BlockSize) with
        | some e => dsimp only; exact ContentFrom_blit d img inode off b n _ _ hg
        | none =>
          dsimp only
          rw [readAtCount_of_ok _ _ _ hre]
          have hnew : ContentFrom d img inode off
              (b.blit n (fun k => img.get (d.blockOffset blockNo + k))
                (min (size - n) d.BlockSize)) (n + min (size - n) d.BlockSize) := by
            rcases hst with hn | ⟨hlt, hal, hsz⟩
            · have e0 : min (size - n) d.BlockSize = 0 := by omega
              rw [e0]
              exact ContentFrom_blit d img inode off b n _ _ hg
            · have hle : B + i ≤ (B + i) * d.BlockSize := Nat.le_mul_of_pos_right _ hBS
              have hidx : (B % 2 ^ 32 + i) % 2 ^ 32 = B + i := by omega
              rw [hidx] at hdb
              have := ContentFrom_extend d img inode off b n (min (size - n) d.BlockSize)
                (B + i) blockNo 0 hg hdb (by omega) (by omega)
              simpa using this
          split_ifs with hEOF
          · exact hnew
          · apply ih _ _ _ hnew
            rcases hst with hn | ⟨hlt, hal, hsz⟩
            · left; omega
            · by_cases hc : size - n ≤ d.BlockSize
              · left; omega
              · right
                have e1 : min (size - n) d.BlockSize = d.BlockSize := by omega
                have e2 : (B + (i + 1)) * d.BlockSize = (B + i) * d.BlockSize + d.BlockSize := by
                  ring
                rw [e1, e2]
                rw [e1] at hEOF
                omega

/-- The bytes `ReadData` reports as read are the file content from `off` on. -/
theorem ReadData_content (d : Device) (img : Bytes) (inode : Inode) (b : Bytes) (off : Nat)
    (hBS : 0 < d.BlockSize) (hSize : inode.Size < 2 ^ 32) :
    ContentFrom d img inode off (d.ReadData img inode b off).buf
      (d.ReadData img inode b off).n := by
  have hzero : ∀ buf, ContentFrom d img inode off buf 0 := fun _ k hk => absurd hk (by omega)
  unfold Device.ReadData
  dsimp only
  by_cases h1 : b.size = 0
  · rw [if_pos h1]; exact hzero _
  rw [if_neg h1]
  by_cases h2 : off ≥ inode.Size
  · rw [if_pos h2]; exact hzero _
  rw [if_neg h2]
  · have hoff : off < 2 ^ 32 := by omega
    have hB : off / d.BlockSize % 2 ^ 32 = off / d.BlockSize :=
      Nat.mod_eq_of_lt (lt_of_le_of_lt (Nat.div_le_self _ _) hoff)
    have hdm := Nat.div_add_mod' off d.BlockSize
    have hml := Nat.mod_lt off hBS
    cases hdb : d.DataBlock img inode (off / d.BlockSize % 2 ^ 32) with
    | error e => exact hzero _
    | ok blockNo =>
      dsimp only
      cases hre : readAtErr img (d.blockOffset blockNo + off % d.BlockSize)
          (min (d.BlockSize - off % d.BlockSize) b.size) with
      | some e => dsimp only; exact hzero _
      | none =>
        dsimp only
        rw [readAtCount_of_ok _ _ _ hre]
        rw [hB] at hdb
        have hnew := ContentFrom_extend d img inode off b 0
          (min (d.BlockSize - off % d.BlockSize) b.size) (off / d.BlockSize) blockNo
          (off % d.BlockSize) (hzero _) hdb (by omega) (by omega)
        rw [Nat.zero_add] at hnew
        split_ifs with hEOF
        · exact hnew
        · apply readLoop_content d img inode b.size off (off / d.BlockSize) hBS hSize _ _ _ _ hnew
          by_cases hc : b.size ≤ d.BlockSize - off % d.BlockSize
          · left; omega
          · right
            have e1 : min (d.BlockSize - off % d.BlockSize) b.size
                = d.BlockSize - off % d.BlockSize := by omega
            have e2 : (off / d.BlockSize + 1) * d.BlockSize
                = off / d.BlockSize * d.BlockSize + d.BlockSize := by ring
            rw [e1, e2]
            rw [e1] at hEOF
            omega

theorem DataBlock_eleven (d : Device) (img : Bytes) (inode : Inode) (blk : Nat)
    (h : d.DataBlock img inode 11 = .ok blk) : blk = inode.Block 11 := by
  unfold Device.DataBlock at h
  rw [Offsets_direct d 11 (by omega)] at h
  simp only [] at h
  split_ifs at h with h1 h2
  · injection h with h
    exact h.symm
  · exact absurd (by decide) h1

theorem DataBlock_twelve (d : Device) (img : Bytes) (inode : Inode) (hBS : 4 ≤ d.BlockSize) :
    d.DataBlock img inode 12 = d.ExtractBlock img (inode.Block 12) 0 := by
  have hn : 0 < d.BlockSize / 4 := Nat.div_pos hBS (by omega)
  unfold Device.DataBlock
  rw [Offsets_single d 12 (by omega) (by omega) (by omega)]
  simp [EXT2_IND_BLOCK, EXT2_NDIR_BLOCKS]

/-- C3. For every call of `ReadData` with returned count `n`, every byte `k < n` of
the buffer is the image byte at offset `(off+k) mod BlockSize` of the block
`DataBlock(inode, (off+k) div BlockSize)`; bytes falling in logical block 11 come
from `Block[11]` and bytes falling in logical block 12 come from the block stored in
slot 0 of the single-indirect block `Block[12]`. -/
theorem C3_ReadData_contiguous (d : Device) (img : Bytes) (inode : Inode) (b : Bytes)
    (off : Nat) (hBS : 4 ≤ d.BlockSize) (hSize : inode.Size < 2 ^ 32) :
    (∀ k, k < (d.ReadData img inode b off).n →
      ∃ blk, d.DataBlock img inode ((off + k) / d.BlockSize) = .ok blk ∧
        (d.ReadData img inode b off).buf.get k
          = img.get (d.blockOffset blk + (off + k) % d.BlockSize)) ∧
    (∀ k, k < (d.ReadData img inode b off).n → (off + k) / d.BlockSize = 11 →
      (d.ReadData img inode b off).buf.get k
        = img.get (d.blockOffset (inode.Block 11) + (off + k) % d.BlockSize)) ∧
    (∀ k, k < (d.ReadData img inode b off).n → (off + k) / d.BlockSize = 12 →
      ∃ leaf, d.ExtractBlock img (inode.Block 12) 0 = .ok leaf ∧
        (d.ReadData img inode b off).buf.get k
          = img.get (d.blockOffset leaf + (off + k) % d.BlockSize)) := by
  have h := ReadData_content d img inode b off (by omega) hSize
  refine ⟨h, ?_, ?_⟩
  · intro k hk h11
    obtain ⟨blk, h1, h2⟩ := h k hk
    rw [h11] at h1
    rw [h2, DataBlock_eleven d img inode blk h1]
  · intro k hk h12
    obtain ⟨blk, h1, h2⟩ := h k hk
    rw [h12, DataBlock_twelve d img inode hBS] at h1
    exact ⟨blk, h1, h2⟩

set_option maxRecDepth 100000 in
theorem C3_ReadData_contiguous_witness :
    (exampleDevice.ReadData boundaryImage boundaryInode (Bytes.zeros 4) (12 * 1024 - 2)).n = 4 ∧
    ((exampleDevice.ReadData boundaryImage boundaryInode (Bytes.zeros 4) (12 * 1024 - 2)).buf.get 1
        = boundaryImage.get (exampleDevice.blockOffset (boundaryInode.Block 11)
            + (12 * 1024 - 2 + 1) % exampleDevice.BlockSize)) ∧
    ((exampleDevice.ReadData boundaryImage boundaryInode (Bytes.zeros 4) (12 * 1024 - 2)).buf.get 1
        = 2) ∧
    ((exampleDevice.ReadData boundaryImage boundaryInode (Bytes.zeros 4) (12 * 1024 - 2)).buf.get 2
        = 3) :=
  ⟨by decide,
   (C3_ReadData_contiguous exampleDevice boundaryImage boundaryInode (Bytes.zeros 4)
      (12 * 1024 - 2) (by decide) (by decide)).2.1 1 (by decide) (by decide),
   by decide, by decide⟩

theorem roundUp_ge (size bs : Nat) (hbs : 0 < bs) : size ≤ roundUp size bs := by
  unfold roundUp
  have h1 := Nat.div_add_mod' (size + bs - 1) bs
  have h2 := Nat.mod_lt (size + bs - 1) hbs
  omega

theorem roundUp_lt (size bs : Nat) (hbs : 0 < bs) : roundUp size bs < size + bs := by
  unfold roundUp
  have h1 := Nat.div_add_mod' (size + bs - 1) bs
  omega

theorem roundUp_ge_of_lt (size bs m : Nat) (hbs : 0 < bs) (h : m * bs < size) :
    m * bs + bs ≤ roundUp size bs := by
  unfold roundUp
  have h1 : m + 1 ≤ (size + bs - 1) / bs := by
    rw [Nat.le_div_iff_mul_le hbs, Nat.add_mul]
    omega
  have h2 := Nat.mul_le_mul_right bs h1
  rw [Nat.add_mul] at h2
  omega

theorem roundUp_le_of_le (size bs m : Nat) (hbs : 0 < bs) (h : size ≤ m * bs) :
    roundUp size bs ≤ m * bs := by
  unfold roundUp
  apply Nat.mul_le_mul_right
  have h3 : (size + bs - 1) / bs < m + 1 := by
    rw [Nat.div_lt_iff_lt_mul hbs, Nat.add_mul]
    omega
  omega

theorem blockSpan_eq (d : Device) (size off : Nat)
    (h63 : off + size < 2 ^ 63) (h32 : (off + size) / d.BlockSize < 2 ^ 32 - 1) :
    blockSpan d size off = 1 + (off + size) / d.BlockSize - off / d.BlockSize := by
  have hle : off / d.BlockSize ≤ (off + size) / d.BlockSize :=
    Nat.div_le_div_right (Nat.le_add_right _ _)
  unfold blockSpan
  have e1 : int64Wrap ((off : Int) + (size : Int)) = ((off + size : Nat) : Int) := by
    unfold int64Wrap
    push_cast
    omega
  have e2 : Int.tdiv ((off + size : Nat) : Int) (d.BlockSize : Int)
      = (((off + size) / d.BlockSize : Nat) : Int) := by
    rw [Int.tdiv_eq_ediv (Int.natCast_nonneg _) (Int.natCast_nonneg _)]
    exact (Int.ofNat_ediv _ _).symm
  rw [e1, e2]
  generalize (off + size) / d.BlockSize = E at *
  generalize off / d.BlockSize = B at *
  have e3 : toUint32 (E : Int) = E := by
    unfold toUint32
    have e4 : ((E : Int) % 2 ^ 32) = (E : Int) :=
      Int.emod_eq_of_lt (Int.natCast_nonneg _) (by exact_mod_cast (by omega : E < 2 ^ 32))
    rw [e4, Int.toNat_natCast]
  rw [e3]
  unfold sub32
  omega

theorem readAtErr_of_le (img : Bytes) (pos len : Nat) (h : pos + len ≤ img.size) :
    readAtErr img pos len = none := by
  unfold readAtErr
  rw [if_pos (Or.inr h)]

theorem readLoop_count (d : Device) (img : Bytes) (inode : Inode) (size off B Eb : Nat)
    (hBS : 0 < d.BlockSize) (hSize : inode.Size < 2 ^ 32) (hmap : MappedBelow d img inode)
    (hEb1 : Eb * d.BlockSize ≤ off + size) (hEb2 : off + size < Eb * d.BlockSize + d.BlockSize) :
    ∀ (cnt i n : Nat) (b : Bytes), n ≤ size → off + n < inode.Size →
      ((off + n = (B + i) * d.BlockSize ∧ B + i + cnt = Eb + 1) ∨ (n = size ∧ cnt = 0)) →
      (d.readLoop img inode size off (B % 2 ^ 32) cnt i n b).n
          = min size (roundUp inode.Size d.BlockSize - off) ∧
      (d.readLoop img inode size off (B % 2 ^ 32) cnt i n b).err
          = if off + min size (roundUp inode.Size d.BlockSize - off) ≥ inode.Size
            then some Error.EOF else none := by
  have hE := roundUp_ge inode.Size d.BlockSize hBS
  intro cnt
  induction cnt with
  | zero =>
    intro i n b hn hlt hst
    rw [Device.readLoop]
    rcases hst with ⟨hal, hc⟩ | ⟨hns, _⟩
    · exfalso
      have e : B + i = Eb + 1 := by omega
      rw [e, Nat.add_mul, Nat.one_mul] at hal
      omega
    · dsimp only
      have e : min size (roundUp inode.Size d.BlockSize - off) = size := by omega
      rw [e, if_neg (by omega)]
      exact ⟨hns, rfl⟩
  | succ cnt ih =>
    intro i n b hn hlt hst
    rcases hst with ⟨hal, hc⟩ | ⟨_, hc⟩
    swap
    · omega
    have hle : B + i ≤ (B + i) * d.BlockSize := Nat.le_mul_of_pos_right _ hBS
    have hidx : (B % 2 ^ 32 + i) % 2 ^ 32 = B + i := by omega
    obtain ⟨blk, hdb, hnz, himg⟩ := hmap (B + i) (by omega)
    have hge := roundUp_ge_of_lt inode.Size d.BlockSize (B + i) hBS (by omega)
    rw [Device.readLoop, hidx, hdb]
    dsimp only
    rw [if_neg hnz, readAtErr_of_le _ _ _ (by omega)]
    dsimp only
    by_cases hfull : d.BlockSize ≤ size - n
    · have e1 : min (size - n) d.BlockSize = d.BlockSize := by omega
      rw [e1]
      by_cases hEOF : n + d.BlockSize + off ≥ inode.Size
      · have hle2 := roundUp_le_of_le inode.Size d.BlockSize (B + i + 1) hBS
          (by rw [Nat.add_mul, Nat.one_mul]; omega)
        rw [Nat.add_mul, Nat.one_mul] at hle2
        have e : min size (roundUp inode.Size d.BlockSize - off) = n + d.BlockSize := by omega
        rw [if_pos hEOF, e, if_pos (by omega)]
        exact ⟨rfl, rfl⟩
      · rw [if_neg hEOF]
        apply ih (i + 1) (n + d.BlockSize) _ (by omega) (by omega)
        left
        have e2 : (B + (i + 1)) * d.BlockSize = (B + i) * d.BlockSize + d.BlockSize := by ring
        rw [e2]
        omega
    · have e1 : min (size - n) d.BlockSize = size - n := by omega
      rw [e1]
      have e3 : n + (size - n) = size := by omega
      rw [e3]
      by_cases hEOF : size + off ≥ inode.Size
      · have e : min size (roundUp inode.Size d.BlockSize - off) = size := by omega
        rw [if_pos hEOF, e, if_pos (by omega)]
        exact ⟨rfl, rfl⟩
      · rw [if_neg hEOF]
        apply ih (i + 1) size _ (by omega) (by omega)
        right
        refine ⟨rfl, ?_⟩
        by_contra hcnt
        have h2 : B + i + 1 ≤ Eb := by omega
        have h3 := Nat.mul_le_mul_right d.BlockSize h2
        rw [Nat.add_mul, Nat.one_mul] at h3
        omega

/-- Count and end-of-file indication of `ReadData` on a mapped file, for a
non-empty buffer that starts inside the file. -/
theorem ReadData_count (d : Device) (img : Bytes) (inode : Inode) (b : Bytes) (off : Nat)
    (hBS : 0 < d.BlockSize) (hBS31 : d.BlockSize ≤ 2 ^ 31) (hSize : inode.Size < 2 ^ 32)
    (hmap : MappedBelow d img inode) (hb : b.size ≠ 0) (hoff : off < inode.Size)
    (hlen : off + b.size < (2 ^ 32 - 1) * d.BlockSize) :
    (d.ReadData img inode b off).n = min b.size (roundUp inode.Size d.BlockSize - off) ∧
    (d.ReadData img inode b off).err
      = if off + min b.size (roundUp inode.Size d.BlockSize - off) ≥ inode.Size
        then some Error.EOF else none := by
  have hE := roundUp_ge inode.Size d.BlockSize hBS
  have hoff32 : off < 2 ^ 32 := by omega
  have hB : off / d.BlockSize % 2 ^ 32 = off / d.BlockSize :=
    Nat.mod_eq_of_lt (lt_of_le_of_lt (Nat.div_le_self _ _) hoff32)
  have hdm := Nat.div_add_mod' off d.BlockSize
  have hml := Nat.mod_lt off hBS
  have hEb := Nat.div_add_mod' (off + b.size) d.BlockSize
  have hEbl := Nat.mod_lt (off + b.size) hBS
  have h32 : (off + b.size) / d.BlockSize < 2 ^ 32 - 1 := by
    rw [Nat.div_lt_iff_lt_mul hBS]; exact hlen
  have h63 : off + b.size < 2 ^ 63 := by
    have := Nat.mul_le_mul_left (2 ^ 32 - 1) hBS31
    omega
  have hBE : off / d.BlockSize ≤ (off + b.size) / d.BlockSize :=
    Nat.div_le_div_right (Nat.le_add_right _ _)
  have hspan := blockSpan_eq d b.size off h63 h32
  obtain ⟨blk, hdb, hnz, himg⟩ := hmap (off / d.BlockSize) (by omega)
  have hge := roundUp_ge_of_lt inode.Size d.BlockSize (off / d.BlockSize) hBS (by omega)
  unfold Device.ReadData
  dsimp only
  rw [if_neg hb, if_neg (by omega), hB, hdb]
  dsimp only
  rw [readAtErr_of_le _ _ _ (by unfold Device.blockOffset at himg ⊢; omega)]
  dsimp only
  by_cases hfull : d.BlockSize - off % d.BlockSize ≤ b.size
  · have e1 : min (d.BlockSize - off % d.BlockSize) b.size = d.BlockSize - off % d.BlockSize := by
      omega
    rw [e1]
    by_cases hEOF : d.BlockSize - off % d.BlockSize + off ≥ inode.Size
    · have hle2 := roundUp_le_of_le inode.Size d.BlockSize (off / d.BlockSize + 1) hBS
        (by rw [Nat.add_mul, Nat.one_mul]; omega)
      rw [Nat.add_mul, Nat.one_mul] at hle2
      have e : min b.size (roundUp inode.Size d.BlockSize - off)
          = d.BlockSize - off % d.BlockSize := by omega
      rw [if_pos hEOF, e, if_pos (by omega)]
      exact ⟨rfl, rfl⟩
    · rw [if_neg hEOF, ← hB]
      apply readLoop_count d img inode b.size off (off / d.BlockSize)
        ((off + b.size) / d.BlockSize) hBS hSize hmap (by omega) (by omega) _ 1 _ _
        (by omega) (by omega)
      left
      rw [Nat.add_mul, Nat.one_mul, hspan]
      omega
  · have e1 : min (d.BlockSize - off % d.BlockSize) b.size = b.size := by omega
    rw [e1]
    by_cases hEOF : b.size + off ≥ inode.Size
    · have e : min b.size (roundUp inode.Size d.BlockSize - off) = b.size := by omega
      rw [if_pos hEOF, e, if_pos (by omega)]
      exact ⟨rfl, rfl⟩
    · rw [if_neg hEOF, ← hB]
      apply readLoop_count d img inode b.size off (off / d.BlockSize)
        ((off + b.size) / d.BlockSize) hBS hSize hmap (by omega) (by omega) _ 1 _ _
        (by omega) (by omega)
      right
      refine ⟨rfl, ?_⟩
      rw [hspan]
      by_contra hcnt
      have h2 : off / d.BlockSize + 1 ≤ (off + b.size) / d.BlockSize := by omega
      have h3 := Nat.mul_le_mul_right d.BlockSize h2
      rw [Nat.add_mul, Nat.one_mul] at h3
      omega

theorem MappedBelow_oneBlock : MappedBelow exampleDevice zeroImage oneBlockInode := by
  intro L hL
  have h0 : L = 0 := by
    simp only [exampleDevice, oneBlockInode, mkInode] at hL
    omega
  subst h0
  exact ⟨3, rfl, by decide, by decide⟩

theorem MappedBelow_threeBlock : MappedBelow exampleDevice zeroImage threeBlockInode := by
  intro L hL
  have h0 : L = 0 ∨ L = 1 ∨ L = 2 := by
    simp only [exampleDevice, threeBlockInode, mkInode] at hL
    omega
  rcases h0 with h | h | h <;> subst h
  · exact ⟨3, rfl, by decide, by decide⟩
  · exact ⟨4, rfl, by decide, by decide⟩
  · exact ⟨5, rfl, by decide, by decide⟩

/-- C4 (counterexample). A one-block file of 1024 bytes whose block is mapped: reading
the whole file (`off = 0`, `len(b) = 1024 = Size`) returns the full count together
with `io.EOF`, not a nil error. -/
theorem C4_ReadData_full_read_counterexample :
    MappedBelow exampleDevice zeroImage oneBlockInode ∧
    (Bytes.zeros 1024).size ≠ 0 ∧
    0 + (Bytes.zeros 1024).size ≤ oneBlockInode.Size ∧
    (exampleDevice.ReadData zeroImage oneBlockInode (Bytes.zeros 1024) 0).n = 1024 ∧
    (exampleDevice.ReadData zeroImage oneBlockInode (Bytes.zeros 1024) 0).err
      = some Error.EOF :=
  ⟨MappedBelow_oneBlock, by decide, by decide, by decide, by decide⟩

/-- C4 (amended). On a file whose blocks below `ceil(Size/BlockSize)` are mapped, a
non-empty read with `off + len(b) ≤ Size` returns the count `len(b)`; the error is
nil when `off + len(b) < Size` and `io.EOF` when `off + len(b) = Size`. -/
theorem C4_ReadData_full_read (d : Device) (img : Bytes) (inode : Inode) (b : Bytes)
    (off : Nat) (hBS : 4 ≤ d.BlockSize) (hBS31 : d.BlockSize ≤ 2 ^ 31)
    (hSize : inode.Size < 2 ^ 32) (hmap : MappedBelow d img inode) (hb : b.size ≠ 0)
    (hlen : off + b.size ≤ inode.Size) :
    (d.ReadData img inode b off).n = b.size ∧
    (off + b.size < inode.Size → (d.ReadData img inode b off).err = none) ∧
    (off + b.size = inode.Size → (d.ReadData img inode b off).err = some Error.EOF) := by
  have hE := roundUp_ge inode.Size d.BlockSize (by omega)
  have h4 : (2 ^ 32 - 1) * 4 ≤ (2 ^ 32 - 1) * d.BlockSize := Nat.mul_le_mul_left _ hBS
  obtain ⟨h1, h2⟩ := ReadData_count d img inode b off (by omega) hBS31 hSize hmap hb (by omega)
    (by omega)
  have e : min b.size (roundUp inode.Size d.BlockSize - off) = b.size := by omega
  rw [e] at h1 h2
  refine ⟨h1, ?_, ?_⟩
  · intro h; rw [h2, if_neg (by omega)]
  · intro h; rw [h2, if_pos (by omega)]

set_option maxRecDepth 100000 in
theorem C4_ReadData_full_read_witness :
    (exampleDevice.ReadData zeroImage threeBlockInode (Bytes.zeros 2000) 100).n = 2000 ∧
    (exampleDevice.ReadData zeroImage threeBlockInode (Bytes.zeros 2000) 100).err = none :=
  ⟨(C4_ReadData_full_read exampleDevice zeroImage threeBlockInode (Bytes.zeros 2000) 100
      (by decide) (by decide) (by decide) MappedBelow_threeBlock (by decide) (by decide)).1,
   (C4_ReadData_full_read exampleDevice zeroImage threeBlockInode (Bytes.zeros 2000) 100
      (by decide) (by decide) (by decide) MappedBelow_threeBlock (by decide) (by decide)).2.1
      (by decide)⟩

/-- C5 (counterexample). A mapped file of 2500 bytes on 1024-byte blocks and a buffer
of `2^42` bytes at `off = 0`: the `uint32` block count wraps to 1, so `ReadData`
returns 1024 bytes and a nil error, while `min(len(b), E - off)` is 3072. -/
theorem C5_ReadData_eof_counterexample :
    MappedBelow exampleDevice zeroImage threeBlockInode ∧
    (Bytes.zeros (2 ^ 42)).size ≠ 0 ∧
    0 < threeBlockInode.Size ∧
    (exampleDevice.ReadData zeroImage threeBlockInode (Bytes.zeros (2 ^ 42)) 0).n = 1024 ∧
    (exampleDevice.ReadData zeroImage threeBlockInode (Bytes.zeros (2 ^ 42)) 0).err = none ∧
    min (Bytes.zeros (2 ^ 42)).size
      (roundUp threeBlockInode.Size exampleDevice.BlockSize - 0) = 3072 :=
  ⟨MappedBelow_threeBlock, by decide, by decide, by decide, by decide, by decide⟩

/-- C5 (amended). On a file whose blocks below `ceil(Size/BlockSize)` are mapped:
a zero-length buffer gives `(0, nil)` for every `off`; a non-empty buffer with
`off ≥ Size` gives `(0, io.EOF)`; a non-empty buffer with `off < Size` whose end lies
below block `2^32 - 1` (`off + len(b) < (2^32 - 1) * BlockSize`) gives
`n = min(len(b), E - off)`, `E` the least multiple of `BlockSize` that is `≥ Size`,
and the error is `io.EOF` if and only if `off + n ≥ Size`, nil otherwise. -/
theorem C5_ReadData_eof (d : Device) (img : Bytes) (inode : Inode) (b : Bytes)
    (off : Nat) (hBS : 4 ≤ d.BlockSize) (hBS31 : d.BlockSize ≤ 2 ^ 31)
    (hSize : inode.Size < 2 ^ 32) (hmap : MappedBelow d img inode) :
    (b.size = 0 → (d.ReadData img inode b off).n = 0 ∧ (d.ReadData img inode b off).err = none) ∧
    (b.size ≠ 0 → off ≥ inode.Size →
      (d.ReadData img inode b off).n = 0 ∧
      (d.ReadData img inode b off).err = some Error.EOF) ∧
    (b.size ≠ 0 → off < inode.Size → off + b.size < (2 ^ 32 - 1) * d.BlockSize →
      (d.ReadData img inode b off).n = min b.size (roundUp inode.Size d.BlockSize - off) ∧
      ((d.ReadData img inode b off).err = some Error.EOF ↔
        off + (d.ReadData img inode b off).n ≥ inode.Size) ∧
      ((d.ReadData img inode b off).err = none ↔
        off + (d.ReadData img inode b off).n < inode.Size)) ∧
    (inode.Size ≤ roundUp inode.Size d.BlockSize ∧
      roundUp inode.Size d.BlockSize < inode.Size + d.BlockSize ∧
      d.BlockSize ∣ roundUp inode.Size d.BlockSize) := by
  refine ⟨?_, ?_, ?_, ?_⟩
  · intro h0
    unfold Device.ReadData
    dsimp only
    rw [if_pos h0]
    exact ⟨rfl, rfl⟩
  · intro h0 hoff
    unfold Device.ReadData
    dsimp only
    rw [if_neg h0, if_pos hoff]
    exact ⟨rfl, rfl⟩
  · intro h0 hoff hlen
    obtain ⟨h1, h2⟩ := ReadData_count d img inode b off (by omega) hBS31 hSize hmap h0 hoff hlen
    refine ⟨h1, ?_, ?_⟩
    · rw [h2, h1]
      split_ifs with h <;> simp [h]
    · rw [h2, h1]
      split_ifs with h
      · simp; omega
      · simp; omega
  · exact ⟨roundUp_ge _ _ (by omega), roundUp_lt _ _ (by omega), Nat.dvd_mul_left _ _⟩

set_option maxRecDepth 100000 in
theorem C5_ReadData_eof_witness :
    (exampleDevice.ReadData zeroImage threeBlockInode (Bytes.zeros 2500) 0).n = 2500 ∧
    (exampleDevice.ReadData zeroImage threeBlockInode (Bytes.zeros 2500) 0).err
      = some Error.EOF ∧
    (exampleDevice.ReadData zeroImage threeBlockInode (Bytes.zeros 4000) 0).n = 3072 :=
  ⟨by decide,
   ((C5_ReadData_eof exampleDevice zeroImage threeBlockInode (Bytes.zeros 2500) 0
      (by decide) (by decide) (by decide) MappedBelow_threeBlock).2.2.1
      (by decide) (by decide) (by decide)).2.1.mpr (by decide),
   by decide⟩

theorem writeAt_size (img : Bytes) (pos : Nat) (src : Nat → Byte) (len : Nat)
    (h : pos + len ≤ img.size) : (writeAt img pos src len).size = img.size := by
  unfold writeAt
  split_ifs
  · rfl
  · exact Nat.max_eq_left h

theorem writeAt_get_in (img : Bytes) (pos : Nat) (src : Nat → Byte) (len p : Nat)
    (h1 : pos ≤ p) (h2 : p < pos + len) : (writeAt img pos src len).get p = src (p - pos) := by
  unfold writeAt
  rw [if_neg (by omega)]
  dsimp only
  rw [if_pos ⟨h1, h2⟩]

theorem writeAt_get_out (img : Bytes) (pos : Nat) (src : Nat → Byte) (len p : Nat)
    (h : pos + len ≤ img.size) (hp : ¬ (pos ≤ p ∧ p < pos + len)) :
    (writeAt img pos src len).get p = img.get p := by
  unfold writeAt
  split_ifs with h0
  · rfl
  · dsimp only
    rw [if_neg hp, if_neg (by omega)]

theorem block_pos_inj (BS b1 b2 x y : Nat) (hx : x < BS) (hy : y < BS)
    (h : b1 * BS + x = b2 * BS + y) : b1 = b2 := by
  have h1 := (div_mod_of_block b1 x BS hx).1
  have h2 := (div_mod_of_block b2 y BS hy).1
  rw [h] at h1
  omega

theorem cover_of_lt (d : Device) (off size k : Nat) (hk : k < size) :
    off / d.BlockSize ≤ (off + k) / d.BlockSize ∧
    (off + k) / d.BlockSize * d.BlockSize < off + size := by
  constructor
  · exact Nat.div_le_div_right (Nat.le_add_right _ _)
  · have := Nat.div_mul_le_self (off + k) d.BlockSize
    omega

/-- One chunk of `WriteData`: `w` bytes go to block `blk` of the logical block `L`. -/
theorem write_step (d : Device) (img : Bytes) (inode : Inode) (b : Bytes) (off size : Nat)
    (hBS : 0 < d.BlockSize) (hdist : CoverDistinct d img inode off size)
    (cur : Bytes) (n w L blk inner : Nat)
    (hs : StoredAt d img inode off b n cur) (ho : OnlyChanged d img inode off n cur)
    (hL : d.DataBlock img inode L = .ok blk) (himg : d.blockOffset blk + d.BlockSize ≤ img.size)
    (hc1 : off / d.BlockSize ≤ L) (hc2 : L * d.BlockSize < off + size)
    (hal : off + n = L * d.BlockSize + inner) (hw : inner + w ≤ d.BlockSize)
    (hnw : n + w ≤ size) (hfirst : n = 0 ∨ inner = 0) :
    StoredAt d img inode off b (n + w)
      (writeAt cur (d.blockOffset blk + inner) (fun k => b.get (n + k)) w) ∧
    OnlyChanged d img inode off (n + w)
      (writeAt cur (d.blockOffset blk + inner) (fun k => b.get (n + k)) w) := by
  have hsz : d.blockOffset blk + inner + w ≤ cur.size := by rw [ho.1]; omega
  have hnew : ∀ k, n ≤ k → k < n + w →
      (off + k) / d.BlockSize = L ∧ (off + k) % d.BlockSize = inner + (k - n) := by
    intro k h1 h2
    have e : off + k = L * d.BlockSize + (inner + (k - n)) := by omega
    rw [e]
    exact div_mod_of_block L _ d.BlockSize (by omega)
  constructor
  · intro k hk
    by_cases hkn : k < n
    · obtain ⟨blk', h1, h2⟩ := hs k hkn
      refine ⟨blk', h1, ?_⟩
      rw [writeAt_get_out _ _ _ _ _ hsz, h2]
      intro ⟨hp1, hp2⟩
      have hin : inner = 0 := by omega
      have hml := Nat.mod_lt (off + k) hBS
      have hcov := cover_of_lt d off size k (by omega)
      have hlt : (off + k) / d.BlockSize < L := by
        rw [Nat.div_lt_iff_lt_mul hBS]; omega
      have hne : blk' ≠ blk := by
        intro heq
        rw [heq] at h1
        have := hdist _ _ _ hcov.1 hcov.2 hc1 hc2 h1 hL
        omega
      apply hne
      unfold Device.blockOffset at hp1 hp2
      have hdm := Nat.div_add_mod' (blk' * d.BlockSize + (off + k) % d.BlockSize - blk * d.BlockSize)
        d.BlockSize
      exact block_pos_inj d.BlockSize blk' blk ((off + k) % d.BlockSize)
        (blk' * d.BlockSize + (off + k) % d.BlockSize - blk * d.BlockSize) hml (by omega)
        (by omega)
    · obtain ⟨e1, e2⟩ := hnew k (by omega) hk
      refine ⟨blk, by rw [e1]; exact hL, ?_⟩
      rw [e2, writeAt_get_in _ _ _ _ _ (by omega) (by omega)]
      congr 1
      omega
  · refine ⟨by rw [writeAt_size _ _ _ _ hsz]; exact ho.1, ?_⟩
    intro p hp
    rw [writeAt_get_out _ _ _ _ _ hsz]
    · exact ho.2 p (fun k blk' hk hdb => hp k blk' (by omega) hdb)
    · intro ⟨hp1, hp2⟩
      obtain ⟨e1, e2⟩ := hnew (n + (p - (d.blockOffset blk + inner))) (by omega) (by omega)
      apply hp (n + (p - (d.blockOffset blk + inner))) blk (by omega) (by rw [e1]; exact hL)
      rw [e2]
      omega

theorem writeAt_zero (img : Bytes) (pos : Nat) (src : Nat → Byte) :
    writeAt img pos src 0 = img := by
  unfold writeAt
  rw [if_pos rfl]

theorem stable_cur (d : Device) (img : Bytes) (inode : Inode) (off size : Nat)
    (hBS : 0 < d.BlockSize) (hstab : CoverStable d img inode off size) (cur : Bytes) (n : Nat)
    (hn : n ≤ size) (ho : OnlyChanged d img inode off n cur) (L : Nat)
    (hc1 : off / d.BlockSize ≤ L) (hc2 : L * d.BlockSize < off + size) :
    d.DataBlock cur inode L = d.DataBlock img inode L := by
  apply hstab cur ho.1 _ L hc1 hc2
  intro p hp
  apply ho.2 p
  intro k blk hk hdb heq
  have hcov := cover_of_lt d off size k (by omega)
  have hml := Nat.mod_lt (off + k) hBS
  exact hp _ blk hcov.1 hcov.2 hdb ⟨by omega, by omega⟩

theorem writeLoop_spec (d : Device) (img : Bytes) (inode : Inode) (b : Bytes)
    (off B Eb R : Nat) (hBS : 0 < d.BlockSize)
    (hmap : CoverMapped d img inode off b.size) (hdist : CoverDistinct d img inode off b.size)
    (hstab : CoverStable d img inode off b.size)
    (hlen : off + b.size < (2 ^ 32 - 1) * d.BlockSize) (hB : off / d.BlockSize ≤ B)
    (hEb : Eb * d.BlockSize + R = off + b.size) (hR : R < d.BlockSize) :
    ∀ (cnt i n : Nat) (cur : Bytes), StoredAt d img inode off b n cur →
      OnlyChanged d img inode off n cur →
      ((n = b.size ∧ (R ≠ 0 → cnt = 0)) ∨
        (n < b.size ∧ off + n = (B + i) * d.BlockSize ∧ B + i + cnt = Eb + 1)) →
      (d.writeLoop inode b (B % 2 ^ 32) cnt i n cur).n = b.size ∧
      StoredAt d img inode off b b.size (d.writeLoop inode b (B % 2 ^ 32) cnt i n cur).img ∧
      OnlyChanged d img inode off b.size (d.writeLoop inode b (B % 2 ^ 32) cnt i n cur).img ∧
      (R ≠ 0 → (d.writeLoop inode b (B % 2 ^ 32) cnt i n cur).err = none) := by
  intro cnt
  induction cnt with
  | zero =>
    intro i n cur hs ho hst
    rw [Device.writeLoop]
    rcases hst with ⟨hn, _⟩ | ⟨hlt, hal, hc⟩
    · subst hn
      exact ⟨rfl, hs, ho, fun _ => rfl⟩
    · exfalso
      have e : B + i = Eb + 1 := by omega
      rw [e, Nat.add_mul, Nat.one_mul] at hal
      omega
  | succ cnt ih =>
    intro i n cur hs ho hst
    rcases hst with ⟨hn, hc⟩ | ⟨hlt, hal, hc⟩
    · have hR0 : R = 0 := by
        by_contra h
        have := hc h
        omega
      rw [Device.writeLoop]
      cases hdb : d.DataBlock cur inode ((B % 2 ^ 32 + i) % 2 ^ 32) with
      | error e =>
        dsimp only
        subst hn
        exact ⟨rfl, hs, ho, fun h => absurd hR0 h⟩
      | ok blockNo =>
        dsimp only
        by_cases h0 : blockNo = EXT2_NULL_BLOCK
        · rw [if_pos h0]
          subst hn
          exact ⟨rfl, hs, ho, fun _ => rfl⟩
        · rw [if_neg h0]
          have e0 : min (b.size - n) d.BlockSize = 0 := by omega
          rw [e0, writeAt_zero, Nat.add_zero]
          exact ih (i + 1) n cur hs ho (Or.inl ⟨hn, fun h => absurd hR0 h⟩)
    · have hlt32 : B + i < 2 ^ 32 - 1 := by
        apply Nat.lt_of_mul_lt_mul_right (a := d.BlockSize)
        omega
      have hidx : (B % 2 ^ 32 + i) % 2 ^ 32 = B + i := by omega
      obtain ⟨blk, hdb, hnz, himg⟩ := hmap (B + i) (by omega) (by omega)
      have hcur := stable_cur d img inode off b.size hBS hstab cur n (by omega) ho (B + i)
        (by omega) (by omega)
      rw [Device.writeLoop, hidx, hcur, hdb]
      dsimp only
      rw [if_neg hnz]
      have hstep := write_step d img inode b off b.size hBS hdist cur n
        (min (b.size - n) d.BlockSize) (B + i) blk 0 hs ho hdb himg (by omega) (by omega)
        (by omega) (by omega) (by omega) (Or.inr rfl)
      rw [Nat.add_zero] at hstep
      apply ih (i + 1) _ _ hstep.1 hstep.2
      by_cases hfull : d.BlockSize < b.size - n
      · right
        have e1 : min (b.size - n) d.BlockSize = d.BlockSize := by omega
        have e2 : (B + (i + 1)) * d.BlockSize = (B + i) * d.BlockSize + d.BlockSize := by ring
        rw [e1, e2]
        omega
      · left
        have e1 : min (b.size - n) d.BlockSize = b.size - n := by omega
        rw [e1]
        refine ⟨by omega, ?_⟩
        intro hR0
        by_contra hcnt
        have h2 : B + i + 1 ≤ Eb := by omega
        have h3 := Nat.mul_le_mul_right d.BlockSize h2
        rw [Nat.add_mul, Nat.one_mul] at h3
        omega

/-- What `WriteData` does to a range whose data blocks are mapped, distinct and
hold no part of the block map: all of `b` is written to the image positions of
`off ..`, nothing else changes, and the error is nil unless the range ends on a
block boundary. -/
theorem WriteData_spec (d : Device) (img : Bytes) (inode : Inode) (b : Bytes) (off : Nat)
    (hBS : 0 < d.BlockSize) (hBS31 : d.BlockSize ≤ 2 ^ 31)
    (hmap : CoverMapped d img inode off b.size) (hdist : CoverDistinct d img inode off b.size)
    (hstab : CoverStable d img inode off b.size) (hb : b.size ≠ 0)
    (hlen : off + b.size < (2 ^ 32 - 1) * d.BlockSize) :
    (d.WriteData img inode b off).n = b.size ∧
    StoredAt d img inode off b b.size (d.WriteData img inode b off).img ∧
    OnlyChanged d img inode off b.size (d.WriteData img inode b off).img ∧
    ((off + b.size) % d.BlockSize ≠ 0 → (d.WriteData img inode b off).err = none) := by
  have hdm := Nat.div_add_mod' off d.BlockSize
  have hml := Nat.mod_lt off hBS
  have hEb := Nat.div_add_mod' (off + b.size) d.BlockSize
  have hEbl := Nat.mod_lt (off + b.size) hBS
  have h32 : (off + b.size) / d.BlockSize < 2 ^ 32 - 1 := by
    rw [Nat.div_lt_iff_lt_mul hBS]; exact hlen
  have h63 : off + b.size < 2 ^ 63 := by
    have := Nat.mul_le_mul_left (2 ^ 32 - 1) hBS31
    omega
  have hBE : off / d.BlockSize ≤ (off + b.size) / d.BlockSize :=
    Nat.div_le_div_right (Nat.le_add_right _ _)
  have hB : off / d.BlockSize % 2 ^ 32 = off / d.BlockSize := Nat.mod_eq_of_lt (by omega)
  have hspan := blockSpan_eq d b.size off h63 h32
  obtain ⟨blk, hdb, hnz, himg⟩ := hmap (off / d.BlockSize) (le_refl _) (by omega)
  have hs0 : StoredAt d img inode off b 0 img := fun k hk => absurd hk (by omega)
  have ho0 : OnlyChanged d img inode off 0 img := ⟨rfl, fun _ _ => rfl⟩
  have hstep := write_step d img inode b off b.size hBS hdist img 0
    (min (d.BlockSize - off % d.BlockSize) b.size) (off / d.BlockSize) blk (off % d.BlockSize)
    hs0 ho0 hdb himg (le_refl _) (by omega) (by omega) (by omega) (by omega) (Or.inl rfl)
  simp only [Nat.zero_add] at hstep
  unfold Device.WriteData
  dsimp only
  rw [if_neg hb, hB, hdb]
  dsimp only
  rw [← hB]
  apply writeLoop_spec d img inode b off (off / d.BlockSize) ((off + b.size) / d.BlockSize)
    ((off + b.size) % d.BlockSize) hBS hmap hdist hstab hlen (le_refl _) hEb hEbl _ 1 _ _
    hstep.1 hstep.2
  rw [hspan]
  by_cases hfull : d.BlockSize - off % d.BlockSize < b.size
  · right
    have e1 : min (d.BlockSize - off % d.BlockSize) b.size = d.BlockSize - off % d.BlockSize := by
      omega
    rw [e1, Nat.add_mul, Nat.one_mul]
    omega
  · left
    have e1 : min (d.BlockSize - off % d.BlockSize) b.size = b.size := by omega
    rw [e1]
    refine ⟨rfl, ?_⟩
    intro hR0
    by_contra hcnt
    have h2 : off / d.BlockSize + 1 ≤ (off + b.size) / d.BlockSize := by omega
    have h3 := Nat.mul_le_mul_right d.BlockSize h2
    rw [Nat.add_mul, Nat.one_mul] at h3
    omega

theorem CoverMapped_alias :
    CoverMapped exampleDevice zeroImage aliasInode 0 aliasBuffer.size := by
  intro L _ hL
  have h0 : L = 0 ∨ L = 1 := by
    simp only [exampleDevice, aliasBuffer] at hL
    omega
  rcases h0 with h | h <;> subst h <;> exact ⟨3, rfl, by decide, by decide⟩

/-- C6 (counterexample). Logical blocks 0 and 1 of the file are both mapped to the
non-null block 3.  Writing 1500 bytes at offset 0 returns `(1500, nil)`, but the
second chunk overwrites the first: the image byte of logical position 0 holds
`b[1024]`, not `b[0]`. -/
theorem C6_WriteData_counterexample :
    CoverMapped exampleDevice zeroImage aliasInode 0 aliasBuffer.size ∧
    aliasBuffer.size ≠ 0 ∧
    (exampleDevice.WriteData zeroImage aliasInode aliasBuffer 0).n = aliasBuffer.size ∧
    (exampleDevice.WriteData zeroImage aliasInode aliasBuffer 0).err = none ∧
    (exampleDevice.DataBlock zeroImage aliasInode ((0 + 0) / exampleDevice.BlockSize)).toOption
      = some 3 ∧
    (exampleDevice.WriteData zeroImage aliasInode aliasBuffer 0).img.get
      (exampleDevice.blockOffset 3 + (0 + 0) % exampleDevice.BlockSize) ≠ aliasBuffer.get 0 :=
  ⟨CoverMapped_alias, by decide, by decide, by decide, by decide, by decide⟩

/-- C6 (amended). If every logical block overlapping `[off, off+len(b))` is mapped to
a non-null block inside the image, these blocks are pairwise distinct and hold no
part of the block map of the range, and the range ends below block `2^32 - 1`, then
`WriteData` returns the count `len(b)`, stores `b[k]` at the image byte of logical
position `off+k` for every `k < len(b)`, changes no other byte and not the size of the
image, and leaves the block map of the range as it was; when `off + len(b)` is not a
multiple of `BlockSize` the returned error is nil. -/
theorem C6_WriteData_mapped (d : Device) (img : Bytes) (inode : Inode) (b : Bytes)
    (off : Nat) (hBS : 0 < d.BlockSize) (hBS31 : d.BlockSize ≤ 2 ^ 31)
    (hmap : CoverMapped d img inode off b.size) (hdist : CoverDistinct d img inode off b.size)
    (hstab : CoverStable d img inode off b.size) (hb : b.size ≠ 0)
    (hlen : off + b.size < (2 ^ 32 - 1) * d.BlockSize) :
    (d.WriteData img inode b off).n = b.size ∧
    ((off + b.size) % d.BlockSize ≠ 0 → (d.WriteData img inode b off).err = none) ∧
    (∀ k, k < b.size → ∃ blk, d.DataBlock img inode ((off + k) / d.BlockSize) = .ok blk ∧
      (d.WriteData img inode b off).img.get (d.blockOffset blk + (off + k) % d.BlockSize)
        = b.get k) ∧
    (d.WriteData img inode b off).img.size = img.size ∧
    (∀ p, (∀ k blk, k < b.size → d.DataBlock img inode ((off + k) / d.BlockSize) = .ok blk →
        p ≠ d.blockOffset blk + (off + k) % d.BlockSize) →
      (d.WriteData img inode b off).img.get p = img.get p) ∧
    (∀ L, off / d.BlockSize ≤ L → L * d.BlockSize < off + b.size →
      d.DataBlock (d.WriteData img inode b off).img inode L = d.DataBlock img inode L) := by
  obtain ⟨h1, h2, h3, h4⟩ := WriteData_spec d img inode b off hBS hBS31 hmap hdist hstab hb hlen
  exact ⟨h1, h4, h2, h3.1, h3.2,
    fun L hc1 hc2 => stable_cur d img inode off b.size hBS hstab _ b.size (le_refl _) h3 L hc1 hc2⟩

theorem threeBlock_cover (L : Nat) (hL : L * exampleDevice.BlockSize < 100 + sevenBuffer.size) :
    L = 0 ∨ L = 1 := by
  simp only [exampleDevice, sevenBuffer] at hL
  omega

theorem CoverMapped_threeBlock :
    CoverMapped exampleDevice zeroImage threeBlockInode 100 sevenBuffer.size := by
  intro L _ hL
  rcases threeBlock_cover L hL with h | h <;> subst h
  · exact ⟨3, rfl, by decide, by decide⟩
  · exact ⟨4, rfl, by decide, by decide⟩

theorem CoverDistinct_threeBlock :
    CoverDistinct exampleDevice zeroImage threeBlockInode 100 sevenBuffer.size := by
  intro L1 L2 blk _ h1 _ h2 e1 e2
  have a0 : exampleDevice.DataBlock zeroImage threeBlockInode 0 = .ok 3 := rfl
  have a1 : exampleDevice.DataBlock zeroImage threeBlockInode 1 = .ok 4 := rfl
  rcases threeBlock_cover L1 h1 with h | h <;> rcases threeBlock_cover L2 h2 with h' | h' <;>
    subst h <;> subst h' <;> first
    | rfl
    | (simp only [a0, a1, Except.ok.injEq] at e1 e2; omega)

theorem CoverStable_threeBlock :
    CoverStable exampleDevice zeroImage threeBlockInode 100 sevenBuffer.size := by
  intro img1 _ _ L _ hL
  rcases threeBlock_cover L hL with h | h <;> subst h <;> rfl

set_option maxRecDepth 100000 in
theorem C6_WriteData_mapped_witness :
    (exampleDevice.WriteData zeroImage threeBlockInode sevenBuffer 100).n = 1500 ∧
    (exampleDevice.WriteData zeroImage threeBlockInode sevenBuffer 100).err = none ∧
    (exampleDevice.WriteData zeroImage threeBlockInode sevenBuffer 100).img.get (3 * 1024 + 100)
      = 7 :=
  ⟨(C6_WriteData_mapped exampleDevice zeroImage threeBlockInode sevenBuffer 100 (by decide)
      (by decide) CoverMapped_threeBlock CoverDistinct_threeBlock CoverStable_threeBlock
      (by decide) (by decide)).1,
   (C6_WriteData_mapped exampleDevice zeroImage threeBlockInode sevenBuffer 100 (by decide)
      (by decide) CoverMapped_threeBlock CoverDistinct_threeBlock CoverStable_threeBlock
      (by decide) (by decide)).2.1 (by decide),
   by decide⟩

theorem readAtErr_zero (img : Bytes) (pos : Nat) : readAtErr img pos 0 = none := by
  unfold readAtErr
  rw [if_pos (Or.inl rfl)]

theorem readLoop_full (d : Device) (img : Bytes) (inode : Inode) (size off B Eb R : Nat)
    (hBS : 0 < d.BlockSize) (hSize : inode.Size < 2 ^ 32)
    (hmap : CoverMapped d img inode off size) (hle : off + size ≤ inode.Size)
    (hB : off / d.BlockSize ≤ B)
    (hEb : Eb * d.BlockSize + R = off + size) (hR : R < d.BlockSize) :
    ∀ (cnt i n : Nat) (b : Bytes),
      (n = size ∨ (n < size ∧ off + n = (B + i) * d.BlockSize ∧ B + i + cnt = Eb + 1)) →
      (d.readLoop img inode size off (B % 2 ^ 32) cnt i n b).n = size := by
  intro cnt
  induction cnt with
  | zero =>
    intro i n b hst
    rw [Device.readLoop]
    rcases hst with hn | ⟨hlt, hal, hc⟩
    · exact hn
    · exfalso
      have e : B + i = Eb + 1 := by omega
      rw [e, Nat.add_mul, Nat.one_mul] at hal
      omega
  | succ cnt ih =>
    intro i n b hst
    rcases hst with hn | ⟨hlt, hal, hc⟩
    · rw [Device.readLoop]
      cases hdb : d.DataBlock img inode ((B % 2 ^ 32 + i) % 2 ^ 32) with
      | error e => exact hn
      | ok blockNo =>
        dsimp only
        by_cases h0 : blockNo = EXT2_NULL_BLOCK
        · rw [if_pos h0]; exact hn
        · rw [if_neg h0]
          have e0 : min (size - n) d.BlockSize = 0 := by omega
          rw [e0, readAtErr_zero]
          dsimp only
          by_cases hEOF : n + 0 + off ≥ inode.Size
          · rw [if_pos hEOF]; exact hn
          · rw [if_neg hEOF]
            exact ih _ _ _ (Or.inl hn)
    · have hle2 : B + i ≤ (B + i) * d.BlockSize := Nat.le_mul_of_pos_right _ hBS
      have hidx : (B % 2 ^ 32 + i) % 2 ^ 32 = B + i := by omega
      obtain ⟨blk, hdb, hnz, himg⟩ := hmap (B + i) (by omega) (by omega)
      rw [Device.readLoop, hidx, hdb]
      dsimp only
      rw [if_neg hnz, readAtErr_of_le _ _ _ (by omega)]
      dsimp only
      by_cases hEOF : n + min (size - n) d.BlockSize + off ≥ inode.Size
      · rw [if_pos hEOF]
        show n + min (size - n) d.BlockSize = size
        omega
      · rw [if_neg hEOF]
        apply ih
        by_cases hfull : d.BlockSize < size - n
        · right
          have e1 : min (size - n) d.BlockSize = d.BlockSize := by omega
          have e2 : (B + (i + 1)) * d.BlockSize = (B + i) * d.BlockSize + d.BlockSize := by ring
          rw [e1, e2]
          omega
        · left
          omega

/-- A read of a mapped range that lies inside the file delivers the whole
buffer. -/
theorem ReadData_full (d : Device) (img : Bytes) (inode : Inode) (b : Bytes) (off : Nat)
    (hBS : 4 ≤ d.BlockSize) (hSize : inode.Size < 2 ^ 32)
    (hmap : CoverMapped d img inode off b.size) (hb : b.size ≠ 0)
    (hle : off + b.size ≤ inode.Size) :
    (d.ReadData img inode b off).n = b.size := by
  have hBS0 : 0 < d.BlockSize := by omega
  have hdm := Nat.div_add_mod' off d.BlockSize
  have hml := Nat.mod_lt off hBS0
  have hEb := Nat.div_add_mod' (off + b.size) d.BlockSize
  have hEbl := Nat.mod_lt (off + b.size) hBS0
  have h32 : (off + b.size) / d.BlockSize < 2 ^ 32 - 1 := by
    have := Nat.div_le_div_left (a := off + b.size) hBS (by omega : 0 < 4)
    omega
  have hBE : off / d.BlockSize ≤ (off + b.size) / d.BlockSize :=
    Nat.div_le_div_right (Nat.le_add_right _ _)
  have hB : off / d.BlockSize % 2 ^ 32 = off / d.BlockSize := Nat.mod_eq_of_lt (by omega)
  have hspan := blockSpan_eq d b.size off (by omega) h32
  obtain ⟨blk, hdb, hnz, himg⟩ := hmap (off / d.BlockSize) (le_refl _) (by omega)
  unfold Device.ReadData
  dsimp only
  rw [if_neg hb, if_neg (by omega), hB, hdb]
  dsimp only
  rw [readAtErr_of_le _ _ _ (by unfold Device.blockOffset at himg ⊢; omega)]
  dsimp only
  by_cases hEOF : min (d.BlockSize - off % d.BlockSize) b.size + off ≥ inode.Size
  · rw [if_pos hEOF]
    show min (d.BlockSize - off % d.BlockSize) b.size = b.size
    omega
  · rw [if_neg hEOF, ← hB]
    apply readLoop_full d img inode b.size off (off / d.BlockSize)
      ((off + b.size) / d.BlockSize) ((off + b.size) % d.BlockSize) hBS0 hSize hmap hle
      (le_refl _) hEb hEbl
    by_cases hfull : d.BlockSize - off % d.BlockSize < b.size
    · right
      have e1 : min (d.BlockSize - off % d.BlockSize) b.size
          = d.BlockSize - off % d.BlockSize := by omega
      rw [e1, Nat.add_mul, Nat.one_mul, hspan]
      omega
    · left
      omega

theorem self_cover (L : Nat) (h1 : 12 * 1024 / exampleDevice.BlockSize ≤ L)
    (h2 : L * exampleDevice.BlockSize < 12 * 1024 + sixBuffer.size) : L = 12 := by
  simp only [exampleDevice, sixBuffer, Bytes.ofList, List.length] at h1 h2
  omega

/-- C7 (counterexample). Logical block 12 is mapped through the single-indirect block
9 whose slot 0 names block 9 itself.  Writing `6,0,0,0` at offset `12*1024` returns the
count 4 but overwrites that slot; the following read resolves block 12 to block 6 and
returns count 4 with a first byte 0 instead of 6. -/
theorem C7_roundtrip_counterexample :
    CoverMapped exampleDevice selfImage selfInode (12 * 1024) sixBuffer.size ∧
    CoverDistinct exampleDevice selfImage selfInode (12 * 1024) sixBuffer.size ∧
    12 * 1024 + sixBuffer.size ≤ selfInode.Size ∧
    (exampleDevice.WriteData selfImage selfInode sixBuffer (12 * 1024)).n = sixBuffer.size ∧
    (exampleDevice.ReadData (exampleDevice.WriteData selfImage selfInode sixBuffer (12 * 1024)).img
      selfInode (Bytes.zeros 4) (12 * 1024)).n = sixBuffer.size ∧
    (exampleDevice.ReadData (exampleDevice.WriteData selfImage selfInode sixBuffer (12 * 1024)).img
      selfInode (Bytes.zeros 4) (12 * 1024)).buf.get 0 ≠ sixBuffer.get 0 := by
  refine ⟨?_, ?_, by decide, by decide, by decide, by decide⟩
  · intro L h1 h2
    have h := self_cover L h1 h2
    subst h
    exact ⟨9, rfl, by decide, by decide⟩
  · intro L1 L2 blk a1 a2 b1 b2 _ _
    rw [self_cover L1 a1 a2, self_cover L2 b1 b2]

/-- C7 (amended). Write/read round trip: if the logical blocks covering
`[off, off+len(b))` are mapped to pairwise distinct non-null blocks inside the image
that hold no part of the block map of the range, and `off + len(b) ≤ Size`, then
`WriteData(inode, b, off)` returns the count `len(b)` and a following
`ReadData(inode, b2, off)` with `len(b2) = len(b)` returns the count `len(b)` and fills
`b2` with exactly the bytes of `b`. -/
theorem C7_write_read_roundtrip (d : Device) (img : Bytes) (inode : Inode) (b b2 : Bytes)
    (off : Nat) (hBS : 4 ≤ d.BlockSize) (hBS31 : d.BlockSize ≤ 2 ^ 31)
    (hSize : inode.Size < 2 ^ 32)
    (hmap : CoverMapped d img inode off b.size) (hdist : CoverDistinct d img inode off b.size)
    (hstab : CoverStable d img inode off b.size) (hb2 : b2.size = b.size)
    (hle : off + b.size ≤ inode.Size) :
    (d.WriteData img inode b off).n = b.size ∧
    (d.ReadData (d.WriteData img inode b off).img inode b2 off).n = b.size ∧
    ∀ k, k < b.size →
      (d.ReadData (d.WriteData img inode b off).img inode b2 off).buf.get k = b.get k := by
  have hBS0 : 0 < d.BlockSize := by omega
  by_cases hb : b.size = 0
  · refine ⟨?_, ?_, fun k hk => absurd hk (by omega)⟩
    · unfold Device.WriteData
      dsimp only
      rw [if_pos hb, hb]
    · unfold Device.ReadData
      dsimp only
      rw [if_pos (by omega), hb]
  · have h4 : (2 ^ 32 - 1) * 4 ≤ (2 ^ 32 - 1) * d.BlockSize := Nat.mul_le_mul_left _ hBS
    obtain ⟨h1, h2, h3, _⟩ := WriteData_spec d img inode b off hBS0 hBS31 hmap hdist hstab hb
      (by omega)
    have hst := fun L hc1 hc2 =>
      stable_cur d img inode off b.size hBS0 hstab _ b.size (le_refl _) h3 L hc1 hc2
    have hmap2 : CoverMapped d (d.WriteData img inode b off).img inode off b2.size := by
      intro L hc1 hc2
      rw [hb2] at hc2
      obtain ⟨blk, e1, e2, e3⟩ := hmap L hc1 hc2
      exact ⟨blk, by rw [hst L hc1 hc2]; exact e1, e2, by rw [h3.1]; exact e3⟩
    have hn := ReadData_full d (d.WriteData img inode b off).img inode b2 off hBS hSize hmap2
      (by omega) (by omega)
    have hc := ReadData_content d (d.WriteData img inode b off).img inode b2 off hBS0 hSize
    refine ⟨h1, by rw [hn, hb2], ?_⟩
    intro k hk
    obtain ⟨blk2, e1, e2⟩ := hc k (by rw [hn, hb2]; exact hk)
    obtain ⟨blk, e3, e4⟩ := h2 k hk
    have hcov := cover_of_lt d off b.size k hk
    rw [hst _ hcov.1 hcov.2, e3] at e1
    injection e1 with e1
    rw [e2, ← e1, e4]

set_option maxRecDepth 100000 in
theorem C7_write_read_roundtrip_witness :
    (exampleDevice.ReadData (exampleDevice.WriteData zeroImage threeBlockInode sevenBuffer 100).img
      threeBlockInode (Bytes.zeros 1500) 100).n = 1500 ∧
    (exampleDevice.ReadData (exampleDevice.WriteData zeroImage threeBlockInode sevenBuffer 100).img
      threeBlockInode (Bytes.zeros 1500) 100).buf.get 1400 = 7 :=
  ⟨(C7_write_read_roundtrip exampleDevice zeroImage threeBlockInode sevenBuffer
      (Bytes.zeros 1500) 100 (by decide) (by decide) (by decide) CoverMapped_threeBlock
      CoverDistinct_threeBlock CoverStable_threeBlock rfl (by decide)).2.1,
   (C7_write_read_roundtrip exampleDevice zeroImage threeBlockInode sevenBuffer
      (Bytes.zeros 1500) 100 (by decide) (by decide) (by decide) CoverMapped_threeBlock
      CoverDistinct_threeBlock CoverStable_threeBlock rfl (by decide)).2.2 1400 (by decide)⟩

theorem Partitioned_at_end (blk : Bytes) (pos : Nat) (l : List Nat)
    (h : Partitioned blk pos l) (hpos : blk.size ≤ pos) : l = [] := by
  cases h with
  | done => rfl
  | cons _ next rest h1 h2 h3 h4 => omega

theorem le32_congr (b1 b2 : Bytes) (p1 p2 : Nat)
    (h : ∀ k, k < 4 → b1.get (p1 + k) = b2.get (p2 + k)) : le32 b1 p1 = le32 b2 p2 := by
  unfold le32
  have h0 := h 0 (by omega)
  have h1 := h 1 (by omega)
  have h2 := h 2 (by omega)
  have h3 := h 3 (by omega)
  simp only [Nat.add_zero] at h0
  rw [h0, h1, h2, h3]

theorem le16_congr (b1 b2 : Bytes) (p1 p2 : Nat)
    (h : ∀ k, k < 2 → b1.get (p1 + k) = b2.get (p2 + k)) : le16 b1 p1 = le16 b2 p2 := by
  unfold le16
  have h0 := h 0 (by omega)
  have h1 := h 1 (by omega)
  simp only [Nat.add_zero] at h0
  rw [h0, h1]

theorem entryName_congr (b1 b2 : Bytes) (n : Nat)
    (h : ∀ i, i < n → b1.get (8 + i) = b2.get (8 + i)) : entryName b1 n = entryName b2 n := by
  unfold entryName
  apply List.map_congr_left
  intro i _
  by_cases hi : i < n
  · rw [if_pos hi, if_pos hi, h i hi]
  · rw [if_neg hi, if_neg hi]

/-- The record loop on a buffer that holds the bytes of a partitioned block from
`pos` on. -/
theorem parseBlock_partitioned (blk : Bytes) (pos : Nat) (starts : List Nat)
    (hp : Partitioned blk pos starts) :
    ∀ (fuel : Nat) (buf : Bytes) (dir : List DirEntry), buf.size = blk.size - pos →
      (∀ k, pos + k < blk.size → buf.get k = blk.get (pos + k)) → blk.size - pos < fuel →
      parseBlock fuel buf dir = .ok (dir ++ listedEntries blk starts) := by
  induction hp with
  | done =>
    intro fuel buf dir hsz _ hf
    obtain ⟨f, rfl⟩ : ∃ f, fuel = f + 1 := ⟨fuel - 1, by omega⟩
    rw [parseBlock, if_neg (by omega)]
    simp [listedEntries]
  | cons pos next rest h1 h2 h3 _ ih =>
    intro fuel buf dir hsz hag hf
    obtain ⟨f, rfl⟩ : ∃ f, fuel = f + 1 := ⟨fuel - 1, by omega⟩
    rw [parseBlock]
    by_cases h8 : 8 < buf.size
    · have e32 : le32 buf 0 = le32 blk pos := by
        apply le32_congr
        intro k hk
        rw [Nat.zero_add]
        exact hag k (by omega)
      have e16 : le16 buf 4 = le16 blk (pos + 4) := by
        apply le16_congr
        intro k hk
        rw [hag (4 + k) (by omega), Nat.add_assoc]
      have e6 : buf.get 6 = blk.get (pos + 6) := hag 6 (by omega)
      have e7 : buf.get 7 = blk.get (pos + 7) := hag 7 (by omega)
      have hmod := Nat.mod_le ((blk.get (pos + 6)).val + 8) 256
      have hname : entryName buf (blk.get (pos + 6)).val
          = entryName (blk.drop pos) (blk.get (pos + 6)).val := by
        apply entryName_congr
        intro i hi
        exact hag (8 + i) (by omega)
      have hrec := ih f (buf.drop (le16 blk (pos + 4)))
      rw [if_pos h8]
      dsimp only
      rw [e32, e16, e6, e7, if_neg (by omega), if_neg (by omega), if_neg (by omega)]
      by_cases hino : le32 blk pos ≠ EXT2_NULL_INO
      · rw [if_pos hino, if_neg (by omega), hname]
        rw [hrec _ (by simp only [Bytes.drop]; omega)
          (by intro k hk; simp only [Bytes.drop]; rw [hag _ (by omega)]; congr 1; omega)
          (by omega)]
        rw [listedEntries, if_pos ⟨hino, by omega⟩, List.append_assoc]
        rfl
      · rw [if_neg hino]
        rw [hrec _ (by simp only [Bytes.drop]; omega)
          (by intro k hk; simp only [Bytes.drop]; rw [hag _ (by omega)]; congr 1; omega)
          (by omega)]
        rw [listedEntries, if_neg (fun h => hino h.1)]
    · rw [if_neg h8]
      have hrest : rest = [] := Partitioned_at_end blk next rest (by assumption) (by omega)
      rw [hrest, listedEntries, if_neg (fun h => by omega), listedEntries, List.append_nil]

theorem readLoop_buf_size (d : Device) (img : Bytes) (inode : Inode) (size off B : Nat) :
    ∀ (cnt i n : Nat) (b : Bytes),
      (d.readLoop img inode size off B cnt i n b).buf.size = b.size := by
  intro cnt
  induction cnt with
  | zero => intro i n b; rw [Device.readLoop]
  | succ cnt ih =>
    intro i n b
    rw [Device.readLoop]
    cases d.DataBlock img inode ((B + i) % 2 ^ 32) with
    | error e => rfl
    | ok blockNo =>
      dsimp only
      by_cases h0 : blockNo = EXT2_NULL_BLOCK
      · rw [if_pos h0]
      · rw [if_neg h0]
        cases readAtErr img (d.blockOffset blockNo) (min (size - n) d.BlockSize) with
        | some e => rfl
        | none =>
          dsimp only
          by_cases hEOF : n + min (size - n) d.BlockSize + off ≥ inode.Size
          · rw [if_pos hEOF]; rfl
          · rw [if_neg hEOF, ih]; rfl

theorem ReadData_buf_size (d : Device) (img : Bytes) (inode : Inode) (b : Bytes) (off : Nat) :
    (d.ReadData img inode b off).buf.size = b.size := by
  unfold Device.ReadData
  dsimp only
  by_cases h1 : b.size = 0
  · rw [if_pos h1]
  rw [if_neg h1]
  by_cases h2 : off ≥ inode.Size
  · rw [if_pos h2]
  rw [if_neg h2]
  cases d.DataBlock img inode (off / d.BlockSize % 2 ^ 32) with
  | error e => rfl
  | ok blockNo =>
    dsimp only
    cases readAtErr img (d.blockOffset blockNo + off % d.BlockSize)
        (min (d.BlockSize - off % d.BlockSize) b.size) with
    | some e => rfl
    | none =>
      dsimp only
      by_cases hEOF : min (d.BlockSize - off % d.BlockSize) b.size + off ≥ inode.Size
      · rw [if_pos hEOF]; rfl
      · rw [if_neg hEOF, readLoop_buf_size]; rfl

/-- What `NewDirEntries` reads for block `i` of a mapped directory: no error other
than `io.EOF`, and a buffer holding the bytes of the block. -/
theorem read_dir_block (d : Device) (img : Bytes) (inode : Inode)
    (hBS : 4 ≤ d.BlockSize) (hBS31 : d.BlockSize ≤ 2 ^ 31) (hSize : inode.Size < 2 ^ 32)
    (hmap : MappedBelow d img inode) (i : Nat) (hi : i < inode.Size / d.BlockSize) :
    ((d.ReadData img inode (Bytes.zeros d.BlockSize) (mul32 d.BlockSize i)).err = none ∨
      (d.ReadData img inode (Bytes.zeros d.BlockSize) (mul32 d.BlockSize i)).err
        = some Error.EOF) ∧
    (d.ReadData img inode (Bytes.zeros d.BlockSize) (mul32 d.BlockSize i)).buf.size
      = (dataBlockBytes d img inode i).size ∧
    (∀ k, k < d.BlockSize →
      (d.ReadData img inode (Bytes.zeros d.BlockSize) (mul32 d.BlockSize i)).buf.get k
        = (dataBlockBytes d img inode i).get k) := by
  have hBS0 : 0 < d.BlockSize := by omega
  have hle : (i + 1) * d.BlockSize ≤ inode.Size := (Nat.le_div_iff_mul_le hBS0).mp hi
  rw [Nat.add_mul, Nat.one_mul] at hle
  have hoff : mul32 d.BlockSize i = i * d.BlockSize := by
    rw [mul32_eq _ _ (by rw [Nat.mul_comm]; omega), Nat.mul_comm]
  rw [hoff]
  have hE := roundUp_ge inode.Size d.BlockSize hBS0
  have h4 : (2 ^ 32 - 1) * 4 ≤ (2 ^ 32 - 1) * d.BlockSize := Nat.mul_le_mul_left _ hBS
  obtain ⟨blk, hdb, _, _⟩ := hmap i (by omega)
  have hsz : (dataBlockBytes d img inode i).size = d.BlockSize := by
    unfold dataBlockBytes; rw [hdb]
  obtain ⟨h1, h2⟩ := ReadData_count d img inode (Bytes.zeros d.BlockSize) (i * d.BlockSize)
    hBS0 hBS31 hSize hmap (by simp only [Bytes.zeros]; omega) (by omega)
    (by simp only [Bytes.zeros]; omega)
  have hc := ReadData_content d img inode (Bytes.zeros d.BlockSize) (i * d.BlockSize) hBS0 hSize
  have hn : (d.ReadData img inode (Bytes.zeros d.BlockSize) (i * d.BlockSize)).n
      = d.BlockSize := by
    rw [h1]; simp only [Bytes.zeros]; omega
  refine ⟨?_, ?_, ?_⟩
  · rw [h2]
    split_ifs
    · exact Or.inr rfl
    · exact Or.inl rfl
  · rw [ReadData_buf_size, hsz]; rfl
  · intro k hk
    obtain ⟨blk', e1, e2⟩ := hc k (by rw [hn]; exact hk)
    obtain ⟨e3, e4⟩ := div_mod_of_block i k d.BlockSize hk
    rw [e3, hdb] at e1
    injection e1 with e1
    rw [e2, e4, ← e1]
    unfold dataBlockBytes
    rw [hdb]

theorem dirBlocks_partitioned (d : Device) (img : Bytes) (inode : Inode)
    (hBS : 4 ≤ d.BlockSize) (hBS31 : d.BlockSize ≤ 2 ^ 31) (hSize : inode.Size < 2 ^ 32)
    (hmap : MappedBelow d img inode) (starts : Nat → List Nat)
    (hpart : ∀ i, i < inode.Size / d.BlockSize →
      Partitioned (dataBlockBytes d img inode i) 0 (starts i)) :
    ∀ (cnt i : Nat) (dir : List DirEntry), i + cnt ≤ inode.Size / d.BlockSize →
      d.dirBlocks img inode cnt i dir
        = .ok (dir ++ listedBlocks
            (fun j => listedEntries (dataBlockBytes d img inode j) (starts j)) cnt i) := by
  intro cnt
  induction cnt with
  | zero =>
    intro i dir _
    rw [Device.dirBlocks, listedBlocks, List.append_nil]
  | succ cnt ih =>
    intro i dir hi
    obtain ⟨h1, h2, h3⟩ := read_dir_block d img inode hBS hBS31 hSize hmap i (by omega)
    have hsz : (dataBlockBytes d img inode i).size = d.BlockSize := by
      obtain ⟨blk, hdb, _, _⟩ := hmap i (by
        have := (Nat.le_div_iff_mul_le (by omega : 0 < d.BlockSize)).mp
          (by omega : i + 1 ≤ inode.Size / d.BlockSize)
        rw [Nat.add_mul, Nat.one_mul] at this
        omega)
      unfold dataBlockBytes; rw [hdb]
    have hparse := parseBlock_partitioned (dataBlockBytes d img inode i) 0 (starts i)
      (hpart i (by omega))
      ((d.ReadData img inode (Bytes.zeros d.BlockSize) (mul32 d.BlockSize i)).buf.size + 1)
      (d.ReadData img inode (Bytes.zeros d.BlockSize) (mul32 d.BlockSize i)).buf dir
      (by rw [h2]; rfl)
      (by intro k hk; rw [Nat.zero_add] at hk ⊢; exact h3 k (by omega))
      (by rw [h2]; omega)
    rw [Device.dirBlocks]
    rw [if_neg (by rcases h1 with h | h <;> rw [h] <;> simp), hparse]
    show d.dirBlocks img inode cnt (i + 1) _ = _
    rw [ih (i + 1) _ (by omega), listedBlocks, List.append_assoc]

theorem le32_lt (b : Bytes) (pos : Nat) : le32 b pos < 2 ^ 32 := by
  unfold le32
  have h0 := (b.get pos).isLt
  have h1 := (b.get (pos + 1)).isLt
  have h2 := (b.get (pos + 2)).isLt
  have h3 := (b.get (pos + 3)).isLt
  omega

theorem NewInode_Size_lt (d : Device) (img : Bytes) (ino : Nat) (inode : Inode)
    (h : d.NewInode img ino = .ok inode) : inode.Size < 2 ^ 32 := by
  unfold Device.NewInode at h
  split_ifs at h
  dsimp only at h
  split at h
  · cases h
  · split_ifs at h
    split at h
    · cases h
    · injection h with h
      rw [← h]
      exact le32_lt _ _

/-- C8 (counterexample). The directory block holds `.` (`recLen = 1016`) followed by a
final record with inode 5, `recLen = 8` and `nameLen = 0`: the records are well formed
and partition the block, both have a non-zero inode, yet `NewDirEntries` lists only
the first. -/
theorem C8_NewDirEntries_counterexample :
    (exampleDevice.NewInode shortTailImage 2).toOption.map (fun i => (i.IsDir, i.Size))
      = some (true, 1024) ∧
    Partitioned (dataBlockBytes exampleDevice shortTailImage
      (decodeInode shortTailImage (5 * 1024 + 128)) 0) 0 [0, 1016] ∧
    le32 (dataBlockBytes exampleDevice shortTailImage
      (decodeInode shortTailImage (5 * 1024 + 128)) 0) 0 = 2 ∧
    le32 (dataBlockBytes exampleDevice shortTailImage
      (decodeInode shortTailImage (5 * 1024 + 128)) 0) 1016 = 5 ∧
    listedInodes (exampleDevice.NewDirEntries shortTailImage 2) = [2] := by
  refine ⟨by decide, ?_, by decide, by decide, by decide⟩
  exact Partitioned.cons 0 1016 [1016] (by decide) (by decide) (by decide)
    (Partitioned.cons 1016 1024 [] (by decide) (by decide) (by decide) Partitioned.done)

/-- C8 (amended). For a directory inode whose data blocks are mapped and are each
exactly partitioned by well-formed records (`recLen ≥ 8 + nameLen`, the `recLen`
values summing to `BlockSize`), `NewDirEntries` returns, block after block and in
on-disk order, exactly one entry per record that has a non-zero inode field and
starts more than 8 bytes before the end of its block, carrying that record's inode,
`nameLen`, `fileType` and name bytes; no other record gets an entry. -/
theorem C8_NewDirEntries_listing (d : Device) (img : Bytes) (ino : Nat) (inode : Inode)
    (hBS : 4 ≤ d.BlockSize) (hBS31 : d.BlockSize ≤ 2 ^ 31)
    (hino : d.NewInode img ino = .ok inode) (hdir : inode.IsDir = true)
    (hmap : MappedBelow d img inode) (starts : Nat → List Nat)
    (hpart : ∀ i, i < inode.Size / d.BlockSize →
      Partitioned (dataBlockBytes d img inode i) 0 (starts i)) :
    d.NewDirEntries img ino
      = .ok (listedBlocks (fun j => listedEntries (dataBlockBytes d img inode j) (starts j))
          (inode.Size / d.BlockSize) 0) := by
  have hSize := NewInode_Size_lt d img ino inode hino
  unfold Device.NewDirEntries
  rw [hino]
  dsimp only
  rw [hdir]
  simp only [Bool.not_true, Bool.false_eq_true, if_false]
  rw [dirBlocks_partitioned d img inode hBS hBS31 hSize hmap starts hpart _ 0 []
    (by omega)]
  rfl

theorem MappedBelow_root :
    MappedBelow exampleDevice rootImage (decodeInode rootImage (5 * 1024 + 128)) := by
  intro L hL
  have hs : (decodeInode rootImage (5 * 1024 + 128)).Size = 1024 := by decide
  have h0 : L = 0 := by
    rw [hs] at hL
    simp only [exampleDevice] at hL
    omega
  subst h0
  exact ⟨7, rfl, by decide, by decide⟩

theorem Partitioned_root (i : Nat)
    (_ : i < (decodeInode rootImage (5 * 1024 + 128)).Size / exampleDevice.BlockSize) :
    Partitioned (dataBlockBytes exampleDevice rootImage
      (decodeInode rootImage (5 * 1024 + 128)) i) 0 ((fun _ => [0, 12, 24]) i) := by
  have hs : (decodeInode rootImage (5 * 1024 + 128)).Size / exampleDevice.BlockSize = 1 := by
    decide
  have h0 : i = 0 := by omega
  subst h0
  exact Partitioned.cons 0 12 [12, 24] (by decide) (by decide) (by decide)
    (Partitioned.cons 12 24 [24] (by decide) (by decide) (by decide)
      (Partitioned.cons 24 1024 [] (by decide) (by decide) (by decide) Partitioned.done))

set_option maxRecDepth 100000 in
theorem C8_NewDirEntries_listing_witness :
    listedInodes (exampleDevice.NewDirEntries rootImage 2) = [2, 2, 3] := by
  rw [C8_NewDirEntries_listing exampleDevice rootImage 2
    (decodeInode rootImage (5 * 1024 + 128)) (by decide) (by decide) rfl (by decide)
    MappedBelow_root (fun _ => [0, 12, 24]) Partitioned_root]
  decide

/-- C9 (failing input). The directory block holds `.` (`recLen = 1012`) and then, 12
bytes before the block end, a record with inode 5, `recLen = 12` and `nameLen = 250`.
The guard `int(block[6]+8) > len(block)` is computed in `uint8`, `250 + 8` wraps to 2,
the record passes, and `block[8:8+250]` on the 12-byte slice panics. -/
theorem C9_NewDirEntries_panics :
    (exampleDevice.NewDirEntries longNameImage 2).isPanic = true := by
  decide

/-- C10 (failing input). The root directory of `rootImage` holds the entry `a`
(inode 3).  `InodeFromPath("/a")` returns 0: `path.Dir("/a")` is `"/"`, which splits
into two empty names, so the loop scans the root for the name `""` and gives up;
`InodeFromPath("/a/")` returns 3. -/
theorem C10_InodeFromPath_single_component :
    (match exampleDevice.InodeFromPath rootImage [47, 97] with
      | .ok ino => some ino | _ => none) = some 0 ∧
    (match exampleDevice.InodeFromPath rootImage [47, 97, 47] with
      | .ok ino => some ino | _ => none) = some 3 ∧
    Scan (match exampleDevice.NewDirEntries rootImage 2 with
      | .ok dir => dir | _ => []) [97] = 3 := by
  decide

theorem findFreeLoop_spec (bmp : Bytes) :
    ∀ (cnt i : Nat),
      (Bitmap.findFreeLoop bmp cnt i = -1 ∧
        ∀ j, i ≤ j → j < i + cnt → Bitmap.IsFree bmp j = false) ∨
      (∃ k : Nat, Bitmap.findFreeLoop bmp cnt i = (k : Int) ∧ i ≤ k ∧ k < i + cnt ∧
        Bitmap.IsFree bmp k = true ∧ ∀ j, i ≤ j → j < k → Bitmap.IsFree bmp j = false) := by
  intro cnt
  induction cnt with
  | zero =>
    intro i
    left
    exact ⟨rfl, fun j h1 h2 => absurd h2 (by omega)⟩
  | succ cnt ih =>
    intro i
    rw [Bitmap.findFreeLoop]
    by_cases hf : Bitmap.IsFree bmp i = true
    · right
      rw [if_pos hf]
      exact ⟨i, rfl, le_refl _, by omega, hf, fun j h1 h2 => absurd h2 (by omega)⟩
    · rw [if_neg hf]
      have hf' : Bitmap.IsFree bmp i = false := by simpa using hf
      rcases ih (i + 1) with ⟨h1, h2⟩ | ⟨k, h1, h2, h3, h4, h5⟩
      · left
        refine ⟨h1, fun j hj1 hj2 => ?_⟩
        by_cases hji : j = i
        · rw [hji]; exact hf'
        · exact h2 j (by omega) (by omega)
      · right
        refine ⟨k, h1, by omega, by omega, h4, fun j hj1 hj2 => ?_⟩
        by_cases hji : j = i
        · rw [hji]; exact hf'
        · exact h5 j (by omega) hj2

/-- `FindFree` returns the lowest clear bit, and `-1` exactly when no bit is
clear. -/
theorem FindFree_spec (bmp : Bytes) (hsz : bmp.size * 8 < 2 ^ 32) :
    (Bitmap.FindFree bmp = -1 ∧ ¬ Bitmap.HasClear bmp) ∨
    (∃ k : Nat, Bitmap.FindFree bmp = (k : Int) ∧ Bitmap.LowestClear bmp k) := by
  unfold Bitmap.FindFree
  rw [Nat.mod_eq_of_lt hsz]
  rcases findFreeLoop_spec bmp (bmp.size * 8) 0 with ⟨h1, h2⟩ | ⟨k, h1, _, h3, h4, h5⟩
  · left
    refine ⟨h1, ?_⟩
    rintro ⟨i, hi, hf⟩
    rw [h2 i (by omega) (by omega)] at hf
    cases hf
  · right
    exact ⟨k, h1, by omega, h4, fun j hj => h5 j (by omega) hj⟩

theorem FindFree_ne_iff (bmp : Bytes) (hsz : bmp.size * 8 < 2 ^ 32) :
    Bitmap.FindFree bmp ≠ -1 ↔ Bitmap.HasClear bmp := by
  rcases FindFree_spec bmp hsz with ⟨h1, h2⟩ | ⟨k, h1, h2⟩
  · constructor
    · intro h; exact absurd h1 h
    · intro h; exact absurd h h2
  · constructor
    · intro _; exact ⟨k, h2.1, h2.2.1⟩
    · intro _; rw [h1]; omega

theorem cyc_ne (g G j : Nat) (hg : g < G) (h1 : 1 ≤ j) (h2 : j < G) : (g + j) % G ≠ g := by
  by_cases h : g + j < G
  · rw [Nat.mod_eq_of_lt h]; omega
  · rw [Nat.mod_eq_sub_mod (by omega), Nat.mod_eq_of_lt (by omega)]; omega

theorem cyc_succ (g G k : Nat) (hG : 0 < G) (hG32 : G < 2 ^ 32) :
    ((g + k) % G + 1) % 2 ^ 32 % G = (g + (k + 1)) % G := by
  have h := Nat.mod_lt (g + k) hG
  rw [Nat.mod_eq_of_lt (by omega : (g + k) % G + 1 < 2 ^ 32)]
  rw [← Nat.add_assoc, Nat.add_mod (g + k) 1 G]
  by_cases h1 : G = 1
  · subst h1; simp [Nat.mod_one]
  · rw [Nat.mod_eq_of_lt (by omega : 1 < G)]

theorem nextLoop_spec (d : Device) (bitmap : Nat → Except Error Bytes) (g : Nat)
    (hg : g < d.BlockGroupsCount) (hG32 : d.BlockGroupsCount < 2 ^ 32) :
    ∀ (n k fuel : Nat), k + n = d.BlockGroupsCount → 1 ≤ k → n + 1 ≤ fuel →
      (∃ e m, k ≤ m ∧ m < d.BlockGroupsCount ∧
        d.nextLoop bitmap g fuel ((g + k) % d.BlockGroupsCount) = .error e ∧
        bitmap ((g + m) % d.BlockGroupsCount) = .error e ∧
        AllFull bitmap g d.BlockGroupsCount k m) ∨
      (d.nextLoop bitmap g fuel ((g + k) % d.BlockGroupsCount) = .ok (Bytes.zeros 0, -1, 0) ∧
        AllFull bitmap g d.BlockGroupsCount k d.BlockGroupsCount) ∨
      (∃ m b, k ≤ m ∧ m < d.BlockGroupsCount ∧
        d.nextLoop bitmap g fuel ((g + k) % d.BlockGroupsCount) =
          .ok (b, Bitmap.FindFree b, (g + m) % d.BlockGroupsCount) ∧
        bitmap ((g + m) % d.BlockGroupsCount) = .ok b ∧ Bitmap.FindFree b ≠ -1 ∧
        AllFull bitmap g d.BlockGroupsCount k m) := by
  intro n
  induction n with
  | zero =>
    intro k fuel hk h1 hf
    right; left
    obtain ⟨f, rfl⟩ : ∃ f, fuel = f + 1 := ⟨fuel - 1, by omega⟩
    have hk' : k = d.BlockGroupsCount := by omega
    rw [Device.nextLoop, hk', Nat.add_mod_right, Nat.mod_eq_of_lt hg, if_pos rfl]
    exact ⟨rfl, fun j h1 h2 => absurd h2 (by omega)⟩
  | succ n ih =>
    intro k fuel hk h1 hf
    obtain ⟨f, rfl⟩ : ∃ f, fuel = f + 1 := ⟨fuel - 1, by omega⟩
    have hne := cyc_ne g d.BlockGroupsCount k hg h1 (by omega)
    rw [Device.nextLoop, if_neg hne]
    cases hb : bitmap ((g + k) % d.BlockGroupsCount) with
    | error e =>
      left
      exact ⟨e, k, le_refl _, by omega, rfl, hb, fun j h1 h2 => absurd h2 (by omega)⟩
    | ok b =>
      dsimp only
      by_cases hff : Bitmap.FindFree b ≠ -1
      · right; right
        rw [if_pos hff]
        exact ⟨k, b, le_refl _, by omega, rfl, hb, hff, fun j h1 h2 => absurd h2 (by omega)⟩
      · rw [if_neg hff, cyc_succ g d.BlockGroupsCount k (by omega) hG32]
        have hff' : Bitmap.FindFree b = -1 := by
          by_contra h; exact hff h
        have ext : ∀ m, AllFull bitmap g d.BlockGroupsCount (k + 1) m →
            AllFull bitmap g d.BlockGroupsCount k m := by
          intro m h j hj1 hj2
          by_cases hjk : j = k
          · rw [hjk]; exact ⟨b, hb, hff'⟩
          · exact h j (by omega) hj2
        rcases ih (k + 1) f (by omega) (by omega) (by omega) with
          ⟨e, m, h1, h2, h3, h4, h5⟩ | ⟨h3, h5⟩ | ⟨m, b2, h1, h2, h3, h4, h5, h6⟩
        · left; exact ⟨e, m, by omega, h2, h3, h4, ext m h5⟩
        · right; left; exact ⟨h3, ext _ h5⟩
        · right; right; exact ⟨m, b2, by omega, h2, h3, h4, h5, ext m h6⟩

/-- What `Device.next` returns for a preferred group `g < G`: the error of the
first unreadable bitmap, or index `-1` after all groups were found full, or the
first group in the cyclic order from `g` with a free bit. -/
theorem next_spec (d : Device) (bitmap : Nat → Except Error Bytes) (g : Nat)
    (hg : g < d.BlockGroupsCount) (hG32 : d.BlockGroupsCount < 2 ^ 32) :
    (∃ e m, m < d.BlockGroupsCount ∧ d.next bitmap g = .error e ∧
        bitmap ((g + m) % d.BlockGroupsCount) = .error e ∧
        AllFull bitmap g d.BlockGroupsCount 0 m) ∨
    (d.next bitmap g = .ok (Bytes.zeros 0, -1, 0) ∧
        AllFull bitmap g d.BlockGroupsCount 0 d.BlockGroupsCount) ∨
    (∃ m b, m < d.BlockGroupsCount ∧
        d.next bitmap g = .ok (b, Bitmap.FindFree b, (g + m) % d.BlockGroupsCount) ∧
        bitmap ((g + m) % d.BlockGroupsCount) = .ok b ∧ Bitmap.FindFree b ≠ -1 ∧
        AllFull bitmap g d.BlockGroupsCount 0 m) := by
  have h0 : (g + 0) % d.BlockGroupsCount = g := by
    rw [Nat.add_zero, Nat.mod_eq_of_lt hg]
  unfold Device.next
  cases hb : bitmap g with
  | error e =>
    left
    exact ⟨e, 0, by omega, rfl, by rw [h0]; exact hb, fun j h1 h2 => absurd h2 (by omega)⟩
  | ok b =>
    dsimp only
    by_cases hff : Bitmap.FindFree b ≠ -1
    · right; right
      rw [if_pos hff]
      refine ⟨0, b, by omega, ?_, by rw [h0]; exact hb, hff,
        fun j h1 h2 => absurd h2 (by omega)⟩
      rw [h0]
    · rw [if_neg hff]
      have hff' : Bitmap.FindFree b = -1 := by
        by_contra h; exact hff h
      have ext : ∀ m, AllFull bitmap g d.BlockGroupsCount 1 m →
          AllFull bitmap g d.BlockGroupsCount 0 m := by
        intro m h j hj1 hj2
        by_cases hjk : j = 0
        · rw [hjk, h0]; exact ⟨b, hb, hff'⟩
        · exact h j (by omega) hj2
      have e1 : (g + 1) % 2 ^ 32 % d.BlockGroupsCount = (g + 1) % d.BlockGroupsCount := by
        rw [Nat.mod_eq_of_lt (by omega : g + 1 < 2 ^ 32)]
      rw [e1]
      rcases nextLoop_spec d bitmap g hg hG32 (d.BlockGroupsCount - 1) 1 d.BlockGroupsCount
          (by omega) (le_refl _) (by omega) with
        ⟨e, m, h1, h2, h3, h4, h5⟩ | ⟨h3, h5⟩ | ⟨m, b2, h1, h2, h3, h4, h5, h6⟩
      · left; exact ⟨e, m, h2, h3, h4, ext m h5⟩
      · right; left; exact ⟨h3, ext _ h5⟩
      · right; right; exact ⟨m, b2, h2, h3, h4, h5, ext m h6⟩

theorem cyc_surj (g G i : Nat) (hg : g < G) (hi : i < G) : ∃ j, j < G ∧ (g + j) % G = i := by
  by_cases h : g ≤ i
  · exact ⟨i - g, by omega, by rw [Nat.add_sub_cancel' h, Nat.mod_eq_of_lt hi]⟩
  · refine ⟨i + G - g, by omega, ?_⟩
    have e : g + (i + G - g) = i + G := by omega
    rw [e, Nat.add_mod_right, Nat.mod_eq_of_lt hi]

/-- C11: for a device with `G ≥ 1` groups whose bitmaps can all be read and a
preferred group `g < G`, `Device.next` returns (no error, no endless loop); it
returns group `g` with the lowest clear bit of its bitmap when that bitmap has a
clear bit; otherwise it returns the first group in the cyclic order
`(g+1) mod G, ..., (g-1) mod G` whose bitmap has a clear bit, with that bitmap's
lowest clear bit; and it returns index `-1` exactly when no group's bitmap has a
clear bit. -/
theorem C11_next_cyclic_first_fit (d : Device) (bitmap : Nat → Except Error Bytes)
    (bmps : Nat → Bytes) (g : Nat)
    (hg : g < d.BlockGroupsCount) (hG32 : d.BlockGroupsCount < 2 ^ 32)
    (hb : ∀ i, i < d.BlockGroupsCount → bitmap i = .ok (bmps i))
    (hsz : ∀ i, i < d.BlockGroupsCount → (bmps i).size * 8 < 2 ^ 32) :
    (∃ res, d.next bitmap g = .ok res) ∧
    (Bitmap.HasClear (bmps g) →
      ∃ idx : Nat, Bitmap.LowestClear (bmps g) idx ∧
        d.next bitmap g = .ok (bmps g, (idx : Int), g)) ∧
    (∀ k, 1 ≤ k → k < d.BlockGroupsCount →
      (∀ j, j < k → ¬ Bitmap.HasClear (bmps ((g + j) % d.BlockGroupsCount))) →
      Bitmap.HasClear (bmps ((g + k) % d.BlockGroupsCount)) →
      ∃ idx : Nat, Bitmap.LowestClear (bmps ((g + k) % d.BlockGroupsCount)) idx ∧
        d.next bitmap g =
          .ok (bmps ((g + k) % d.BlockGroupsCount), (idx : Int),
            (g + k) % d.BlockGroupsCount)) ∧
    (∀ bmp idx p, d.next bitmap g = .ok (bmp, idx, p) →
      (idx = -1 ↔ ∀ i, i < d.BlockGroupsCount → ¬ Bitmap.HasClear (bmps i))) := by
  have hG : 0 < d.BlockGroupsCount := by omega
  have hlt : ∀ j, (g + j) % d.BlockGroupsCount < d.BlockGroupsCount :=
    fun j => Nat.mod_lt _ hG
  have h0 : (g + 0) % d.BlockGroupsCount = g := by
    rw [Nat.add_zero, Nat.mod_eq_of_lt hg]
  -- what a full prefix of the cyclic order means for the bitmaps
  have full : ∀ k m, AllFull bitmap g d.BlockGroupsCount k m →
      ∀ j, k ≤ j → j < m → ¬ Bitmap.HasClear (bmps ((g + j) % d.BlockGroupsCount)) := by
    intro k m h j hj1 hj2 hc
    obtain ⟨b, e1, e2⟩ := h j hj1 hj2
    rw [hb _ (hlt j)] at e1
    injection e1 with e1
    rw [← e1] at e2
    exact (FindFree_ne_iff _ (hsz _ (hlt j))).mpr hc e2
  -- the general form of the first-fit result, step 0 being group `g`
  have key : ∀ k, k < d.BlockGroupsCount →
      (∀ j, j < k → ¬ Bitmap.HasClear (bmps ((g + j) % d.BlockGroupsCount))) →
      Bitmap.HasClear (bmps ((g + k) % d.BlockGroupsCount)) →
      ∃ idx : Nat, Bitmap.LowestClear (bmps ((g + k) % d.BlockGroupsCount)) idx ∧
        d.next bitmap g =
          .ok (bmps ((g + k) % d.BlockGroupsCount), (idx : Int),
            (g + k) % d.BlockGroupsCount) := by
    intro k hk hpre hc
    rcases next_spec d bitmap g hg hG32 with
      ⟨e, m, h2, _, h4, _⟩ | ⟨_, h5⟩ | ⟨m, b, h2, h3, h4, h5, h6⟩
    · rw [hb _ (hlt m)] at h4; cases h4
    · exact absurd hc (full 0 _ h5 k (by omega) hk)
    · rw [hb _ (hlt m)] at h4
      injection h4 with h4
      have hm : m = k := by
        by_contra hne
        rcases Nat.lt_or_gt_of_ne hne with h | h
        · rw [← h4] at h5
          exact hpre m h ((FindFree_ne_iff _ (hsz _ (hlt m))).mp h5)
        · exact full 0 m h6 k (by omega) h hc
      subst hm
      rcases FindFree_spec (bmps ((g + m) % d.BlockGroupsCount)) (hsz _ (hlt m)) with
        ⟨e1, _⟩ | ⟨idx, e1, e2⟩
      · rw [← h4] at h5; exact absurd e1 h5
      · refine ⟨idx, e2, ?_⟩
        rw [h3, ← h4, e1]
  refine ⟨?_, ?_, ?_, ?_⟩
  · rcases next_spec d bitmap g hg hG32 with
      ⟨e, m, h2, _, h4, _⟩ | ⟨h3, _⟩ | ⟨m, b, _, h3, _⟩
    · rw [hb _ (hlt m)] at h4; cases h4
    · exact ⟨_, h3⟩
    · exact ⟨_, h3⟩
  · intro hc
    have := key 0 hG (fun j hj => absurd hj (by omega)) (by rw [h0]; exact hc)
    rw [h0] at this
    exact this
  · intro k _ hk hpre hc
    exact key k hk hpre hc
  · intro bmp idx p hres
    rcases next_spec d bitmap g hg hG32 with
      ⟨e, m, h2, _, h4, _⟩ | ⟨h3, h5⟩ | ⟨m, b, h2, h3, h4, h5, h6⟩
    · rw [hb _ (hlt m)] at h4; cases h4
    · rw [h3] at hres
      injection hres with hres
      injection hres with _ hres
      injection hres with hres _
      constructor
      · intro _ i hi
        obtain ⟨j, hj, e⟩ := cyc_surj g d.BlockGroupsCount i hg hi
        rw [← e]
        exact full 0 _ h5 j (by omega) hj
      · intro _; exact hres.symm
    · rw [h3] at hres
      injection hres with hres
      injection hres with _ hres
      injection hres with hres _
      rw [hb _ (hlt m)] at h4
      injection h4 with h4
      constructor
      · intro hi; rw [← hres] at hi; exact absurd hi h5
      · intro hall
        rw [← h4] at h5
        exact absurd ((FindFree_ne_iff _ (hsz _ (hlt m))).mp h5) (hall _ (hlt m))

theorem twoGroup_bitmaps (i : Nat) (hi : i < twoGroupDevice.BlockGroupsCount) :
    twoGroupDevice.newBitmapOf twoGroupImage .inode i =
      .ok (twoGroupDevice.bitmapAt twoGroupImage .inode i) :=
  match i, hi with
  | 0, _ => rfl
  | 1, _ => rfl
  | n + 2, h => absurd h (by simp [twoGroupDevice])

theorem twoGroup_sizes (i : Nat) (_hi : i < twoGroupDevice.BlockGroupsCount) :
    (twoGroupDevice.bitmapAt twoGroupImage .inode i).size * 8 < 2 ^ 32 := by
  show twoGroupDevice.perGroup .inode / 8 * 8 < 2 ^ 32
  decide

theorem C11_next_cyclic_first_fit_witness :
    ∃ idx : Nat, Bitmap.LowestClear (twoGroupDevice.bitmapAt twoGroupImage .inode 1) idx ∧
      twoGroupDevice.next (twoGroupDevice.newBitmapOf twoGroupImage .inode) 0 =
        .ok (twoGroupDevice.bitmapAt twoGroupImage .inode 1, (idx : Int), 1) :=
  (C11_next_cyclic_first_fit twoGroupDevice (twoGroupDevice.newBitmapOf twoGroupImage .inode)
    (twoGroupDevice.bitmapAt twoGroupImage .inode) 0 (by decide) (by decide)
    twoGroup_bitmaps twoGroup_sizes).2.2.1 1 (by decide) (by decide)
    (fun j hj h =>
      match j, hj with
      | 0, _ => (FindFree_ne_iff _ (by decide)).mpr h (by decide))
    ((FindFree_ne_iff _ (by decide)).mp (by decide))

theorem NewGroupDescriptor_ok (d : Device) (img : Bytes) (p : Nat) (group : GroupDescriptor)
    (h : d.NewGroupDescriptor img p = .ok group) :
    p < d.BlockGroupsCount ∧ d.groupDescriptorOffset p + 32 ≤ img.size ∧
      group = decodeGroupDescriptor img (d.groupDescriptorOffset p) := by
  unfold Device.NewGroupDescriptor at h
  by_cases hp : p ≥ d.BlockGroupsCount
  · rw [if_pos hp] at h; cases h
  · rw [if_neg hp] at h
    unfold readRecordErr at h
    by_cases hsz : d.groupDescriptorOffset p + 32 ≤ img.size
    · rw [if_pos hsz] at h
      injection h with h
      exact ⟨by omega, hsz, h.symm⟩
    · rw [if_neg hsz] at h
      by_cases h2 : img.size ≤ d.groupDescriptorOffset p
      · rw [if_pos h2] at h; cases h
      · rw [if_neg h2] at h; cases h

theorem NewGroupDescriptor_eq (d : Device) (img : Bytes) (p : Nat)
    (hp : p < d.BlockGroupsCount) (hsz : d.groupDescriptorOffset p + 32 ≤ img.size) :
    d.NewGroupDescriptor img p = .ok (decodeGroupDescriptor img (d.groupDescriptorOffset p)) := by
  unfold Device.NewGroupDescriptor
  rw [if_neg (by omega)]
  unfold readRecordErr
  rw [if_pos hsz]

theorem newBitmapOf_ok (d : Device) (img : Bytes) (r : Resource) (p : Nat) (b : Bytes)
    (h : d.newBitmapOf img r p = .ok b) :
    p < d.BlockGroupsCount ∧ d.groupDescriptorOffset p + 32 ≤ img.size ∧
      b = d.bitmapAt img r p ∧
      (d.perGroup r / 8 = 0 ∨
        d.blockOffset ((decodeGroupDescriptor img (d.groupDescriptorOffset p)).bitmapBlock r)
          + d.perGroup r / 8 ≤ img.size) := by
  unfold Device.newBitmapOf at h
  cases hg : d.NewGroupDescriptor img p with
  | error e => rw [hg] at h; cases h
  | ok group =>
    rw [hg] at h
    dsimp only at h
    obtain ⟨h1, h2, h3⟩ := NewGroupDescriptor_ok d img p group hg
    subst h3
    unfold Device.NewBitmap readAtErr at h
    by_cases hc : d.perGroup r / 8 = 0 ∨
        d.blockOffset ((decodeGroupDescriptor img (d.groupDescriptorOffset p)).bitmapBlock r)
          + d.perGroup r / 8 ≤ img.size
    · rw [if_pos hc] at h
      injection h with h
      exact ⟨h1, h2, h.symm, hc⟩
    · rw [if_neg hc] at h; cases h

theorem next_real (d : Device) (img : Bytes) (r : Resource) (g : Nat)
    (hG32 : d.BlockGroupsCount < 2 ^ 32) :
    (∃ e, d.next (d.newBitmapOf img r) g = .error e) ∨
    (d.next (d.newBitmapOf img r) g = .ok (Bytes.zeros 0, -1, 0) ∧
      ∀ i, i < d.BlockGroupsCount →
        ∃ b, d.newBitmapOf img r i = .ok b ∧ Bitmap.FindFree b = -1) ∨
    (∃ p b, d.next (d.newBitmapOf img r) g = .ok (b, Bitmap.FindFree b, p) ∧
      d.newBitmapOf img r p = .ok b ∧ Bitmap.FindFree b ≠ -1) := by
  by_cases hg : g < d.BlockGroupsCount
  · rcases next_spec d (d.newBitmapOf img r) g hg hG32 with
      ⟨e, m, _, h3, _, _⟩ | ⟨h3, h5⟩ | ⟨m, b, _, h3, h4, h5, _⟩
    · left; exact ⟨e, h3⟩
    · right; left
      refine ⟨h3, fun i hi => ?_⟩
      obtain ⟨j, hj, e⟩ := cyc_surj g d.BlockGroupsCount i hg hi
      rw [← e]
      exact h5 j (by omega) hj
    · right; right; exact ⟨_, b, h3, h4, h5⟩
  · left
    have e : d.newBitmapOf img r g = .error Error.GroupOutOfBounds := by
      unfold Device.newBitmapOf Device.NewGroupDescriptor
      rw [if_pos (by omega)]
    unfold Device.next
    rw [e]
    exact ⟨_, rfl⟩

theorem AllocOf_of_zero (d : Device) (img : Bytes) (r : Resource) (g : Nat) (super : SuperBlock)
    (hs : d.NewSuperBlock img = .ok super) (hc : super.freeCount r = 0) :
    d.AllocOf img r g = .ok ⟨0, some Error.DiskLimit, img⟩ := by
  unfold Device.AllocOf
  rw [hs]
  dsimp only
  rw [if_pos hc]

theorem AllocOf_of_error (d : Device) (img : Bytes) (r : Resource) (g : Nat) (super : SuperBlock)
    (e : Error)
    (hs : d.NewSuperBlock img = .ok super) (hc : super.freeCount r ≠ 0)
    (hn : d.next (d.newBitmapOf img r) g = .error e) :
    d.allocOf img r g = .ok ⟨0, some e, img⟩ ∧ d.AllocOf img r g = .ok ⟨0, none, img⟩ := by
  have h1 : d.allocOf img r g = .ok ⟨0, some e, img⟩ := by
    unfold Device.allocOf
    rw [hn]
  refine ⟨h1, ?_⟩
  unfold Device.AllocOf
  rw [hs]
  dsimp only
  rw [if_neg hc, h1]
  dsimp only
  rw [if_pos (by simp)]

theorem AllocOf_of_full (d : Device) (img : Bytes) (r : Resource) (g : Nat) (super : SuperBlock)
    (hs : d.NewSuperBlock img = .ok super) (hc : super.freeCount r ≠ 0)
    (hn : d.next (d.newBitmapOf img r) g = .ok (Bytes.zeros 0, -1, 0)) :
    d.allocOf img r g = .ok ⟨0, none, img⟩ ∧
    d.AllocOf img r g = .ok ⟨0, none,
      writeAt img (BASE_OFFSET + sFreeCountOffset r) (putLE (sub32 (super.freeCount r) 1)) 4⟩ := by
  have h1 : d.allocOf img r g = .ok ⟨0, none, img⟩ := by
    unfold Device.allocOf
    rw [hn]
    dsimp only
    rw [if_pos rfl]
  refine ⟨h1, ?_⟩
  unfold Device.AllocOf
  rw [hs]
  dsimp only
  rw [if_neg hc, h1]
  dsimp only
  rw [if_neg (by simp)]

theorem NewSuperBlock_ok (d : Device) (img : Bytes) (super : SuperBlock)
    (hs : d.NewSuperBlock img = .ok super) :
    BASE_OFFSET + 1024 ≤ img.size ∧ super = decodeSuperBlock img BASE_OFFSET := by
  unfold Device.NewSuperBlock readRecordErr at hs
  by_cases h : BASE_OFFSET + 1024 ≤ img.size
  · rw [if_pos h] at hs
    dsimp only at hs
    by_cases hm : (decodeSuperBlock img BASE_OFFSET).Magic ≠ EXT2_SUPER_MAGIC
    · rw [if_pos hm] at hs; cases hs
    · rw [if_neg hm] at hs
      injection hs with hs
      exact ⟨h, hs.symm⟩
  · rw [if_neg h] at hs
    by_cases h2 : img.size ≤ BASE_OFFSET
    · rw [if_pos h2] at hs; cases hs
    · rw [if_neg h2] at hs; cases hs

theorem allocOf_of_pick (d : Device) (img : Bytes) (r : Resource) (g : Nat)
    (p i : Nat) (b : Bytes)
    (hn : d.next (d.newBitmapOf img r) g = .ok (b, (i : Int), p))
    (hb : d.newBitmapOf img r p = .ok b) (hi : i < 2 ^ 32) :
    d.allocOf img r g = .ok ⟨(mul32 (d.perGroup r) p + i + 1) % 2 ^ 32, none,
      writeAt
      (writeAt img
        (d.blockOffset ((decodeGroupDescriptor img (d.groupDescriptorOffset p)).bitmapBlock r)
          + i / 8)
        (fun _ => toByte ((img.get (d.blockOffset
          ((decodeGroupDescriptor img (d.groupDescriptorOffset p)).bitmapBlock r)
            + i / 8)).val ||| (1 <<< (i % 8)))) 1)
      (d.groupDescriptorOffset p + bgFreeCountOffset r)
      (putLE (sub16 ((decodeGroupDescriptor img (d.groupDescriptorOffset p)).freeCount r) 1))
        2⟩ := by
  obtain ⟨h1, h2, h3, _⟩ := newBitmapOf_ok d img r p b hb
  have hu : toUint32 (i : Int) = i := by
    unfold toUint32
    have : ((i : Int) % 2 ^ 32) = (i : Int) := Int.emod_eq_of_lt (by omega) (by exact_mod_cast hi)
    rw [this, Int.toNat_natCast]
  have hd : ((i : Int) / 8).toNat = i / 8 := by
    have : ((i : Int) / 8) = ((i / 8 : Nat) : Int) := by
      exact (Int.ofNat_ediv i 8).symm
    rw [this, Int.toNat_natCast]
  unfold Device.allocOf
  rw [hn]
  dsimp only
  rw [if_neg (by omega), NewGroupDescriptor_eq d img p h1 h2]
  dsimp only
  rw [hu, hd, h3]
  unfold Bitmap.Alloc Device.bitmapAt
  dsimp only
  rw [if_pos rfl]

theorem AllocOf_of_pick (d : Device) (img : Bytes) (r : Resource) (g : Nat) (super : SuperBlock)
    (p i : Nat) (b : Bytes)
    (hs : d.NewSuperBlock img = .ok super) (hc : super.freeCount r ≠ 0)
    (hn : d.next (d.newBitmapOf img r) g = .ok (b, (i : Int), p))
    (hb : d.newBitmapOf img r p = .ok b) (hi : i < 2 ^ 32) :
    d.AllocOf img r g =
      .ok ⟨(mul32 (d.perGroup r) p + i + 1) % 2 ^ 32, none, d.pickImage img r p i⟩ := by
  obtain ⟨_, hsup⟩ := NewSuperBlock_ok d img super hs
  unfold Device.AllocOf
  rw [hs]
  dsimp only
  rw [if_neg hc, allocOf_of_pick d img r g p i b hn hb hi]
  dsimp only
  rw [if_neg (by simp), hsup]
  rfl

theorem bitmapAt_size_lt (d : Device) (img : Bytes) (r : Resource) (q : Nat)
    (hPG : d.perGroup r < 2 ^ 32) : (d.bitmapAt img r q).size * 8 < 2 ^ 32 := by
  show d.perGroup r / 8 * 8 < 2 ^ 32
  omega

/-- The three ways a call of `AllocInode`/`AllocBlock` goes once the superblock
has a free count: the bitmap search fails with an error, it finds every group
full, or it picks the lowest clear bit `i` of a group `p`. -/
theorem AllocOf_cases (d : Device) (img : Bytes) (r : Resource) (g : Nat) (super : SuperBlock)
    (hG32 : d.BlockGroupsCount < 2 ^ 32) (hPG : d.perGroup r < 2 ^ 32)
    (hs : d.NewSuperBlock img = .ok super) (hc : super.freeCount r ≠ 0) :
    (∃ e, d.allocOf img r g = .ok ⟨0, some e, img⟩ ∧ d.AllocOf img r g = .ok ⟨0, none, img⟩) ∨
    (d.allocOf img r g = .ok ⟨0, none, img⟩ ∧
      d.AllocOf img r g = .ok ⟨0, none,
        writeAt img (BASE_OFFSET + sFreeCountOffset r)
          (putLE (sub32 (super.freeCount r) 1)) 4⟩ ∧
      ∀ q, q < d.BlockGroupsCount →
        d.newBitmapOf img r q = .ok (d.bitmapAt img r q) ∧
        ¬ Bitmap.HasClear (d.bitmapAt img r q)) ∨
    (∃ p i, p < d.BlockGroupsCount ∧
      d.newBitmapOf img r p = .ok (d.bitmapAt img r p) ∧
      Bitmap.LowestClear (d.bitmapAt img r p) i ∧
      d.next (d.newBitmapOf img r) g = .ok (d.bitmapAt img r p, (i : Int), p) ∧
      (∃ a, d.allocOf img r g = .ok a ∧ a.err = none) ∧
      d.AllocOf img r g =
        .ok ⟨(mul32 (d.perGroup r) p + i + 1) % 2 ^ 32, none, d.pickImage img r p i⟩) := by
  rcases next_real d img r g hG32 with ⟨e, h⟩ | ⟨h1, h2⟩ | ⟨p, b, h1, h2, h3⟩
  · left
    exact ⟨e, AllocOf_of_error d img r g super e hs hc h⟩
  · right; left
    obtain ⟨e1, e2⟩ := AllocOf_of_full d img r g super hs hc h1
    refine ⟨e1, e2, fun q hq => ?_⟩
    obtain ⟨b, hb, hf⟩ := h2 q hq
    obtain ⟨_, _, hbq, _⟩ := newBitmapOf_ok d img r q b hb
    subst hbq
    refine ⟨hb, fun hcl => ?_⟩
    exact (FindFree_ne_iff _ (bitmapAt_size_lt d img r q hPG)).mpr hcl hf
  · right; right
    obtain ⟨hp, _, hbq, _⟩ := newBitmapOf_ok d img r p b h2
    subst hbq
    have hsz := bitmapAt_size_lt d img r p hPG
    rcases FindFree_spec _ hsz with ⟨e1, _⟩ | ⟨i, e1, e2⟩
    · exact absurd e1 h3
    · rw [e1] at h1
      have hi : i < 2 ^ 32 := by
        have := e2.1
        omega
      exact ⟨p, i, hp, h2, e2, h1,
        ⟨_, allocOf_of_pick d img r g p i _ h1 h2 hi, rfl⟩,
        AllocOf_of_pick d img r g super p i _ hs hc h1 h2 hi⟩

/-- C15: on an image whose superblock can be read and has the ext2 magic,
`AllocInode(g)` (resource `inode`: `AllocOf` is the code of `AllocInode` and of
`AllocBlock`) returns a non-nil error if and only if the superblock's free count of
the resource is 0; when the count is not 0, an error of the inner allocator, a
preferred group `g ≥ BlockGroupsCount` and the case that no group's bitmap has a
clear bit are all reported as the value 0 with a nil error. -/
theorem C15_Alloc_error_iff_count_zero (d : Device) (img : Bytes) (r : Resource) (g : Nat)
    (super : SuperBlock)
    (hG32 : d.BlockGroupsCount < 2 ^ 32) (hPG : d.perGroup r < 2 ^ 32)
    (hs : d.NewSuperBlock img = .ok super) :
    ∃ ret, d.AllocOf img r g = .ok ret ∧
      (ret.err ≠ none ↔ super.freeCount r = 0) ∧
      (super.freeCount r ≠ 0 →
        (∀ a, d.allocOf img r g = .ok a → a.err ≠ none → ret.val = 0 ∧ ret.err = none) ∧
        (d.BlockGroupsCount ≤ g → ret.val = 0 ∧ ret.err = none) ∧
        ((∀ q, q < d.BlockGroupsCount → ¬ Bitmap.HasClear (d.bitmapAt img r q)) →
          ret.val = 0 ∧ ret.err = none)) := by
  by_cases hc : super.freeCount r = 0
  · refine ⟨_, AllocOf_of_zero d img r g super hs hc, ?_, fun h => absurd hc h⟩
    constructor
    · intro _; exact hc
    · intro _; simp
  · rcases AllocOf_cases d img r g super hG32 hPG hs hc with
      ⟨e, _, h2⟩ | ⟨_, h2, _⟩ | ⟨p, i, hp, hb, hl, hn, ⟨a, ha1, ha2⟩, h2⟩
    · refine ⟨_, h2, ?_, fun _ => ⟨fun _ _ _ => ⟨rfl, rfl⟩, fun _ => ⟨rfl, rfl⟩,
        fun _ => ⟨rfl, rfl⟩⟩⟩
      constructor
      · intro h; exact absurd rfl h
      · intro h; exact absurd h hc
    · refine ⟨_, h2, ?_, fun _ => ⟨fun _ _ _ => ⟨rfl, rfl⟩, fun _ => ⟨rfl, rfl⟩,
        fun _ => ⟨rfl, rfl⟩⟩⟩
      constructor
      · intro h; exact absurd rfl h
      · intro h; exact absurd h hc
    · refine ⟨_, h2, ?_, fun _ => ⟨?_, ?_, ?_⟩⟩
      · constructor
        · intro h; exact absurd rfl h
        · intro h; exact absurd h hc
      · intro a2 h1 h3
        rw [ha1] at h1
        injection h1 with h1
        rw [← h1] at h3
        exact absurd ha2 h3
      · intro hg
        obtain ⟨_, _, _, _⟩ := newBitmapOf_ok d img r p _ hb
        exfalso
        have hgerr : d.newBitmapOf img r g = .error Error.GroupOutOfBounds := by
          unfold Device.newBitmapOf Device.NewGroupDescriptor
          rw [if_pos (by omega)]
        unfold Device.next at hn
        rw [hgerr] at hn
        cases hn
      · intro hall
        exact absurd ⟨i, hl.1, hl.2.1⟩ (hall p hp)

theorem C15_Alloc_error_iff_count_zero_witness :
    ∃ ret, fsDevice.AllocInode fsImage 9 = .ok ret ∧ ret.val = 0 ∧ ret.err = none := by
  obtain ⟨ret, h1, _, h3⟩ := C15_Alloc_error_iff_count_zero fsDevice fsImage .inode 9
    (decodeSuperBlock fsImage BASE_OFFSET) (by decide) (by decide) rfl
  exact ⟨ret, h1, (h3 (by decide)).2.1 (by decide)⟩

set_option maxRecDepth 100000 in
/-- C16 (failing input). Inode 3 of `fsImage` has `Size = 268 * 1024` and no
double-indirect block, so the next logical block is 268, the first of the
double-indirect range.  `CreateDataBlock(3)` returns block 26 and a nil error, but
on the file it leaves behind `DataBlock(inode, 268)` of the re-read inode is the
null block: the leaf number was written to byte 0 of block 0 instead of slot 0
of the new indirect block. -/
theorem C16_CreateDataBlock_leaf_not_reachable :
    (fsDevice.NewInode fsImage 3).toOption.map (fun i => i.Size / fsDevice.BlockSize)
      = some 268 ∧
    (fsDevice.CreateDataBlock fsImage 3).value? = some 26 ∧
    (fsDevice.CreateDataBlock fsImage 3).err? = some none ∧
    (fsDevice.NewInode ((fsDevice.CreateDataBlock fsImage 3).imgOr fsImage) 3).toOption.map
      (fun i => (fsDevice.DataBlock ((fsDevice.CreateDataBlock fsImage 3).imgOr fsImage) i
        268).toOption) = some (some 0) ∧
    le32 ((fsDevice.CreateDataBlock fsImage 3).imgOr fsImage) 0 = 26 := by
  refine ⟨by decide, by decide, by decide, by decide, by decide⟩

set_option maxRecDepth 100000 in
/-- C18 (failing input). On 2048-byte blocks `CreateDirInode(2, 4)` succeeds and
stores a directory inode with `LinksCount = 1`, `Blocks = 2` and `Block[0] = 24`,
but with `Size = 1024`, not `BlockSize`; `NewDirEntries(4)` then walks
`Size / BlockSize = 0` blocks and returns the empty listing. -/
theorem C18_CreateDirInode_size_not_block_size :
    fsDevice2k.BlockSize = 2048 ∧
    (fsDevice2k.CreateDirInode fsImage2k 0 0 2 4).err? = some none ∧
    (fsDevice2k.NewInode ((fsDevice2k.CreateDirInode fsImage2k 0 0 2 4).imgOr fsImage2k)
      4).toOption.map (fun i => (i.IsDir, i.Size, i.LinksCount, i.Blocks, i.Block 0))
      = some (true, 1024, 1, 2, 24) ∧
    (fsDevice2k.NewDirEntries ((fsDevice2k.CreateDirInode fsImage2k 0 0 2 4).imgOr fsImage2k)
      4).ok?.map (fun l => l.map (fun e => e.Inode)) = some [] := by
  refine ⟨by decide, by decide, by decide, by decide⟩

theorem toByte_val (n : Nat) : (toByte n).val = n % 256 := rfl

theorem IsFree_testBit (bmp : Bytes) (j : Nat) :
    Bitmap.IsFree bmp j = !((bmp.get (j / 8)).val.testBit (j % 8)) := by
  unfold Bitmap.IsFree
  rw [Nat.one_shiftLeft, Nat.and_two_pow]
  cases h : (bmp.get (j / 8)).val.testBit (j % 8)
  · simp
  · simp

theorem testBit_set (x k j : Nat) (hj : j < 8) :
    (toByte (x ||| 1 <<< k)).val.testBit j = (x.testBit j || decide (k = j)) := by
  rw [toByte_val, Nat.one_shiftLeft]
  have : (256 : Nat) = 2 ^ 8 := by norm_num
  rw [this, Nat.testBit_mod_two_pow, Nat.testBit_or, Nat.testBit_two_pow]
  simp [hj]

theorem putLE_val (v k : Nat) : (putLE v k).val = v / 256 ^ k % 256 := rfl

theorem le16_putLE (v : Nat) : (putLE v 0).val + 256 * (putLE v 1).val = v % 65536 := by
  rw [putLE_val, putLE_val]
  norm_num
  omega

theorem le32_putLE (v : Nat) :
    (putLE v 0).val + 256 * (putLE v 1).val + 65536 * (putLE v 2).val
      + 16777216 * (putLE v 3).val = v % 4294967296 := by
  rw [putLE_val, putLE_val, putLE_val, putLE_val]
  norm_num
  omega

theorem le16_writeAt_self (img : Bytes) (pos v : Nat) :
    le16 (writeAt img pos (putLE v) 2) pos = v % 65536 := by
  unfold le16
  rw [writeAt_get_in img pos _ 2 pos (le_refl _) (by omega),
    writeAt_get_in img pos _ 2 (pos + 1) (by omega) (by omega)]
  have e1 : pos - pos = 0 := by omega
  have e2 : pos + 1 - pos = 1 := by omega
  rw [e1, e2]
  exact le16_putLE v

theorem le32_writeAt_self (img : Bytes) (pos v : Nat) :
    le32 (writeAt img pos (putLE v) 4) pos = v % 4294967296 := by
  unfold le32
  rw [writeAt_get_in img pos _ 4 pos (le_refl _) (by omega),
    writeAt_get_in img pos _ 4 (pos + 1) (by omega) (by omega),
    writeAt_get_in img pos _ 4 (pos + 2) (by omega) (by omega),
    writeAt_get_in img pos _ 4 (pos + 3) (by omega) (by omega)]
  have e0 : pos - pos = 0 := by omega
  have e1 : pos + 1 - pos = 1 := by omega
  have e2 : pos + 2 - pos = 2 := by omega
  have e3 : pos + 3 - pos = 3 := by omega
  rw [e0, e1, e2, e3]
  exact le32_putLE v

theorem le16_writeAt_other (img : Bytes) (pos : Nat) (src : Nat → Byte) (len q : Nat)
    (h : pos + len ≤ img.size) (hd : q + 2 ≤ pos ∨ pos + len ≤ q) :
    le16 (writeAt img pos src len) q = le16 img q := by
  apply le16_congr
  intro k hk
  exact writeAt_get_out img pos src len (q + k) h (by omega)

theorem le32_writeAt_other (img : Bytes) (pos : Nat) (src : Nat → Byte) (len q : Nat)
    (h : pos + len ≤ img.size) (hd : q + 4 ≤ pos ∨ pos + len ≤ q) :
    le32 (writeAt img pos src len) q = le32 img q := by
  apply le32_congr
  intro k hk
  exact writeAt_get_out img pos src len (q + k) h (by omega)

theorem bgFreeCountOffset_cases (r : Resource) :
    bgFreeCountOffset r = 12 ∨ bgFreeCountOffset r = 14 := by
  cases r
  · right; rfl
  · left; rfl

theorem sFreeCountOffset_cases (r : Resource) :
    sFreeCountOffset r = 12 ∨ sFreeCountOffset r = 16 := by
  cases r
  · right; rfl
  · left; rfl

theorem bgBitmapOffset_cases (r : Resource) : bgBitmapOffset r = 4 ∨ bgBitmapOffset r = 0 := by
  cases r
  · left; rfl
  · right; rfl

theorem groupFree_eq (d : Device) (img : Bytes) (r : Resource) (q : Nat) :
    d.groupFree img r q = le16 img (d.groupDescriptorOffset q + bgFreeCountOffset r) := by
  cases r <;> rfl

theorem superFree_eq (img : Bytes) (r : Resource) :
    superFree img r = le32 img (BASE_OFFSET + sFreeCountOffset r) := by
  cases r <;> rfl

theorem bitmapStart_eq (d : Device) (img : Bytes) (r : Resource) (q : Nat) :
    d.bitmapStart img r q =
      d.blockOffset (le32 img (d.groupDescriptorOffset q + bgBitmapOffset r)) := by
  cases r <;> rfl

theorem le16_lt (b : Bytes) (pos : Nat) : le16 b pos < 2 ^ 16 := by
  unfold le16
  have h0 := (b.get pos).isLt
  have h1 := (b.get (pos + 1)).isLt
  omega

/-- The bytes of the file after a pick, when the three writes lie inside the
file and the descriptor of group `p`, the superblock and the bitmap byte do not
overlap. -/
theorem pick_effect (d : Device) (img : Bytes) (r : Resource) (p i : Nat)
    (hbm : d.bitmapStart img r p + i / 8 < img.size)
    (hgd : d.groupDescriptorOffset p + 32 ≤ img.size)
    (hsb : BASE_OFFSET + 1024 ≤ img.size)
    (hDS : d.groupDescriptorOffset p + 32 ≤ BASE_OFFSET ∨
      BASE_OFFSET + 1024 ≤ d.groupDescriptorOffset p)
    (hbD : d.bitmapStart img r p + i / 8 < d.groupDescriptorOffset p ∨
      d.groupDescriptorOffset p + 32 ≤ d.bitmapStart img r p + i / 8)
    (hbS : d.bitmapStart img r p + i / 8 < BASE_OFFSET ∨
      BASE_OFFSET + 1024 ≤ d.bitmapStart img r p + i / 8) :
    (d.pickImage img r p i).size = img.size ∧
    (∀ pos, pos ≠ d.bitmapStart img r p + i / 8 →
      ¬ (d.groupDescriptorOffset p + bgFreeCountOffset r ≤ pos ∧
        pos < d.groupDescriptorOffset p + bgFreeCountOffset r + 2) →
      ¬ (BASE_OFFSET + sFreeCountOffset r ≤ pos ∧
        pos < BASE_OFFSET + sFreeCountOffset r + 4) →
      (d.pickImage img r p i).get pos = img.get pos) ∧
    (d.pickImage img r p i).get (d.bitmapStart img r p + i / 8) =
      toByte ((img.get (d.bitmapStart img r p + i / 8)).val ||| (1 <<< (i % 8))) ∧
    d.bitmapStart (d.pickImage img r p i) r p = d.bitmapStart img r p ∧
    d.groupFree (d.pickImage img r p i) r p = sub16 (d.groupFree img r p) 1 ∧
    superFree (d.pickImage img r p i) r = sub32 (superFree img r) 1 := by
  have hbg := bgFreeCountOffset_cases r
  have hsf := sFreeCountOffset_cases r
  have hbo := bgBitmapOffset_cases r
  have hB : BASE_OFFSET = 1024 := rfl
  -- name the three stages
  have e : d.pickImage img r p i =
      writeAt (writeAt (writeAt img (d.bitmapStart img r p + i / 8)
        (fun _ => toByte ((img.get (d.bitmapStart img r p + i / 8)).val ||| (1 <<< (i % 8)))) 1)
        (d.groupDescriptorOffset p + bgFreeCountOffset r)
        (putLE (sub16 (d.groupFree img r p) 1)) 2)
        (BASE_OFFSET + sFreeCountOffset r) (putLE (sub32 (superFree img r) 1)) 4 := rfl
  rw [e]
  generalize hbmp : d.bitmapStart img r p + i / 8 = bm at *
  generalize hgcp : d.groupDescriptorOffset p = gd at *
  generalize hbyte : (fun _ : Nat => toByte ((img.get bm).val ||| (1 <<< (i % 8)))) = src1
  generalize hgv : putLE (sub16 (d.groupFree img r p) 1) = src2
  generalize hsv : putLE (sub32 (superFree img r) 1) = src3
  have s1 : (writeAt img bm src1 1).size = img.size := writeAt_size img bm src1 1 (by omega)
  have s2 : (writeAt (writeAt img bm src1 1) (gd + bgFreeCountOffset r) src2 2).size
      = img.size := by
    rw [writeAt_size _ _ _ _ (by omega), s1]
  have g3 : ∀ pos, ¬ (BASE_OFFSET + sFreeCountOffset r ≤ pos ∧
        pos < BASE_OFFSET + sFreeCountOffset r + 4) →
      (writeAt (writeAt (writeAt img bm src1 1) (gd + bgFreeCountOffset r) src2 2)
        (BASE_OFFSET + sFreeCountOffset r) src3 4).get pos =
      (writeAt (writeAt img bm src1 1) (gd + bgFreeCountOffset r) src2 2).get pos :=
    fun pos h => writeAt_get_out _ _ _ _ pos (by omega) h
  have g2 : ∀ pos, ¬ (gd + bgFreeCountOffset r ≤ pos ∧ pos < gd + bgFreeCountOffset r + 2) →
      (writeAt (writeAt img bm src1 1) (gd + bgFreeCountOffset r) src2 2).get pos =
      (writeAt img bm src1 1).get pos :=
    fun pos h => writeAt_get_out _ _ _ _ pos (by omega) h
  have g1 : ∀ pos, pos ≠ bm → (writeAt img bm src1 1).get pos = img.get pos :=
    fun pos h => writeAt_get_out _ _ _ _ pos (by omega) (by omega)
  refine ⟨?_, ?_, ?_, ?_, ?_, ?_⟩
  · rw [writeAt_size _ _ _ _ (by omega), s2]
  · intro pos h1 h2 h3
    rw [g3 pos h3, g2 pos h2, g1 pos h1]
  · rw [g3 bm (by omega), g2 bm (by omega), writeAt_get_in img bm src1 1 bm (le_refl _) (by omega),
      ← hbyte]
  · rw [bitmapStart_eq, bitmapStart_eq, ← hgcp]
    congr 1
    rw [hgcp]
    apply le32_congr
    intro k hk
    rw [g3 _ (by omega), g2 _ (by omega), g1 _ (by omega)]
  · rw [groupFree_eq, ← hgcp]
    rw [hgcp, le16_writeAt_other _ _ _ _ _ (by omega) (by omega), ← hgv, le16_writeAt_self]
    have : sub16 (d.groupFree img r p) 1 < 65536 := by
      unfold sub16
      omega
    exact Nat.mod_eq_of_lt this
  · rw [superFree_eq, ← hsv, le32_writeAt_self]
    have : sub32 (superFree img r) 1 < 4294967296 := by
      unfold sub32
      omega
    exact Nat.mod_eq_of_lt this

theorem bitmapAt_get (d : Device) (img : Bytes) (r : Resource) (q k : Nat) :
    (d.bitmapAt img r q).get k = img.get (d.bitmapStart img r q + k) := rfl

theorem bitmapAt_size (d : Device) (img : Bytes) (r : Resource) (q : Nat) :
    (d.bitmapAt img r q).size = d.perGroup r / 8 := rfl

/-- What a successful bitmap search tells: the bitmap is the one on disk, the
index is its lowest clear bit, and the reads were inside the file. -/
theorem next_pick (d : Device) (img : Bytes) (r : Resource) (g p i : Nat) (b : Bytes)
    (hG32 : d.BlockGroupsCount < 2 ^ 32) (hPG : d.perGroup r < 2 ^ 32)
    (hpick : d.next (d.newBitmapOf img r) g = .ok (b, (i : Int), p)) :
    b = d.bitmapAt img r p ∧ d.newBitmapOf img r p = .ok b ∧ p < d.BlockGroupsCount ∧
    Bitmap.LowestClear (d.bitmapAt img r p) i ∧
    d.groupDescriptorOffset p + 32 ≤ img.size ∧
    d.bitmapStart img r p + i / 8 < img.size := by
  rcases next_real d img r g hG32 with ⟨e, h⟩ | ⟨h1, _⟩ | ⟨p2, b2, h1, h2, h3⟩
  · rw [h] at hpick; cases hpick
  · rw [h1] at hpick
    injection hpick with hpick
    injection hpick with _ hpick
    injection hpick with hpick _
    omega
  · rw [h1] at hpick
    injection hpick with hpick
    injection hpick with e1 hpick
    injection hpick with e2 e3
    subst e1 e3
    obtain ⟨hp, hgd, hb, hrd⟩ := newBitmapOf_ok d img r p2 b2 h2
    subst hb
    have hsz := bitmapAt_size_lt d img r p2 hPG
    rcases FindFree_spec _ hsz with ⟨e1, _⟩ | ⟨k, e1, e4⟩
    · exact absurd e1 h3
    · rw [e1] at e2
      have hk : k = i := by omega
      subst hk
      refine ⟨rfl, h2, hp, e4, hgd, ?_⟩
      have hlt := e4.1
      rw [bitmapAt_size] at hlt
      have hb : d.bitmapStart img r p2 + d.perGroup r / 8 ≤ img.size := by
        rcases hrd with h0 | h0
        · omega
        · exact h0
      omega

/-- C12 (counterexample). On `staleCountImage` the inode bitmap of group 0 has
clear bits (the search picks bit 3) but the descriptor's `FreeInodesCount` is 0:
`AllocInode(0)` returns inode 4 and the descriptor's count becomes 65535, not
one less than before. -/
theorem C12_Alloc_counter_wraps_counterexample :
    (fsDevice.next (fsDevice.newBitmapOf staleCountImage .inode) 0).ok?.map
      (fun t => (t.2.1, t.2.2)) = some (3, 0) ∧
    (fsDevice.AllocInode staleCountImage 0).value? = some 4 ∧
    (fsDevice.AllocInode staleCountImage 0).err? = some none ∧
    fsDevice.groupFree staleCountImage .inode 0 = 0 ∧
    fsDevice.groupFree ((fsDevice.AllocInode staleCountImage 0).imgOr staleCountImage)
      .inode 0 = 65535 := by
  refine ⟨by decide, by decide, by decide, by decide, by decide⟩

/-- C12 (amended). When `AllocInode(g)` (resource `inode`) or `AllocBlock(g)`
(resource `block`) finds the superblock free count non-zero and its search picks
bit `i` of group `p`, and moreover the descriptor of group `p` has a free count of
at least 1, the descriptor, the superblock and the bitmap byte do not overlap, and
`p * perGroup + i + 1` fits 32 bits, then the call returns `p * perGroup + i + 1`
with a nil error, and afterwards on disk bit `i` of group `p`'s bitmap is set, the
other bits of that byte are as before, the descriptor's and the superblock's free
count are one less than before, and every byte outside the bitmap byte and the two
count fields is unchanged. -/
theorem C12_Alloc_pick_effect (d : Device) (img : Bytes) (r : Resource) (g : Nat)
    (super : SuperBlock) (p i : Nat) (b : Bytes)
    (hG32 : d.BlockGroupsCount < 2 ^ 32) (hPG : d.perGroup r < 2 ^ 32)
    (hs : d.NewSuperBlock img = .ok super) (hc : super.freeCount r ≠ 0)
    (hpick : d.next (d.newBitmapOf img r) g = .ok (b, (i : Int), p))
    (hcnt : 1 ≤ d.groupFree img r p)
    (hDS : d.groupDescriptorOffset p + 32 ≤ BASE_OFFSET ∨
      BASE_OFFSET + 1024 ≤ d.groupDescriptorOffset p)
    (hbD : d.bitmapStart img r p + i / 8 < d.groupDescriptorOffset p ∨
      d.groupDescriptorOffset p + 32 ≤ d.bitmapStart img r p + i / 8)
    (hbS : d.bitmapStart img r p + i / 8 < BASE_OFFSET ∨
      BASE_OFFSET + 1024 ≤ d.bitmapStart img r p + i / 8)
    (hwrap : p * d.perGroup r + i + 1 < 2 ^ 32) :
    ∃ ret, d.AllocOf img r g = .ok ret ∧ ret.err = none ∧
      ret.val = p * d.perGroup r + i + 1 ∧
      Bitmap.IsFree (d.bitmapAt ret.img r p) i = false ∧
      (∀ j, j ≠ i → j / 8 = i / 8 →
        Bitmap.IsFree (d.bitmapAt ret.img r p) j = Bitmap.IsFree (d.bitmapAt img r p) j) ∧
      d.groupFree ret.img r p + 1 = d.groupFree img r p ∧
      superFree ret.img r + 1 = superFree img r ∧
      ret.img.size = img.size ∧
      (∀ pos, pos ≠ d.bitmapStart img r p + i / 8 →
        ¬ (d.groupDescriptorOffset p + bgFreeCountOffset r ≤ pos ∧
          pos < d.groupDescriptorOffset p + bgFreeCountOffset r + 2) →
        ¬ (BASE_OFFSET + sFreeCountOffset r ≤ pos ∧
          pos < BASE_OFFSET + sFreeCountOffset r + 4) →
        ret.img.get pos = img.get pos) := by
  obtain ⟨hb, hnb, hp, hl, hgd, hbm⟩ := next_pick d img r g p i b hG32 hPG hpick
  obtain ⟨hsb, hsup⟩ := NewSuperBlock_ok d img super hs
  obtain ⟨e1, e2, e3, e4, e5, e6⟩ := pick_effect d img r p i hbm hgd hsb hDS hbD hbS
  refine ⟨_, AllocOf_of_pick d img r g super p i b hs hc hpick hnb (by omega), rfl, ?_, ?_, ?_,
    ?_, ?_, e1, e2⟩
  · show (mul32 (d.perGroup r) p + i + 1) % 2 ^ 32 = p * d.perGroup r + i + 1
    rw [mul32_eq _ _ (by rw [Nat.mul_comm]; omega), Nat.mul_comm]
    exact Nat.mod_eq_of_lt hwrap
  · show Bitmap.IsFree (d.bitmapAt (d.pickImage img r p i) r p) i = false
    rw [IsFree_testBit, bitmapAt_get, e4, e3, testBit_set _ _ _ (Nat.mod_lt _ (by omega))]
    simp
  · intro j hj hji
    show Bitmap.IsFree (d.bitmapAt (d.pickImage img r p i) r p) j = _
    rw [IsFree_testBit, IsFree_testBit, bitmapAt_get, bitmapAt_get, e4, hji, e3,
      testBit_set _ _ _ (Nat.mod_lt _ (by omega))]
    have : ¬ (i % 8 = j % 8) := by omega
    simp [this]
  · show d.groupFree (d.pickImage img r p i) r p + 1 = _
    rw [e5]
    have := le16_lt img (d.groupDescriptorOffset p + bgFreeCountOffset r)
    rw [← groupFree_eq] at this
    unfold sub16
    omega
  · show superFree (d.pickImage img r p i) r + 1 = _
    rw [e6]
    have := le32_lt img (BASE_OFFSET + sFreeCountOffset r)
    rw [← superFree_eq] at this
    have h0 : superFree img r ≠ 0 := by
      rw [hsup] at hc
      exact hc
    unfold sub32
    omega

theorem C12_Alloc_pick_effect_witness :
    ∃ ret, twoGroupDevice.AllocInode twoGroupImage 0 = .ok ret ∧ ret.err = none ∧
      ret.val = 11 ∧
      twoGroupDevice.groupFree ret.img .inode 1 + 1 = 6 ∧
      superFree ret.img .inode + 1 = 6 := by
  obtain ⟨ret, h1, h2, h3, _, _, h6, h7, _⟩ :=
    C12_Alloc_pick_effect twoGroupDevice twoGroupImage .inode 0
      (decodeSuperBlock twoGroupImage BASE_OFFSET) 1 2
      (twoGroupDevice.bitmapAt twoGroupImage .inode 1)
      (by decide) (by decide) rfl (by decide) rfl (by decide) (by decide) (by decide)
      (by decide) (by decide)
  exact ⟨ret, h1, h2, h3, h6, h7⟩

theorem groupDescriptorOffset_eq (d : Device) (q : Nat) :
    d.groupDescriptorOffset q = d.groupDescriptorOffset 0 + 32 * q := by
  unfold Device.groupDescriptorOffset EXT2_GROUP_DESC_SIZE
  omega

/-- The disjointness facts a pick of bit `i` in group `p` needs, from the layout. -/
theorem layout_pick (d : Device) (img : Bytes) (r : Resource) (p i : Nat)
    (hlay : d.Layout img r) (hp : p < d.BlockGroupsCount) (hi : i < 8 * (d.perGroup r / 8)) :
    (d.groupDescriptorOffset p + 32 ≤ BASE_OFFSET ∨
      BASE_OFFSET + 1024 ≤ d.groupDescriptorOffset p) ∧
    (d.bitmapStart img r p + i / 8 < d.groupDescriptorOffset p ∨
      d.groupDescriptorOffset p + 32 ≤ d.bitmapStart img r p + i / 8) ∧
    (d.bitmapStart img r p + i / 8 < BASE_OFFSET ∨
      BASE_OFFSET + 1024 ≤ d.bitmapStart img r p + i / 8) := by
  obtain ⟨h1, h2, _⟩ := hlay
  obtain ⟨h3, h4⟩ := h2 p hp
  have e := groupDescriptorOffset_eq d p
  refine ⟨by omega, by omega, by omega⟩

/-- C14 (counterexample). On `overlapImage` the inode bitmap lies over the group
descriptor.  `AllocInode(0)` returns inode 33 and sets bit 32, which is bit 0 of
the descriptor's `InodeBitmap` field: the field changes from 2 to 3.  Nothing
else touches the file, and the next `AllocInode(0)` reads its bitmap from block 3
and returns inode 33 again. -/
theorem C14_Alloc_twice_counterexample :
    (overlapDevice.AllocInode overlapImage 0).value? = some 33 ∧
    (overlapDevice.AllocInode overlapImage 0).err? = some none ∧
    (overlapDevice.AllocInode
      ((overlapDevice.AllocInode overlapImage 0).imgOr overlapImage) 0).value? = some 33 ∧
    (overlapDevice.AllocInode
      ((overlapDevice.AllocInode overlapImage 0).imgOr overlapImage) 0).err? = some none := by
  refine ⟨by decide, by decide, by decide, by decide⟩

/-- A returned number that is not null comes from a pick. -/
theorem AllocOf_val_pick (d : Device) (img : Bytes) (r : Resource) (g : Nat) (ret : Ret Nat)
    (hG32 : d.BlockGroupsCount < 2 ^ 32) (hPG : d.perGroup r < 2 ^ 32)
    (h : d.AllocOf img r g = .ok ret) (hv : ret.val ≠ 0) :
    ∃ super p i, d.NewSuperBlock img = .ok super ∧ super.freeCount r ≠ 0 ∧
      p < d.BlockGroupsCount ∧
      Bitmap.LowestClear (d.bitmapAt img r p) i ∧
      d.next (d.newBitmapOf img r) g = .ok (d.bitmapAt img r p, (i : Int), p) ∧
      ret = ⟨(mul32 (d.perGroup r) p + i + 1) % 2 ^ 32, none, d.pickImage img r p i⟩ := by
  cases hs : d.NewSuperBlock img with
  | error e =>
    unfold Device.AllocOf at h
    rw [hs] at h
    injection h with h
    rw [← h] at hv
    exact absurd rfl hv
  | ok super =>
    by_cases hc : super.freeCount r = 0
    · rw [AllocOf_of_zero d img r g super hs hc] at h
      injection h with h
      rw [← h] at hv
      exact absurd rfl hv
    · rcases AllocOf_cases d img r g super hG32 hPG hs hc with
        ⟨e, _, h2⟩ | ⟨_, h2, _⟩ | ⟨p, i, hp, hb, hl, hn, _, h2⟩
      · rw [h2] at h
        injection h with h
        rw [← h] at hv
        exact absurd rfl hv
      · rw [h2] at h
        injection h with h
        rw [← h] at hv
        exact absurd rfl hv
      · rw [h2] at h
        injection h with h
        exact ⟨super, p, i, rfl, hc, hp, hl, hn, h.symm⟩

theorem pick_number (d : Device) (r : Resource) (p i : Nat)
    (hp : p < d.BlockGroupsCount) (hi : i < 8 * (d.perGroup r / 8))
    (hwrap : d.BlockGroupsCount * d.perGroup r < 2 ^ 32) :
    (mul32 (d.perGroup r) p + i + 1) % 2 ^ 32 = p * d.perGroup r + i + 1 := by
  have h1 : (p + 1) * d.perGroup r ≤ d.BlockGroupsCount * d.perGroup r :=
    Nat.mul_le_mul_right _ (by omega)
  rw [Nat.add_mul] at h1
  generalize hA : p * d.perGroup r = A at *
  generalize hB : d.BlockGroupsCount * d.perGroup r = B at *
  rw [mul32_eq _ _ (by rw [Nat.mul_comm, hA]; omega), Nat.mul_comm, hA]
  exact Nat.mod_eq_of_lt (by omega)

theorem pick_number_inj (n p i p2 i2 : Nat) (hi : i < n) (hi2 : i2 < n)
    (h : p * n + i + 1 = p2 * n + i2 + 1) : p = p2 ∧ i = i2 := by
  have hn : 0 < n := by omega
  have e1 : (n * p + i) / n = p := by
    rw [Nat.mul_add_div hn, Nat.div_eq_of_lt hi, Nat.add_zero]
  have e2 : (n * p2 + i2) / n = p2 := by
    rw [Nat.mul_add_div hn, Nat.div_eq_of_lt hi2, Nat.add_zero]
  have e3 : n * p + i = n * p2 + i2 := by
    rw [Nat.mul_comm n p, Nat.mul_comm n p2]; omega
  have hp : p = p2 := by rw [← e1, ← e2, e3]
  subst hp
  exact ⟨rfl, by omega⟩

/-- C14 (amended). On an image whose superblock, descriptor table and bitmaps of
the resource occupy pairwise disjoint byte ranges, with
`BlockGroupsCount * perGroup < 2^32`: if `AllocInode(g)` (resource `inode`) or
`AllocBlock(g)` (resource `block`) returns a non-null number, then on every later
file `img2` in which every bitmap bit that was set after the call is still set,
no call `AllocInode(g2)` (resp. `AllocBlock(g2)`) returns that number. -/
theorem C14_Alloc_not_twice (d : Device) (img img2 : Bytes) (r : Resource) (g g2 : Nat)
    (ret ret2 : Ret Nat)
    (hG32 : d.BlockGroupsCount < 2 ^ 32) (hPG : d.perGroup r < 2 ^ 32)
    (hwrap : d.BlockGroupsCount * d.perGroup r < 2 ^ 32)
    (hlay : d.Layout img r)
    (h1 : d.AllocOf img r g = .ok ret) (hv : ret.val ≠ 0)
    (hkeep : ∀ q j, q < d.BlockGroupsCount → j < 8 * (d.perGroup r / 8) →
      Bitmap.IsFree (d.bitmapAt ret.img r q) j = false →
      Bitmap.IsFree (d.bitmapAt img2 r q) j = false)
    (h2 : d.AllocOf img2 r g2 = .ok ret2) :
    ret2.val ≠ ret.val := by
  intro heq
  obtain ⟨super, p, i, hs, hc, hp, hl, hn, hret⟩ := AllocOf_val_pick d img r g ret hG32 hPG h1 hv
  obtain ⟨_, _, _, _, hgd, hbm⟩ := next_pick d img r g p i _ hG32 hPG hn
  obtain ⟨hsb, _⟩ := NewSuperBlock_ok d img super hs
  have hi : i < 8 * (d.perGroup r / 8) := hl.1
  obtain ⟨hDS, hbD, hbS⟩ := layout_pick d img r p i hlay hp hi
  obtain ⟨_, _, e3, e4, _, _⟩ := pick_effect d img r p i hbm hgd hsb hDS hbD hbS
  have hset : Bitmap.IsFree (d.bitmapAt ret.img r p) i = false := by
    rw [hret]
    show Bitmap.IsFree (d.bitmapAt (d.pickImage img r p i) r p) i = false
    rw [IsFree_testBit, bitmapAt_get, e4, e3, testBit_set _ _ _ (Nat.mod_lt _ (by omega))]
    simp
  have hset2 := hkeep p i hp hi hset
  have hv2 : ret2.val ≠ 0 := by rw [heq]; exact hv
  obtain ⟨_, p2, i2, _, _, hp2, hl2, _, hret2⟩ :=
    AllocOf_val_pick d img2 r g2 ret2 hG32 hPG h2 hv2
  have hi2 : i2 < 8 * (d.perGroup r / 8) := hl2.1
  rw [hret, hret2] at heq
  have heq2 : (mul32 (d.perGroup r) p2 + i2 + 1) % 2 ^ 32 =
      (mul32 (d.perGroup r) p + i + 1) % 2 ^ 32 := heq
  rw [pick_number d r p i hp hi hwrap, pick_number d r p2 i2 hp2 hi2 hwrap] at heq2
  obtain ⟨e1, e2⟩ := pick_number_inj (d.perGroup r) p2 i2 p i (by omega) (by omega) heq2
  subst e1 e2
  rw [hl2.2.1] at hset2
  cases hset2

theorem twoGroup_layout : twoGroupDevice.Layout twoGroupImage .inode := by
  refine ⟨by decide, ?_, ?_⟩
  · intro q hq
    match q, hq with
    | 0, _ => exact ⟨by decide, by decide⟩
    | 1, _ => exact ⟨by decide, by decide⟩
    | n + 2, h => exact absurd h (by simp [twoGroupDevice])
  · intro q q2 hq hq2 hne
    match q, hq, q2, hq2 with
    | 0, _, 0, _ => exact absurd rfl hne
    | 0, _, 1, _ => decide
    | 1, _, 0, _ => decide
    | 1, _, 1, _ => exact absurd rfl hne
    | n + 2, h, _, _ => exact absurd h (by simp [twoGroupDevice])
    | _, _, n + 2, h => exact absurd h (by simp [twoGroupDevice])

theorem C14_Alloc_not_twice_witness :
    ∃ ret ret2, twoGroupDevice.AllocInode twoGroupImage 0 = .ok ret ∧ ret.val = 11 ∧
      twoGroupDevice.AllocInode ret.img 0 = .ok ret2 ∧ ret2.val ≠ ret.val :=
  ⟨⟨11, none, twoGroupDevice.pickImage twoGroupImage .inode 1 2⟩,
   ⟨12, none, twoGroupDevice.pickImage
      (twoGroupDevice.pickImage twoGroupImage .inode 1 2) .inode 1 3⟩,
   rfl, rfl, rfl,
   C14_Alloc_not_twice twoGroupDevice twoGroupImage
     (twoGroupDevice.pickImage twoGroupImage .inode 1 2) .inode 0 0
     ⟨11, none, twoGroupDevice.pickImage twoGroupImage .inode 1 2⟩
     ⟨12, none, twoGroupDevice.pickImage
        (twoGroupDevice.pickImage twoGroupImage .inode 1 2) .inode 1 3⟩
     (by decide) (by decide) (by decide) twoGroup_layout rfl (by decide)
     (fun _ _ _ _ h => h) rfl⟩

theorem countClear_congr (b1 b2 : Bytes) (n : Nat)
    (h : ∀ j, j < n → Bitmap.IsFree b1 j = Bitmap.IsFree b2 j) :
    countClear b1 n = countClear b2 n := by
  induction n with
  | zero => rfl
  | succ n ih =>
    rw [countClear, countClear, ih (fun j hj => h j (by omega)), h n (by omega)]

theorem countClear_zero (b : Bytes) (n : Nat)
    (h : ∀ j, j < n → Bitmap.IsFree b j = false) : countClear b n = 0 := by
  induction n with
  | zero => rfl
  | succ n ih =>
    rw [countClear, ih (fun j hj => h j (by omega)), h n (by omega)]
    rfl

theorem countClear_flip (b1 b2 : Bytes) (n i : Nat) (hi : i < n)
    (h1 : Bitmap.IsFree b1 i = true) (h2 : Bitmap.IsFree b2 i = false)
    (h : ∀ j, j < n → j ≠ i → Bitmap.IsFree b2 j = Bitmap.IsFree b1 j) :
    countClear b2 n + 1 = countClear b1 n := by
  induction n with
  | zero => omega
  | succ n ih =>
    rw [countClear, countClear]
    by_cases hin : i = n
    · subst hin
      rw [h1, h2, countClear_congr b2 b1 i (fun j hj => h j (by omega) (by omega))]
      simp
    · rw [h n (by omega) (fun e => hin e.symm)]
      have := ih (by omega) (fun j hj hne => h j (by omega) hne)
      omega

theorem sumTo_congr (f f2 : Nat → Nat) (n : Nat) (h : ∀ q, q < n → f2 q = f q) :
    sumTo f2 n = sumTo f n := by
  induction n with
  | zero => rfl
  | succ n ih => rw [sumTo, sumTo, ih (fun q hq => h q (by omega)), h n (by omega)]

theorem sumTo_zero (f : Nat → Nat) (n : Nat) (h : ∀ q, q < n → f q = 0) : sumTo f n = 0 := by
  induction n with
  | zero => rfl
  | succ n ih => rw [sumTo, ih (fun q hq => h q (by omega)), h n (by omega)]

theorem sumTo_dec (f f2 : Nat → Nat) (n p : Nat) (hp : p < n) (h1 : f2 p + 1 = f p)
    (h : ∀ q, q < n → q ≠ p → f2 q = f q) : sumTo f2 n + 1 = sumTo f n := by
  induction n with
  | zero => omega
  | succ n ih =>
    rw [sumTo, sumTo]
    by_cases hpn : p = n
    · subst hpn
      rw [sumTo_congr f f2 p (fun q hq => h q (by omega) (by omega))]
      omega
    · rw [h n (by omega) (fun e => hpn e.symm)]
      have := ih (by omega) (fun q hq hne => h q (by omega) hne)
      omega

/-- The bits of the bitmaps and the descriptor counts after a pick of bit `i` in
group `p`, on a disjoint layout. -/
theorem pick_groups (d : Device) (img : Bytes) (r : Resource) (p i : Nat)
    (hlay : d.Layout img r) (hp : p < d.BlockGroupsCount) (hi : i < 8 * (d.perGroup r / 8))
    (hbm : d.bitmapStart img r p + i / 8 < img.size)
    (hgd : d.groupDescriptorOffset p + 32 ≤ img.size)
    (hsb : BASE_OFFSET + 1024 ≤ img.size) :
    Bitmap.IsFree (d.bitmapAt (d.pickImage img r p i) r p) i = false ∧
    (∀ j, j < 8 * (d.perGroup r / 8) → j ≠ i →
      Bitmap.IsFree (d.bitmapAt (d.pickImage img r p i) r p) j =
        Bitmap.IsFree (d.bitmapAt img r p) j) ∧
    (∀ q, q < d.BlockGroupsCount → q ≠ p →
      d.groupFree (d.pickImage img r p i) r q = d.groupFree img r q ∧
      ∀ j, j < 8 * (d.perGroup r / 8) →
        Bitmap.IsFree (d.bitmapAt (d.pickImage img r p i) r q) j =
          Bitmap.IsFree (d.bitmapAt img r q) j) := by
  obtain ⟨hDS, hbD, hbS⟩ := layout_pick d img r p i hlay hp hi
  obtain ⟨_, e2, e3, e4, _, _⟩ := pick_effect d img r p i hbm hgd hsb hDS hbD hbS
  obtain ⟨l1, l2, l3⟩ := hlay
  have hbg := bgFreeCountOffset_cases r
  have hsf := sFreeCountOffset_cases r
  have hbo := bgBitmapOffset_cases r
  have hB : BASE_OFFSET = 1024 := rfl
  have gp := groupDescriptorOffset_eq d p
  obtain ⟨lp1, lp2⟩ := l2 p hp
  -- the file after the pick, by its bytes only
  generalize d.pickImage img r p i = img2 at e2 e3 e4 ⊢
  refine ⟨?_, ?_, ?_⟩
  · rw [IsFree_testBit, bitmapAt_get, e4, e3, testBit_set _ _ _ (Nat.mod_lt _ (by omega))]
    simp
  · intro j hj hji
    rw [IsFree_testBit, IsFree_testBit, bitmapAt_get, bitmapAt_get, e4]
    clear e4
    by_cases hb : j / 8 = i / 8
    · rw [hb, e3, testBit_set _ _ _ (Nat.mod_lt _ (by omega))]
      have : ¬ (i % 8 = j % 8) := by omega
      simp [this]
    · rw [e2 _ (by omega) (by omega) (by omega)]
  · intro q hq hqp
    clear e4
    have gq := groupDescriptorOffset_eq d q
    obtain ⟨lq1, lq2⟩ := l2 q hq
    have l3q := l3 q p hq hp hqp
    have f1 : ∀ k, k < 2 →
        img2.get (d.groupDescriptorOffset q + bgFreeCountOffset r + k) =
          img.get (d.groupDescriptorOffset q + bgFreeCountOffset r + k) :=
      fun k hk => e2 _ (by clear hDS hbD hbS l1 lp1 lq1 lq2 l3q hsf hbo; omega)
        (by clear hDS hbD hbS l1 lp1 lp2 lq1 lq2 l3q hsf hbo; omega)
        (by clear hDS hbD hbS lp1 lp2 lq1 lq2 l3q hbo; omega)
    have f2 : ∀ k, k < 4 →
        img2.get (d.groupDescriptorOffset q + bgBitmapOffset r + k) =
          img.get (d.groupDescriptorOffset q + bgBitmapOffset r + k) :=
      fun k hk => e2 _ (by clear hDS hbD hbS l1 lp1 lq1 lq2 l3q hsf hbg; omega)
        (by clear hDS hbD hbS l1 lp1 lp2 lq1 lq2 l3q hsf; omega)
        (by clear hDS hbD hbS lp1 lp2 lq1 lq2 l3q hbg; omega)
    have f3 : ∀ j, j < 8 * (d.perGroup r / 8) →
        img2.get (d.bitmapStart img r q + j / 8) = img.get (d.bitmapStart img r q + j / 8) :=
      fun j hj => e2 _ (by clear hDS hbD hbS l1 lp1 lp2 lq1 lq2 hsf hbg hbo; omega)
        (by clear hDS hbD hbS l1 lp1 lp2 lq1 l3q hsf hbo; omega)
        (by clear hDS hbD hbS l1 lp1 lp2 lq2 l3q hbg hbo; omega)
    have hstart : d.bitmapStart img2 r q = d.bitmapStart img r q := by
      rw [bitmapStart_eq, bitmapStart_eq]
      congr 1
      exact le32_congr _ _ _ _ f2
    refine ⟨?_, ?_⟩
    · rw [groupFree_eq, groupFree_eq]
      exact le16_congr _ _ _ _ f1
    · intro j hj
      rw [IsFree_testBit, IsFree_testBit, bitmapAt_get, bitmapAt_get, hstart, f3 j hj]

theorem sub16_dec (x : Nat) (h1 : 1 ≤ x) (h2 : x < 2 ^ 16) : sub16 x 1 + 1 = x := by
  unfold sub16
  omega

theorem sub32_dec (x : Nat) (h1 : 1 ≤ x) (h2 : x < 2 ^ 32) : sub32 x 1 + 1 = x := by
  unfold sub32
  omega

/-- C13: if for every group the number of clear bits of its bitmap equals its
descriptor's free count and the descriptors' counts sum to the superblock's free
count, and the superblock, the descriptor table and the bitmaps occupy pairwise
disjoint byte ranges, then `AllocInode(g)` (resource `inode`) resp. `AllocBlock(g)`
(resource `block`) with `g < BlockGroupsCount` returns, and the same two
equalities hold on the file it leaves. -/
theorem C13_Alloc_preserves_consistency (d : Device) (img : Bytes) (r : Resource) (g : Nat)
    (hG32 : d.BlockGroupsCount < 2 ^ 32) (hPG : d.perGroup r < 2 ^ 32)
    (_hg : g < d.BlockGroupsCount)
    (hcon : d.Consistent img r) (hlay : d.Layout img r) :
    ∃ ret, d.AllocOf img r g = .ok ret ∧ d.Consistent ret.img r := by
  cases hs : d.NewSuperBlock img with
  | error e =>
    refine ⟨⟨0, some e, img⟩, ?_, hcon⟩
    unfold Device.AllocOf
    rw [hs]
  | ok super =>
    obtain ⟨hsb, hsup⟩ := NewSuperBlock_ok d img super hs
    by_cases hc : super.freeCount r = 0
    · exact ⟨_, AllocOf_of_zero d img r g super hs hc, hcon⟩
    · rcases AllocOf_cases d img r g super hG32 hPG hs hc with
        ⟨e, _, h2⟩ | ⟨_, _, h3⟩ | ⟨p, i, hp, hb, hl, hn, _, h2⟩
      · exact ⟨_, h2, hcon⟩
      · exfalso
        have hz : ∀ q, q < d.BlockGroupsCount → d.groupFree img r q = 0 := by
          intro q hq
          rw [← hcon.1 q hq]
          apply countClear_zero
          intro j hj
          by_contra hf
          have hf2 : Bitmap.IsFree (d.bitmapAt img r q) j = true := by
            simpa using hf
          exact (h3 q hq).2 ⟨j, by rw [bitmapAt_size]; exact hj, hf2⟩
        have := hcon.2
        rw [sumTo_zero _ _ hz] at this
        rw [hsup] at hc
        exact hc this.symm
      · refine ⟨_, h2, ?_⟩
        show d.Consistent (d.pickImage img r p i) r
        obtain ⟨_, _, _, _, hgd, hbm⟩ := next_pick d img r g p i _ hG32 hPG hn
        have hi : i < 8 * (d.perGroup r / 8) := hl.1
        obtain ⟨hDS, hbD, hbS⟩ := layout_pick d img r p i hlay hp hi
        obtain ⟨_, _, _, _, e5, e6⟩ := pick_effect d img r p i hbm hgd hsb hDS hbD hbS
        obtain ⟨b1, b2, b3⟩ := pick_groups d img r p i hlay hp hi hbm hgd hsb
        generalize d.pickImage img r p i = img2 at e5 e6 b1 b2 b3 ⊢
        have hflip : d.clearBits img2 r p + 1 = d.clearBits img r p :=
          countClear_flip _ _ _ i hi hl.2.1 b1 b2
        have hge : 1 ≤ d.groupFree img r p := by
          rw [← hcon.1 p hp, ← hflip]
          exact Nat.le_add_left 1 _
        have hgp : d.groupFree img2 r p + 1 = d.groupFree img r p := by
          rw [e5]
          apply sub16_dec _ hge
          rw [groupFree_eq]
          exact le16_lt _ _
        constructor
        · intro q hq
          by_cases hqp : q = p
          · rw [hqp]
            exact Nat.add_right_cancel (hflip.trans ((hcon.1 p hp).trans hgp.symm))
          · obtain ⟨c1, c2⟩ := b3 q hq hqp
            rw [c1, ← hcon.1 q hq]
            exact countClear_congr _ _ _ c2
        · have hsum : sumTo (d.groupFree img2 r) d.BlockGroupsCount + 1 =
              sumTo (d.groupFree img r) d.BlockGroupsCount :=
            sumTo_dec _ _ _ p hp hgp (fun q hq hqp => (b3 q hq hqp).1)
          have hsf : superFree img2 r + 1 = superFree img r := by
            rw [e6]
            apply sub32_dec
            · rw [hsup] at hc
              exact Nat.one_le_iff_ne_zero.mpr hc
            · rw [superFree_eq]
              exact le32_lt _ _
          exact Nat.add_right_cancel (hsum.trans (hcon.2.trans hsf.symm))

theorem twoGroup_consistent : twoGroupDevice.Consistent twoGroupImage .inode := by
  refine ⟨?_, by decide⟩
  intro q hq
  match q, hq with
  | 0, _ => decide
  | 1, _ => decide
  | n + 2, h => exact absurd h (by simp [twoGroupDevice])

theorem C13_Alloc_preserves_consistency_witness :
    ∃ ret, twoGroupDevice.AllocInode twoGroupImage 0 = .ok ret ∧
      twoGroupDevice.Consistent ret.img .inode :=
  C13_Alloc_preserves_consistency twoGroupDevice twoGroupImage .inode 0
    (by decide) (by decide) (by decide) twoGroup_consistent twoGroup_layout

/-- What `AllocInode`/`AllocBlock` leaves alone on a disjoint layout: the size of
the file and every byte of the descriptor table outside the free-count fields;
the value it returns fits 32 bits. -/
theorem AllocOf_frame (d : Device) (img : Bytes) (r : Resource) (g : Nat) (a : Ret Nat)
    (hG32 : d.BlockGroupsCount < 2 ^ 32) (hPG : d.perGroup r < 2 ^ 32)
    (hlay : d.Layout img r) (h : d.AllocOf img r g = .ok a) :
    a.img.size = img.size ∧ a.val < 2 ^ 32 ∧
    ∀ q k, q < d.BlockGroupsCount → k < 32 → (k < 12 ∨ 16 ≤ k) →
      a.img.get (d.groupDescriptorOffset q + k) = img.get (d.groupDescriptorOffset q + k) := by
  cases hs : d.NewSuperBlock img with
  | error e =>
    unfold Device.AllocOf at h
    rw [hs] at h
    injection h with h
    rw [← h]
    exact ⟨rfl, (by show 0 < 2 ^ 32; decide), fun _ _ _ _ _ => rfl⟩
  | ok super =>
    obtain ⟨hsb, hsup⟩ := NewSuperBlock_ok d img super hs
    have hsf := sFreeCountOffset_cases r
    have hB : BASE_OFFSET = 1024 := rfl
    by_cases hc : super.freeCount r = 0
    · rw [AllocOf_of_zero d img r g super hs hc] at h
      injection h with h
      rw [← h]
      exact ⟨rfl, (by show 0 < 2 ^ 32; decide), fun _ _ _ _ _ => rfl⟩
    · rcases AllocOf_cases d img r g super hG32 hPG hs hc with
        ⟨e, _, h2⟩ | ⟨_, h2, _⟩ | ⟨p, i, hp, hb, hl, hn, _, h2⟩
      · rw [h2] at h
        injection h with h
        rw [← h]
        exact ⟨rfl, (by show 0 < 2 ^ 32; decide), fun _ _ _ _ _ => rfl⟩
      · rw [h2] at h
        injection h with h
        rw [← h]
        refine ⟨writeAt_size _ _ _ _ (by omega), (by show 0 < 2 ^ 32; decide), ?_⟩
        intro q k hq hk hk2
        have gq := groupDescriptorOffset_eq d q
        have l1 := hlay.1
        exact writeAt_get_out img (BASE_OFFSET + sFreeCountOffset r) _ 4 _ (by omega) (by omega)
      · rw [h2] at h
        injection h with h
        rw [← h]
        obtain ⟨_, _, _, _, hgd, hbm⟩ := next_pick d img r g p i _ hG32 hPG hn
        have hi : i < 8 * (d.perGroup r / 8) := hl.1
        obtain ⟨hDS, hbD, hbS⟩ := layout_pick d img r p i hlay hp hi
        obtain ⟨e1, e2, _, _, _, _⟩ := pick_effect d img r p i hbm hgd hsb hDS hbD hbS
        refine ⟨e1, Nat.mod_lt _ (by decide), ?_⟩
        intro q k hq hk hk2
        have gq := groupDescriptorOffset_eq d q
        have gp := groupDescriptorOffset_eq d p
        have hbg := bgFreeCountOffset_cases r
        obtain ⟨l1, l2, _⟩ := hlay
        obtain ⟨_, lp2⟩ := l2 p hp
        exact e2 _ (by clear hDS hbD hbS l1 hsf hbg; omega)
          (by clear hDS hbD hbS l1 lp2 hsf; omega)
          (by clear hDS hbD hbS lp2 hbg; omega)

theorem writeAt_size_ge (img : Bytes) (pos : Nat) (src : Nat → Byte) (len : Nat) :
    img.size ≤ (writeAt img pos src len).size := by
  unfold writeAt
  split_ifs
  · exact le_refl _
  · exact Nat.le_max_left _ _

theorem writeAt_size_end (img : Bytes) (pos : Nat) (src : Nat → Byte) (len : Nat)
    (h : 0 < len) : pos + len ≤ (writeAt img pos src len).size := by
  unfold writeAt
  rw [if_neg (by omega)]
  exact Nat.le_max_right _ _

theorem writeAt_get_at (img : Bytes) (pos : Nat) (src : Nat → Byte) (len k : Nat)
    (h : k < len) : (writeAt img pos src len).get (pos + k) = src k := by
  rw [writeAt_get_in img pos src len (pos + k) (by omega) (by omega)]
  congr 1
  omega

/-- A byte of the old file outside the written range is unchanged. -/
theorem writeAt_get_other (img : Bytes) (pos : Nat) (src : Nat → Byte) (len p : Nat)
    (h : p < img.size) (hp : p < pos ∨ pos + len ≤ p) :
    (writeAt img pos src len).get p = img.get p := by
  unfold writeAt
  by_cases h0 : len = 0
  · rw [if_pos h0]
  · rw [if_neg h0]
    dsimp only
    rw [if_neg (by omega), if_neg (by omega)]

theorem le16_written (img : Bytes) (pos : Nat) (src : Nat → Byte) (len off : Nat)
    (h : off + 2 ≤ len) :
    le16 (writeAt img pos src len) (pos + off) = (src off).val + 256 * (src (off + 1)).val := by
  unfold le16
  have e1 : pos + off + 1 = pos + (off + 1) := by omega
  rw [e1, writeAt_get_at img pos src len off (by omega),
    writeAt_get_at img pos src len (off + 1) (by omega)]

theorem le32_written (img : Bytes) (pos : Nat) (src : Nat → Byte) (len off : Nat)
    (h : off + 4 ≤ len) :
    le32 (writeAt img pos src len) (pos + off) =
      (src off).val + 256 * (src (off + 1)).val + 65536 * (src (off + 2)).val
        + 16777216 * (src (off + 3)).val := by
  unfold le32
  have e1 : pos + off + 1 = pos + (off + 1) := by omega
  have e2 : pos + off + 2 = pos + (off + 2) := by omega
  have e3 : pos + off + 3 = pos + (off + 3) := by omega
  rw [e1, e2, e3, writeAt_get_at img pos src len off (by omega),
    writeAt_get_at img pos src len (off + 1) (by omega),
    writeAt_get_at img pos src len (off + 2) (by omega),
    writeAt_get_at img pos src len (off + 3) (by omega)]

theorem encodeInode_block (I : Inode) (i t : Nat) (hi : i ≤ 14) (ht : t < 4) :
    encodeInode I (I_BLOCK + 4 * i + t) = putLE (I.Block i) t := by
  unfold encodeInode I_BLOCK
  rw [if_neg (by omega), if_neg (by omega), if_neg (by omega), if_neg (by omega),
    if_neg (by omega), if_neg (by omega), if_neg (by omega), if_neg (by omega),
    if_neg (by omega), if_neg (by omega), if_neg (by omega), if_neg (by omega),
    if_pos (by omega)]
  have e1 : (40 + 4 * i + t - 40) / 4 = i := by omega
  have e2 : (40 + 4 * i + t - 40) % 4 = t := by omega
  rw [e1, e2]

/-- Slot `i` of `Block[]` read back from a freshly written inode record. -/
theorem Block_written (img : Bytes) (pos : Nat) (I : Inode) (i : Nat) (hi : i ≤ 14)
    (hv : I.Block i < 2 ^ 32) :
    (decodeInode (writeAt img pos (encodeInode I) 128) pos).Block i = I.Block i := by
  show le32 (writeAt img pos (encodeInode I) 128) (pos + I_BLOCK + 4 * i) = I.Block i
  have e : pos + I_BLOCK + 4 * i = pos + (I_BLOCK + 4 * i) := by omega
  rw [e, le32_written _ _ _ _ _ (by unfold I_BLOCK; omega)]
  have e0 := encodeInode_block I i 0 hi (by omega)
  rw [Nat.add_zero] at e0
  rw [e0, encodeInode_block I i 1 hi (by omega), encodeInode_block I i 2 hi (by omega),
    encodeInode_block I i 3 hi (by omega), le32_putLE]
  exact Nat.mod_eq_of_lt hv

/-- C17: for an inode number `1 ≤ ino ≤ InodesCount` on a well-formed image (the
superblock, the descriptor table and the block bitmaps pairwise disjoint, the
inode records outside the descriptor table), after `CreateFileInode(ino)` succeeds
`NewInode(ino)` returns an inode with `IsReg()` true, `Size = 0`,
`LinksCount = 1`, `Blocks = 0`, `Block[0]` the number returned by the `AllocBlock`
call that was made, and `Block[1..14]` all 0. -/
theorem C17_CreateFileInode_readback (d : Device) (img : Bytes) (uid gid ino : Nat)
    (ret : Ret Inode)
    (hG32 : d.BlockGroupsCount < 2 ^ 32) (hBPG : d.BlocksPerGroup < 2 ^ 32)
    (hIPG : 0 < d.InodesPerGroup)
    (h1 : 1 ≤ ino) (h2 : ino ≤ d.InodesCount) (h32 : ino < 2 ^ 32)
    (hlay : d.Layout img .block) (hapart : d.InodeTableApart img)
    (hok : d.CreateFileInode img uid gid ino = .ok ret) (herr : ret.err = none) :
    ∃ a inode, d.AllocBlock img ((ino - 1) / d.InodesPerGroup) = .ok a ∧
      d.NewInode ret.img ino = .ok inode ∧
      inode.IsReg = true ∧ inode.Size = 0 ∧ inode.LinksCount = 1 ∧ inode.Blocks = 0 ∧
      inode.Block 0 = a.val ∧ ∀ k, 1 ≤ k → k ≤ 14 → inode.Block k = 0 := by
  have hsub : sub32 ino 1 = ino - 1 := sub32_eq ino 1 h1 h32
  unfold Device.CreateFileInode at hok
  dsimp only at hok
  rw [hsub] at hok
  cases hg : d.NewGroupDescriptor img ((ino - 1) / d.InodesPerGroup) with
  | error e =>
    rw [hg] at hok
    injection hok with hok
    rw [← hok] at herr
    cases herr
  | ok group =>
    rw [hg] at hok
    dsimp only at hok
    obtain ⟨hq, hsz, hgroup⟩ := NewGroupDescriptor_ok d img _ group hg
    cases ha : d.AllocBlock img ((ino - 1) / d.InodesPerGroup) with
    | error e => rw [ha] at hok; cases hok
    | panic => rw [ha] at hok; cases hok
    | timeout => rw [ha] at hok; cases hok
    | ok a =>
      rw [ha] at hok
      injection hok with hok
      have ha2 : d.AllocOf img .block ((ino - 1) / d.InodesPerGroup) = .ok a := ha
      obtain ⟨fsz, fval, fget⟩ := AllocOf_frame d img .block _ a hG32 hBPG hlay ha2
      have hidx : (ino - 1) % d.InodesPerGroup < d.InodesPerGroup := Nat.mod_lt _ hIPG
      have hap := hapart _ _ hq hidx
      rw [← hgroup] at hap
      have gq := groupDescriptorOffset_eq d ((ino - 1) / d.InodesPerGroup)
      generalize hgi : (ino - 1) / d.InodesPerGroup = gi at *
      generalize hix : (ino - 1) % d.InodesPerGroup = idx at *
      generalize hip : d.inodeOffset group.InodeTable idx = ipos at *
      -- the descriptor read back from the new file names the same inode table
      have himg : ret.img = writeAt a.img ipos
          (encodeInode (newInode S_IFREG uid gid 0 1 0 a.val)) 128 := by
        rw [← hok]
      have hsz2 : d.groupDescriptorOffset gi + 32 ≤ ret.img.size := by
        rw [himg]
        have := writeAt_size_ge a.img ipos
          (encodeInode (newInode S_IFREG uid gid 0 1 0 a.val)) 128
        omega
      have htbl : (decodeGroupDescriptor ret.img (d.groupDescriptorOffset gi)).InodeTable
          = group.InodeTable := by
        rw [hgroup]
        show le32 ret.img (d.groupDescriptorOffset gi + 8) =
          le32 img (d.groupDescriptorOffset gi + 8)
        apply le32_congr
        intro k hk
        rw [himg, writeAt_get_other _ _ _ _ _ (by omega) (by omega)]
        have := fget gi (8 + k) hq (by omega) (by omega)
        rw [← Nat.add_assoc] at this
        exact this
      have hend : ipos + 128 ≤ ret.img.size := by
        rw [himg]
        exact writeAt_size_end _ _ _ _ (by omega)
      have hnew : d.NewInode ret.img ino =
          .ok (decodeInode ret.img ipos) := by
        unfold Device.NewInode
        rw [if_neg (by omega)]
        dsimp only
        rw [hgi, NewGroupDescriptor_eq d ret.img gi hq hsz2]
        dsimp only
        rw [hix, if_neg (by omega), htbl, hip]
        unfold readRecordErr
        rw [if_pos hend]
      refine ⟨a, _, rfl, hnew, ?_, ?_, ?_, ?_, ?_, ?_⟩
      · rw [himg]
        show ((le16 (writeAt a.img ipos _ 128) ipos) &&& S_IFREG != 0) = true
        have := le16_written a.img ipos (encodeInode (newInode S_IFREG uid gid 0 1 0 a.val))
          128 0 (by omega)
        rw [Nat.add_zero] at this
        rw [this]
        simp [encodeInode, newInode, putLE_val, S_IFREG]
      · rw [himg]
        show le32 (writeAt a.img ipos _ 128) (ipos + 4) = 0
        rw [le32_written _ _ _ _ _ (by omega)]
        simp [encodeInode, newInode, putLE_val]
      · rw [himg]
        show le16 (writeAt a.img ipos _ 128) (ipos + 26) = 1
        rw [le16_written _ _ _ _ _ (by omega)]
        simp [encodeInode, newInode, putLE_val]
      · rw [himg]
        show le32 (writeAt a.img ipos _ 128) (ipos + 28) = 0
        rw [le32_written _ _ _ _ _ (by omega)]
        simp [encodeInode, newInode, putLE_val]
      · rw [himg, Block_written _ _ _ 0 (by omega) fval]
        rfl
      · intro k hk1 hk2
        rw [himg, Block_written _ _ _ k hk2 (by
          show (if k = 0 then a.val else 0) < 2 ^ 32
          rw [if_neg (by omega)]
          decide)]
        show (if k = 0 then a.val else 0) = 0
        rw [if_neg (by omega)]

theorem fs_layout_block : fsDevice.Layout fsImage .block := by
  refine ⟨by decide, ?_, ?_⟩
  · intro q hq
    match q, hq with
    | 0, _ => exact ⟨by decide, by decide⟩
    | n + 1, h => exact absurd h (by simp [fsDevice])
  · intro q q2 hq hq2 hne
    match q, hq, q2, hq2 with
    | 0, _, 0, _ => exact absurd rfl hne
    | n + 1, h, _, _ => exact absurd h (by simp [fsDevice])
    | _, _, n + 1, h => exact absurd h (by simp [fsDevice])

theorem fs_inodeTableApart : fsDevice.InodeTableApart fsImage := by
  intro q idx hq hidx
  match q, hq with
  | 0, _ =>
    right
    have e : (decodeGroupDescriptor fsImage (fsDevice.groupDescriptorOffset 0)).InodeTable
        = 5 := by decide
    rw [e]
    show 2 * 1024 + 0 * 32 + 32 * 1 ≤ 5 * 1024 + idx * 128
    omega
  | n + 1, h => exact absurd h (by simp [fsDevice])

set_option maxRecDepth 100000 in
theorem C17_CreateFileInode_readback_witness :
    ∃ a inode, fsDevice.AllocBlock fsImage ((4 - 1) / fsDevice.InodesPerGroup) = .ok a ∧
      fsDevice.NewInode ((fsDevice.CreateFileInode fsImage 0 0 4).imgOr fsImage) 4
        = .ok inode ∧
      inode.IsReg = true ∧ inode.Size = 0 ∧ inode.LinksCount = 1 ∧ inode.Blocks = 0 ∧
      inode.Block 0 = a.val ∧ ∀ k, 1 ≤ k → k ≤ 14 → inode.Block k = 0 :=
  C17_CreateFileInode_readback fsDevice fsImage 0 0 4
    ⟨newInode S_IFREG 0 0 0 1 0 24, none,
      writeAt (fsDevice.pickImage fsImage .block 0 23) (fsDevice.inodeOffset 5 3)
        (encodeInode (newInode S_IFREG 0 0 0 1 0 24)) 128⟩
    (by decide) (by decide) (by decide) (by decide) (by decide) (by decide)
    fs_layout_block fs_inodeTableApart rfl rfl

theorem lastLenOf_eq (nameLen : Nat) (h : nameLen ≤ 244) :
    lastLenOf nameLen = alignedLen nameLen := by
  unfold lastLenOf alignedLen
  omega

/-- A write that stays strictly inside one block is one `WriteAt` into the block
that `DataBlock` gives for it. -/
theorem WriteData_inside (d : Device) (img : Bytes) (inode : Inode) (b : Bytes) (off blk : Nat)
    (hBS : 0 < d.BlockSize) (hBS31 : d.BlockSize ≤ 2 ^ 31) (hb : b.size ≠ 0)
    (hin : off % d.BlockSize + b.size < d.BlockSize)
    (h32 : off / d.BlockSize < 2 ^ 32 - 1)
    (hdb : d.DataBlock img inode (off / d.BlockSize) = .ok blk) :
    d.WriteData img inode b off =
      ⟨b.size, none, writeAt img (d.blockOffset blk + off % d.BlockSize) (fun k => b.get k)
        b.size⟩ := by
  have hdm := Nat.div_add_mod' off d.BlockSize
  have hdiv : (off + b.size) / d.BlockSize = off / d.BlockSize := by
    have e : off + b.size = off % d.BlockSize + b.size + d.BlockSize * (off / d.BlockSize) := by
      rw [Nat.mul_comm]; omega
    rw [e, Nat.add_mul_div_left _ _ hBS, Nat.div_eq_of_lt hin, Nat.zero_add]
  have h63 : off + b.size < 2 ^ 63 := by
    have h1 : off / d.BlockSize * d.BlockSize ≤ (2 ^ 32 - 1) * d.BlockSize :=
      Nat.mul_le_mul_right _ (by omega)
    have h2 := Nat.mul_le_mul_left (2 ^ 32 - 1) hBS31
    generalize off / d.BlockSize * d.BlockSize = A at *
    generalize (2 ^ 32 - 1) * d.BlockSize = C at *
    omega
  have hspan := blockSpan_eq d b.size off h63 (by rw [hdiv]; exact h32)
  rw [hdiv] at hspan
  have hB : off / d.BlockSize % 2 ^ 32 = off / d.BlockSize := Nat.mod_eq_of_lt (by omega)
  unfold Device.WriteData
  dsimp only
  rw [if_neg hb, hB, hdb]
  dsimp only
  have hmin : min (d.BlockSize - off % d.BlockSize) b.size = b.size := by
    apply Nat.min_eq_right
    omega
  have hcnt : blockSpan d b.size off - 1 = 0 := by omega
  rw [hmin, hcnt, Device.writeLoop]

theorem walkRecords_partitioned (blk : Bytes) (base pos : Nat) (starts : List Nat)
    (hp : Partitioned blk pos starts) :
    ∀ (pre : List Nat) (pf : Nat), starts = pre ++ [pf] →
    ∀ (fuel : Nat) (buf : Bytes) (ll : Nat), buf.size = blk.size - pos →
      (∀ k, pos + k < blk.size → buf.get k = blk.get (pos + k)) → blk.size - pos < fuel →
      walkRecords fuel buf (base + pos) ll =
        .ok (base + pf + lastLenOf (blk.get (pf + 6)).val, lastLenOf (blk.get (pf + 6)).val) := by
  induction hp with
  | done =>
    intro pre pf h
    exact absurd h.symm (by simp)
  | cons pos next rest h1 h2 h3 hrest ih =>
    intro pre pf hst fuel buf ll hsz hag hf
    obtain ⟨f, rfl⟩ : ∃ f, fuel = f + 1 := ⟨fuel - 1, by omega⟩
    have e16 : le16 buf 4 = le16 blk (pos + 4) := by
      apply le16_congr
      intro k hk
      rw [hag (4 + k) (by omega), Nat.add_assoc]
    have e6 : buf.get 6 = blk.get (pos + 6) := hag 6 (by omega)
    rw [walkRecords, if_pos (by omega), if_neg (by omega), e16, if_neg (by omega)]
    have hdsz : (buf.drop (le16 blk (pos + 4))).size = blk.size - next := by
      simp only [Bytes.drop]; omega
    have hdag : ∀ k, next + k < blk.size →
        (buf.drop (le16 blk (pos + 4))).get k = blk.get (next + k) := by
      intro k hk
      simp only [Bytes.drop]
      rw [hag _ (by omega)]
      congr 1
      omega
    cases pre with
    | nil =>
      simp only [List.nil_append, List.cons.injEq] at hst
      obtain ⟨hpos, hr⟩ := hst
      subst hpos
      subst hr
      have hnext : next = blk.size := by
        cases hrest
        rfl
      rw [if_neg (by omega)]
      obtain ⟨f2, rfl⟩ : ∃ f2, f = f2 + 1 := ⟨f - 1, by omega⟩
      rw [walkRecords, if_neg (by omega), e6]
      rfl
    | cons p pre2 =>
      simp only [List.cons_append, List.cons.injEq] at hst
      obtain ⟨hpos, hr⟩ := hst
      have hlt : next < blk.size := by
        cases hrest with
        | done => exact absurd hr (by simp)
        | cons _ next2 rest2 g1 g2 g3 g4 => omega
      rw [if_pos (by omega)]
      have := ih pre2 pf hr f (buf.drop (le16 blk (pos + 4))) ll hdsz hdag (by omega)
      rw [← this]
      congr 1
      omega

theorem dataBlockBytes_ok (d : Device) (img : Bytes) (inode : Inode) (i blk : Nat)
    (h : d.DataBlock img inode i = .ok blk) :
    dataBlockBytes d img inode i = ⟨d.BlockSize, fun k => img.get (d.blockOffset blk + k)⟩ := by
  unfold dataBlockBytes
  rw [h]

theorem mul32_comm (a b : Nat) : mul32 a b = mul32 b a := by
  unfold mul32
  rw [Nat.mul_comm]

theorem last_block_facts (d : Device) (inode : Inode) (hBS : 0 < d.BlockSize)
    (hSize : inode.Size < 2 ^ 32) (hn : d.BlockSize ≤ inode.Size) :
    1 ≤ inode.Size / d.BlockSize ∧ inode.Size / d.BlockSize < 2 ^ 32 ∧
    (inode.Size / d.BlockSize - 1) * d.BlockSize + d.BlockSize ≤ inode.Size ∧
    mul32 (sub32 (inode.Size / d.BlockSize) 1) d.BlockSize
      = (inode.Size / d.BlockSize - 1) * d.BlockSize := by
  have h1 : 1 ≤ inode.Size / d.BlockSize := (Nat.le_div_iff_mul_le hBS).mpr (by omega)
  have h2 : inode.Size / d.BlockSize ≤ inode.Size := Nat.div_le_self _ _
  have h3 : inode.Size / d.BlockSize * d.BlockSize ≤ inode.Size := Nat.div_mul_le_self _ _
  have h4 : (inode.Size / d.BlockSize - 1) * d.BlockSize + d.BlockSize
      = inode.Size / d.BlockSize * d.BlockSize := by
    rw [Nat.sub_mul, Nat.one_mul]
    have : d.BlockSize ≤ inode.Size / d.BlockSize * d.BlockSize :=
      Nat.le_mul_of_pos_left _ h1
    omega
  refine ⟨h1, by omega, by omega, ?_⟩
  rw [sub32_eq _ _ h1 (by omega), mul32_eq _ _ (by omega)]

theorem DirEntryOffset_partitioned (d : Device) (img : Bytes) (inode : Inode)
    (hBS : 4 ≤ d.BlockSize) (hBS31 : d.BlockSize ≤ 2 ^ 31) (hSize : inode.Size < 2 ^ 32)
    (hdir : inode.IsDir = true) (hn : d.BlockSize ≤ inode.Size)
    (hmap : MappedBelow d img inode) (pre : List Nat) (pf : Nat)
    (hpart : Partitioned (dataBlockBytes d img inode (inode.Size / d.BlockSize - 1)) 0
      (pre ++ [pf])) :
    d.DirEntryOffset img inode =
      .ok ((inode.Size / d.BlockSize - 1) * d.BlockSize + pf
          + lastLenOf ((dataBlockBytes d img inode
              (inode.Size / d.BlockSize - 1)).get (pf + 6)).val,
        lastLenOf ((dataBlockBytes d img inode
              (inode.Size / d.BlockSize - 1)).get (pf + 6)).val) := by
  obtain ⟨n1, n2, n3, n4⟩ := last_block_facts d inode (by omega) hSize hn
  obtain ⟨r1, r2, r3⟩ := read_dir_block d img inode hBS hBS31 hSize hmap
    (inode.Size / d.BlockSize - 1) (by omega)
  have hoff : mul32 d.BlockSize (inode.Size / d.BlockSize - 1)
      = (inode.Size / d.BlockSize - 1) * d.BlockSize := by
    rw [mul32_comm, ← n4, sub32_eq _ _ n1 (by omega)]
  rw [hoff] at r1 r2 r3
  have hbsz : (dataBlockBytes d img inode (inode.Size / d.BlockSize - 1)).size
      = d.BlockSize := by
    obtain ⟨blk, hdb, _, _⟩ := hmap (inode.Size / d.BlockSize - 1) (by omega)
    rw [dataBlockBytes_ok d img inode _ blk hdb]
  unfold Device.DirEntryOffset
  rw [hdir]
  simp only [Bool.not_true, Bool.false_eq_true, if_false]
  rw [n4]
  have hnerr : ¬ ((d.ReadData img inode (Bytes.zeros d.BlockSize)
      ((inode.Size / d.BlockSize - 1) * d.BlockSize)).err ≠ none ∧
      (d.ReadData img inode (Bytes.zeros d.BlockSize)
        ((inode.Size / d.BlockSize - 1) * d.BlockSize)).err ≠ some Error.EOF) := by
    rintro ⟨h1, h2⟩
    rcases r1 with h | h
    · exact h1 h
    · exact h2 h
  rw [if_neg hnerr]
  have := walkRecords_partitioned _ ((inode.Size / d.BlockSize - 1) * d.BlockSize) 0 _ hpart
    pre pf rfl
    ((d.ReadData img inode (Bytes.zeros d.BlockSize)
      ((inode.Size / d.BlockSize - 1) * d.BlockSize)).buf.size + 1)
    (d.ReadData img inode (Bytes.zeros d.BlockSize)
      ((inode.Size / d.BlockSize - 1) * d.BlockSize)).buf 0
    (by rw [r2]; omega)
    (by
      intro k hk
      rw [Nat.zero_add] at hk ⊢
      rw [hbsz] at hk
      exact r3 k hk)
    (by rw [r2]; omega)
  rw [Nat.add_zero] at this
  exact this

theorem NewInode_ok (d : Device) (img : Bytes) (ino : Nat) (inode : Inode)
    (h : d.NewInode img ino = .ok inode) :
    1 ≤ ino ∧ ino ≤ d.InodesCount ∧ (ino - 1) / d.InodesPerGroup < d.BlockGroupsCount ∧
    d.groupDescriptorOffset ((ino - 1) / d.InodesPerGroup) + 32 ≤ img.size := by
  unfold Device.NewInode at h
  by_cases h0 : ino < 1 ∨ ino > d.InodesCount
  · rw [if_pos h0] at h; cases h
  · rw [if_neg h0] at h
    dsimp only at h
    cases hg : d.NewGroupDescriptor img ((ino - 1) / d.InodesPerGroup) with
    | error e => rw [hg] at h; cases h
    | ok group =>
      obtain ⟨g1, g2, _⟩ := NewGroupDescriptor_ok d img _ group hg
      exact ⟨by omega, by omega, g1, g2⟩

theorem div_mod_block (n BS x : Nat) (hx : x < BS) :
    (n * BS + x) / BS = n ∧ (n * BS + x) % BS = x := by
  have hBS : 0 < BS := by omega
  constructor
  · rw [Nat.add_comm, Nat.add_mul_div_right _ _ hBS, Nat.div_eq_of_lt hx, Nat.zero_add]
  · rw [Nat.add_comm, Nat.add_mul_mod_self_right, Nat.mod_eq_of_lt hx]

/-- `AppendDirEntry` on a directory whose last block is partitioned, for an entry
that fits strictly inside the slack after the final record: the call returns nil
and leaves `appendImage`. -/
theorem append_core (d : Device) (img : Bytes) (ino : Nat) (inode : Inode) (e : DirEntry)
    (B : Nat) (pre : List Nat) (pf : Nat)
    (hBS : 4 ≤ d.BlockSize) (hBS16 : d.BlockSize ≤ 2 ^ 16) (hino32 : ino < 2 ^ 32)
    (hino : d.NewInode img ino = .ok inode) (hdir : inode.IsDir = true)
    (hn : d.BlockSize ≤ inode.Size) (hmap : MappedBelow d img inode)
    (hB : d.DataBlock img inode (inode.Size / d.BlockSize - 1) = .ok B)
    (hpart : Partitioned (dataBlockBytes d img inode (inode.Size / d.BlockSize - 1)) 0
      (pre ++ [pf]))
    (hname : (img.get (d.blockOffset B + (pf + 6))).val ≤ 244)
    (hsafe : d.AppendSafe img ino inode B)
    (he3 : e.NameLen ≤ 247) (he6 : 8 + e.NameLen ≤ e.RecLen)
    (hfit : pf + alignedLen (img.get (d.blockOffset B + (pf + 6))).val + e.RecLen
      < d.BlockSize) :
    d.AppendDirEntry img ino e = .ok ⟨(), none,
      d.appendImage img (sub32 ino 1 / d.InodesPerGroup) B pf
        (alignedLen (img.get (d.blockOffset B + (pf + 6))).val)
        (pf + alignedLen (img.get (d.blockOffset B + (pf + 6))).val) e⟩ := by
  have hSize := NewInode_Size_lt d img ino inode hino
  obtain ⟨n1, n2, n3, n4⟩ := last_block_facts d inode (by omega) hSize hn
  obtain ⟨i1, i2, i3, i4⟩ := NewInode_ok d img ino inode hino
  have hsub : sub32 ino 1 = ino - 1 := sub32_eq ino 1 i1 hino32
  obtain ⟨blk, hdb, _, hBin⟩ := hmap (inode.Size / d.BlockSize - 1) (by omega)
  rw [hB] at hdb
  have hdb2 : B = blk := Except.ok.inj hdb
  subst hdb2
  clear hdb
  have hdeo := DirEntryOffset_partitioned d img inode hBS (by omega) hSize hdir hn hmap pre pf
    hpart
  rw [dataBlockBytes_ok d img inode _ B hB] at hdeo
  dsimp only at hdeo
  rw [lastLenOf_eq _ hname] at hdeo
  generalize hal : alignedLen (img.get (d.blockOffset B + (pf + 6))).val = al at *
  have hal8 : 8 ≤ al := by
    rw [← hal]; unfold alignedLen; omega
  have hal252 : al ≤ 252 := by
    rw [← hal]; unfold alignedLen; omega
  generalize hnn : inode.Size / d.BlockSize - 1 = L at *
  obtain ⟨dm1, dm2⟩ := div_mod_block L d.BlockSize (pf + al) (by omega)
  obtain ⟨dm3, dm4⟩ := div_mod_block L d.BlockSize (pf + 4) (by omega)
  have hw1 : d.WriteData img inode
      ⟨e.RecLen, encodeEntry e.Inode (d.BlockSize - (pf + al)) e.NameLen e.FileType e.Name⟩
      (L * d.BlockSize + (pf + al)) =
      ⟨e.RecLen, none, writeAt img (d.blockOffset B + (pf + al))
        (encodeEntry e.Inode (d.BlockSize - (pf + al)) e.NameLen e.FileType e.Name)
        e.RecLen⟩ := by
    have := WriteData_inside d img inode
      ⟨e.RecLen, encodeEntry e.Inode (d.BlockSize - (pf + al)) e.NameLen e.FileType e.Name⟩
      (L * d.BlockSize + (pf + al)) B (by omega) (by omega)
      (by show e.RecLen ≠ 0; omega)
      (by rw [dm2]; show pf + al + e.RecLen < d.BlockSize; omega)
      (by rw [dm1]; omega) (by rw [dm1]; exact hB)
    rw [dm2] at this
    exact this
  generalize himg1 : writeAt img (d.blockOffset B + (pf + al))
      (encodeEntry e.Inode (d.BlockSize - (pf + al)) e.NameLen e.FileType e.Name) e.RecLen
      = img1 at *
  have hsz1 : img1.size = img.size := by
    rw [← himg1]
    exact writeAt_size _ _ _ _ (by omega)
  have hB1 : d.DataBlock img1 inode L = .ok B := by
    rw [← hB]
    apply (hsafe.2.2 img1 hsz1 _).1 L (by omega)
    intro p hp _
    rw [← himg1]
    exact writeAt_get_out _ _ _ _ _ (by omega) (by omega)
  have hw2 : d.WriteData img1 inode ⟨2, putLE al⟩ (L * d.BlockSize + (pf + 4)) =
      ⟨2, none, writeAt img1 (d.blockOffset B + (pf + 4)) (putLE al) 2⟩ := by
    have := WriteData_inside d img1 inode ⟨2, putLE al⟩
      (L * d.BlockSize + (pf + 4)) B (by omega) (by omega)
      (by show (2 : Nat) ≠ 0; omega)
      (by rw [dm4]; show pf + 4 + 2 < d.BlockSize; omega)
      (by rw [dm3]; omega) (by rw [dm3]; exact hB1)
    rw [dm4] at this
    exact this
  have hsz2 : (writeAt img1 (d.blockOffset B + (pf + 4)) (putLE al) 2).size = img.size := by
    rw [writeAt_size _ _ _ _ (by omega), hsz1]
  have hgd : d.NewGroupDescriptor (writeAt img1 (d.blockOffset B + (pf + 4)) (putLE al) 2)
      ((ino - 1) / d.InodesPerGroup) = .ok (decodeGroupDescriptor
        (writeAt img1 (d.blockOffset B + (pf + 4)) (putLE al) 2)
        (d.groupDescriptorOffset ((ino - 1) / d.InodesPerGroup))) :=
    NewGroupDescriptor_eq d _ _ i3 (by rw [hsz2]; exact i4)
  have e1 : L * d.BlockSize + pf + al = L * d.BlockSize + (pf + al) := by omega
  have e2 : L * d.BlockSize + (pf + al) - al + 4 = L * d.BlockSize + (pf + 4) := by omega
  have e3 : (d.BlockSize - (pf + al)) % 2 ^ 16 = d.BlockSize - (pf + al) :=
    Nat.mod_eq_of_lt (by omega)
  have e4 : al % 2 ^ 16 = al := Nat.mod_eq_of_lt (by omega)
  unfold Device.AppendDirEntry
  rw [hino]
  dsimp only
  rw [hdeo]
  dsimp only
  rw [if_neg (by omega), if_neg (by omega), if_neg (by omega), e1, dm2, e2, e3, e4, hw1]
  dsimp only
  rw [hw2]
  dsimp only
  rw [hsub, hgd]
  dsimp only
  unfold Device.appendImage
  rw [himg1]
  rfl

/-- The bytes of `appendImage`: the size is kept, the bytes outside the block and
the count field are kept, and inside the block only the `recLen` field at `pf + 4`
and the new record at `o` are rewritten. -/
theorem appendImage_props (d : Device) (img : Bytes) (g B pf len o : Nat) (e : DirEntry)
    (hR : d.blockOffset B + d.BlockSize ≤ img.size)
    (hU : d.groupDescriptorOffset g + BG_USED_DIRS_COUNT + 2 ≤ img.size)
    (hpo : pf + 6 ≤ o) (hoe : o + e.RecLen ≤ d.BlockSize)
    (hUR : d.groupDescriptorOffset g + BG_USED_DIRS_COUNT + 2 ≤ d.blockOffset B ∨
      d.blockOffset B + d.BlockSize ≤ d.groupDescriptorOffset g + BG_USED_DIRS_COUNT) :
    (d.appendImage img g B pf len o e).size = img.size ∧
    (∀ p, ¬ (d.blockOffset B ≤ p ∧ p < d.blockOffset B + d.BlockSize) →
      ¬ (d.groupDescriptorOffset g + BG_USED_DIRS_COUNT ≤ p ∧
        p < d.groupDescriptorOffset g + BG_USED_DIRS_COUNT + 2) →
      (d.appendImage img g B pf len o e).get p = img.get p) ∧
    (∀ k, k < d.BlockSize →
      (d.appendImage img g B pf len o e).get (d.blockOffset B + k) =
        if pf + 4 ≤ k ∧ k < pf + 6 then putLE len (k - (pf + 4))
        else if o ≤ k ∧ k < o + e.RecLen then
          encodeEntry e.Inode (d.BlockSize - o) e.NameLen e.FileType e.Name (k - o)
        else img.get (d.blockOffset B + k)) := by
  unfold Device.appendImage
  generalize hU0 : d.groupDescriptorOffset g + BG_USED_DIRS_COUNT = U at *
  generalize hbo : d.blockOffset B = bo at *
  generalize encodeEntry e.Inode (d.BlockSize - o) e.NameLen e.FileType e.Name = enc
  have s1 : (writeAt img (bo + o) enc e.RecLen).size = img.size :=
    writeAt_size _ _ _ _ (by omega)
  have s2 : (writeAt (writeAt img (bo + o) enc e.RecLen) (bo + (pf + 4)) (putLE len) 2).size
      = img.size := by
    rw [writeAt_size _ _ _ _ (by omega), s1]
  generalize hsrc : putLE ((le16 (writeAt (writeAt img (bo + o) enc e.RecLen) (bo + (pf + 4))
    (putLE len) 2) U + 1) % 2 ^ 16) = src
  have g3 : ∀ p, ¬ (U ≤ p ∧ p < U + 2) →
      (writeAt (writeAt (writeAt img (bo + o) enc e.RecLen) (bo + (pf + 4)) (putLE len) 2)
        U src 2).get p =
      (writeAt (writeAt img (bo + o) enc e.RecLen) (bo + (pf + 4)) (putLE len) 2).get p :=
    fun p h => writeAt_get_out _ _ _ _ p (by omega) h
  have g2 : ∀ p, ¬ (bo + (pf + 4) ≤ p ∧ p < bo + (pf + 4) + 2) →
      (writeAt (writeAt img (bo + o) enc e.RecLen) (bo + (pf + 4)) (putLE len) 2).get p =
      (writeAt img (bo + o) enc e.RecLen).get p :=
    fun p h => writeAt_get_out _ _ _ _ p (by omega) h
  have g1 : ∀ p, ¬ (bo + o ≤ p ∧ p < bo + o + e.RecLen) →
      (writeAt img (bo + o) enc e.RecLen).get p = img.get p :=
    fun p h => writeAt_get_out _ _ _ _ p (by omega) h
  refine ⟨?_, ?_, ?_⟩
  · rw [writeAt_size _ _ _ _ (by omega), s2]
  · intro p h1 h2
    rw [g3 p h2, g2 p (by omega), g1 p (by omega)]
  · intro k hk
    rw [g3 _ (by omega)]
    by_cases c1 : pf + 4 ≤ k ∧ k < pf + 6
    · rw [if_pos c1, writeAt_get_in _ _ _ _ _ (by omega) (by omega)]
      congr 1
      omega
    · rw [if_neg c1, g2 _ (by omega)]
      by_cases c2 : o ≤ k ∧ k < o + e.RecLen
      · rw [if_pos c2, writeAt_get_in _ _ _ _ _ (by omega) (by omega)]
        congr 1
        omega
      · rw [if_neg c2, g1 _ (by omega)]

theorem Partitioned_lower (blk : Bytes) (pos : Nat) (starts : List Nat)
    (hp : Partitioned blk pos starts) : ∀ s, s ∈ starts → pos ≤ s := by
  induction hp with
  | done => intro s hs; cases hs
  | cons pos next rest h1 h2 h3 _ ih =>
    intro s hs
    rcases List.mem_cons.mp hs with h | h
    · omega
    · have := ih s h
      omega

theorem Partitioned_congr (b1 b2 : Bytes) (hsz : b2.size = b1.size)
    (heq : ∀ k, k < b1.size → b2.get k = b1.get k) (pos : Nat) (starts : List Nat)
    (hp : Partitioned b1 pos starts) : Partitioned b2 pos starts := by
  induction hp with
  | done => rw [← hsz]; exact Partitioned.done
  | cons pos next rest h1 h2 h3 _ ih =>
    have e16 : le16 b2 (pos + 4) = le16 b1 (pos + 4) := by
      apply le16_congr
      intro k hk
      exact heq _ (by omega)
    have e6 : b2.get (pos + 6) = b1.get (pos + 6) := heq _ (by omega)
    exact Partitioned.cons pos next rest (by rw [e16, e6]; exact h1) (by rw [e16]; exact h2)
      (by rw [hsz]; exact h3) ih

theorem recordEntry_congr (b1 b2 : Bytes) (s : Nat)
    (heq : ∀ k, k < 8 + (b1.get (s + 6)).val → b2.get (s + k) = b1.get (s + k)) :
    recordEntry b2 s = recordEntry b1 s := by
  have e6 : b2.get (s + 6) = b1.get (s + 6) := heq 6 (by omega)
  have e7 : b2.get (s + 7) = b1.get (s + 7) := heq 7 (by omega)
  have e32 : le32 b2 s = le32 b1 s := le32_congr _ _ _ _ (fun k hk => heq k (by omega))
  have e16 : le16 b2 (s + 4) = le16 b1 (s + 4) := by
    apply le16_congr
    intro k hk
    rw [Nat.add_assoc]
    exact heq (4 + k) (by omega)
  have en : entryName (b2.drop s) (b1.get (s + 6)).val
      = entryName (b1.drop s) (b1.get (s + 6)).val := by
    apply entryName_congr
    intro i hi
    exact heq (8 + i) (by omega)
  unfold recordEntry
  rw [e6, e7, e32, e16, en]

theorem listedEntries_congr (b1 b2 : Bytes) (hsz : b2.size = b1.size)
    (heq : ∀ k, k < b1.size → b2.get k = b1.get k) (pos : Nat) (starts : List Nat)
    (hp : Partitioned b1 pos starts) : listedEntries b2 starts = listedEntries b1 starts := by
  induction hp with
  | done => rfl
  | cons pos next rest h1 h2 h3 _ ih =>
    have hrec : recordEntry b2 pos = recordEntry b1 pos :=
      recordEntry_congr b1 b2 pos (fun k hk => heq _ (by omega))
    have e32 : le32 b2 pos = le32 b1 pos :=
      le32_congr _ _ _ _ (fun k hk => heq _ (by omega))
    rw [listedEntries, listedEntries, ih, hrec, e32, hsz]

/-- The partition of the last block after an append: the final record at `pf`
now ends at `o`, where the new record starts and runs to the end of the block. -/
theorem Partitioned_append (OB NB : Bytes) (pf o : Nat) (hsz : NB.size = OB.size)
    (hsame : ∀ k, k < pf + 4 → NB.get k = OB.get k)
    (h6 : NB.get (pf + 6) = OB.get (pf + 6))
    (hrec : le16 NB (pf + 4) = o - pf) (hpo : pf ≤ o)
    (hfit : 8 + (OB.get (pf + 6)).val ≤ o - pf)
    (ho : o + le16 NB (o + 4) = NB.size)
    (hnew : 8 + (NB.get (o + 6)).val ≤ le16 NB (o + 4)) (pos : Nat) (starts : List Nat)
    (hp : Partitioned OB pos starts) :
    ∀ pre, starts = pre ++ [pf] → Partitioned NB pos (pre ++ [pf, o]) := by
  induction hp with
  | done =>
    intro pre h
    exact absurd h.symm (by simp)
  | cons pos next rest h1 h2 h3 hrest ih =>
    intro pre hst
    cases pre with
    | nil =>
      simp only [List.nil_append, List.cons.injEq] at hst
      obtain ⟨hpos, hr⟩ := hst
      subst hpos
      show Partitioned NB pos [pos, o]
      refine Partitioned.cons pos o [o] (by rw [hrec, h6]; exact hfit) (by rw [hrec]; omega)
        (by omega) ?_
      refine Partitioned.cons o NB.size [] hnew ho.symm (le_refl _) Partitioned.done
    | cons p pre2 =>
      simp only [List.cons_append, List.cons.injEq] at hst
      obtain ⟨hpos, hr⟩ := hst
      have hnext : next ≤ pf := Partitioned_lower OB next rest hrest pf (by rw [hr]; simp)
      have e16 : le16 NB (pos + 4) = le16 OB (pos + 4) := by
        apply le16_congr
        intro k hk
        exact hsame _ (by omega)
      have e6 : NB.get (pos + 6) = OB.get (pos + 6) := hsame _ (by omega)
      rw [← hpos]
      exact Partitioned.cons pos next (pre2 ++ [pf, o]) (by rw [e16, e6]; exact h1)
        (by rw [e16]; exact h2) (by omega) (ih pre2 hr)

theorem listedEntries_cons (blk : Bytes) (pos : Nat) (rest : List Nat) :
    listedEntries blk (pos :: rest) =
      if le32 blk pos ≠ EXT2_NULL_INO ∧ pos + 8 < blk.size
      then recordEntry blk pos :: listedEntries blk rest
      else listedEntries blk rest := by
  rw [listedEntries]

theorem key_congr (b1 b2 : Bytes) (s : Nat)
    (h4 : ∀ k, k < 4 → b2.get (s + k) = b1.get (s + k))
    (heq : ∀ k, 6 ≤ k → k < 8 + (b1.get (s + 6)).val → b2.get (s + k) = b1.get (s + k)) :
    (recordEntry b2 s).key = (recordEntry b1 s).key := by
  have e6 : b2.get (s + 6) = b1.get (s + 6) := heq 6 (le_refl _) (by omega)
  have e7 : b2.get (s + 7) = b1.get (s + 7) := heq 7 (by omega) (by omega)
  have e32 : le32 b2 s = le32 b1 s := le32_congr _ _ _ _ h4
  have en : entryName (b2.drop s) (b1.get (s + 6)).val
      = entryName (b1.drop s) (b1.get (s + 6)).val := by
    apply entryName_congr
    intro i hi
    exact heq (8 + i) (by omega) (by omega)
  unfold DirEntry.key DirEntry.NameStr recordEntry
  dsimp only
  rw [e6, e7, e32, en]

/-- The entries of the last block after an append, compared on their keys: the
old entries followed by what the record at `o` contributes. -/
theorem listed_append (OB NB : Bytes) (pf o : Nat) (hsz : NB.size = OB.size)
    (hsame : ∀ k, k < pf + 4 → NB.get k = OB.get k)
    (hmid : ∀ k, pf + 6 ≤ k → k < o → NB.get k = OB.get k)
    (hfit : pf + 8 + (OB.get (pf + 6)).val ≤ o) (pos : Nat) (starts : List Nat)
    (hp : Partitioned OB pos starts) :
    ∀ pre, starts = pre ++ [pf] →
      (listedEntries NB (pre ++ [pf, o])).map DirEntry.key =
        (listedEntries OB (pre ++ [pf])).map DirEntry.key
          ++ (listedEntries NB [o]).map DirEntry.key := by
  induction hp with
  | done =>
    intro pre h
    exact absurd h.symm (by simp)
  | cons pos next rest h1 h2 h3 hrest ih =>
    intro pre hst
    cases pre with
    | nil =>
      simp only [List.nil_append, List.cons.injEq] at hst
      obtain ⟨hpos, hr⟩ := hst
      subst hpos
      have e32 : le32 NB pos = le32 OB pos :=
        le32_congr _ _ _ _ (fun k hk => hsame _ (by omega))
      have hk : (recordEntry NB pos).key = (recordEntry OB pos).key :=
        key_congr OB NB pos (fun k hk => hsame _ (by omega))
          (fun k hk1 hk2 => hmid _ (by omega) (by omega))
      show (listedEntries NB [pos, o]).map DirEntry.key =
        (listedEntries OB [pos]).map DirEntry.key ++ (listedEntries NB [o]).map DirEntry.key
      rw [listedEntries_cons NB pos, listedEntries_cons OB pos, e32, hsz]
      by_cases hc : le32 OB pos ≠ EXT2_NULL_INO ∧ pos + 8 < OB.size
      · rw [if_pos hc, if_pos hc, List.map_cons, List.map_cons, hk]
        rfl
      · rw [if_neg hc, if_neg hc]
        rfl
    | cons p pre2 =>
      simp only [List.cons_append, List.cons.injEq] at hst
      obtain ⟨hpos, hr⟩ := hst
      have hnext : next ≤ pf := Partitioned_lower OB next rest hrest pf (by rw [hr]; simp)
      have e32 : le32 NB pos = le32 OB pos :=
        le32_congr _ _ _ _ (fun k hk => hsame _ (by omega))
      have hrec : recordEntry NB pos = recordEntry OB pos :=
        recordEntry_congr OB NB pos (fun k hk => hsame _ (by omega))
      rw [← hpos]
      show (listedEntries NB (pos :: (pre2 ++ [pf, o]))).map DirEntry.key =
        (listedEntries OB (pos :: (pre2 ++ [pf]))).map DirEntry.key
          ++ (listedEntries NB [o]).map DirEntry.key
      rw [listedEntries_cons NB pos, listedEntries_cons OB pos, e32, hsz, hrec]
      by_cases hc : le32 OB pos ≠ EXT2_NULL_INO ∧ pos + 8 < OB.size
      · rw [if_pos hc, if_pos hc, List.map_cons, List.map_cons, ih pre2 hr]
        rfl
      · rw [if_neg hc, if_neg hc, ih pre2 hr]

theorem listedBlocks_snoc (f : Nat → List DirEntry) (m : Nat) :
    ∀ i, listedBlocks f (m + 1) i = listedBlocks f m i ++ f (i + m) := by
  induction m with
  | zero =>
    intro i
    simp [listedBlocks]
  | succ m ih =>
    intro i
    rw [listedBlocks, ih (i + 1), listedBlocks, List.append_assoc]
    congr 3
    omega

theorem listedBlocks_congr (f g : Nat → List DirEntry) (m : Nat) :
    ∀ i, (∀ j, i ≤ j → j < i + m → f j = g j) → listedBlocks f m i = listedBlocks g m i := by
  induction m with
  | zero => intro i _; rfl
  | succ m ih =>
    intro i h
    rw [listedBlocks, listedBlocks, h i (le_refl _) (by omega),
      ih (i + 1) (fun j h1 h2 => h j (by omega) (by omega))]

theorem entryName_take (blk : Bytes) (n : Nat) (name : List Byte) (hn : n ≤ 255)
    (hlen : n ≤ name.length) (h : ∀ i, i < n → blk.get (8 + i) = name.getD i 0) :
    (entryName blk n).take n = name.take n := by
  apply List.ext_getElem
  · simp [entryName, EXT2_NAME_LEN]
    omega
  · intro i h1 h2
    have hi : i < n := by
      simp at h2
      omega
    have hil : i < name.length := by omega
    simp [entryName, hi, h i hi, List.getElem?_eq_getElem hil]

/-- The record that `AppendDirEntry` encodes is listed with the key of the entry. -/
theorem listed_new (NB : Bytes) (o recLen : Nat) (e : DirEntry)
    (hbytes : ∀ k, k < e.RecLen →
      NB.get (o + k) = encodeEntry e.Inode recLen e.NameLen e.FileType e.Name k)
    (he1 : e.Inode ≠ 0) (he2 : e.Inode < 2 ^ 32) (he3 : e.NameLen ≤ 247)
    (he4 : e.FileType < 256) (he5 : e.NameLen ≤ e.Name.length)
    (he6 : 8 + e.NameLen ≤ e.RecLen) (hsz : o + 8 < NB.size) :
    (listedEntries NB [o]).map DirEntry.key = [e.key] := by
  have b0 := hbytes 0 (by omega)
  have b1 := hbytes 1 (by omega)
  have b2 := hbytes 2 (by omega)
  have b3 := hbytes 3 (by omega)
  have b6 := hbytes 6 (by omega)
  have b7 := hbytes 7 (by omega)
  rw [Nat.add_zero] at b0
  have e32 : le32 NB o = e.Inode := by
    unfold le32
    rw [b0, b1, b2, b3]
    have := le32_putLE e.Inode
    simp only [encodeEntry] at this ⊢
    simp only [Nat.lt_irrefl, if_true, if_false, Nat.reduceLT] at this ⊢
    rw [this]
    exact Nat.mod_eq_of_lt he2
  have e6 : (NB.get (o + 6)).val = e.NameLen := by
    rw [b6]
    simp [encodeEntry, toByte_val]
    omega
  have e7 : (NB.get (o + 7)).val = e.FileType := by
    rw [b7]
    simp [encodeEntry, toByte_val]
    omega
  have en : (entryName (NB.drop o) e.NameLen).take e.NameLen = e.Name.take e.NameLen := by
    apply entryName_take _ _ _ (by omega) he5
    intro i hi
    show NB.get (o + (8 + i)) = _
    rw [hbytes (8 + i) (by omega)]
    unfold encodeEntry
    rw [if_neg (by omega), if_neg (by omega), if_neg (by omega), if_neg (by omega),
      if_pos (by omega)]
    congr 1
    omega
  rw [listedEntries_cons, e32, if_pos ⟨he1, hsz⟩]
  show [(recordEntry NB o).key] = [e.key]
  congr 1
  unfold DirEntry.key DirEntry.NameStr recordEntry
  dsimp only
  rw [e32, e6, e7, en]

/-- The directory after `AppendDirEntry`: the call returns nil; the inode read
back is a directory of the same size with the same block map; the earlier blocks
are as before; in the last block the `recLen` field of the final record and the
new record are written. -/
theorem append_after (d : Device) (img : Bytes) (ino : Nat) (inode : Inode) (e : DirEntry)
    (B : Nat) (pre : List Nat) (pf : Nat)
    (hBS : 4 ≤ d.BlockSize) (hBS16 : d.BlockSize ≤ 2 ^ 16) (hino32 : ino < 2 ^ 32)
    (hino : d.NewInode img ino = .ok inode) (hdir : inode.IsDir = true)
    (hn : d.BlockSize ≤ inode.Size) (hmap : MappedBelow d img inode)
    (hB : d.DataBlock img inode (inode.Size / d.BlockSize - 1) = .ok B)
    (hpart : Partitioned (dataBlockBytes d img inode (inode.Size / d.BlockSize - 1)) 0
      (pre ++ [pf]))
    (hname : (img.get (d.blockOffset B + (pf + 6))).val ≤ 244)
    (hsafe : d.AppendSafe img ino inode B)
    (he3 : e.NameLen ≤ 247) (he6 : 8 + e.NameLen ≤ e.RecLen)
    (hfit : pf + alignedLen (img.get (d.blockOffset B + (pf + 6))).val + e.RecLen
      < d.BlockSize) :
    ∃ img3 inode1, d.AppendDirEntry img ino e = .ok ⟨(), none, img3⟩ ∧
      d.NewInode img3 ino = .ok inode1 ∧ inode1.IsDir = true ∧
      inode1.Size = inode.Size ∧ MappedBelow d img3 inode1 ∧
      (∀ i, i + 1 < inode.Size / d.BlockSize →
        (dataBlockBytes d img3 inode1 i).size = (dataBlockBytes d img inode i).size ∧
        ∀ k, k < (dataBlockBytes d img inode i).size →
          (dataBlockBytes d img3 inode1 i).get k = (dataBlockBytes d img inode i).get k) ∧
      dataBlockBytes d img3 inode1 (inode.Size / d.BlockSize - 1) =
        ⟨d.BlockSize, fun k => img3.get (d.blockOffset B + k)⟩ ∧
      (∀ k, k < d.BlockSize →
        img3.get (d.blockOffset B + k) =
          if pf + 4 ≤ k ∧ k < pf + 6 then
            putLE (alignedLen (img.get (d.blockOffset B + (pf + 6))).val) (k - (pf + 4))
          else if pf + alignedLen (img.get (d.blockOffset B + (pf + 6))).val ≤ k ∧
              k < pf + alignedLen (img.get (d.blockOffset B + (pf + 6))).val + e.RecLen then
            encodeEntry e.Inode
              (d.BlockSize - (pf + alignedLen (img.get (d.blockOffset B + (pf + 6))).val))
              e.NameLen e.FileType e.Name
              (k - (pf + alignedLen (img.get (d.blockOffset B + (pf + 6))).val))
          else img.get (d.blockOffset B + k)) := by
  have hcore := append_core d img ino inode e B pre pf hBS hBS16 hino32 hino hdir hn hmap hB
    hpart hname hsafe he3 he6 hfit
  have hSize := NewInode_Size_lt d img ino inode hino
  obtain ⟨n1, n2, n3, n4⟩ := last_block_facts d inode (by omega) hSize hn
  obtain ⟨i1, i2, i3, i4⟩ := NewInode_ok d img ino inode hino
  have hsub : sub32 ino 1 = ino - 1 := sub32_eq ino 1 i1 hino32
  obtain ⟨blk, hdb, _, hBin⟩ := hmap (inode.Size / d.BlockSize - 1) (by omega)
  rw [hB] at hdb
  have hdb2 : B = blk := Except.ok.inj hdb
  subst hdb2
  clear hdb
  have hU16 : BG_USED_DIRS_COUNT = 16 := rfl
  have hal8 : 8 ≤ alignedLen (img.get (d.blockOffset B + (pf + 6))).val := by
    unfold alignedLen; omega
  obtain ⟨s1, s2, s3⟩ := hsafe
  obtain ⟨p1, p2, p3⟩ := appendImage_props d img (sub32 ino 1 / d.InodesPerGroup) B pf
    (alignedLen (img.get (d.blockOffset B + (pf + 6))).val)
    (pf + alignedLen (img.get (d.blockOffset B + (pf + 6))).val) e hBin
    (by rw [hsub]; omega) (by omega) (by omega) s1
  generalize d.appendImage img (sub32 ino 1 / d.InodesPerGroup) B pf
    (alignedLen (img.get (d.blockOffset B + (pf + 6))).val)
    (pf + alignedLen (img.get (d.blockOffset B + (pf + 6))).val) e = img3 at *
  obtain ⟨_, inode1, q1, q3, q4, q2⟩ := s3 img3 p1 p2
  have hB3 : d.DataBlock img3 inode1 (inode.Size / d.BlockSize - 1) = .ok B := by
    rw [q2 _ (by omega)]; exact hB
  refine ⟨img3, inode1, hcore, q1, q3, q4, ?_, ?_,
    dataBlockBytes_ok d img3 inode1 _ B hB3, p3⟩
  · intro L hL
    rw [q4] at hL
    obtain ⟨blk, h1, h2, h3⟩ := hmap L hL
    exact ⟨blk, by rw [q2 L hL]; exact h1, h2, by rw [p1]; exact h3⟩
  · intro i hi
    have hlt : i * d.BlockSize < inode.Size := by
      have : (i + 1) * d.BlockSize ≤ (inode.Size / d.BlockSize - 1) * d.BlockSize :=
        Nat.mul_le_mul_right _ (by omega)
      rw [Nat.add_mul] at this
      omega
    obtain ⟨blk, h1, h2, h3⟩ := hmap i hlt
    obtain ⟨t1, t2⟩ := s2 i blk hi h1
    rw [dataBlockBytes_ok d img inode i blk h1,
      dataBlockBytes_ok d img3 inode1 i blk (by rw [q2 i hlt]; exact h1)]
    refine ⟨rfl, ?_⟩
    intro k hk
    have hk2 : k < d.BlockSize := hk
    exact p2 _ (by clear t2 s1; omega) (by clear t1 s1; omega)

/-- The last block after an append, read as records. -/
theorem block_after (OB NB : Bytes) (pf al o BS : Nat) (e : DirEntry)
    (hget : ∀ k, k < BS → NB.get k =
      if pf + 4 ≤ k ∧ k < pf + 6 then putLE al (k - (pf + 4))
      else if o ≤ k ∧ k < o + e.RecLen then
        encodeEntry e.Inode (BS - o) e.NameLen e.FileType e.Name (k - o)
      else OB.get k)
    (ho : o = pf + al) (hal8 : 8 ≤ al) (hal : al < 65536) (hfit : o + e.RecLen < BS)
    (hBS16 : BS ≤ 2 ^ 16) (he3 : e.NameLen ≤ 247) (he6 : 8 + e.NameLen ≤ e.RecLen) :
    (∀ k, k < pf + 4 → NB.get k = OB.get k) ∧
    (∀ k, pf + 6 ≤ k → k < o → NB.get k = OB.get k) ∧
    le16 NB (pf + 4) = al ∧
    (∀ k, k < e.RecLen →
      NB.get (o + k) = encodeEntry e.Inode (BS - o) e.NameLen e.FileType e.Name k) ∧
    le16 NB (o + 4) = BS - o ∧
    (NB.get (o + 6)).val = e.NameLen := by
  have hnew : ∀ k, k < e.RecLen →
      NB.get (o + k) = encodeEntry e.Inode (BS - o) e.NameLen e.FileType e.Name k := by
    intro k hk
    rw [hget _ (by omega), if_neg (by omega), if_pos (by omega)]
    congr 1
    omega
  refine ⟨?_, ?_, ?_, hnew, ?_, ?_⟩
  · intro k hk
    rw [hget k (by omega), if_neg (by omega), if_neg (by omega)]
  · intro k h1 h2
    rw [hget k (by omega), if_neg (by omega), if_neg (by omega)]
  · unfold le16
    rw [hget _ (by omega), hget _ (by omega), if_pos (by omega), if_pos (by omega)]
    have e0 : pf + 4 - (pf + 4) = 0 := by omega
    have e1 : pf + 4 + 1 - (pf + 4) = 1 := by omega
    rw [e0, e1, le16_putLE]
    exact Nat.mod_eq_of_lt hal
  · unfold le16
    have h4 := hnew 4 (by omega)
    have h5 := hnew 5 (by omega)
    have e5 : o + 4 + 1 = o + 5 := by omega
    rw [e5, h4, h5]
    have := le16_putLE (BS - o)
    simp only [encodeEntry] at this ⊢
    simp only [Nat.lt_irrefl, if_true, if_false, Nat.reduceLT, Nat.reduceSub] at this ⊢
    rw [this]
    exact Nat.mod_eq_of_lt (by omega)
  · rw [hnew 6 (by omega)]
    simp [encodeEntry, toByte_val]
    omega

/-- A directory whose blocks are mapped and partitioned lists the entries of its
blocks, block after block. -/
theorem NewDirEntries_blocks (d : Device) (img : Bytes) (ino : Nat) (inode : Inode)
    (hBS : 4 ≤ d.BlockSize) (hBS31 : d.BlockSize ≤ 2 ^ 31)
    (hino : d.NewInode img ino = .ok inode) (hdir : inode.IsDir = true)
    (hmap : MappedBelow d img inode) (starts : Nat → List Nat)
    (hpart : ∀ i, i < inode.Size / d.BlockSize →
      Partitioned (dataBlockBytes d img inode i) 0 (starts i)) :
    d.NewDirEntries img ino
      = .ok (listedBlocks (fun j => listedEntries (dataBlockBytes d img inode j) (starts j))
          (inode.Size / d.BlockSize) 0) := by
  have hSize := NewInode_Size_lt d img ino inode hino
  unfold Device.NewDirEntries
  rw [hino]
  dsimp only
  rw [hdir]
  simp only [Bool.not_true, Bool.false_eq_true, if_false]
  rw [dirBlocks_partitioned d img inode hBS hBS31 hSize hmap starts hpart _ 0 []
    (by omega)]
  rfl

/-- The result of `AppendDirEntry` on a directory whose last block is partitioned,
in terms of the directory's blocks. -/
theorem append_result (d : Device) (img : Bytes) (ino : Nat) (inode : Inode)
    (e : DirEntry) (B : Nat) (pre : List Nat) (pf : Nat)
    (hBS : 4 ≤ d.BlockSize) (hBS16 : d.BlockSize ≤ 2 ^ 16) (hino32 : ino < 2 ^ 32)
    (hino : d.NewInode img ino = .ok inode) (hdir : inode.IsDir = true)
    (hn : d.BlockSize ≤ inode.Size) (hmap : MappedBelow d img inode)
    (hB : d.DataBlock img inode (inode.Size / d.BlockSize - 1) = .ok B)
    (hpart : Partitioned (dataBlockBytes d img inode (inode.Size / d.BlockSize - 1)) 0
      (pre ++ [pf]))
    (hname : ((dataBlockBytes d img inode (inode.Size / d.BlockSize - 1)).get (pf + 6)).val ≤ 244)
    (hsafe : d.AppendSafe img ino inode B)
    (he3 : e.NameLen ≤ 247) (he6 : 8 + e.NameLen ≤ e.RecLen)
    (hfit : pf + alignedLen ((dataBlockBytes d img inode (inode.Size / d.BlockSize - 1)).get (pf + 6)).val + e.RecLen < d.BlockSize) :
    ∃ ret inode1, d.AppendDirEntry img ino e = .ok ret ∧ ret.err = none ∧
      d.NewInode ret.img ino = .ok inode1 ∧ inode1.IsDir = true ∧
      inode1.Size = inode.Size ∧ MappedBelow d ret.img inode1 ∧
      (∀ i, i + 1 < inode.Size / d.BlockSize →
        (dataBlockBytes d ret.img inode1 i).size = (dataBlockBytes d img inode i).size ∧
        ∀ k, k < (dataBlockBytes d img inode i).size →
          (dataBlockBytes d ret.img inode1 i).get k = (dataBlockBytes d img inode i).get k) ∧
      (dataBlockBytes d ret.img inode1 (inode.Size / d.BlockSize - 1)).size = d.BlockSize ∧
      (∀ k, k < e.RecLen →
        (dataBlockBytes d ret.img inode1 (inode.Size / d.BlockSize - 1)).get
          (pf + alignedLen ((dataBlockBytes d img inode (inode.Size / d.BlockSize - 1)).get (pf + 6)).val + k)
          = encodeEntry e.Inode (d.BlockSize - (pf + alignedLen ((dataBlockBytes d img inode (inode.Size / d.BlockSize - 1)).get (pf + 6)).val))
            e.NameLen e.FileType e.Name k) ∧
      Partitioned (dataBlockBytes d ret.img inode1 (inode.Size / d.BlockSize - 1)) 0
        (pre ++ [pf, pf + alignedLen ((dataBlockBytes d img inode (inode.Size / d.BlockSize - 1)).get (pf + 6)).val]) ∧
      le16 (dataBlockBytes d ret.img inode1 (inode.Size / d.BlockSize - 1)) (pf + 4) =
        alignedLen ((dataBlockBytes d img inode (inode.Size / d.BlockSize - 1)).get (pf + 6)).val ∧
      le16 (dataBlockBytes d ret.img inode1 (inode.Size / d.BlockSize - 1))
        (pf + alignedLen ((dataBlockBytes d img inode (inode.Size / d.BlockSize - 1)).get (pf + 6)).val + 4)
        = d.BlockSize - (pf + alignedLen ((dataBlockBytes d img inode (inode.Size / d.BlockSize - 1)).get (pf + 6)).val) ∧
      (∀ k, k < pf + 4 →
        (dataBlockBytes d ret.img inode1 (inode.Size / d.BlockSize - 1)).get k =
          (dataBlockBytes d img inode (inode.Size / d.BlockSize - 1)).get k) ∧
      (∀ k, pf + 6 ≤ k → k < pf + alignedLen ((dataBlockBytes d img inode (inode.Size / d.BlockSize - 1)).get (pf + 6)).val →
        (dataBlockBytes d ret.img inode1 (inode.Size / d.BlockSize - 1)).get k =
          (dataBlockBytes d img inode (inode.Size / d.BlockSize - 1)).get k) := by
  have hOB := dataBlockBytes_ok d img inode _ B hB
  have hpart0 := hpart
  rw [hOB] at hname hfit hpart
  dsimp only at hname hfit
  obtain ⟨img3, inode1, a1, a2, a2d, a2s, a3, a4, a5, a6⟩ := append_after d img ino inode e B
    pre pf hBS hBS16 hino32 hino hdir hn hmap hB hpart0 hname hsafe he3 he6 hfit
  refine ⟨_, inode1, a1, rfl, a2, a2d, a2s, a3, a4, ?_⟩
  show (dataBlockBytes d img3 inode1 (inode.Size / d.BlockSize - 1)).size = _ ∧ _
  rw [a5, hOB]
  dsimp only
  generalize hal : alignedLen (img.get (d.blockOffset B + (pf + 6))).val = al at *
  have hal8 : 8 + (img.get (d.blockOffset B + (pf + 6))).val ≤ al := by
    rw [← hal]; unfold alignedLen; omega
  have hal252 : al ≤ 252 := by
    rw [← hal]; unfold alignedLen; omega
  obtain ⟨b1, b2, b3, b4, b5, b6⟩ := block_after
    ⟨d.BlockSize, fun k => img.get (d.blockOffset B + k)⟩
    ⟨d.BlockSize, fun k => img3.get (d.blockOffset B + k)⟩ pf al (pf + al) d.BlockSize e
    a6 rfl (by omega) (by omega) (by omega) hBS16 he3 he6
  refine ⟨rfl, b4, ?_, b3, b5, b1, b2⟩
  exact Partitioned_append ⟨d.BlockSize, fun k => img.get (d.blockOffset B + k)⟩
    ⟨d.BlockSize, fun k => img3.get (d.blockOffset B + k)⟩ pf (pf + al) rfl b1
    (b2 _ (by omega) (by omega))
    (by rw [b3]; omega) (by omega)
    (by show 8 + (img.get (d.blockOffset B + (pf + 6))).val ≤ pf + al - pf; omega)
    (by rw [b5]; show pf + al + (d.BlockSize - (pf + al)) = d.BlockSize; omega)
    (by rw [b5, b6]; omega) 0 _ hpart pre rfl

/-- C20 (amended). For a directory inode whose blocks are mapped, whose last block
is exactly partitioned by records with a final record at `pf` whose name has at
most 244 bytes, on a file where appending does not disturb the directory's own
bookkeeping (`AppendSafe`), and for an entry with `NameLen ≤ 247` and
`8 + NameLen ≤ RecLen` that ends strictly before the block end when placed after
the final record's aligned payload: `AppendDirEntry` returns nil, and afterwards
the last block of the directory read back is again exactly partitioned, by the old
records and one more at `o = pf + alignedLen`; the previous final record's `recLen`
is its aligned payload length, the new record carries `recLen = BlockSize - o`,
and all bytes of the old records outside that one `recLen` field are unchanged. -/
theorem C20_Append_keeps_partition (d : Device) (img : Bytes) (ino : Nat) (inode : Inode)
    (e : DirEntry) (B : Nat) (pre : List Nat) (pf : Nat)
    (hBS : 4 ≤ d.BlockSize) (hBS16 : d.BlockSize ≤ 2 ^ 16) (hino32 : ino < 2 ^ 32)
    (hino : d.NewInode img ino = .ok inode) (hdir : inode.IsDir = true)
    (hn : d.BlockSize ≤ inode.Size) (hmap : MappedBelow d img inode)
    (hB : d.DataBlock img inode (inode.Size / d.BlockSize - 1) = .ok B)
    (hpart : Partitioned (dataBlockBytes d img inode (inode.Size / d.BlockSize - 1)) 0
      (pre ++ [pf]))
    (hname : ((dataBlockBytes d img inode (inode.Size / d.BlockSize - 1)).get (pf + 6)).val ≤ 244)
    (hsafe : d.AppendSafe img ino inode B)
    (he3 : e.NameLen ≤ 247) (he6 : 8 + e.NameLen ≤ e.RecLen)
    (hfit : pf + alignedLen ((dataBlockBytes d img inode (inode.Size / d.BlockSize - 1)).get (pf + 6)).val + e.RecLen < d.BlockSize) :
    ∃ ret inode1, d.AppendDirEntry img ino e = .ok ret ∧ ret.err = none ∧
      d.NewInode ret.img ino = .ok inode1 ∧ inode1.Size = inode.Size ∧
      Partitioned (dataBlockBytes d ret.img inode1 (inode.Size / d.BlockSize - 1)) 0
        (pre ++ [pf, pf + alignedLen ((dataBlockBytes d img inode (inode.Size / d.BlockSize - 1)).get (pf + 6)).val]) ∧
      le16 (dataBlockBytes d ret.img inode1 (inode.Size / d.BlockSize - 1)) (pf + 4) =
        alignedLen ((dataBlockBytes d img inode (inode.Size / d.BlockSize - 1)).get (pf + 6)).val ∧
      le16 (dataBlockBytes d ret.img inode1 (inode.Size / d.BlockSize - 1))
        (pf + alignedLen ((dataBlockBytes d img inode (inode.Size / d.BlockSize - 1)).get (pf + 6)).val + 4)
        = d.BlockSize - (pf + alignedLen ((dataBlockBytes d img inode (inode.Size / d.BlockSize - 1)).get (pf + 6)).val) ∧
      (∀ k, k < pf + 4 →
        (dataBlockBytes d ret.img inode1 (inode.Size / d.BlockSize - 1)).get k =
          (dataBlockBytes d img inode (inode.Size / d.BlockSize - 1)).get k) ∧
      (∀ k, pf + 6 ≤ k → k < pf + alignedLen ((dataBlockBytes d img inode (inode.Size / d.BlockSize - 1)).get (pf + 6)).val →
        (dataBlockBytes d ret.img inode1 (inode.Size / d.BlockSize - 1)).get k =
          (dataBlockBytes d img inode (inode.Size / d.BlockSize - 1)).get k) := by
  obtain ⟨ret, inode1, r1, r2, r3, _, r4, _, _, _, _, r8, r9, r10, r11, r12⟩ :=
    append_result d img ino inode e B pre pf hBS hBS16 hino32 hino hdir hn hmap hB hpart
      hname hsafe he3 he6 hfit
  exact ⟨ret, inode1, r1, r2, r3, r4, r8, r9, r10, r11, r12⟩

/-- C19 (amended). For a directory inode whose blocks are mapped and are each
exactly partitioned by records, with a final record at `pf` in the last block
whose name has at most 244 bytes, on a file where appending does not disturb the
directory's own bookkeeping (`AppendSafe`), and for a new entry with `Inode ≠ 0`,
`NameLen ≤ 247`, `8 + NameLen ≤ RecLen` and a record that ends strictly before the
block end when placed after the final record's aligned payload: `AppendDirEntry`
returns nil, and the listing afterwards equals the listing before (compared on
inode, name length, file type and name) followed by exactly one more entry with
the new entry's inode, name length, file type and name. -/
theorem C19_Append_then_list (d : Device) (img : Bytes) (ino : Nat) (inode : Inode)
    (e : DirEntry) (B : Nat) (starts : Nat → List Nat) (pre : List Nat) (pf : Nat)
    (hBS : 4 ≤ d.BlockSize) (hBS16 : d.BlockSize ≤ 2 ^ 16) (hino32 : ino < 2 ^ 32)
    (hino : d.NewInode img ino = .ok inode) (hdir : inode.IsDir = true)
    (hn : d.BlockSize ≤ inode.Size) (hmap : MappedBelow d img inode)
    (hB : d.DataBlock img inode (inode.Size / d.BlockSize - 1) = .ok B)
    (hparts : ∀ i, i < inode.Size / d.BlockSize →
      Partitioned (dataBlockBytes d img inode i) 0 (starts i))
    (hlast : starts (inode.Size / d.BlockSize - 1) = pre ++ [pf])
    (hname : ((dataBlockBytes d img inode (inode.Size / d.BlockSize - 1)).get (pf + 6)).val ≤ 244)
    (hsafe : d.AppendSafe img ino inode B)
    (he1 : e.Inode ≠ 0) (he2 : e.Inode < 2 ^ 32) (he3 : e.NameLen ≤ 247)
    (he4 : e.FileType < 256) (he5 : e.NameLen ≤ e.Name.length)
    (he6 : 8 + e.NameLen ≤ e.RecLen)
    (hfit : pf + alignedLen ((dataBlockBytes d img inode (inode.Size / d.BlockSize - 1)).get (pf + 6)).val + e.RecLen < d.BlockSize) :
    ∃ before after ret, d.NewDirEntries img ino = .ok before ∧
      d.AppendDirEntry img ino e = .ok ret ∧ ret.err = none ∧
      d.NewDirEntries ret.img ino = .ok after ∧
      after.map DirEntry.key = before.map DirEntry.key ++ [e.key] := by
  have hSize := NewInode_Size_lt d img ino inode hino
  obtain ⟨n1, _, _, _⟩ := last_block_facts d inode (by omega) hSize hn
  have hpart : Partitioned (dataBlockBytes d img inode (inode.Size / d.BlockSize - 1)) 0
      (pre ++ [pf]) := by
    rw [← hlast]; exact hparts _ (by omega)
  obtain ⟨ret, inode1, r1, r2, r3, r3d, r3s, r4, r5, r6, r7, r8, _, _, r11, r12⟩ :=
    append_result d img ino inode e B pre pf hBS hBS16 hino32 hino hdir hn hmap hB hpart
      hname hsafe he3 he6 hfit
  have hbefore := NewDirEntries_blocks d img ino inode hBS (by omega) hino hdir hmap starts
    hparts
  have hOBsz : (dataBlockBytes d img inode (inode.Size / d.BlockSize - 1)).size
      = d.BlockSize := by
    rw [dataBlockBytes_ok d img inode _ B hB]
  generalize hal : alignedLen ((dataBlockBytes d img inode (inode.Size / d.BlockSize - 1)).get (pf + 6)).val = al at *
  have hal8 : 8 + ((dataBlockBytes d img inode (inode.Size / d.BlockSize - 1)).get (pf + 6)).val ≤ al := by
    rw [← hal]; unfold alignedLen; omega
  generalize hL : inode.Size / d.BlockSize - 1 = L at *
  have hnL : inode.Size / d.BlockSize = L + 1 := by omega
  have hparts2 : ∀ i, i < inode1.Size / d.BlockSize →
      Partitioned (dataBlockBytes d ret.img inode1 i) 0
        ((fun j => if j = L then pre ++ [pf, pf + al] else starts j) i) := by
    intro i hi
    rw [r3s] at hi
    dsimp only
    by_cases hiL : i = L
    · rw [if_pos hiL, hiL]; exact r8
    · rw [if_neg hiL]
      obtain ⟨c1, c2⟩ := r5 i (by omega)
      exact Partitioned_congr _ _ c1 c2 0 _ (hparts i hi)
  have hafter := NewDirEntries_blocks d ret.img ino inode1 hBS (by omega) r3 r3d r4 _ hparts2
  rw [r3s] at hafter
  refine ⟨_, _, ret, hbefore, r1, r2, hafter, ?_⟩
  rw [hnL, listedBlocks_snoc, listedBlocks_snoc, Nat.zero_add, List.map_append,
    List.map_append, List.append_assoc]
  congr 1
  · congr 1
    apply listedBlocks_congr
    intro j _ hj
    dsimp only
    rw [if_neg (by omega)]
    obtain ⟨c1, c2⟩ := r5 j (by omega)
    exact listedEntries_congr _ _ c1 c2 0 _ (hparts j (by omega))
  · dsimp only
    rw [if_pos rfl, hlast]
    rw [listed_append (dataBlockBytes d img inode L) (dataBlockBytes d ret.img inode1 L) pf
      (pf + al) (by rw [r6, hOBsz]) r11 r12 (by omega) 0 _ hpart pre rfl]
    congr 1
    exact listed_new _ (pf + al) _ e r7 he1 he2 he3 he4 he5 he6 (by rw [r6]; omega)

theorem DataBlock_direct (d : Device) (img : Bytes) (inode : Inode) (L : Nat) (h : L < 12) :
    d.DataBlock img inode L =
      if inode.Block L = EXT2_NULL_BLOCK then .error Error.BlockOutOfBounds
      else .ok (inode.Block L) := by
  unfold Device.DataBlock
  rw [Offsets_direct d L h]
  dsimp only
  rw [if_pos (by omega), Int.toNat_natCast]

/-- Reading an inode back from a file of the same size whose group descriptor
names the same inode table. -/
theorem NewInode_reread (d : Device) (img img1 : Bytes) (ino : Nat) (inode : Inode)
    (hsz : img1.size = img.size) (h : d.NewInode img ino = .ok inode)
    (htbl : (decodeGroupDescriptor img1
        (d.groupDescriptorOffset ((ino - 1) / d.InodesPerGroup))).InodeTable =
      (decodeGroupDescriptor img
        (d.groupDescriptorOffset ((ino - 1) / d.InodesPerGroup))).InodeTable) :
    d.NewInode img1 ino = .ok (decodeInode img1
      (d.inodeOffset (decodeGroupDescriptor img
        (d.groupDescriptorOffset ((ino - 1) / d.InodesPerGroup))).InodeTable
        ((ino - 1) % d.InodesPerGroup))) := by
  obtain ⟨i1, i2, i3, i4⟩ := NewInode_ok d img ino inode h
  unfold Device.NewInode at h ⊢
  rw [if_neg (by omega)] at h ⊢
  dsimp only at h ⊢
  rw [NewGroupDescriptor_eq d img _ i3 i4] at h
  rw [NewGroupDescriptor_eq d img1 _ i3 (by rw [hsz]; exact i4)]
  dsimp only at h ⊢
  rw [htbl]
  by_cases hidx : (ino - 1) % d.InodesPerGroup ≥ d.InodesPerGroup
  · rw [if_pos hidx] at h; cases h
  · rw [if_neg hidx] at h ⊢
    unfold readRecordErr at h ⊢
    rw [hsz]
    by_cases hr : d.inodeOffset (decodeGroupDescriptor img
        (d.groupDescriptorOffset ((ino - 1) / d.InodesPerGroup))).InodeTable
        ((ino - 1) % d.InodesPerGroup) + 128 ≤ img.size
    · rw [if_pos hr]
    · exfalso
      rw [if_neg hr] at h
      by_cases h2 : img.size ≤ d.inodeOffset (decodeGroupDescriptor img
          (d.groupDescriptorOffset ((ino - 1) / d.InodesPerGroup))).InodeTable
          ((ino - 1) % d.InodesPerGroup)
      · rw [if_pos h2] at h; cases h
      · rw [if_neg h2] at h; cases h

theorem MappedBelow_fs :
    MappedBelow fsDevice fsImage (decodeInode fsImage (5 * 1024 + 128)) := by
  intro L hL
  have hs : (decodeInode fsImage (5 * 1024 + 128)).Size = 1024 := by decide
  have h0 : L = 0 := by
    rw [hs] at hL
    simp only [fsDevice] at hL
    omega
  subst h0
  exact ⟨7, rfl, by decide, by decide⟩

theorem Partitioned_fs :
    Partitioned (dataBlockBytes fsDevice fsImage (decodeInode fsImage (5 * 1024 + 128)) 0) 0
      [0, 12, 24] :=
  Partitioned.cons 0 12 [12, 24] (by decide) (by decide) (by decide)
    (Partitioned.cons 12 24 [24] (by decide) (by decide) (by decide)
      (Partitioned.cons 24 1024 [] (by decide) (by decide) (by decide) Partitioned.done))

theorem Partitioned_fs_all (i : Nat)
    (hi : i < (decodeInode fsImage (5 * 1024 + 128)).Size / fsDevice.BlockSize) :
    Partitioned (dataBlockBytes fsDevice fsImage (decodeInode fsImage (5 * 1024 + 128)) i) 0
      ((fun _ => [0, 12, 24]) i) := by
  have hs : (decodeInode fsImage (5 * 1024 + 128)).Size / fsDevice.BlockSize = 1 := by
    decide
  have h0 : i = 0 := by omega
  subst h0
  exact Partitioned_fs

theorem fs_appendSafe :
    fsDevice.AppendSafe fsImage 2 (decodeInode fsImage (5 * 1024 + 128)) 7 := by
  have hS : (decodeInode fsImage (5 * 1024 + 128)).Size = 1024 := by decide
  have hBSv : fsDevice.BlockSize = 1024 := rfl
  refine ⟨Or.inl (by decide), ?_, ?_⟩
  · intro i blk hi
    rw [hS, hBSv] at hi
    omega
  · intro img1 hsz hag
    have e1 : fsDevice.blockOffset 7 = 7168 := by decide
    have e2 : fsDevice.groupDescriptorOffset (sub32 2 1 / fsDevice.InodesPerGroup)
        + BG_USED_DIRS_COUNT = 2064 := by decide
    rw [e1, e2, hBSv] at hag
    have hag2 : ∀ p, p < 2064 ∨ (2066 ≤ p ∧ p < 7168) → img1.get p = fsImage.get p :=
      fun p hp => hag p (by omega) (by omega)
    have hino : fsDevice.NewInode fsImage 2 = .ok (decodeInode fsImage (5 * 1024 + 128)) := rfl
    have hgd : fsDevice.groupDescriptorOffset ((2 - 1) / fsDevice.InodesPerGroup) = 2048 := by
      decide
    have htbl0 : (decodeGroupDescriptor fsImage 2048).InodeTable = 5 := by decide
    have htbl : (decodeGroupDescriptor img1 2048).InodeTable = 5 := by
      rw [← htbl0]
      show le32 img1 (2048 + 8) = le32 fsImage (2048 + 8)
      exact le32_congr _ _ _ _ (fun k hk => hag2 _ (by omega))
    have hre := NewInode_reread fsDevice fsImage img1 2 _ hsz hino
      (by rw [hgd, htbl, htbl0])
    rw [hgd, htbl0] at hre
    have hpos : fsDevice.inodeOffset 5 ((2 - 1) % fsDevice.InodesPerGroup) = 5248 := by decide
    rw [hpos] at hre
    have hmode : le16 img1 5248 = le16 fsImage 5248 :=
      le16_congr _ _ _ _ (fun k hk => hag2 _ (by omega))
    have hsize : le32 img1 (5248 + 4) = le32 fsImage (5248 + 4) :=
      le32_congr _ _ _ _ (fun k hk => hag2 _ (by omega))
    have hblk : le32 img1 (5248 + I_BLOCK + 4 * 0) = le32 fsImage (5248 + I_BLOCK + 4 * 0) :=
      le32_congr _ _ _ _ (fun k hk => hag2 _ (by unfold I_BLOCK; omega))
    constructor
    · intro i hi
      rw [hS, hBSv] at hi
      have h0 : i = 0 := by omega
      subst h0
      rfl
    · refine ⟨_, hre, ?_, ?_, ?_⟩
      · show ((le16 img1 5248) &&& S_IFDIR != 0) = true
        rw [hmode]
        decide
      · show le32 img1 (5248 + 4) = _
        rw [hsize]
        rfl
      · intro i hi
        rw [hS, hBSv] at hi
        have h0 : i = 0 := by omega
        subst h0
        have hb0 : (decodeInode img1 5248).Block 0 = 7 := by
          show le32 img1 (5248 + I_BLOCK + 4 * 0) = 7
          rw [hblk]
          decide
        rw [DataBlock_direct _ _ _ 0 (by omega), hb0]
        rfl

set_option maxRecDepth 100000 in
theorem C20_Append_keeps_partition_witness :
    ∃ ret inode1, fsDevice.AppendDirEntry fsImage 2 entryB = .ok ret ∧ ret.err = none ∧
      fsDevice.NewInode ret.img 2 = .ok inode1 ∧
      Partitioned (dataBlockBytes fsDevice ret.img inode1 0) 0 [0, 12, 24, 36] ∧
      le16 (dataBlockBytes fsDevice ret.img inode1 0) (24 + 4) = 12 ∧
      le16 (dataBlockBytes fsDevice ret.img inode1 0) (36 + 4) = 988 := by
  obtain ⟨ret, inode1, h1, h2, h3, _, h5, h6, h7, _, _⟩ :=
    C20_Append_keeps_partition fsDevice fsImage 2 (decodeInode fsImage (5 * 1024 + 128))
      entryB 7 [0, 12] 24 (by decide) (by decide) (by decide) rfl (by decide) (by decide)
      MappedBelow_fs rfl Partitioned_fs (by decide) fs_appendSafe (by decide) (by decide)
      (by decide)
  exact ⟨ret, inode1, h1, h2, h3, h5, h6, h7⟩

set_option maxRecDepth 100000 in
theorem C19_Append_then_list_witness :
    ∃ before after ret, fsDevice.NewDirEntries fsImage 2 = .ok before ∧
      fsDevice.AppendDirEntry fsImage 2 entryB = .ok ret ∧ ret.err = none ∧
      fsDevice.NewDirEntries ret.img 2 = .ok after ∧
      after.map DirEntry.key = before.map DirEntry.key ++ [entryB.key] :=
  C19_Append_then_list fsDevice fsImage 2 (decodeInode fsImage (5 * 1024 + 128))
    entryB 7 (fun _ => [0, 12, 24]) [0, 12] 24 (by decide) (by decide) (by decide) rfl
    (by decide) (by decide) MappedBelow_fs rfl Partitioned_fs_all rfl (by decide)
    fs_appendSafe (by decide) (by decide) (by decide) (by decide) (by decide) (by decide)
    (by decide)

set_option maxRecDepth 100000 in
/-- C19 (counterexample). The root directory of `crossLinkImage` has two logical
blocks that are one physical block.  Its last block is exactly partitioned by the
records `.`, `..` and `a`, and the entry `b` (`RecLen = 12`) fits the slack of 988
bytes.  `AppendDirEntry` returns nil, but the listing afterwards is
`., .., a, b, ., .., a, b`: it is not the listing before, `., .., a, ., .., a`,
followed by one more entry. -/
theorem C19_Append_cross_linked_counterexample :
    (fsDevice.NewInode crossLinkImage 2).toOption.map (fun i => (i.IsDir, i.Size))
      = some (true, 2048) ∧
    Partitioned (dataBlockBytes fsDevice crossLinkImage
      (decodeInode crossLinkImage (5 * 1024 + 128)) 1) 0 [0, 12, 24] ∧
    24 + alignedLen ((dataBlockBytes fsDevice crossLinkImage
      (decodeInode crossLinkImage (5 * 1024 + 128)) 1).get (24 + 6)).val + entryB.RecLen
      ≤ 1024 ∧
    listedNames (fsDevice.NewDirEntries crossLinkImage 2)
      = [[46], [46, 46], [97], [46], [46, 46], [97]] ∧
    (fsDevice.AppendDirEntry crossLinkImage 2 entryB).err? = some none ∧
    listedNames (fsDevice.NewDirEntries
      ((fsDevice.AppendDirEntry crossLinkImage 2 entryB).imgOr crossLinkImage) 2)
      = [[46], [46, 46], [97], [98], [46], [46, 46], [97], [98]] := by
  refine ⟨by decide, ?_, by decide, by decide, by decide, by decide⟩
  exact Partitioned.cons 0 12 [12, 24] (by decide) (by decide) (by decide)
    (Partitioned.cons 12 24 [24] (by decide) (by decide) (by decide)
      (Partitioned.cons 24 1024 [] (by decide) (by decide) (by decide) Partitioned.done))

set_option maxRecDepth 100000 in
/-- C20 (counterexample). The root directory of `gdtDirImage` keeps its records in
the group descriptor block.  Before the call the records at bytes 0 and 12
partition the block (`12 + 1012 = 1024`) and the entry `b` fits the slack.
`AppendDirEntry` returns nil and writes the new record at byte 24, but the final
step, the increment of the descriptor's `UsedDirsCount`, hits the `recLen` field of
the previous final record: it is 13 afterwards, not the aligned payload length 12,
and `12 + 13` is not the start of the new record. -/
theorem C20_Append_partition_broken_counterexample :
    (fsDevice.NewInode gdtDirImage 2).toOption.map (fun i => (i.IsDir, i.Size))
      = some (true, 1024) ∧
    Partitioned (dataBlockBytes fsDevice gdtDirImage
      (decodeInode gdtDirImage (5 * 1024 + 128)) 0) 0 [0, 12] ∧
    alignedLen ((dataBlockBytes fsDevice gdtDirImage
      (decodeInode gdtDirImage (5 * 1024 + 128)) 0).get (12 + 6)).val = 12 ∧
    12 + 12 + entryB.RecLen ≤ 1024 ∧
    (fsDevice.AppendDirEntry gdtDirImage 2 entryB).err? = some none ∧
    (fsDevice.NewInode ((fsDevice.AppendDirEntry gdtDirImage 2 entryB).imgOr gdtDirImage)
      2).toOption.map (fun i =>
        (le16 (dataBlockBytes fsDevice
          ((fsDevice.AppendDirEntry gdtDirImage 2 entryB).imgOr gdtDirImage) i 0) (12 + 4),
         le32 (dataBlockBytes fsDevice
          ((fsDevice.AppendDirEntry gdtDirImage 2 entryB).imgOr gdtDirImage) i 0) 24,
         le16 (dataBlockBytes fsDevice
          ((fsDevice.AppendDirEntry gdtDirImage 2 entryB).imgOr gdtDirImage) i 0) (24 + 4)))
      = some (13, 5, 1000) := by
  refine ⟨by decide, ?_, by decide, by decide, by decide, by decide⟩
  exact Partitioned.cons 0 12 [12] (by decide) (by decide) (by decide)
    (Partitioned.cons 12 1024 [] (by decide) (by decide) (by decide) Partitioned.done)

/-! ## Claims C24, C25 : the bitmap primitives -/

theorem LowestClear_unique (bmp : Bytes) (a b : Nat) (ha : Bitmap.LowestClear bmp a)
    (hb : Bitmap.LowestClear bmp b) : a = b := by
  rcases Nat.lt_trichotomy a b with h | h | h
  · have := hb.2.2 a h
    rw [ha.2.1] at this
    cases this
  · exact h
  · have := ha.2.2 b h
    rw [hb.2.1] at this
    cases this

/-- C24 (counterexample).  A bitmap of `2^29` zero bytes has every bit clear, the
lowest being bit 0, yet `FindFree` answers `-1`: its bit count `uint32(len*8)` is
`2^32 mod 2^32 = 0`, so the loop body never runs. -/
theorem C24_FindFree_wraps_counterexample :
    Bitmap.FindFree (Bytes.zeros (2 ^ 29)) = -1 ∧
    Bitmap.LowestClear (Bytes.zeros (2 ^ 29)) 0 :=
  ⟨by decide, by decide, by decide, fun j hj => absurd hj (Nat.not_lt_zero j)⟩

/-- C24 (amended).  For every bitmap of fewer than `2^29` bytes (so that its bit
count fits `uint32`), `FindFree` returns `-1` exactly when every bit is set, and
returns `k` exactly when `k` is the lowest clear bit, bit `i` being bit `i mod 8`
of byte `i div 8`; one of the two always happens. -/
theorem C24_FindFree_lowest_clear (bmp : Bytes) (hsz : bmp.size * 8 < 2 ^ 32) :
    (Bitmap.FindFree bmp = -1 ↔ ∀ i, i < 8 * bmp.size → Bitmap.IsFree bmp i = false) ∧
    (∀ k : Nat, Bitmap.FindFree bmp = (k : Int) ↔ Bitmap.LowestClear bmp k) ∧
    (Bitmap.FindFree bmp = -1 ∨ ∃ k : Nat, Bitmap.FindFree bmp = (k : Int)) := by
  rcases FindFree_spec bmp hsz with ⟨h1, h2⟩ | ⟨k, h1, h2⟩
  · refine ⟨⟨fun _ i hi => ?_, fun _ => h1⟩, fun k => ⟨fun h => ?_, fun h => ?_⟩, Or.inl h1⟩
    · cases hf : Bitmap.IsFree bmp i
      · rfl
      · exact absurd ⟨i, hi, hf⟩ h2
    · rw [h1] at h; omega
    · exact absurd ⟨k, h.1, h.2.1⟩ h2
  · refine ⟨⟨fun h => ?_, fun h => ?_⟩, fun k2 => ⟨fun h => ?_, fun h => ?_⟩, Or.inr ⟨k, h1⟩⟩
    · rw [h1] at h; omega
    · have := h k h2.1
      rw [h2.2.1] at this
      cases this
    · rw [h1] at h
      have : k = k2 := by omega
      subst this
      exact h2
    · rw [h1, LowestClear_unique bmp k k2 h2 h]

/-- C24 witness: the one-byte bitmap `0x07` has lowest clear bit 3. -/
theorem C24_FindFree_lowest_clear_witness :
    (Bytes.ofList [7]).size * 8 < 2 ^ 32 ∧
    (Bitmap.FindFree (Bytes.ofList [7]) = ((3 : Nat) : Int) ↔
      Bitmap.LowestClear (Bytes.ofList [7]) 3) :=
  ⟨by decide, (C24_FindFree_lowest_clear (Bytes.ofList [7]) (by decide)).2.1 3⟩

theorem byte_testBit_ge (b : Byte) (j : Nat) (hj : 8 ≤ j) : b.val.testBit j = false := by
  apply Nat.testBit_eq_false_of_lt
  calc b.val < 256 := b.isLt
    _ = 2 ^ 8 := by norm_num
    _ ≤ 2 ^ j := Nat.pow_le_pow_right (by norm_num) hj

theorem testBit_clear (x k j : Nat) (hj : j < 8) :
    (toByte (x &&& (255 ^^^ 1 <<< k))).val.testBit j = (x.testBit j && !decide (k = j)) := by
  rw [toByte_val, Nat.one_shiftLeft]
  have h256 : (256 : Nat) = 2 ^ 8 := by norm_num
  have h255 : (255 : Nat) = 2 ^ 8 - 1 := by norm_num
  rw [h256, Nat.testBit_mod_two_pow, Nat.testBit_and, Nat.testBit_xor, h255,
    Nat.testBit_two_pow_sub_one, Nat.testBit_two_pow]
  simp [hj]

theorem byte_ext (a b : Byte) (h : ∀ j, j < 8 → a.val.testBit j = b.val.testBit j) : a = b := by
  apply Fin.ext
  apply Nat.eq_of_testBit_eq
  intro j
  by_cases hj : j < 8
  · exact h j hj
  · rw [byte_testBit_ge a j (by omega), byte_testBit_ge b j (by omega)]

theorem bit_index (i j : Nat) (h8 : j / 8 = i / 8) : (i % 8 = j % 8 ↔ j = i) := by
  omega

theorem IsFree_Alloc (bmp : Bytes) (i j : Nat) :
    (Bitmap.IsFree (Bitmap.Alloc bmp i) j = true ↔ j ≠ i ∧ Bitmap.IsFree bmp j = true) := by
  rw [IsFree_testBit, IsFree_testBit]
  show (!((if j / 8 = i / 8 then toByte ((bmp.get (j / 8)).val ||| (1 <<< (i % 8)))
    else bmp.get (j / 8)).val.testBit (j % 8))) = true ↔ _
  by_cases h8 : j / 8 = i / 8
  · rw [if_pos h8, testBit_set _ _ _ (Nat.mod_lt _ (by norm_num))]
    have := bit_index i j h8
    by_cases hij : i % 8 = j % 8
    · have := this.1 hij
      simp [hij, this]
    · have : j ≠ i := fun h => hij (this.2 h)
      simp [hij, this]
  · rw [if_neg h8]
    have : j ≠ i := fun h => h8 (by rw [h])
    simp [this]

theorem IsFree_Free (bmp : Bytes) (i j : Nat) :
    (Bitmap.IsFree (Bitmap.Free bmp i) j = true ↔ j = i ∨ Bitmap.IsFree bmp j = true) := by
  rw [IsFree_testBit, IsFree_testBit]
  show (!((if j / 8 = i / 8 then toByte ((bmp.get (j / 8)).val &&& (255 ^^^ (1 <<< (i % 8))))
    else bmp.get (j / 8)).val.testBit (j % 8))) = true ↔ _
  by_cases h8 : j / 8 = i / 8
  · rw [if_pos h8, testBit_clear _ _ _ (Nat.mod_lt _ (by norm_num))]
    have := bit_index i j h8
    by_cases hij : i % 8 = j % 8
    · have := this.1 hij
      simp [hij, this]
    · have : j ≠ i := fun h => hij (this.2 h)
      simp [hij, this]
  · rw [if_neg h8]
    have : j ≠ i := fun h => h8 (by rw [h])
    simp [this]

theorem Bytes_ext (a b : Bytes) (hs : a.size = b.size) (hg : ∀ k, a.get k = b.get k) :
    a = b := by
  cases a with
  | mk sa ga =>
    cases b with
    | mk sb gb =>
      have h1 : sa = sb := hs
      have h2 : ga = gb := funext hg
      rw [h1, h2]

theorem Alloc_get (bmp : Bytes) (i k : Nat) :
    (Bitmap.Alloc bmp i).get k
      = if k = i / 8 then toByte ((bmp.get k).val ||| (1 <<< (i % 8))) else bmp.get k := rfl

theorem Free_get (bmp : Bytes) (i k : Nat) :
    (Bitmap.Free bmp i).get k
      = if k = i / 8 then toByte ((bmp.get k).val &&& (255 ^^^ (1 <<< (i % 8))))
        else bmp.get k := rfl

theorem Alloc_idem (bmp : Bytes) (i : Nat) :
    Bitmap.Alloc (Bitmap.Alloc bmp i) i = Bitmap.Alloc bmp i := by
  apply Bytes_ext
  · rfl
  intro k
  rw [Alloc_get (Bitmap.Alloc bmp i), Alloc_get bmp]
  by_cases hk : k = i / 8
  · rw [if_pos hk, if_pos hk]
    apply byte_ext
    intro j hj
    rw [testBit_set _ _ _ hj, testBit_set _ _ _ hj]
    cases (bmp.get k).val.testBit j <;> simp
  · rw [if_neg hk, if_neg hk]

theorem Free_idem (bmp : Bytes) (i : Nat) :
    Bitmap.Free (Bitmap.Free bmp i) i = Bitmap.Free bmp i := by
  apply Bytes_ext
  · rfl
  intro k
  rw [Free_get (Bitmap.Free bmp i), Free_get bmp]
  by_cases hk : k = i / 8
  · rw [if_pos hk, if_pos hk]
    apply byte_ext
    intro j hj
    rw [testBit_clear _ _ _ hj, testBit_clear _ _ _ hj]
    cases (bmp.get k).val.testBit j <;> simp
  · rw [if_neg hk, if_neg hk]

theorem Free_Alloc (bmp : Bytes) (i : Nat) (hfree : Bitmap.IsFree bmp i = true) :
    Bitmap.Free (Bitmap.Alloc bmp i) i = bmp := by
  apply Bytes_ext
  · rfl
  intro k
  rw [Free_get (Bitmap.Alloc bmp i), Alloc_get bmp]
  by_cases hk : k = i / 8
  · rw [if_pos hk, if_pos hk]
    apply byte_ext
    intro j hj
    rw [testBit_clear _ _ _ hj, testBit_set _ _ _ hj]
    rw [IsFree_testBit] at hfree
    by_cases hij : i % 8 = j
    · subst hij
      subst hk
      cases h : (bmp.get (i / 8)).val.testBit (i % 8)
      · simp
      · rw [h] at hfree; cases hfree
    · simp [hij]
  · rw [if_neg hk, if_neg hk]

/-- C25.  For every bitmap and all bit indices `i`, `j` inside it: after
`Alloc(i)` bit `j` is free iff `j ≠ i` and it was free before; after `Free(i)` bit
`j` is free iff `j = i` or it was free before; `Alloc` and `Free` are idempotent;
`Free(i)` after `Alloc(i)` gives back a bitmap in which `i` was free; and both keep
the length and every byte other than byte `i div 8`. -/
theorem C25_Alloc_Free_algebra (bmp : Bytes) (i j : Nat)
    (hi : i < 8 * bmp.size) (hj : j < 8 * bmp.size) :
    (Bitmap.IsFree (Bitmap.Alloc bmp i) j = true ↔ j ≠ i ∧ Bitmap.IsFree bmp j = true) ∧
    (Bitmap.IsFree (Bitmap.Free bmp i) j = true ↔ j = i ∨ Bitmap.IsFree bmp j = true) ∧
    Bitmap.Alloc (Bitmap.Alloc bmp i) i = Bitmap.Alloc bmp i ∧
    Bitmap.Free (Bitmap.Free bmp i) i = Bitmap.Free bmp i ∧
    (Bitmap.IsFree bmp i = true → Bitmap.Free (Bitmap.Alloc bmp i) i = bmp) ∧
    i / 8 < bmp.size ∧ j / 8 < bmp.size ∧
    (Bitmap.Alloc bmp i).size = bmp.size ∧ (Bitmap.Free bmp i).size = bmp.size ∧
    (∀ k, k ≠ i / 8 →
      (Bitmap.Alloc bmp i).get k = bmp.get k ∧ (Bitmap.Free bmp i).get k = bmp.get k) := by
  refine ⟨IsFree_Alloc bmp i j, IsFree_Free bmp i j, Alloc_idem bmp i, Free_idem bmp i,
    Free_Alloc bmp i, by omega, by omega, rfl, rfl, fun k hk => ?_⟩
  rw [Alloc_get, Free_get, if_neg hk, if_neg hk]
  exact ⟨rfl, rfl⟩

/-- C25 witness: bits 3 and 9 of the two-byte bitmap `07 00`. -/
theorem C25_Alloc_Free_algebra_witness :
    3 < 8 * (Bytes.ofList [7, 0]).size ∧ 9 < 8 * (Bytes.ofList [7, 0]).size ∧
    (Bitmap.IsFree (Bitmap.Alloc (Bytes.ofList [7, 0]) 3) 9 = true ↔
      9 ≠ 3 ∧ Bitmap.IsFree (Bytes.ofList [7, 0]) 9 = true) :=
  ⟨by decide, by decide,
    (C25_Alloc_Free_algebra (Bytes.ofList [7, 0]) 3 9 (by decide) (by decide)).1⟩

/-! ## Claim C23 : the file-type predicates -/

set_option maxRecDepth 100000 in
/-- C23 (failing input).  The predicates test `Mode & S_IFxxx != 0`, and the type
codes share bits.  For the seven type codes the answers of `IsSock`, `IsLnk`,
`IsReg`, `IsBlk`, `IsDir`, `IsChr`, `IsFIFO` are as listed: only a fifo gets exactly
one `true`.  Inode 2 of `socketImage` has type bits `0140000` (socket); `IsDir` is
true for it, `NewDirEntries` lists it as a directory and `DirEntryOffset` returns
an offset instead of an error. -/
theorem C23_mode_predicates_overlap :
    (mkInode S_IFSOCK 0 (fun _ => 0)).typeAnswers
      = [true, true, true, true, true, false, false] ∧
    (mkInode S_IFLNK 0 (fun _ => 0)).typeAnswers
      = [true, true, true, true, false, true, false] ∧
    (mkInode S_IFREG 0 (fun _ => 0)).typeAnswers
      = [true, true, true, false, false, false, false] ∧
    (mkInode S_IFBLK 0 (fun _ => 0)).typeAnswers
      = [true, true, false, true, true, true, false] ∧
    (mkInode S_IFDIR 0 (fun _ => 0)).typeAnswers
      = [true, false, false, true, true, false, false] ∧
    (mkInode S_IFCHR 0 (fun _ => 0)).typeAnswers
      = [false, true, false, true, false, true, false] ∧
    (mkInode S_IFIFO 0 (fun _ => 0)).typeAnswers
      = [false, false, false, false, false, false, true] ∧
    (fsDevice.NewInode socketImage 2).toOption.map (fun i => i.Mode &&& S_IFMT)
      = some S_IFSOCK ∧
    (fsDevice.NewInode socketImage 2).toOption.map (fun i => i.IsDir) = some true ∧
    listedNames (fsDevice.NewDirEntries socketImage 2) = [[46], [46, 46], [97]] ∧
    (fsDevice.DirEntryOffset socketImage
      (decodeInode socketImage (5 * 1024 + 128))).ok? = some (36, 12) := by
  decide

/-! ## Claim C26 : the aligned length of the final record -/

set_option maxRecDepth 100000 in
/-- C26 (failing input).  The root directory block of `wideNameImage` is exactly
partitioned by three records, the final one at byte 24 with `recLen = 1000` and
`nameLen = 250`.  The least multiple of 4 that is at least `8 + 250` is 260, but
`DirEntryOffset` returns `lastLen = 4` and `off = 24 + 4`: `8 + nameLen + 3` is
computed in `uint8` and wraps to 5.  `AppendDirEntry` then writes `recLen = 4` into
the final record and puts the new record (`recLen = 996`) at byte 28, on top of
that record's own `recLen` field. -/
theorem C26_lastLen_wraps :
    (fsDevice.NewInode wideNameImage 2).toOption.map (fun i => (i.IsDir, i.Size))
      = some (true, 1024) ∧
    Partitioned (dataBlockBytes fsDevice wideNameImage
      (decodeInode wideNameImage (5 * 1024 + 128)) 0) 0 [0, 12, 24] ∧
    ((dataBlockBytes fsDevice wideNameImage
      (decodeInode wideNameImage (5 * 1024 + 128)) 0).get (24 + 6)).val = 250 ∧
    alignedLen 250 = 260 ∧
    (fsDevice.DirEntryOffset wideNameImage
      (decodeInode wideNameImage (5 * 1024 + 128))).ok? = some (28, 4) ∧
    (fsDevice.AppendDirEntry wideNameImage 2 entryB).err? = some none ∧
    le16 ((fsDevice.AppendDirEntry wideNameImage 2 entryB).imgOr wideNameImage)
      (7 * 1024 + 24 + 4) = 4 ∧
    le16 ((fsDevice.AppendDirEntry wideNameImage 2 entryB).imgOr wideNameImage)
      (7 * 1024 + 28 + 4) = 996 := by
  refine ⟨by decide, ?_, by decide, by decide, by decide, by decide, by decide, by decide⟩
  exact Partitioned.cons 0 12 [12, 24] (by decide) (by decide) (by decide)
    (Partitioned.cons 12 24 [24] (by decide) (by decide) (by decide)
      (Partitioned.cons 24 1024 [] (by decide) (by decide) (by decide) Partitioned.done))

/-! ## Claim C27 : a failed allocation and the superblock -/

set_option maxRecDepth 100000 in
/-- C27 (failing input).  In `fullInodesImage` the superblock counts 5 free inodes
but the only inode bitmap has no clear bit: `AllocInode(0)` returns the null
number 0 with a nil error, and afterwards the superblock counts 4 free inodes.  In
`fullBlocksImage` (41 free blocks in the superblock, no clear bit) `AllocBlock(0)`
returns 0 and leaves 40 in the superblock. -/
theorem C27_Alloc_null_changes_superblock :
    superFree fullInodesImage .inode = 5 ∧
    Bitmap.FindFree (fsDevice.bitmapAt fullInodesImage .inode 0) = -1 ∧
    (fsDevice.AllocInode fullInodesImage 0).value? = some 0 ∧
    (fsDevice.AllocInode fullInodesImage 0).err? = some none ∧
    superFree ((fsDevice.AllocInode fullInodesImage 0).imgOr fullInodesImage) .inode = 4 ∧
    superFree fullBlocksImage .block = 41 ∧
    Bitmap.FindFree (fsDevice.bitmapAt fullBlocksImage .block 0) = -1 ∧
    (fsDevice.AllocBlock fullBlocksImage 0).value? = some 0 ∧
    (fsDevice.AllocBlock fullBlocksImage 0).err? = some none ∧
    superFree ((fsDevice.AllocBlock fullBlocksImage 0).imgOr fullBlocksImage) .block = 40 := by
  decide

/-! ## Claim C29 : the record walk on corrupt blocks -/

/-- A record with `recLen = 0` at the head of the remaining slice: the slice after
`block[0:]` is the same and the walk takes another step, whatever the fuel. -/
theorem walkRecords_zero_recLen :
    ∀ (fuel : Nat) (block : Bytes) (off lastLen : Nat), 7 ≤ block.size →
      le16 block 4 = 0 → walkRecords fuel block off lastLen = .timeout := by
  intro fuel
  induction fuel with
  | zero => intro block off lastLen _ _; rfl
  | succ fuel ih =>
    intro block off lastLen hsz hrl
    have hd : (block.drop 0).size = block.size := by
      show block.size - 0 = block.size
      omega
    have hl : le16 (block.drop 0) 4 = le16 block 4 := by
      apply le16_congr
      intro k _
      show block.get (0 + (4 + k)) = block.get (4 + k)
      rw [Nat.zero_add]
    rw [walkRecords, if_pos (by omega), if_neg (by omega), if_neg (by omega), hrl,
      if_pos (by omega)]
    exact ih (block.drop 0) (off + 0) lastLen (by omega) (by rw [hl, hrl])

set_option maxRecDepth 100000 in
/-- C29 (failing input).  The walk of `DirEntryOffset` has none of the guards of
`NewDirEntries`.  On `zeroRecLenImage` (first record with `recLen = 0`) the loop
`for len(block) > 0` never ends: the walk over the block that was read is still
running after any number of steps.  On `longRecLenImage` (`recLen = 2000` with 1000
bytes left) the slice `block[entry.RecLen:]` is out of bounds, and on
`tinyTailImage` (4 bytes left after the final record) `block[4:6]` is: both
`DirEntryOffset` and `AppendDirEntry` panic.  Each directory has `Size = BlockSize`. -/
theorem C29_walk_unguarded :
    (decodeInode zeroRecLenImage (5 * 1024 + 128)).IsDir = true ∧
    (decodeInode zeroRecLenImage (5 * 1024 + 128)).Size = fsDevice.BlockSize ∧
    (∀ fuel, walkRecords fuel
      (fsDevice.ReadData zeroRecLenImage (decodeInode zeroRecLenImage (5 * 1024 + 128))
        (Bytes.zeros fsDevice.BlockSize) 0).buf 0 0 = .timeout) ∧
    (fsDevice.NewInode longRecLenImage 2).toOption.map (fun i => (i.IsDir, i.Size))
      = some (true, 1024) ∧
    (fsDevice.DirEntryOffset longRecLenImage
      (decodeInode longRecLenImage (5 * 1024 + 128))).isPanic = true ∧
    (fsDevice.AppendDirEntry longRecLenImage 2 entryB).isPanic = true ∧
    (fsDevice.NewInode tinyTailImage 2).toOption.map (fun i => (i.IsDir, i.Size))
      = some (true, 1024) ∧
    (fsDevice.DirEntryOffset tinyTailImage
      (decodeInode tinyTailImage (5 * 1024 + 128))).isPanic = true ∧
    (fsDevice.AppendDirEntry tinyTailImage 2 entryB).isPanic = true ∧
    listedNames (fsDevice.NewDirEntries zeroRecLenImage 2) = [] ∧
    listedNames (fsDevice.NewDirEntries longRecLenImage 2) = [[46], [46, 46]] := by
  refine ⟨by decide, by decide, fun fuel => ?_, by decide, by decide, by decide, by decide,
    by decide, by decide, by decide, by decide⟩
  exact walkRecords_zero_recLen fuel _ 0 0 (by decide) (by decide)

/-! ## Claim C22 : NewSuperBlock and the revision level -/

theorem NewSuperBlock_iff (d : Device) (img : Bytes) :
    (d.NewSuperBlock img = .ok (decodeSuperBlock img BASE_OFFSET) ↔
      (BASE_OFFSET + 1024 ≤ img.size ∧
        (decodeSuperBlock img BASE_OFFSET).Magic = EXT2_SUPER_MAGIC)) ∧
    ((∃ e, d.NewSuperBlock img = .error e) ↔
      ¬ (BASE_OFFSET + 1024 ≤ img.size ∧
        (decodeSuperBlock img BASE_OFFSET).Magic = EXT2_SUPER_MAGIC)) := by
  unfold Device.NewSuperBlock readRecordErr
  by_cases h1 : BASE_OFFSET + 1024 ≤ img.size
  · rw [if_pos h1]
    dsimp only
    by_cases h2 : (decodeSuperBlock img BASE_OFFSET).Magic = EXT2_SUPER_MAGIC
    · rw [if_neg (by simp [h2])]
      refine ⟨⟨fun _ => ⟨h1, h2⟩, fun _ => rfl⟩, ⟨?_, fun h => absurd ⟨h1, h2⟩ h⟩⟩
      rintro ⟨e, he⟩
      cases he
    · rw [if_pos h2]
      refine ⟨⟨fun h => ?_, fun h => absurd h.2 h2⟩, ⟨fun _ h => h2 h.2, fun _ => ⟨_, rfl⟩⟩⟩
      cases h
  · rw [if_neg h1]
    by_cases h3 : img.size ≤ BASE_OFFSET
    · rw [if_pos h3]
      dsimp only
      refine ⟨⟨fun h => ?_, fun h => absurd h.1 h1⟩, ⟨fun _ h => h1 h.1, fun _ => ⟨_, rfl⟩⟩⟩
      cases h
    · rw [if_neg h3]
      dsimp only
      refine ⟨⟨fun h => ?_, fun h => absurd h.1 h1⟩, ⟨fun _ h => h1 h.1, fun _ => ⟨_, rfl⟩⟩⟩
      cases h

set_option maxRecDepth 100000 in
/-- C22 (counterexample).  The superblock of `revZeroImage` has magic `0xEF53` and
`revLevel = 0`: `NewSuperBlock` returns the decoded record with a nil error.  The
revision is looked at by `NewDevice`, which returns an error for this image. -/
theorem C22_NewSuperBlock_rev_zero_counterexample :
    (decodeSuperBlock revZeroImage BASE_OFFSET).Magic = EXT2_SUPER_MAGIC ∧
    (decodeSuperBlock revZeroImage BASE_OFFSET).RevLevel = 0 ∧
    fsDevice.NewSuperBlock revZeroImage = .ok (decodeSuperBlock revZeroImage BASE_OFFSET) ∧
    (NewDevice revZeroImage).error? = some Error.OldRevision :=
  ⟨by decide, by decide, rfl, by decide⟩

/-- C22 (amended).  `NewSuperBlock` decodes the 1024-byte little-endian record at
byte offset 1024; it succeeds, returning the decoded fields, exactly when the
record lies inside the file and its magic field is `0xEF53`, and returns an error
otherwise, whatever `revLevel` is.  `NewDevice` returns an error exactly when
`NewSuperBlock` does or `revLevel` is 0. -/
theorem C22_NewSuperBlock_magic_only (d : Device) (img : Bytes) :
    (d.NewSuperBlock img = .ok (decodeSuperBlock img BASE_OFFSET) ↔
      (BASE_OFFSET + 1024 ≤ img.size ∧
        (decodeSuperBlock img BASE_OFFSET).Magic = EXT2_SUPER_MAGIC)) ∧
    ((∃ e, d.NewSuperBlock img = .error e) ↔
      ¬ (BASE_OFFSET + 1024 ≤ img.size ∧
        (decodeSuperBlock img BASE_OFFSET).Magic = EXT2_SUPER_MAGIC)) ∧
    ((∃ e, NewDevice img = .error e) ↔
      (¬ (BASE_OFFSET + 1024 ≤ img.size ∧
          (decodeSuperBlock img BASE_OFFSET).Magic = EXT2_SUPER_MAGIC) ∨
        (decodeSuperBlock img BASE_OFFSET).RevLevel = 0)) := by
  refine ⟨(NewSuperBlock_iff d img).1, (NewSuperBlock_iff d img).2, ?_⟩
  unfold NewDevice
  dsimp only
  by_cases hok : BASE_OFFSET + 1024 ≤ img.size ∧
      (decodeSuperBlock img BASE_OFFSET).Magic = EXT2_SUPER_MAGIC
  · rw [(NewSuperBlock_iff _ img).1.2 hok]
    dsimp only
    by_cases hr : (decodeSuperBlock img BASE_OFFSET).RevLevel < EXT2_DYNAMIC_REV
    · rw [if_pos hr]
      unfold EXT2_DYNAMIC_REV at hr
      exact ⟨fun _ => Or.inr (by omega), fun _ => ⟨_, rfl⟩⟩
    · rw [if_neg hr]
      unfold EXT2_DYNAMIC_REV at hr
      constructor
      · rintro ⟨e, he⟩
        by_cases hb : (decodeSuperBlock img BASE_OFFSET).BlocksPerGroup = 0
        · rw [if_pos hb] at he; cases he
        · rw [if_neg hb] at he; cases he
      · rintro (h | h)
        · exact absurd hok h
        · omega
  · obtain ⟨e, he⟩ := (NewSuperBlock_iff _ img).2.2 hok
    rw [he]
    exact ⟨fun _ => Or.inl hok, fun _ => ⟨_, rfl⟩⟩

/-! ## Claim C28 : allocator numbering and inode addressing -/

theorem slot_index (n p i : Nat) (hi : i < n) :
    (p * n + i + 1 - 1) / n = p ∧ (p * n + i + 1 - 1) % n = i := by
  have hn : 0 < n := by omega
  rw [Nat.add_sub_cancel, Nat.mul_comm]
  exact ⟨by rw [Nat.mul_add_div hn, Nat.div_eq_of_lt hi, Nat.add_zero],
    by rw [Nat.mul_add_mod, Nat.mod_eq_of_lt hi]⟩

/-! ## Claim C21 : InodeReader -/

theorem readLoop_bound (d : Device) (img : Bytes) (inode : Inode) (size off B : Nat) :
    ∀ (cnt i n : Nat) (b : Bytes), n ≤ size → n + off < inode.Size →
      (d.readLoop img inode size off B cnt i n b).n ≤ size ∧
      (d.readLoop img inode size off B cnt i n b).n + off < inode.Size + d.BlockSize := by
  intro cnt
  induction cnt with
  | zero =>
    intro i n b h1 h2
    rw [Device.readLoop]
    exact ⟨h1, by show n + off < _; omega⟩
  | succ cnt ih =>
    intro i n b h1 h2
    rw [Device.readLoop]
    cases d.DataBlock img inode ((B + i) % 2 ^ 32) with
    | error e => exact ⟨h1, by show n + off < _; omega⟩
    | ok blockNo =>
      dsimp only
      by_cases hnull : blockNo = EXT2_NULL_BLOCK
      · rw [if_pos hnull]
        exact ⟨h1, by show n + off < _; omega⟩
      · rw [if_neg hnull]
        cases readAtErr img (d.blockOffset blockNo) (min (size - n) d.BlockSize) with
        | some e => exact ⟨h1, by show n + off < _; omega⟩
        | none =>
          dsimp only
          have hm1 : min (size - n) d.BlockSize ≤ size - n := Nat.min_le_left _ _
          have hm2 : min (size - n) d.BlockSize ≤ d.BlockSize := Nat.min_le_right _ _
          by_cases hge : n + min (size - n) d.BlockSize + off ≥ inode.Size
          · rw [if_pos hge]
            exact ⟨by show n + min (size - n) d.BlockSize ≤ size; omega,
              by show n + min (size - n) d.BlockSize + off < _; omega⟩
          · rw [if_neg hge]
            exact ih (i + 1) (n + min (size - n) d.BlockSize) _ (by omega) (by omega)

/-- The count of `ReadData` is at most the length of the buffer, and a non-zero
count ends less than one block past `Size`. -/
theorem ReadData_bound (d : Device) (img : Bytes) (inode : Inode) (b : Bytes) (off : Nat) :
    (d.ReadData img inode b off).n ≤ b.size ∧
    (d.ReadData img inode b off).n + off < max (off + 1) (inode.Size + d.BlockSize) := by
  unfold Device.ReadData
  dsimp only
  by_cases h1 : b.size = 0
  · rw [if_pos h1]
    exact ⟨Nat.zero_le _, by show 0 + off < _; omega⟩
  rw [if_neg h1]
  by_cases h2 : off ≥ inode.Size
  · rw [if_pos h2]
    exact ⟨Nat.zero_le _, by show 0 + off < _; omega⟩
  rw [if_neg h2]
  cases d.DataBlock img inode (off / d.BlockSize % 2 ^ 32) with
  | error e => exact ⟨Nat.zero_le _, by show 0 + off < _; omega⟩
  | ok blockNo =>
    dsimp only
    cases readAtErr img (d.blockOffset blockNo + off % d.BlockSize)
        (min (d.BlockSize - off % d.BlockSize) b.size) with
    | some e => exact ⟨Nat.zero_le _, by show 0 + off < _; omega⟩
    | none =>
      dsimp only
      have hm1 : min (d.BlockSize - off % d.BlockSize) b.size ≤ b.size := Nat.min_le_right _ _
      have hm2 : min (d.BlockSize - off % d.BlockSize) b.size ≤ d.BlockSize - off % d.BlockSize :=
        Nat.min_le_left _ _
      by_cases hge : min (d.BlockSize - off % d.BlockSize) b.size + off ≥ inode.Size
      · rw [if_pos hge]
        exact ⟨hm1, by show min (d.BlockSize - off % d.BlockSize) b.size + off < _; omega⟩
      · rw [if_neg hge]
        have := readLoop_bound d img inode b.size off (off / d.BlockSize % 2 ^ 32)
          (blockSpan d b.size off - 1) 1 (min (d.BlockSize - off % d.BlockSize) b.size)
          (b.blit 0 (fun k => img.get (d.blockOffset blockNo + off % d.BlockSize + k))
            (readAtCount img (d.blockOffset blockNo + off % d.BlockSize)
              (min (d.BlockSize - off % d.BlockSize) b.size)))
          hm1 (by omega)
        exact ⟨this.1, by omega⟩

theorem int64Wrap_eq (x : Int) (h1 : -2 ^ 63 ≤ x) (h2 : x < 2 ^ 63) : int64Wrap x = x := by
  unfold int64Wrap
  omega

theorem ContentFrom_mono (d : Device) (img : Bytes) (inode : Inode) (off : Nat) (buf : Bytes)
    (n m : Nat) (h : ContentFrom d img inode off buf n) (hm : m ≤ n) :
    ContentFrom d img inode off buf m :=
  fun k hk => h k (by omega)

/-- One call of `Read` from a position inside `[0, Size]`. -/
theorem Read_step (r : InodeReader) (img p : Bytes)
    (hBS : 0 < r.Device.BlockSize) (hBS32 : r.Device.BlockSize < 2 ^ 32)
    (hSize : r.Inode.Size < 2 ^ 32) (h0 : 0 ≤ r.CurrPos) (h1 : r.CurrPos ≤ r.Inode.Size) :
    0 ≤ (r.Read img p).n ∧ (r.Read img p).n ≤ (p.size : Int) ∧
    (r.Read img p).buf.size = p.size ∧
    (r.Read img p).reader.CurrPos = r.CurrPos + (r.Read img p).n ∧
    (r.Read img p).reader.CurrPos ≤ r.Inode.Size ∧
    (r.Read img p).reader.Device = r.Device ∧ (r.Read img p).reader.Inode = r.Inode ∧
    ContentFrom r.Device img r.Inode r.CurrPos.toNat (r.Read img p).buf
      (r.Read img p).n.toNat := by
  obtain ⟨hb1, hb2⟩ := ReadData_bound r.Device img r.Inode p r.CurrPos.toNat
  have hcont := ReadData_content r.Device img r.Inode p r.CurrPos.toNat hBS hSize
  have hbuf := ReadData_buf_size r.Device img r.Inode p r.CurrPos.toNat
  have hc : ((r.CurrPos.toNat : Nat) : Int) = r.CurrPos := Int.toNat_of_nonneg h0
  unfold InodeReader.Read
  dsimp only
  generalize r.Device.ReadData img r.Inode p r.CurrPos.toNat = res at *
  generalize res.n = N at *
  generalize r.CurrPos.toNat = c at *
  generalize r.CurrPos = C at *
  generalize r.Inode.Size = S at *
  generalize r.Device.BlockSize = BS at *
  subst hc
  have hw1 : int64Wrap ((N : Int) + (c : Int)) = (N : Int) + (c : Int) :=
    int64Wrap_eq _ (by omega) (by omega)
  have hw2 : int64Wrap ((S : Int) - (c : Int)) = (S : Int) - (c : Int) :=
    int64Wrap_eq _ (by omega) (by omega)
  rw [hw1, hw2]
  by_cases hgt : (N : Int) + (c : Int) > (S : Int)
  · rw [if_pos hgt]
    have hw3 : int64Wrap ((c : Int) + ((S : Int) - (c : Int))) = (c : Int) + ((S : Int) - (c : Int)) :=
      int64Wrap_eq _ (by omega) (by omega)
    rw [hw3]
    refine ⟨by omega, by omega, hbuf, rfl, by omega, rfl, rfl, ?_⟩
    exact ContentFrom_mono _ _ _ _ _ _ _ hcont (by omega)
  · rw [if_neg hgt]
    have hw3 : int64Wrap ((c : Int) + (N : Int)) = (c : Int) + (N : Int) :=
      int64Wrap_eq _ (by omega) (by omega)
    rw [hw3]
    refine ⟨by omega, by omega, hbuf, rfl, by omega, rfl, rfl, ?_⟩
    exact ContentFrom_mono _ _ _ _ _ _ _ hcont (by omega)

theorem readAll_spec (d : Device) (img : Bytes) (inode : Inode)
    (hBS : 0 < d.BlockSize) (hBS32 : d.BlockSize < 2 ^ 32) (hSize : inode.Size < 2 ^ 32) :
    ∀ (ps : List Bytes) (r : InodeReader), r.Device = d → r.Inode = inode →
      0 ≤ r.CurrPos → r.CurrPos ≤ inode.Size →
      0 ≤ (r.after (r.readAll img ps)).CurrPos ∧
      (r.after (r.readAll img ps)).CurrPos ≤ inode.Size ∧
      (r.after (r.readAll img ps)).CurrPos = r.CurrPos + totalCount (r.readAll img ps) ∧
      Delivered d img inode r.CurrPos ps (r.readAll img ps) := by
  intro ps
  induction ps with
  | nil =>
    intro r _ _ h0 h1
    refine ⟨h0, h1, ?_, trivial⟩
    show r.CurrPos = r.CurrPos + 0
    omega
  | cons p ps ih =>
    intro r hd hi h0 h1
    subst hd hi
    obtain ⟨s1, s2, s3, s4, s5, s6, s7, s8⟩ := Read_step r img p hBS hBS32 hSize h0 h1
    obtain ⟨t1, t2, t3, t4⟩ := ih (r.Read img p).reader s6 s7 (by omega) s5
    rw [s4] at t3 t4
    refine ⟨t1, t2, ?_, s1, s2, s3, s8, t4⟩
    show ((r.Read img p).reader.after ((r.Read img p).reader.readAll img ps)).CurrPos
      = r.CurrPos + ((r.Read img p).n + totalCount ((r.Read img p).reader.readAll img ps))
    omega

/-- C21.  On a device with `0 < BlockSize` (both `uint32` fields below `2^32`),
for a reader made by `NewInodeReader` and any finite sequence of `Read` calls with
buffers `ps`: afterwards `0 ≤ CurrPos ≤ Inode.Size`, `CurrPos` is the sum of the
returned counts, that sum is at most `Inode.Size`, every count lies between 0 and
the length of its buffer, and the first `n` bytes of each buffer are the file
content from the position where the calls before stopped, so the delivered bytes
concatenate to a prefix of the content. -/
theorem C21_InodeReader_invariants (d : Device) (img : Bytes) (inode : Inode) (ps : List Bytes)
    (hBS : 0 < d.BlockSize) (hBS32 : d.BlockSize < 2 ^ 32) (hSize : inode.Size < 2 ^ 32) :
    0 ≤ ((NewInodeReader d inode).after ((NewInodeReader d inode).readAll img ps)).CurrPos ∧
    ((NewInodeReader d inode).after ((NewInodeReader d inode).readAll img ps)).CurrPos
      ≤ inode.Size ∧
    ((NewInodeReader d inode).after ((NewInodeReader d inode).readAll img ps)).CurrPos
      = totalCount ((NewInodeReader d inode).readAll img ps) ∧
    totalCount ((NewInodeReader d inode).readAll img ps) ≤ inode.Size ∧
    Delivered d img inode 0 ps ((NewInodeReader d inode).readAll img ps) := by
  obtain ⟨t1, t2, t3, t4⟩ := readAll_spec d img inode hBS hBS32 hSize ps
    (NewInodeReader d inode) rfl rfl (le_refl _) (by show (0 : Int) ≤ inode.Size; omega)
  have e : (NewInodeReader d inode).CurrPos = 0 := rfl
  rw [e] at t3 t4
  refine ⟨t1, t2, by omega, by omega, t4⟩

set_option maxRecDepth 100000 in
/-- C21 witness: three reads of the 1024-byte root directory of `fsImage` with
buffers of 600, 600 and 10 bytes return 600, 424 and 0 bytes. -/
theorem C21_InodeReader_invariants_witness :
    ((NewInodeReader fsDevice (decodeInode fsImage (5 * 1024 + 128))).readAll fsImage
      [Bytes.zeros 600, Bytes.zeros 600, Bytes.zeros 10]).map (fun x => x.n)
      = [600, 424, 0] ∧
    ((NewInodeReader fsDevice (decodeInode fsImage (5 * 1024 + 128))).after
      ((NewInodeReader fsDevice (decodeInode fsImage (5 * 1024 + 128))).readAll fsImage
        [Bytes.zeros 600, Bytes.zeros 600, Bytes.zeros 10])).CurrPos
      = totalCount ((NewInodeReader fsDevice (decodeInode fsImage (5 * 1024 + 128))).readAll
        fsImage [Bytes.zeros 600, Bytes.zeros 600, Bytes.zeros 10]) ∧
    Delivered fsDevice fsImage (decodeInode fsImage (5 * 1024 + 128)) 0
      [Bytes.zeros 600, Bytes.zeros 600, Bytes.zeros 10]
      ((NewInodeReader fsDevice (decodeInode fsImage (5 * 1024 + 128))).readAll fsImage
        [Bytes.zeros 600, Bytes.zeros 600, Bytes.zeros 10]) := by
  obtain ⟨_, _, h3, _, h5⟩ := C21_InodeReader_invariants fsDevice fsImage
    (decodeInode fsImage (5 * 1024 + 128))
    [Bytes.zeros 600, Bytes.zeros 600, Bytes.zeros 10] (by decide) (by decide) (by decide)
  exact ⟨by decide, h3, h5⟩

/-! ## superblock.go : the signed fields -/

/-- The superblock fields `LogFragSize` (`int32`) and `MaxMntCount` (`int16`) are
decoded as signed numbers: all bits set is `-1`. -/
theorem decodeSuperBlock_signed :
    (decodeSuperBlock (writeAt fsImage (1024 + 28) (fun _ => 255) 4) BASE_OFFSET).LogFragSize
      = -1 ∧
    (decodeSuperBlock (writeAt fsImage (1024 + 54) (fun _ => 255) 2) BASE_OFFSET).MaxMntCount
      = -1 ∧
    (decodeSuperBlock fsImage BASE_OFFSET).LogFragSize = 0 := by
  decide

/-! ## Claim C28 : the allocated number addresses the slot of its bit -/

/-- `AllocInode` and `AllocBlock` always return. -/
theorem AllocOf_returns (d : Device) (img : Bytes) (r : Resource) (g : Nat)
    (hG32 : d.BlockGroupsCount < 2 ^ 32) (hPG : d.perGroup r < 2 ^ 32) :
    ∃ ret, d.AllocOf img r g = .ok ret := by
  cases hs : d.NewSuperBlock img with
  | error e =>
    refine ⟨⟨0, some e, img⟩, ?_⟩
    unfold Device.AllocOf
    rw [hs]
  | ok super =>
    by_cases hc : super.freeCount r = 0
    · exact ⟨_, AllocOf_of_zero d img r g super hs hc⟩
    · rcases AllocOf_cases d img r g super hG32 hPG hs hc with
        ⟨e, _, h2⟩ | ⟨_, h2, _⟩ | ⟨p, i, _, _, _, _, _, h2⟩
      · exact ⟨_, h2⟩
      · exact ⟨_, h2⟩
      · exact ⟨_, h2⟩

/-- C28.  On a device with `InodesPerGroup ≥ 1`, when `AllocInode` picks bit index
`i` of group `p` and `p * InodesPerGroup + i + 1 < 2^32`, it returns
`ino = p * InodesPerGroup + i + 1 ≥ 1` with `(ino - 1) div InodesPerGroup = p` and
`(ino - 1) mod InodesPerGroup = i`, the bit having been the lowest clear bit of
group `p`, and the descriptor of group `p` is readable in the file it leaves.  On
every file in which that descriptor is readable, with
`slot = blockOffset(InodeTable of group p) + i * InodeSize`: `NewInode(ino)`
returns the record decoded at `slot` (for `ino ≤ InodesCount` and a record inside
the file); `CreateFileInode(ino)` returns with a nil error and the file is the one
after its `AllocBlock` call with the 128 bytes of the new inode written at `slot`;
`CreateDirInode(_, ino)` does the same and then writes the two entries into the
new block (it panics when `uint16(BlockSize - 12) < 10`); `UpdateInode(ino, v, off)`
returns nil with `v` written at `slot + off`. -/
theorem C28_numbering_agrees_with_addressing (d : Device) (img : Bytes) (g : Nat)
    (super : SuperBlock) (p i : Nat) (b : Bytes)
    (hG32 : d.BlockGroupsCount < 2 ^ 32) (hIPG32 : d.InodesPerGroup < 2 ^ 32)
    (hBPG32 : d.BlocksPerGroup < 2 ^ 32) (hIPG : 1 ≤ d.InodesPerGroup)
    (hs : d.NewSuperBlock img = .ok super) (hc : super.FreeInodesCount ≠ 0)
    (hpick : d.nextInode img g = .ok (b, (i : Int), p))
    (hwrap : p * d.InodesPerGroup + i + 1 < 2 ^ 32) :
    ∃ ret, d.AllocInode img g = .ok ret ∧ ret.err = none ∧
      ret.val = p * d.InodesPerGroup + i + 1 ∧ 1 ≤ ret.val ∧
      (ret.val - 1) / d.InodesPerGroup = p ∧ (ret.val - 1) % d.InodesPerGroup = i ∧
      Bitmap.LowestClear (d.bitmapAt img .inode p) i ∧
      d.groupDescriptorOffset p + 32 ≤ ret.img.size ∧
      ∀ img2 : Bytes, d.groupDescriptorOffset p + 32 ≤ img2.size →
        (ret.val ≤ d.InodesCount → d.inodeSlot img2 p i + 128 ≤ img2.size →
          d.NewInode img2 ret.val = .ok (decodeInode img2 (d.inodeSlot img2 p i))) ∧
        (∀ uid gid, ∃ a, d.AllocBlock img2 p = .ok a ∧
          d.CreateFileInode img2 uid gid ret.val =
            .ok ⟨newInode S_IFREG uid gid 0 1 0 a.val, none,
              writeAt a.img (d.inodeSlot img2 p i)
                (encodeInode (newInode S_IFREG uid gid 0 1 0 a.val)) 128⟩) ∧
        (∀ uid gid parent, 10 ≤ sub32 d.BlockSize 12 % 2 ^ 16 →
          ∃ a, d.AllocBlock img2 p = .ok a ∧
            d.CreateDirInode img2 uid gid parent ret.val =
              .ok ⟨newInode S_IFDIR uid gid 1024 1 2 a.val, none,
                writeAt
                  (writeAt
                    (writeAt a.img (d.inodeSlot img2 p i)
                      (encodeInode (newInode S_IFDIR uid gid 1024 1 2 a.val)) 128)
                    (d.blockOffset a.val) (encodeEntry ret.val 12 1 2 [dot]) 12)
                  (d.blockOffset a.val + 12)
                  (encodeEntry parent (sub32 d.BlockSize 12 % 2 ^ 16) 2 2 [dot, dot])
                  (sub32 d.BlockSize 12 % 2 ^ 16)⟩) ∧
        (∀ value off, d.UpdateInode img2 ret.val value off =
          .ok ⟨(), none,
            writeAt img2 (d.inodeSlot img2 p i + off) value.get value.size⟩) := by
  obtain ⟨_, hb, hp, hlow, hgd, _⟩ := next_pick d img .inode g p i b hG32 hIPG32 hpick
  have hi8 : i < 8 * (d.InodesPerGroup / 8) := hlow.1
  have hi : i < d.InodesPerGroup := by omega
  have hval : (mul32 (d.perGroup .inode) p + i + 1) % 2 ^ 32 = p * d.InodesPerGroup + i + 1 := by
    show (mul32 d.InodesPerGroup p + i + 1) % 2 ^ 32 = _
    generalize hA : p * d.InodesPerGroup = A at *
    rw [mul32_eq _ _ (by rw [Nat.mul_comm, hA]; omega), Nat.mul_comm, hA]
    exact Nat.mod_eq_of_lt hwrap
  have hal := AllocOf_of_pick d img .inode g super p i b hs hc hpick hb (by omega)
  rw [hval] at hal
  obtain ⟨hdiv, hmod⟩ := slot_index d.InodesPerGroup p i hi
  have hsub : sub32 (p * d.InodesPerGroup + i + 1) 1 = p * d.InodesPerGroup + i + 1 - 1 :=
    sub32_eq _ 1 (by omega) hwrap
  have hsz : d.groupDescriptorOffset p + 32 ≤ (d.pickImage img .inode p i).size := by
    have h1 := writeAt_size_ge img
      (d.blockOffset ((decodeGroupDescriptor img (d.groupDescriptorOffset p)).bitmapBlock
        .inode) + i / 8)
      (fun _ => toByte ((img.get (d.blockOffset
        ((decodeGroupDescriptor img (d.groupDescriptorOffset p)).bitmapBlock .inode)
          + i / 8)).val ||| (1 <<< (i % 8)))) 1
    have h2 := writeAt_size_ge
      (writeAt img
        (d.blockOffset ((decodeGroupDescriptor img (d.groupDescriptorOffset p)).bitmapBlock
          .inode) + i / 8)
        (fun _ => toByte ((img.get (d.blockOffset
          ((decodeGroupDescriptor img (d.groupDescriptorOffset p)).bitmapBlock .inode)
            + i / 8)).val ||| (1 <<< (i % 8)))) 1)
      (d.groupDescriptorOffset p + bgFreeCountOffset .inode)
      (putLE (sub16 ((decodeGroupDescriptor img (d.groupDescriptorOffset p)).freeCount
        .inode) 1)) 2
    have h3 := writeAt_size_ge
      (writeAt
        (writeAt img
          (d.blockOffset ((decodeGroupDescriptor img (d.groupDescriptorOffset p)).bitmapBlock
            .inode) + i / 8)
          (fun _ => toByte ((img.get (d.blockOffset
            ((decodeGroupDescriptor img (d.groupDescriptorOffset p)).bitmapBlock .inode)
              + i / 8)).val ||| (1 <<< (i % 8)))) 1)
        (d.groupDescriptorOffset p + bgFreeCountOffset .inode)
        (putLE (sub16 ((decodeGroupDescriptor img (d.groupDescriptorOffset p)).freeCount
          .inode) 1)) 2)
      (BASE_OFFSET + sFreeCountOffset .inode)
      (putLE (sub32 ((decodeSuperBlock img BASE_OFFSET).freeCount .inode) 1)) 4
    unfold Device.pickImage
    omega
  refine ⟨_, hal, rfl, rfl, by show 1 ≤ p * d.InodesPerGroup + i + 1; omega, hdiv, hmod, hlow,
    hsz, fun img2 hrd => ?_⟩
  have hg : d.NewGroupDescriptor img2 p
      = .ok (decodeGroupDescriptor img2 (d.groupDescriptorOffset p)) :=
    NewGroupDescriptor_eq d img2 p hp hrd
  refine ⟨?_, ?_, ?_, ?_⟩
  · intro hcount hin
    have hcount2 : p * d.InodesPerGroup + i + 1 ≤ d.InodesCount := hcount
    have hin2 : d.inodeOffset
        (decodeGroupDescriptor img2 (d.groupDescriptorOffset p)).InodeTable i + 128
        ≤ img2.size := hin
    show d.NewInode img2 (p * d.InodesPerGroup + i + 1) = _
    unfold Device.NewInode
    dsimp only
    rw [if_neg (by omega), hdiv, hmod, hg]
    dsimp only
    rw [if_neg (by omega)]
    have hr : readRecordErr img2
        (d.inodeOffset (decodeGroupDescriptor img2 (d.groupDescriptorOffset p)).InodeTable i)
        128 = none := by
      unfold readRecordErr
      rw [if_pos hin2]
    rw [hr]
    rfl
  · intro uid gid
    obtain ⟨a, ha⟩ := AllocOf_returns d img2 .block p hG32 hBPG32
    refine ⟨a, ha, ?_⟩
    show d.CreateFileInode img2 uid gid (p * d.InodesPerGroup + i + 1) = _
    have ha2 : d.AllocBlock img2 p = .ok a := ha
    unfold Device.CreateFileInode
    dsimp only
    rw [hsub, hdiv, hmod, hg]
    dsimp only
    rw [ha2]
    rfl
  · intro uid gid parent hrl
    obtain ⟨a, ha⟩ := AllocOf_returns d img2 .block p hG32 hBPG32
    refine ⟨a, ha, ?_⟩
    show d.CreateDirInode img2 uid gid parent (p * d.InodesPerGroup + i + 1) = _
    have ha2 : d.AllocBlock img2 p = .ok a := ha
    unfold Device.CreateDirInode
    dsimp only
    rw [hsub, hdiv, hmod, hg]
    dsimp only
    rw [ha2]
    dsimp only
    rw [if_neg (by omega)]
    rfl
  · intro value off
    show d.UpdateInode img2 (p * d.InodesPerGroup + i + 1) value off = _
    unfold Device.UpdateInode
    rw [if_neg (by omega)]
    dsimp only
    rw [hsub, hdiv, hmod, hg]
    rfl

set_option maxRecDepth 100000 in
/-- C28 witness: on `fsImage` `AllocInode(0)` picks bit 3 of group 0 and returns
inode 4, whose record is slot 3 of the inode table in block 5, at byte 5504.
`NewInode(4)` returns the record decoded there, `CreateFileInode(4)` and
`CreateDirInode(2, 4)` return nil with the new inode written there, and
`UpdateInode(4, v, 4)` returns nil with `v` written at byte 5508, on `fsImage`
and on the file that `AllocInode` left. -/
theorem C28_numbering_agrees_with_addressing_witness :
    ∃ ret, fsDevice.AllocInode fsImage 0 = .ok ret ∧ ret.val = 4 ∧
      (ret.val - 1) / fsDevice.InodesPerGroup = 0 ∧
      (ret.val - 1) % fsDevice.InodesPerGroup = 3 ∧
      fsDevice.inodeSlot fsImage 0 3 = 5504 ∧
      fsDevice.NewInode fsImage ret.val
        = .ok (decodeInode fsImage (fsDevice.inodeSlot fsImage 0 3)) ∧
      (∃ a, fsDevice.AllocBlock fsImage 0 = .ok a ∧
        fsDevice.CreateFileInode fsImage 0 0 ret.val =
          .ok ⟨newInode S_IFREG 0 0 0 1 0 a.val, none,
            writeAt a.img (fsDevice.inodeSlot fsImage 0 3)
              (encodeInode (newInode S_IFREG 0 0 0 1 0 a.val)) 128⟩) ∧
      (∃ a, fsDevice.AllocBlock fsImage 0 = .ok a ∧
        fsDevice.CreateDirInode fsImage 0 0 2 ret.val =
          .ok ⟨newInode S_IFDIR 0 0 1024 1 2 a.val, none,
            writeAt
              (writeAt
                (writeAt a.img (fsDevice.inodeSlot fsImage 0 3)
                  (encodeInode (newInode S_IFDIR 0 0 1024 1 2 a.val)) 128)
                (fsDevice.blockOffset a.val) (encodeEntry ret.val 12 1 2 [dot]) 12)
              (fsDevice.blockOffset a.val + 12)
              (encodeEntry 2 (sub32 fsDevice.BlockSize 12 % 2 ^ 16) 2 2 [dot, dot])
              (sub32 fsDevice.BlockSize 12 % 2 ^ 16)⟩) ∧
      fsDevice.UpdateInode fsImage ret.val (Bytes.ofList [1, 2]) 4 =
        .ok ⟨(), none,
          writeAt fsImage (fsDevice.inodeSlot fsImage 0 3 + 4) (Bytes.ofList [1, 2]).get
            (Bytes.ofList [1, 2]).size⟩ ∧
      fsDevice.UpdateInode ret.img ret.val (Bytes.ofList [1, 2]) 4 =
        .ok ⟨(), none,
          writeAt ret.img (fsDevice.inodeSlot ret.img 0 3 + 4) (Bytes.ofList [1, 2]).get
            (Bytes.ofList [1, 2]).size⟩ := by
  obtain ⟨ret, h1, _, h3, _, h5, h6, _, h8, h9⟩ :=
    C28_numbering_agrees_with_addressing fsDevice fsImage 0
      (decodeSuperBlock fsImage BASE_OFFSET) 0 3 (fsDevice.bitmapAt fsImage .inode 0)
      (by decide) (by decide) (by decide) (by decide) rfl (by decide) rfl (by decide)
  obtain ⟨n1, n2, n3, n4⟩ := h9 fsImage (by decide)
  exact ⟨ret, h1, h3, h5, h6, by decide, n1 (by rw [h3]; decide) (by decide), n2 0 0,
    n3 0 0 2 (by decide), n4 (Bytes.ofList [1, 2]) 4, (h9 ret.img h8).2.2.2 (Bytes.ofList [1, 2]) 4⟩

end Ext2fs
